import Mathlib

/-!
# The runtime-support server of HPX: shutdown core

A shallow embedding of `src/runtime/components/server/runtime_support_server.cpp`.

* The member variables of `runtime_support` that the shutdown path reads and writes
  are the fields of a record; every member function is a function from the record
  before the call to the record after it, together with the list of calls it made
  to its collaborators (AGAS, thread manager, parcel layer, condition variables)
  and the way the call ended.
* Values the code reads from its environment (timer readings, thread counts, the
  list of localities) are arguments.  A `yield_while` loop consumes one reading per
  evaluation of its predicate; when the readings are used up before the predicate
  turned false the loop is still running and the call has not come back.
* The token ring of the termination detection is a transition system over the
  colours of all localities, the token and the program counter of the initiator.
-/

namespace hpx

/-! ## Local stop machine and shutdown orchestrator -/

/-- Global ids (`naming::id_type`); only equality and the locality id are used. -/
abbrev id_type := Nat

/-- The member variables of `runtime_support` written by the shutdown path. -/
structure runtime_support where
  stop_called_ : Bool
  stop_done_ : Bool
  terminated_ : Bool
  dijkstra_color_ : Bool
  shutdown_all_invoked_ : Bool
  deriving DecidableEq, Repr

/-- The constructor `runtime_support::runtime_support`: every flag starts false. -/
def runtime_support.constructed : runtime_support :=
  { stop_called_ := false, stop_done_ := false, terminated_ := false,
    dijkstra_color_ := false, shutdown_all_invoked_ := false }

/-- Calls made to collaborators, in program order. -/
inductive effect where
  | cleanup_logging
  | cleanup_terminated
  | abort_all_suspended_threads
  | get_local_locality
  | unbind_local_runtime_support
  | unbind_local_memory
  | remove_here_from_connection_cache
  | unregister_locality
  | remove_here_from_console_connection_cache
  | set_event_sync (respond_to : id_type)
  | wait_condition_notify_all
  | wait_condition_wait
  | stop_condition_wait
  | stop_condition_notify_all
  | agas_start_shutdown
  | stop_evaluating_counters
  | tm_resume
  | find_all_localities
  | dijkstra_termination_detection (locality_ids : List id_type)
  | invoke_shutdown_functions (locality_ids : List id_type) (pre_shutdown : Bool)
  | shutdown_async (id : id_type) (timeout : Int)
  | wait_all (futures : Nat)
  deriving DecidableEq, Repr

/-- How a call ended. -/
inductive outcome where
  /-- the function returned to its caller -/
  | returned
  /-- the caller is parked in a condition-variable wait -/
  | suspended
  /-- the caller is still inside `yield_while` after the last reading -/
  | yielding
  /-- `HPX_THROW_EXCEPTION(invalid_status, ...)` -/
  | thrown_invalid_status
  /-- an `HPX_ASSERT` failed in a build that checks assertions -/
  | assertion_failed
  deriving DecidableEq, Repr

/-- What a member function leaves behind. -/
structure result where
  state : runtime_support
  effects : List effect
  outcome : outcome
  deriving DecidableEq, Repr

/-- One evaluation of a `yield_while` predicate in `stop`: the timer value and the
thread counts it would read. -/
structure reading where
  elapsed : Int
  thread_count : Int
  background_thread_count : Int
  deriving DecidableEq, Repr

/-- Modelled from the spec: `util::yield_while` (its header is not among the sources)
evaluates its predicate again and again, yielding the current task in between, for as
long as the predicate returns true (§4.C, §9).  Here `predicate` is one evaluation: from
the variables it captured by reference and one reading of the environment it gives the
calls it made, the captured variables afterwards and its return value.  The result is
the calls made, the captured variables, and whether the loop has ended; it has not
ended when the readings are used up while the predicate still returns true. -/
def yield_while {ρ σ : Type} (predicate : σ → ρ → List effect × σ × Bool) (captured : σ) :
    List ρ → List effect × σ × Bool
  | [] => ([], captured, false)
  | r :: rs =>
    if (predicate captured r).2.2 then
      ((predicate captured r).1 ++ (yield_while predicate (predicate captured r).2.1 rs).1,
        (yield_while predicate (predicate captured r).2.1 rs).2)
    else
      ((predicate captured r).1, (predicate captured r).2.1, true)

/-- The first `yield_while` of `stop` (lines 823-838); the captured variable is
`timed_out`, which starts false. -/
def stop_drain (timeout start_time : Int) : List reading → List effect × Bool × Bool :=
  yield_while
    (fun timed_out r =>
      if 0 ≤ timeout ∧ timeout < r.elapsed - start_time then
        ([effect.cleanup_terminated], true, false)
      else
        ([effect.cleanup_terminated], timed_out,
          decide (r.thread_count > 1 + r.background_thread_count)))
    false

/-- The second `yield_while` of `stop` (lines 846-863), entered when the first one
timed out. -/
def stop_abort (timeout start_time : Int) : List reading → List effect × Unit × Bool :=
  yield_while
    (fun _ r =>
      if 0 ≤ timeout ∧ timeout < r.elapsed - start_time then
        ([effect.abort_all_suspended_threads, effect.cleanup_terminated], (), false)
      else
        ([effect.abort_all_suspended_threads, effect.cleanup_terminated], (),
          decide (r.thread_count > 1 + r.background_thread_count)))
    ()

/-- What `stop` reads from its environment. -/
structure stop_env where
  /-- whether `HPX_ASSERT` is compiled in -/
  assertions_enabled : Bool
  /-- `t.elapsed()` at line 814 -/
  start_time : Int
  /-- readings of the first loop -/
  drain : List reading
  /-- `t.elapsed()` at line 844 -/
  abort_start_time : Int
  /-- readings of the second loop -/
  abort : List reading
  /-- the answer of `agas::is_local_address_cached(respond_to, addr)` -/
  is_local_address_cached : Bool
  deriving DecidableEq, Repr

/-- Lines 866-877 of `stop`: the locality leaves AGAS. -/
def stop_unregister (remove_from_remote_caches : Bool) : List effect :=
  [effect.get_local_locality, effect.unbind_local_runtime_support,
    effect.unbind_local_memory]
  ++ (if remove_from_remote_caches then [effect.remove_here_from_connection_cache] else [])
  ++ [effect.unregister_locality]
  ++ (if remove_from_remote_caches then [effect.remove_here_from_console_connection_cache]
      else [])

/-- `runtime_support::stop` (lines 799-903).  `respond_to = none` stands for an id
that converts to false (`naming::invalid_id`).  The timeout and the timer values are
integers in one unit of time; the code compares doubles.  The call ends parked in
`stop_condition_.wait`, from which `stopped` releases it without a further write. -/
def stop (env : stop_env) (timeout : Int) (respond_to : Option id_type)
    (remove_from_remote_caches : Bool) (s : runtime_support) : result :=
  if !s.stop_called_ then
    if env.assertions_enabled && s.terminated_ then
      ⟨s, [effect.cleanup_logging], outcome.assertion_failed⟩
    else
      let s1 := { s with stop_called_ := true }
      let drained := stop_drain timeout env.start_time env.drain
      if !drained.2.2 then
        ⟨s1, effect.cleanup_logging :: drained.1, outcome.yielding⟩
      else
        let timed_out := drained.2.1
        let aborted := if timed_out then stop_abort timeout env.abort_start_time env.abort
          else ([], (), true)
        if !aborted.2.2 then
          ⟨s1, effect.cleanup_logging :: (drained.1 ++ aborted.1), outcome.yielding⟩
        else
          let e3 := effect.cleanup_logging ::
            (drained.1 ++ aborted.1 ++ stop_unregister remove_from_remote_caches)
          let finish (e : List effect) : result :=
            ⟨{ s1 with stop_done_ := true },
              e ++ [effect.wait_condition_notify_all, effect.stop_condition_wait],
              outcome.suspended⟩
          match respond_to with
          | none => finish e3
          | some id =>
            if env.is_local_address_cached then
              if env.assertions_enabled then ⟨s1, e3, outcome.assertion_failed⟩
              else finish e3
            else finish (e3 ++ [effect.set_event_sync id])
  else
    ⟨s, [], outcome.returned⟩

/-- `runtime_support::run` (lines 780-787). -/
def run (s : runtime_support) : result :=
  ⟨{ s with stop_called_ := false, stop_done_ := false, terminated_ := false,
            shutdown_all_invoked_ := false }, [], outcome.returned⟩

/-- `runtime_support::wait` (lines 789-797): returns once `stop_done_` is set. -/
def wait (s : runtime_support) : result :=
  if !s.stop_done_ then ⟨s, [effect.wait_condition_wait], outcome.suspended⟩
  else ⟨s, [], outcome.returned⟩

/-- `runtime_support::notify_waiting_main` (lines 905-914). -/
def notify_waiting_main (s : runtime_support) : result :=
  if !s.stop_called_ then
    ⟨{ s with stop_called_ := true, stop_done_ := true },
      [effect.wait_condition_notify_all, effect.stop_condition_wait], outcome.suspended⟩
  else ⟨s, [], outcome.returned⟩

/-- `runtime_support::stopped` (lines 917-924). -/
def stopped (s : runtime_support) : result :=
  if !s.terminated_ then
    ⟨{ s with terminated_ := true }, [effect.stop_condition_notify_all], outcome.returned⟩
  else ⟨s, [], outcome.returned⟩

/-- What `shutdown_all` reads from its environment. -/
structure shutdown_env where
  /-- `find_here()` -/
  here : id_type
  /-- `hpx::find_root_locality()` -/
  root_locality : id_type
  /-- `get_locality_id()` -/
  locality_id : Nat
  /-- `find_all_localities()` -/
  all_localities : List id_type
  /-- `naming::get_locality_id_from_id` -/
  get_locality_id_from_id : id_type → Nat
  /-- the count the first termination detection returns, `none` when it does not return -/
  first_detection : Option Nat
  /-- the count the second termination detection returns -/
  second_detection : Option Nat
  /-- the environment of the final local `stop` -/
  stop : stop_env

/-- The loop of lines 672-680 over the reversed locality list: one `shutdown_async`
per id whose locality differs from the local one. -/
def shutdown_remote (get_locality_id_from_id : id_type → Nat) (locality_id : Nat)
    (timeout : Int) : List id_type → List effect
  | [] => []
  | id :: ids =>
    if locality_id ≠ get_locality_id_from_id id then
      effect.shutdown_async id timeout ::
        shutdown_remote get_locality_id_from_id locality_id timeout ids
    else
      shutdown_remote get_locality_id_from_id locality_id timeout ids

/-- `runtime_support::shutdown_all` (lines 612-692). -/
def shutdown_all (env : shutdown_env) (timeout : Int) (s : runtime_support) : result :=
  if env.here ≠ env.root_locality then
    ⟨s, [], outcome.thrown_invalid_status⟩
  else if s.shutdown_all_invoked_ then
    ⟨s, [], outcome.returned⟩
  else
    let s1 := { s with shutdown_all_invoked_ := true }
    let locality_ids := env.all_localities
    let e1 := [effect.agas_start_shutdown, effect.stop_evaluating_counters,
      effect.tm_resume, effect.find_all_localities,
      effect.dijkstra_termination_detection locality_ids]
    match env.first_detection with
    | none => ⟨s1, e1, outcome.suspended⟩
    | some _ =>
      let e2 := e1 ++ [effect.invoke_shutdown_functions locality_ids true,
        effect.invoke_shutdown_functions locality_ids false,
        effect.dijkstra_termination_detection locality_ids]
      match env.second_detection with
      | none => ⟨s1, e2, outcome.suspended⟩
      | some _ =>
        let lazy_actions := shutdown_remote env.get_locality_id_from_id env.locality_id
          timeout locality_ids.reverse
        let r := stop env.stop timeout none false s1
        ⟨r.state, e2 ++ lazy_actions ++ [effect.wait_all lazy_actions.length] ++ r.effects,
          r.outcome⟩

/-- The operations of the server that touch the stop flags. -/
inductive operation where
  | run
  | wait
  | stop (env : stop_env) (timeout : Int) (respond_to : Option id_type)
      (remove_from_remote_caches : Bool)
  | notify_waiting_main
  | stopped
  | shutdown_all (env : shutdown_env) (timeout : Int)

/-- The call an operation stands for. -/
def operation.call : operation → runtime_support → result
  | operation.run, s => hpx.run s
  | operation.wait, s => hpx.wait s
  | operation.stop env timeout respond_to remove, s => hpx.stop env timeout respond_to remove s
  | operation.notify_waiting_main, s => hpx.notify_waiting_main s
  | operation.stopped, s => hpx.stopped s
  | operation.shutdown_all env timeout, s => hpx.shutdown_all env timeout s

/-- The server state after a sequence of operations, one after the other. -/
def execute (s : runtime_support) : List operation → runtime_support
  | [] => s
  | op :: ops => execute (op.call s).state ops

/-- The operations C1 names: `run`, `stop`, `notify_waiting_main`, `stopped`. -/
def operation.is_stop_machine : operation → Bool
  | operation.run => true
  | operation.stop _ _ _ _ => true
  | operation.notify_waiting_main => true
  | operation.stopped => true
  | _ => false

/-- The operation `run`. -/
def operation.is_run : operation → Bool
  | operation.run => true
  | _ => false

/-- The invariant `terminated ⇒ stop_done ⇒ stop_called`. -/
def stop_flags_ordered (s : runtime_support) : Prop :=
  (s.terminated_ = true → s.stop_done_ = true) ∧ (s.stop_done_ = true → s.stop_called_ = true)

instance (s : runtime_support) : Decidable (stop_flags_ordered s) := by
  unfold stop_flags_ordered; infer_instance

/-- Every `stopped` of the sequence is called in a state in which `stop_done_` is set. -/
def stopped_follows_stop_done (s : runtime_support) : List operation → Bool
  | [] => true
  | operation.stopped :: ops =>
    s.stop_done_ && stopped_follows_stop_done (hpx.stopped s).state ops
  | op :: ops => stopped_follows_stop_done (op.call s).state ops

/-- No flag that is set in `s` is clear in `t`. -/
def flags_kept (s t : runtime_support) : Prop :=
  (s.stop_called_ = true → t.stop_called_ = true) ∧
  (s.stop_done_ = true → t.stop_done_ = true) ∧
  (s.terminated_ = true → t.terminated_ = true)

/-! ## Dijkstra token ring (lines 354-359 and 469-608) -/

/-- The value of `static_cast<std::uint32_t>(n)`. -/
def to_uint32 (n : Nat) : Nat := n % 4294967296

/-- The value of `x - 1` in `std::uint32_t` arithmetic (wraps around at zero). -/
def uint32_pred (x : Nat) : Nat := (x + 4294967295) % 4294967296

/-- The arguments of one `apply<dijkstra_termination_action>(id, ...)`: the locality
the action is sent to and the three arguments of `dijkstra_termination`. -/
structure token_parcel where
  target_locality_id : Nat
  initiating_locality_id : Nat
  num_localities : Nat
  dijkstra_token : Bool
  deriving DecidableEq, Repr

/-- The critical section and the send of `send_dijkstra_termination_token`
(lines 496-508), run by a locality whose colour is `dijkstra_color_`: the new colour
of the locality and the parcel it sends. -/
def send_dijkstra_termination_token (dijkstra_color_ : Bool) (target_locality_id : Nat)
    (initiating_locality_id : Nat) (num_localities : Nat) (dijkstra_token : Bool) :
    Bool × token_parcel :=
  let dijkstra_token := if dijkstra_color_ then dijkstra_color_ else dijkstra_token
  (false, ⟨target_locality_id, initiating_locality_id, num_localities, dijkstra_token⟩)

/-- The locality that `dijkstra_termination` running on `locality_id` passes to
`send_dijkstra_termination_token` (lines 539-543); `dijkstra_termination_detection`
computes the first target the same way (lines 573-576 and 594). -/
def ring_target (locality_id num_localities : Nat) : Nat :=
  let locality_id := if 0 = locality_id then num_localities else locality_id
  uint32_pred locality_id

/-- The predicate of the `yield_while` loops of the termination detection (lines
482-489 and 559-565).  A poll that finds the locality active is one more turn of the
loop and changes nothing; the first poll that finds it passive ends the loop. -/
def still_active (thread_count background_thread_count : Int) : Bool :=
  decide (thread_count > 1 + background_thread_count)

/-- Where the thread that called `dijkstra_termination_detection` is. -/
inductive phase where
  /-- single locality: inside the `yield_while` of lines 559-565 -/
  | draining
  /-- Rule 4 done and mutex released: inside `send_dijkstra_termination_token` -/
  | sending
  /-- blocked in `dijkstra_cond_.wait(l)` -/
  | waiting
  /-- the token came back and `notify_one` was called; the loop condition is next -/
  | notified
  /-- the function has returned -/
  | finished
  deriving DecidableEq, Repr

/-- Where the token is. -/
inductive token_place where
  | absent
  /-- the parcel is on its way to its target -/
  | in_flight (p : token_parcel)
  /-- `dijkstra_termination` runs on the target and waits for it to become passive -/
  | held (p : token_parcel)
  deriving DecidableEq, Repr

/-- The colours of all localities, the token, and the local variables of the thread
that runs `dijkstra_termination_detection`.  Every read and write of a colour happens
under the `dijkstra_mtx_` of its locality, so each critical section is one step.  The
initiator counts as being inside `dijkstra_cond_.wait` from the moment it has sent the
token, and it leaves the wait on the notification of the returning token, not
before. -/
structure ring where
  /-- the `dijkstra_color_` of every locality -/
  color : Nat → Bool
  num_localities : Nat
  initiating_locality_id : Nat
  target_id : Nat
  count : Nat
  pc : phase
  token : token_place

/-- Calls made by the ring, in order. -/
inductive ring_effect where
  | agas_start_shutdown (locality : Nat)
  | flush_parcels (locality : Nat)
  | cleanup_terminated (locality : Nat)
  /-- the locality `sender` applies `dijkstra_termination_action` with these arguments -/
  | apply_dijkstra_termination (sender : Nat) (p : token_parcel)
  | notify_one (locality : Nat)
  /-- the initiator evaluated `while (dijkstra_color_)` and read this colour -/
  | probe_completed (dijkstra_color_ : Bool)
  deriving DecidableEq, Repr

/-- What can happen next in the ring. -/
inductive action where
  /-- some thread of the locality calls `dijkstra_make_black` -/
  | dijkstra_make_black (locality : Nat)
  /-- the parcel in flight reaches its target, which starts `dijkstra_termination` -/
  | deliver
  /-- the thread inside a `yield_while` evaluates the predicate with these readings -/
  | poll (thread_count background_thread_count : Int)
  /-- `dijkstra_cond_.wait` returns in the initiator after the notification -/
  | wake
  deriving DecidableEq, Repr

/-- The state in which `dijkstra_termination_detection(locality_ids)` called on locality
`here` is after line 587 (or inside the loop of line 559 for a single locality). -/
def detection_begin (color : Nat → Bool) (here : Nat) (locality_ids : List id_type) : ring :=
  let num_localities := to_uint32 locality_ids.length
  if num_localities = 1 then
    { color := color, num_localities := num_localities, initiating_locality_id := here,
      target_id := here, count := 0, pc := phase.draining, token := token_place.absent }
  else
    let initiating_locality_id := here
    let target_id := if 0 = initiating_locality_id then num_localities
      else initiating_locality_id
    { color := Function.update color initiating_locality_id false,
      num_localities := num_localities, initiating_locality_id := initiating_locality_id,
      target_id := target_id, count := 0, pc := phase.sending,
      token := token_place.absent }

/-- One action of the ring. -/
def step (r : ring) : action → ring × List ring_effect
  | action.dijkstra_make_black k =>
    ({ r with color := Function.update r.color k true }, [])
  | action.deliver =>
    match r.token with
    | token_place.in_flight p =>
      -- `dijkstra_termination` on the target, lines 517-537
      let locality_id := p.target_locality_id
      if p.initiating_locality_id = locality_id then
        ({ r with
            color := if p.dijkstra_token then Function.update r.color locality_id true
              else r.color,
            token := token_place.absent,
            pc := if r.pc = phase.waiting then phase.notified else r.pc },
          [ring_effect.agas_start_shutdown locality_id, ring_effect.flush_parcels locality_id,
            ring_effect.notify_one locality_id])
      else
        ({ r with token := token_place.held p },
          [ring_effect.agas_start_shutdown locality_id, ring_effect.flush_parcels locality_id])
    | _ => (r, [])
  | action.poll thread_count background_thread_count =>
    match r.pc with
    | phase.draining =>
      if still_active thread_count background_thread_count then
        (r, [ring_effect.cleanup_terminated r.initiating_locality_id])
      else
        ({ r with pc := phase.finished },
          [ring_effect.cleanup_terminated r.initiating_locality_id])
    | phase.sending =>
      -- the initiator inside `send_dijkstra_termination_token(target_id - 1, ..., false)`
      if still_active thread_count background_thread_count then
        (r, [ring_effect.cleanup_terminated r.initiating_locality_id])
      else
        let sent := send_dijkstra_termination_token (r.color r.initiating_locality_id)
          (uint32_pred r.target_id) r.initiating_locality_id r.num_localities false
        ({ r with color := Function.update r.color r.initiating_locality_id sent.1,
                  token := token_place.in_flight sent.2, pc := phase.waiting },
          [ring_effect.cleanup_terminated r.initiating_locality_id,
            ring_effect.apply_dijkstra_termination r.initiating_locality_id sent.2])
    | _ =>
      match r.token with
      | token_place.held p =>
        -- the holder inside `send_dijkstra_termination_token`, called at line 542
        let locality_id := p.target_locality_id
        if still_active thread_count background_thread_count then
          (r, [ring_effect.cleanup_terminated locality_id])
        else
          let sent := send_dijkstra_termination_token (r.color locality_id)
            (ring_target locality_id p.num_localities) p.initiating_locality_id
            p.num_localities p.dijkstra_token
          ({ r with color := Function.update r.color locality_id sent.1,
                    token := token_place.in_flight sent.2 },
            [ring_effect.cleanup_terminated locality_id,
              ring_effect.apply_dijkstra_termination locality_id sent.2])
      | _ => (r, [])
  | action.wake =>
    match r.pc with
    | phase.notified =>
      -- lines 601-604: `++count; } while (dijkstra_color_);` and, when the loop
      -- goes round, line 587
      if r.color r.initiating_locality_id then
        ({ r with count := r.count + 1,
                  color := Function.update r.color r.initiating_locality_id false,
                  pc := phase.sending },
          [ring_effect.probe_completed true])
      else
        ({ r with count := r.count + 1, pc := phase.finished },
          [ring_effect.probe_completed false])
    | _ => (r, [])

/-- The ring under a schedule of actions; nothing of the schedule is consumed after
`dijkstra_termination_detection` has returned. -/
def run_schedule (r : ring) : List action → ring × List ring_effect
  | [] => (r, [])
  | a :: rest =>
    if r.pc = phase.finished then (r, [])
    else ((run_schedule (step r a).1 rest).1, (step r a).2 ++ (run_schedule (step r a).1 rest).2)

/-- What `dijkstra_termination_detection` leaves behind. -/
structure detection where
  final : ring
  effects : List ring_effect
  /-- the returned count, `none` when the call has not returned under the schedule -/
  returned : Option Nat

/-- `runtime_support::dijkstra_termination_detection` (lines 547-608), called on
locality `here` while the localities have the colours `color`, under a schedule. -/
def dijkstra_termination_detection (color : Nat → Bool) (here : Nat)
    (locality_ids : List id_type) (schedule : List action) : detection :=
  let x := run_schedule (detection_begin color here locality_ids) schedule
  ⟨x.1, x.2, if x.1.pc = phase.finished then some x.1.count else none⟩

/-- The locality that is inside `send_dijkstra_termination_token`, about to forward
the token as soon as it is passive. -/
def forwarder (r : ring) : Option Nat :=
  match r.pc with
  | phase.draining => none
  | phase.finished => none
  | phase.sending => some r.initiating_locality_id
  | _ =>
    match r.token with
    | token_place.held p => some p.target_locality_id
    | _ => none

/-- The token exists and is black. -/
def token_black (r : ring) : Bool :=
  match r.token with
  | token_place.absent => false
  | token_place.in_flight p => p.dijkstra_token
  | token_place.held p => p.dijkstra_token

/-- The targets of the `dijkstra_termination_action` parcels sent, in order. -/
def sent_targets : List ring_effect → List Nat
  | [] => []
  | ring_effect.apply_dijkstra_termination _ p :: es => p.target_locality_id :: sent_targets es
  | _ :: es => sent_targets es

/-- The parcels sent, in order. -/
def sent_parcels : List ring_effect → List (Nat × token_parcel)
  | [] => []
  | ring_effect.apply_dijkstra_termination k p :: es => (k, p) :: sent_parcels es
  | _ :: es => sent_parcels es

/-- The number of unsuccessful probes: loop conditions that read black. -/
def unsuccessful_probes : List ring_effect → Nat
  | [] => 0
  | ring_effect.probe_completed true :: es => unsuccessful_probes es + 1
  | _ :: es => unsuccessful_probes es

/-- The schedule of one undisturbed round of the token on `n` localities in which
every locality is passive at its first poll: the initiator sends, each of the `n - 1`
others receives and forwards, the initiator receives. -/
def quiet_round (n : Nat) : List action :=
  action.poll 1 0 ::
    ((List.replicate (n - 1) [action.deliver, action.poll 1 0]).flatten ++ [action.deliver])

/-- An undisturbed round followed by the initiator waking up. -/
def quiet_probe (n : Nat) : List action :=
  quiet_round n ++ [action.wake]

/-! ## Definitions used to state the properties -/

/-- Steps 3 to 8 of the shutdown sequence as the specification lists them (§4.E). -/
def shutdown_phases (locality_ids : List id_type) : List effect :=
  [effect.agas_start_shutdown, effect.stop_evaluating_counters, effect.tm_resume,
    effect.find_all_localities,
    effect.dijkstra_termination_detection locality_ids,
    effect.invoke_shutdown_functions locality_ids true,
    effect.invoke_shutdown_functions locality_ids false,
    effect.dijkstra_termination_detection locality_ids]

/-- Step 9 of the shutdown sequence as the specification words it (§4.E): every
non-local locality, in reverse order, gets one `shutdown_async(timeout)`. -/
def remote_shutdowns (env : shutdown_env) (timeout : Int) : List effect :=
  (env.all_localities.reverse.filter
    (fun id => decide (env.get_locality_id_from_id id ≠ env.locality_id))).map
    (fun id => effect.shutdown_async id timeout)

/-- The calls `stop` can make. -/
def effect.of_stop : effect → Bool
  | effect.cleanup_logging => true
  | effect.cleanup_terminated => true
  | effect.abort_all_suspended_threads => true
  | effect.get_local_locality => true
  | effect.unbind_local_runtime_support => true
  | effect.unbind_local_memory => true
  | effect.remove_here_from_connection_cache => true
  | effect.unregister_locality => true
  | effect.remove_here_from_console_connection_cache => true
  | effect.set_event_sync _ => true
  | effect.wait_condition_notify_all => true
  | effect.stop_condition_wait => true
  | _ => false

/-- Successive calls of `shutdown_all` on one server, each with its own environment. -/
def shutdown_all_calls (s : runtime_support) : List (shutdown_env × Int) → List result
  | [] => []
  | c :: cs =>
    shutdown_all c.1 c.2 s :: shutdown_all_calls (shutdown_all c.1 c.2 s).state cs

/-- The environment of a `stop` whose first poll finds the locality passive. -/
def quiet_stop_env : stop_env :=
  { assertions_enabled := true, start_time := 0, drain := [⟨1, 1, 0⟩],
    abort_start_time := 0, abort := [], is_local_address_cached := false }

/-- A root environment with three localities in which both detections return. -/
def root_env : shutdown_env :=
  { here := 0, root_locality := 0, locality_id := 0, all_localities := [0, 1, 2],
    get_locality_id_from_id := fun id => id, first_detection := some 1,
    second_detection := some 1, stop := quiet_stop_env }

/-- The same cluster seen from locality 1. -/
def off_root_env : shutdown_env :=
  { root_env with here := 1, locality_id := 1 }

/-- The localities on which `dijkstra_termination` was started, in order. -/
def received_by : List ring_effect → List Nat
  | [] => []
  | ring_effect.flush_parcels k :: es => k :: received_by es
  | _ :: es => received_by es

/-- The list `n - 1, n - 2, ..., t`. -/
def descending (n t : Nat) : List Nat := (List.range' t (n - t)).reverse

/-- What holds during the first probe of initiator 0 on `n` localities: the parcels
went to `n - 1, n - 2, ...` down to where the token is. -/
def route_inv (n : Nat) (r : ring) (E : List ring_effect) : Prop :=
  r.count = 0 →
    r.initiating_locality_id = 0 ∧ r.num_localities = n ∧ r.target_id = n ∧
    match r.pc, r.token with
    | phase.sending, token_place.absent => sent_targets E = [] ∧ received_by E = []
    | phase.waiting, token_place.in_flight p =>
      p.initiating_locality_id = 0 ∧ p.num_localities = n ∧ p.target_locality_id < n ∧
        sent_targets E = descending n p.target_locality_id ∧
        received_by E = descending n (p.target_locality_id + 1)
    | phase.waiting, token_place.held p =>
      p.initiating_locality_id = 0 ∧ p.num_localities = n ∧ p.target_locality_id < n ∧
        0 < p.target_locality_id ∧
        sent_targets E = descending n p.target_locality_id ∧
        received_by E = descending n p.target_locality_id
    | phase.notified, token_place.absent =>
      sent_targets E = descending n 0 ∧ received_by E = descending n 0
    | _, _ => False

/-- The number of parcels sent by locality `init` itself. -/
def probes_initiated (init : Nat) : List ring_effect → Nat
  | [] => 0
  | ring_effect.apply_dijkstra_termination k _ :: es =>
    (if k = init then 1 else 0) + probes_initiated init es
  | _ :: es => probes_initiated init es

/-- What holds of the probe counter of the initiator `init` at every point of the loop
of `dijkstra_termination_detection`. -/
def count_inv (init : Nat) (r : ring) (E : List ring_effect) : Prop :=
  r.initiating_locality_id = init ∧
  match r.pc, r.token with
  | phase.sending, token_place.absent =>
    probes_initiated init E = r.count ∧ unsuccessful_probes E = r.count
  | phase.waiting, token_place.in_flight p =>
    p.initiating_locality_id = init ∧
      probes_initiated init E = r.count + 1 ∧ unsuccessful_probes E = r.count
  | phase.waiting, token_place.held p =>
    p.initiating_locality_id = init ∧ p.target_locality_id ≠ init ∧
      probes_initiated init E = r.count + 1 ∧ unsuccessful_probes E = r.count
  | phase.notified, token_place.absent =>
    probes_initiated init E = r.count + 1 ∧ unsuccessful_probes E = r.count
  | phase.finished, token_place.absent =>
    probes_initiated init E = r.count ∧ unsuccessful_probes E + 1 = r.count ∧
      r.color init = false
  | _, _ => False

/-- A black token was sent to locality `init`. -/
def black_returned (init : Nat) (E : List ring_effect) : Prop :=
  ∃ k p, ring_effect.apply_dijkstra_termination k p ∈ E ∧
    p.target_locality_id = init ∧ p.dijkstra_token = true

/-- What holds during one probe of the initiator `init` that started white with probe
counter `c0`, of the state, the calls made since and the schedule consumed since. -/
def probe_inv (init c0 : Nat) (r : ring) (E : List ring_effect) (S : List action) : Prop :=
  c0 ≤ r.count ∧ (r.count = c0 →
    r.initiating_locality_id = init ∧
    match r.pc, r.token with
    | phase.sending, token_place.absent =>
      (∀ k q, ring_effect.apply_dijkstra_termination k q ∉ E) ∧
        (r.color init = true ↔ action.dijkstra_make_black init ∈ S)
    | phase.waiting, token_place.in_flight p =>
      p.initiating_locality_id = init ∧
        (∀ k q, ring_effect.apply_dijkstra_termination k q ∈ E →
          q.target_locality_id = init → q = p) ∧
        (∃ k, ring_effect.apply_dijkstra_termination k p ∈ E) ∧
        (r.color init = true → action.dijkstra_make_black init ∈ S) ∧
        (action.dijkstra_make_black init ∈ S → r.color init = true ∨ p.dijkstra_token = true)
    | phase.waiting, token_place.held p =>
      p.initiating_locality_id = init ∧ p.target_locality_id ≠ init ∧
        (∀ k q, ring_effect.apply_dijkstra_termination k q ∈ E →
          q.target_locality_id ≠ init) ∧
        (r.color init = true → action.dijkstra_make_black init ∈ S) ∧
        (action.dijkstra_make_black init ∈ S → r.color init = true ∨ p.dijkstra_token = true)
    | phase.notified, token_place.absent =>
      (r.color init = true ↔
        (black_returned init E ∨ action.dijkstra_make_black init ∈ S))
    | _, _ => False)

/-- What holds while a single locality waits to become passive (lines 553-568), of
the state, the calls made and the schedule consumed; `color` is the colouring at the
call. -/
def drain_inv (color : Nat → Bool) (r : ring) (E : List ring_effect) (S : List action) :
    Prop :=
  (r.pc = phase.draining ∨ r.pc = phase.finished) ∧ r.token = token_place.absent ∧
    r.count = 0 ∧ sent_parcels E = [] ∧
    (∀ k, r.color k = true → color k = true ∨ action.dijkstra_make_black k ∈ S) ∧
    (∀ k, color k = true → r.color k = true) ∧
    (r.pc = phase.finished ↔ ∃ tc bg, action.poll tc bg ∈ S ∧ still_active tc bg = false)

/-- Three localities, all white; locality 2 is made black while it holds the token. -/
def blackened_probe : List action :=
  [action.poll 1 0, action.deliver, action.dijkstra_make_black 2, action.poll 1 0,
    action.deliver, action.poll 1 0]

/-- Two localities, both white; the initiator is made black while the token is away. -/
def late_blackening : List action :=
  [action.poll 1 0, action.deliver, action.dijkstra_make_black 0, action.poll 1 0,
    action.deliver]

/-- `runtime_support::shutdown` (lines 277-282): the action that stops this locality. -/
def shutdown (env : stop_env) (timeout : Int) (respond_to : Option id_type)
    (s : runtime_support) : result :=
  stop env timeout respond_to false s

/-- The test of lines 829-830 and 852-853: the budget is not negative and the time
elapsed since `start_time` exceeds it. -/
def budget_spent (timeout start_time : Int) (r : reading) : Prop :=
  0 ≤ timeout ∧ timeout < r.elapsed - start_time

instance (timeout start_time : Int) (r : reading) :
    Decidable (budget_spent timeout start_time r) := by
  unfold budget_spent; infer_instance

/-- More threads are alive than the caller and the background threads. -/
def threads_left (r : reading) : Prop :=
  r.thread_count > 1 + r.background_thread_count

instance (r : reading) : Decidable (threads_left r) := by
  unfold threads_left; infer_instance

/-- Both wait loops of `stop` have ended under the readings of the environment. -/
def stop_loops_ended (env : stop_env) (timeout : Int) : Bool :=
  (stop_drain timeout env.start_time env.drain).2.2 &&
    (if (stop_drain timeout env.start_time env.drain).2.1 then
      (stop_abort timeout env.abort_start_time env.abort).2.2
    else true)

/-- The calls made by the two wait loops of `stop`. -/
def stop_loop_effects (env : stop_env) (timeout : Int) : List effect :=
  (stop_drain timeout env.start_time env.drain).1 ++
    (if (stop_drain timeout env.start_time env.drain).2.1 then
      (stop_abort timeout env.abort_start_time env.abort).1
    else [])

/-- The effect is a `set_event` response. -/
def effect.is_set_event : effect → Bool
  | effect.set_event_sync _ => true
  | _ => false

/-- A `stop` whose first loop runs into the timeout and whose second loop then finds
the locality passive. -/
def coerced_stop_env : stop_env :=
  { assertions_enabled := true, start_time := 0,
    drain := [⟨1, 12, 1⟩, ⟨4, 12, 1⟩, ⟨6, 11, 1⟩],
    abort_start_time := 6, abort := [⟨7, 11, 1⟩, ⟨9, 2, 1⟩], is_local_address_cached := false }

/-- The calls of `stop(5, 7, true)` under `coerced_stop_env` up to the response. -/
def coerced_stop_calls : List effect :=
  [effect.cleanup_logging, effect.cleanup_terminated, effect.cleanup_terminated,
    effect.cleanup_terminated, effect.abort_all_suspended_threads,
    effect.cleanup_terminated, effect.abort_all_suspended_threads,
    effect.cleanup_terminated, effect.get_local_locality,
    effect.unbind_local_runtime_support, effect.unbind_local_memory,
    effect.remove_here_from_connection_cache, effect.unregister_locality,
    effect.remove_here_from_console_connection_cache]

/-! ## Startup and shutdown functions (lines 1055-1101) -/

/-- A startup or shutdown function registered by a module (`startup_function_type`,
`shutdown_function_type`): a nullary callable, known by an id and by the exception it
throws when called, if it throws. -/
structure hook where
  id : Nat
  throws : Option Nat
  deriving DecidableEq, Repr

/-- The states of the runtime that the hook phases set. -/
inductive runtime_state where
  | state_pre_startup
  | state_startup
  | state_pre_shutdown
  | state_shutdown
  deriving DecidableEq, Repr

/-- Calls made while the hooks of a phase run, in program order. -/
inductive hook_effect where
  | set_state (st : runtime_state)
  /-- the call `f()` -/
  | call (f : hook)
  /-- `rt.report_error(std::current_exception())` -/
  | report_error (e : Nat)
  /-- `lcos::barrier::get_global_barrier().detach()` -/
  | barrier_detach
  deriving DecidableEq, Repr

/-- The four lists of functions of `runtime_support`, in registration order. -/
structure hook_lists where
  pre_startup_functions_ : List hook
  startup_functions_ : List hook
  pre_shutdown_functions_ : List hook
  shutdown_functions_ : List hook
  deriving DecidableEq, Repr

/-- What a hook phase leaves behind: the calls made and the exception that left the
function, if one did. -/
structure hook_result where
  effects : List hook_effect
  thrown : Option Nat
  deriving DecidableEq, Repr

/-- The loops of `call_startup_functions` (lines 1059-1062 and 1066-1069): an
exception of `f()` leaves the loop. -/
def startup_loop : List hook → hook_result
  | [] => ⟨[], none⟩
  | f :: fs =>
    match f.throws with
    | some e => ⟨[hook_effect.call f], some e⟩
    | none => ⟨hook_effect.call f :: (startup_loop fs).effects, (startup_loop fs).thrown⟩

/-- `runtime_support::call_startup_functions` (lines 1055-1071). -/
def call_startup_functions (pre_startup : Bool) (l : hook_lists) : hook_result :=
  if pre_startup then
    ⟨hook_effect.set_state runtime_state.state_pre_startup ::
        (startup_loop l.pre_startup_functions_).effects,
      (startup_loop l.pre_startup_functions_).thrown⟩
  else
    ⟨hook_effect.set_state runtime_state.state_startup ::
        (startup_loop l.startup_functions_).effects,
      (startup_loop l.startup_functions_).thrown⟩

/-- The loops of `call_shutdown_functions` (lines 1078-1086 and 1090-1098): every
exception of `f()` is caught and handed to `report_error`. -/
def shutdown_loop : List hook → List hook_effect
  | [] => []
  | f :: fs =>
    match f.throws with
    | some e => hook_effect.call f :: hook_effect.report_error e :: shutdown_loop fs
    | none => hook_effect.call f :: shutdown_loop fs

/-- `runtime_support::call_shutdown_functions` (lines 1073-1101). -/
def call_shutdown_functions (pre_shutdown : Bool) (l : hook_lists) : hook_result :=
  if pre_shutdown then
    ⟨hook_effect.set_state runtime_state.state_pre_shutdown ::
      shutdown_loop l.pre_shutdown_functions_, none⟩
  else
    ⟨hook_effect.set_state runtime_state.state_shutdown ::
      (shutdown_loop l.shutdown_functions_ ++ [hook_effect.barrier_detach]), none⟩

/-- The calls one function of a shutdown phase gives rise to: the call itself and, when
it throws, the report of its exception. -/
def hook.shutdown_calls (f : hook) : List hook_effect :=
  match f.throws with
  | some e => [hook_effect.call f, hook_effect.report_error e]
  | none => [hook_effect.call f]

/-- The functions called, in order. -/
def called_hooks : List hook_effect → List hook
  | [] => []
  | hook_effect.call f :: es => f :: called_hooks es
  | _ :: es => called_hooks es

/-- The exceptions handed to `report_error`, in order. -/
def reported_errors : List hook_effect → List Nat
  | [] => []
  | hook_effect.report_error e :: es => e :: reported_errors es
  | _ :: es => reported_errors es

/-- A registry with functions in all four lists; the second shutdown function and the
second startup function throw. -/
def sample_hooks : hook_lists :=
  { pre_startup_functions_ := [⟨1, none⟩],
    startup_functions_ := [⟨2, none⟩, ⟨3, some 30⟩, ⟨4, none⟩],
    pre_shutdown_functions_ := [⟨5, none⟩],
    shutdown_functions_ := [⟨6, none⟩, ⟨7, some 70⟩, ⟨8, none⟩] }

/-! ## Component and plugin loading (lines 942-1053 and 1348-2077) -/

/-- The error codes of an `hpx::exception` that the loader tells apart. -/
inductive error where
  | service_unavailable
  | commandline_option_error
  | other
  deriving DecidableEq, Repr

/-- What a call into a module, or into a factory of it, may throw: the three classes
the handlers of the loader distinguish. -/
inductive thrown where
  | logic_error
  | std_exception
  | hpx_exception (e : error)
  deriving DecidableEq, Repr

/-- Outcome of `pf(d, name)` followed by `pf.create(name, ec, ...)`: the object, an
error code left in `ec`, or an exception. -/
inductive created (α : Type) where
  | ok (a : α)
  | failed
  | raised (t : thrown)

/-- Outcome of a call that reports errors by exceptions only. -/
inductive answer (α : Type) where
  | value (a : α)
  | raised (t : thrown)

/-- A `component_startup_shutdown_base` object: `get_startup_function` and
`get_shutdown_function` either give no function (`none`) or a function together with
the value they leave in `pre_startup` (`pre_shutdown`). -/
structure startup_shutdown where
  get_startup_function : answer (Option (hook × Bool))
  get_shutdown_function : answer (Option (hook × Bool))

/-- A module handle `hpx::util::plugin::dll`: the path it was created with and its
name, returned by `get_name()`. -/
structure dll where
  path : String
  name : String
  deriving DecidableEq, Repr

/-- The value type `plugin_factory_type` of `plugins_`: the factory (known by the
instance it was created for), the module and the enabled flag. -/
structure plugin_factory_type where
  factory : String
  d : dll
  isenabled : Bool
  deriving DecidableEq, Repr

/-- A `util::section` below `hpx.components` or `hpx.plugins`: its name and its
entries. -/
structure ini_section where
  name : String
  entries : List (String × String)
  deriving DecidableEq, Repr

/-- The member `section::has_entry`. -/
def ini_section.has_entry (sect : ini_section) (key : String) : Bool :=
  (sect.entries.lookup key).isSome

/-- The member `section::get_entry(key, default)`. -/
def ini_section.get_entry (sect : ini_section) (key : String) (dflt : String) : String :=
  (sect.entries.lookup key).getD dflt

/-- The function `boost::algorithm::to_lower` on the characters of a string. -/
def to_lower (s : String) : String :=
  String.mk (s.data.map Char.toLower)

/-- The module name of a section (lines 1456-1459 and 1883-1886): the entry `name`,
or the instance name when there is none. -/
def ini_section.component (sect : ini_section) : String :=
  if sect.has_entry "name" then sect.get_entry "name" "" else sect.name

/-- The flag `isenabled` of a section (lines 1461-1469 and 1888-1896). -/
def ini_section.isenabled (sect : ini_section) : Bool :=
  if sect.has_entry "enabled" then
    if to_lower (sect.get_entry "enabled" "") = "no" ∨
        to_lower (sect.get_entry "enabled" "") = "false" ∨
        to_lower (sect.get_entry "enabled" "") = "0" then false
    else true
  else true

/-- The flag `isdefault` of a component section (lines 1471-1478). -/
def ini_section.isdefault (sect : ini_section) : Bool :=
  if sect.has_entry "isdefault" then
    if to_lower (sect.get_entry "isdefault" "") = "true" then true else false
  else false

/-- What `has_section` and `get_section` say about `hpx.components` or `hpx.plugins`:
no such section, a section that `get_section` answers with `nullptr`, or the
subsections in the order of the section map. -/
inductive section_lookup where
  | absent
  | null
  | found (sections : List ini_section)
  deriving DecidableEq, Repr

/-- The runtime configuration as far as the loader reads it: the entries below `hpx`
by their full key and the two sections of modules. -/
structure configuration where
  entries : List (String × String)
  components : section_lookup
  plugins : section_lookup
  deriving DecidableEq, Repr

/-- The call `ini.get_entry(key, default)` on the configuration. -/
def configuration.get_entry (ini : configuration) (key : String) (dflt : String) : String :=
  (ini.entries.lookup key).getD dflt

/-- The pointer `component_ini` (`plugin_ini`): the subsection with the name of the
instance, when `has_section` finds one. -/
def section_lookup.instance_section (l : section_lookup) (instance_name : String) :
    Option ini_section :=
  match l with
  | section_lookup.found sections => sections.find? (fun sect => sect.name = instance_name)
  | _ => none

/-- The test `nullptr == component_ini || "0" == component_ini->get_entry("no_factory",
"0")`. -/
def wants_factory (l : section_lookup) (instance_name : String) : Bool :=
  match l.instance_section instance_name with
  | none => true
  | some sect => sect.get_entry "no_factory" "0" = "0"

/-- What the loader logs at warning level or above, what it writes to the streams and
the library loads it asks for, in program order. -/
inductive load_event where
  /-- the call `d.load_library(ec)` -/
  | load_library (d : dll)
  /-- the log `LRT_(fatal) << "duplicate plugin type: "` -/
  | fatal_duplicate_plugin (instance_name : String)
  /-- the logs `LRT_(warning) << "dynamic loading failed: "` and `"static loading failed: "` -/
  | warning_loading_failed (instance_name : String)
  /-- the log `LRT_(warning) << "dynamic loading of plugin factory failed: "` -/
  | warning_factory_failed (instance_name : String)
  /-- the log `LRT_(warning) << "caught exception while loading "` -/
  | warning_caught_exception (instance_name : String)
  /-- the log `LRT_(error) << "nullptr section found"` -/
  | error_nullptr_section
  /-- the output `std::cerr << ... "invalid command line option(s) to "` -/
  | cerr_invalid_options (instance_name : String)
  /-- the call `s->add_entry("unknown_cmd_line_option", still_unknown_commandline)` -/
  | add_unknown_cmd_line_option (value : String)
  /-- the output `std::cout << decode_string(fullhelp); std::cout << options` -/
  | cout_help (fullhelp : String) (options : List String)
  /-- the call `util::handle_print_bind(vm, num_threads)` -/
  | handle_print_bind (num_threads : Nat)
  /-- the call `util::handle_list_parcelports()` -/
  | handle_list_parcelports
  /-- the output `std::cerr << "runtime_support::load_components: command line processing: "` -/
  | cerr_command_line_processing
  deriving DecidableEq, Repr

/-- The members of `runtime_support` that loading changes (`plugins_`, `modules_`, the
four lists of functions), the two locals of `load_components` that are handed down by
reference (`startup_handled`, `options`; an options description is the list of the
options added to it) and the events so far. -/
structure load_state where
  plugins_ : List (String × plugin_factory_type)
  modules_ : List (String × dll)
  hooks : hook_lists
  startup_handled : List String
  options : List String
  events : List load_event
  deriving DecidableEq, Repr

/-- Append an event. -/
def load_state.log (s : load_state) (e : load_event) : load_state :=
  { s with events := s.events ++ [e] }

/-- How a function of the loader ends: it returns its `bool`, or an `hpx::exception`
leaves it. -/
inductive load_outcome where
  | returned (b : Bool)
  | rethrown (e : error)
  deriving DecidableEq, Repr

/-- State and outcome of a function of the loader. -/
structure load_result where
  state : load_state
  outcome : load_outcome
  deriving DecidableEq, Repr

/-- The error modes of `util::parse_commandline` used here. -/
inductive commandline_error_mode where
  | rethrow_on_error
  | allow_unregistered
  | allow_unregistered_report_missing_config_file
  deriving DecidableEq, Repr

/-- What `util::parse_commandline` leaves behind when it does not throw: the options
present in the variables map and the vector `still_unregistered_options`. -/
structure parsed where
  vm : List String
  still_unregistered_options : List String
  deriving DecidableEq, Repr

/-- Everything outside this file that loading depends on: macros, the file system, the
modules and their factories, the static module tables and the command line helpers. -/
structure load_env where
  /-- whether `HPX_HAVE_STATIC_LINKING` is defined -/
  HPX_HAVE_STATIC_LINKING : Bool
  /-- the macro `HPX_MANGLE_STRING` -/
  HPX_MANGLE_STRING : String → String
  /-- the macro `HPX_DEFAULT_COMPONENT_PATH` -/
  HPX_DEFAULT_COMPONENT_PATH : String
  /-- the tokens of a path list, split at `HPX_INI_PATH_DELIMITER` -/
  tokens : String → List String
  /-- the test `fs::exists(lib / HPX_MAKE_DLL_STRING(component), fsec)` for the directory `lib` -/
  dll_exists : String → String → Bool
  /-- whether `d.load_library(ec)` leaves `ec` clear, for each attempt on `d` -/
  load_library : dll → Nat → Bool
  /-- the exception of `plugin_factory<component_factory_base> pf(d, "factory")` -/
  component_factory : dll → Option thrown
  /-- the plugin factory `pf(d, "factory")` and `pf.create(instance, ec, glob_ini,
  plugin_ini, isenabled)` -/
  plugin_factory : dll → String → Bool → created Unit
  /-- the object `commandline_options` of a module and the options it adds -/
  commandline_options : dll → created (answer (List String))
  /-- the object `startup_shutdown` of a module -/
  startup_shutdown_object : dll → created startup_shutdown
  /-- the result of `components::get_static_factory(instance, f)` -/
  get_static_factory : String → Bool
  /-- the result of `components::get_static_commandline(module, f)` and the object created from it -/
  get_static_commandline : String → Option (created (answer (List String)))
  /-- the result of `components::get_static_startup_shutdown(module, f)` and the object created -/
  get_static_startup_shutdown : String → Option (created startup_shutdown)
  /-- the call `util::parse_commandline(ini, options, cmdline, vm, -1, mode, mode_from_name(
  runtime_mode), ...)`; `none` when it throws -/
  parse_commandline : List String → String → commandline_error_mode → String → Option parsed
  /-- the function `util::detail::enquote` -/
  enquote : String → String
  /-- the cast `boost::lexical_cast<std::size_t>`; `none` when it throws -/
  lexical_cast : String → Option Nat
  /-- whether `util::handle_print_bind(vm, num_threads)` throws -/
  handle_print_bind_throws : List String → Nat → Bool
  /-- whether `util::handle_list_parcelports()` throws -/
  handle_list_parcelports_throws : Bool

/-- The three handlers that close every function of the loader: an `hpx::exception` is
thrown on, a `std::logic_error` or another `std::exception` is logged (`warn`, when the
log is at warning level) and the function returns `false`. -/
def caught (t : thrown) (warn : Option load_event) (s : load_state) : load_result :=
  match t with
  | thrown.hpx_exception e => ⟨s, load_outcome.rethrown e⟩
  | _ =>
    match warn with
    | some w => ⟨s.log w, load_outcome.returned false⟩
    | none => ⟨s, load_outcome.returned false⟩

/-- The body shared by `load_commandline_options` and `load_commandline_options_static`
once the factory is there (lines 1616-1629 and 1750-1763): create the object and add
its options to `options`. -/
def add_commandline_options (obj : created (answer (List String))) (s : load_state) :
    load_result :=
  match obj with
  | created.raised t => caught t none s
  | created.failed => ⟨s, load_outcome.returned false⟩
  | created.ok (answer.raised t) => caught t none s
  | created.ok (answer.value o) =>
    ⟨{ s with options := s.options ++ o }, load_outcome.returned true⟩

/-- `runtime_support::load_commandline_options` (lines 1746-1779). -/
def load_commandline_options (env : load_env) (d : dll) (s : load_state) : load_result :=
  add_commandline_options (env.commandline_options d) s

/-- `runtime_support::load_commandline_options_static` (lines 1602-1645). -/
def load_commandline_options_static (env : load_env) (module_name : String)
    (s : load_state) : load_result :=
  match env.get_static_commandline module_name with
  | none => ⟨s, load_outcome.returned false⟩
  | some obj => add_commandline_options obj s

/-- The registration of a startup function (lines 1565-1573 and 1710-1718). -/
def push_startup (st : Option (hook × Bool)) (s : load_state) : load_state :=
  match st with
  | none => s
  | some (f, true) =>
    { s with hooks := { s.hooks with
        pre_startup_functions_ := s.hooks.pre_startup_functions_ ++ [f] } }
  | some (f, false) =>
    { s with hooks := { s.hooks with startup_functions_ := s.hooks.startup_functions_ ++ [f] } }

/-- The registration of a shutdown function (lines 1575-1583 and 1720-1728). -/
def push_shutdown (sh : Option (hook × Bool)) (s : load_state) : load_state :=
  match sh with
  | none => s
  | some (f, true) =>
    { s with hooks := { s.hooks with
        pre_shutdown_functions_ := s.hooks.pre_shutdown_functions_ ++ [f] } }
  | some (f, false) =>
    { s with hooks := { s.hooks with
        shutdown_functions_ := s.hooks.shutdown_functions_ ++ [f] } }

/-- The body shared by `load_startup_shutdown_functions` and its static counterpart once
the factory is there (lines 1553-1583 and 1697-1728): create the object and register
the functions it gives. -/
def add_startup_shutdown_functions (obj : created startup_shutdown) (s : load_state) :
    load_result :=
  match obj with
  | created.raised t => caught t none s
  | created.failed => ⟨s, load_outcome.returned false⟩
  | created.ok o =>
    match o.get_startup_function with
    | answer.raised t => caught t none s
    | answer.value st =>
      match o.get_shutdown_function with
      | answer.raised t => caught t none (push_startup st s)
      | answer.value sh => ⟨push_shutdown sh (push_startup st s), load_outcome.returned true⟩

/-- `runtime_support::load_startup_shutdown_functions` (lines 1693-1744). -/
def load_startup_shutdown_functions (env : load_env) (d : dll) (s : load_state) :
    load_result :=
  add_startup_shutdown_functions (env.startup_shutdown_object d) s

/-- `runtime_support::load_startup_shutdown_functions_static` (lines 1539-1599). -/
def load_startup_shutdown_functions_static (env : load_env) (module_name : String)
    (s : load_state) : load_result :=
  match env.get_static_startup_shutdown module_name with
  | none => ⟨s, load_outcome.returned false⟩
  | some obj => add_startup_shutdown_functions obj s

/-- The block "make sure startup/shutdown registration is called once for each module"
of `load_component` and `load_plugin` (lines 1814-1821 and 2013-2020): the results of
the two calls are not read, an `hpx::exception` of either leaves the block. -/
def register_module (env : load_env) (d : dll) (s : load_state) : load_state × Option error :=
  if d.name ∈ s.startup_handled then (s, none)
  else
    match load_commandline_options env d
        { s with startup_handled := s.startup_handled ++ [d.name] } with
    | ⟨s1, load_outcome.rethrown e⟩ => (s1, some e)
    | ⟨s1, load_outcome.returned _⟩ =>
      match load_startup_shutdown_functions env d s1 with
      | ⟨s2, load_outcome.rethrown e⟩ => (s2, some e)
      | ⟨s2, load_outcome.returned _⟩ => (s2, none)

/-- The same block in `load_component_static` (lines 1384-1391), keyed by the name of
the component. -/
def register_module_static (env : load_env) (component : String) (s : load_state) :
    load_state × Option error :=
  if component ∈ s.startup_handled then (s, none)
  else
    match load_commandline_options_static env component
        { s with startup_handled := s.startup_handled ++ [component] } with
    | ⟨s1, load_outcome.rethrown e⟩ => (s1, some e)
    | ⟨s1, load_outcome.returned _⟩ =>
      match load_startup_shutdown_functions_static env component s1 with
      | ⟨s2, load_outcome.rethrown e⟩ => (s2, some e)
      | ⟨s2, load_outcome.returned _⟩ => (s2, none)

/-- `runtime_support::load_component_static` (lines 1348-1407).  The arguments `lib`,
`prefix`, `agas_client`, `isdefault` and `isenabled` are not read by the function,
apart from `lib` in the log texts, and are left out. -/
def load_component_static (env : load_env) (ini : configuration) (instance_name : String)
    (component : String) (s : load_state) : load_result :=
  if wants_factory ini.components instance_name ∧ ¬ env.get_static_factory instance_name then
    ⟨s.log (load_event.warning_loading_failed instance_name), load_outcome.returned false⟩
  else
    match register_module_static env component s with
    | (s1, some e) => ⟨s1, load_outcome.rethrown e⟩
    | (s1, none) => ⟨s1, load_outcome.returned true⟩

/-- `runtime_support::load_component` (lines 1782-1837).  The arguments `lib`, `prefix`,
`agas_client`, `isdefault` and `isenabled` are not read by the function, apart from
`lib` in the log texts, and are left out. -/
def load_component (env : load_env) (ini : configuration) (d : dll) (instance_name : String)
    (s : load_state) : load_result :=
  match (if wants_factory ini.components instance_name then env.component_factory d
      else none) with
  | some t => caught t (some (load_event.warning_loading_failed instance_name)) s
  | none =>
    match register_module env d s with
    | (s1, some e) => ⟨s1, load_outcome.rethrown e⟩
    | (s1, none) => ⟨s1, load_outcome.returned true⟩

/-- The part of `load_component_dynamic` and `load_plugin_dynamic` after the lookup in
`modules_` failed (lines 1665-1690 and 2052-2076): load the library, a
second time when the first attempt fails, instantiate the factory with `load` and
enter the module in `modules_` when that returned `true`. -/
def load_new_module (env : load_env) (d : dll) (instance_name : String)
    (load : dll → load_state → load_result) (s : load_state) : load_result :=
  if env.load_library d 0 = false ∧ env.load_library d 1 = false then
    ⟨((s.log (load_event.load_library d)).log (load_event.load_library d)).log
        (load_event.warning_loading_failed instance_name), load_outcome.returned false⟩
  else
    match load d (if env.load_library d 0 then s.log (load_event.load_library d)
        else (s.log (load_event.load_library d)).log (load_event.load_library d)) with
    | ⟨s1, load_outcome.returned true⟩ =>
      ⟨{ s1 with modules_ :=
          if (s1.modules_.lookup d.name).isSome then s1.modules_
          else s1.modules_ ++ [(d.name, d)] }, load_outcome.returned true⟩
    | r => r

/-- `runtime_support::load_component_dynamic` (lines 1648-1691); `prefix`, `agas_client`,
`isdefault` and `isenabled` are handed on only and are left out. -/
def load_component_dynamic (env : load_env) (ini : configuration) (instance_name : String)
    (component : String) (lib : String) (s : load_state) : load_result :=
  match s.modules_.lookup (env.HPX_MANGLE_STRING component) with
  | some d => load_component env ini d instance_name s
  | none =>
    load_new_module env ⟨lib, env.HPX_MANGLE_STRING component⟩ instance_name
      (fun d s1 => load_component env ini d instance_name s1) s

/-- The directory `lib` of a section (lines 1480-1503 and 1898-1921): the first token
of the entry `path` (of `HPX_DEFAULT_COMPONENT_PATH` without such an entry) in which
the library of the module exists, the empty path when there is none. -/
def ini_section.lib (env : load_env) (sect : ini_section) : String :=
  match (env.tokens (if sect.has_entry "path" then sect.get_entry "path" ""
      else env.HPX_DEFAULT_COMPONENT_PATH)).find?
        (fun t => env.dll_exists t sect.component) with
  | some t => t
  | none => ""

/-- The handler `catch (hpx::exception const& e)` of the two loops over the sections
(lines 1521-1532 and 1943-1954). -/
def caught_while_loading (instance_name : String) (e : error) (s : load_state) : load_state :=
  if e = error.commandline_option_error then
    (s.log (load_event.warning_caught_exception instance_name)).log
      (load_event.cerr_invalid_options instance_name)
  else s.log (load_event.warning_caught_exception instance_name)

/-- One pass of the loop of `load_components(ini, ...)` (lines 1447-1533); what the
load functions return is not read. -/
def load_components_section (env : load_env) (ini : configuration) (s : load_state)
    (sect : ini_section) : load_state :=
  match (if sect.get_entry "static" "0" = "1" then
      load_component_static env ini sect.name sect.component s
    else if env.HPX_HAVE_STATIC_LINKING then
      (⟨s, load_outcome.rethrown error.service_unavailable⟩ : load_result)
    else load_component_dynamic env ini sect.name sect.component (sect.lib env) s) with
  | ⟨s1, load_outcome.rethrown e⟩ => caught_while_loading sect.name e s1
  | ⟨s1, load_outcome.returned _⟩ => s1

/-- `runtime_support::load_components(ini, prefix, agas_client, options,
startup_handled)` (lines 1411-1536): the overload that walks `hpx.components`. -/
def load_components_ini (env : load_env) (ini : configuration) (s : load_state) :
    load_state × Int :=
  match ini.components with
  | section_lookup.absent => (s, 0)
  | section_lookup.null => (s.log load_event.error_nullptr_section, 0)
  | section_lookup.found sections => (sections.foldl (load_components_section env ini) s, 0)

/-- `runtime_support::load_plugin` (lines 1960-2036); `lib` is read for the log texts
only and is left out. -/
def load_plugin (env : load_env) (ini : configuration) (d : dll) (instance_name : String)
    (isenabled : Bool) (s : load_state) : load_result :=
  if wants_factory ini.plugins instance_name then
    match env.plugin_factory d instance_name isenabled with
    | created.raised t => caught t (some (load_event.warning_loading_failed instance_name)) s
    | created.ok _ =>
      if (s.plugins_.lookup instance_name).isSome then
        ⟨s.log (load_event.fatal_duplicate_plugin instance_name), load_outcome.returned false⟩
      else
        match register_module env d
            { s with plugins_ := s.plugins_ ++ [(instance_name, ⟨instance_name, d, isenabled⟩)] }
          with
        | (s1, some e) => ⟨s1, load_outcome.rethrown e⟩
        | (s1, none) => ⟨s1, load_outcome.returned true⟩
    | created.failed =>
      match register_module env d (s.log (load_event.warning_factory_failed instance_name))
        with
      | (s1, some e) => ⟨s1, load_outcome.rethrown e⟩
      | (s1, none) => ⟨s1, load_outcome.returned true⟩
  else
    match register_module env d s with
    | (s1, some e) => ⟨s1, load_outcome.rethrown e⟩
    | (s1, none) => ⟨s1, load_outcome.returned true⟩

/-- `runtime_support::load_plugin_dynamic` (lines 2038-2077). -/
def load_plugin_dynamic (env : load_env) (ini : configuration) (instance_name : String)
    (plugin : String) (lib : String) (isenabled : Bool) (s : load_state) : load_result :=
  match s.modules_.lookup (env.HPX_MANGLE_STRING plugin) with
  | some d => load_plugin env ini d instance_name isenabled s
  | none =>
    load_new_module env ⟨lib, env.HPX_MANGLE_STRING plugin⟩ instance_name
      (fun d s1 => load_plugin env ini d instance_name isenabled s1) s

/-- One pass of the loop of `load_plugins` (lines 1875-1955); what `load_plugin_dynamic`
returns is not read. -/
def load_plugins_section (env : load_env) (ini : configuration) (s : load_state)
    (sect : ini_section) : load_state :=
  match (if sect.get_entry "static" "0" = "1" then
      (⟨s, load_outcome.rethrown error.service_unavailable⟩ : load_result)
    else if env.HPX_HAVE_STATIC_LINKING then
      (⟨s, load_outcome.rethrown error.service_unavailable⟩ : load_result)
    else load_plugin_dynamic env ini sect.name sect.component (sect.lib env)
      sect.isenabled s) with
  | ⟨s1, load_outcome.rethrown e⟩ => caught_while_loading sect.name e s1
  | ⟨s1, load_outcome.returned _⟩ => s1

/-- `runtime_support::load_plugins` (lines 1842-1957). -/
def load_plugins (env : load_env) (ini : configuration) (s : load_state) :
    load_state × Bool :=
  match ini.plugins with
  | section_lookup.absent => (s, true)
  | section_lookup.null => (s.log load_event.error_nullptr_section, false)
  | section_lookup.found sections => (sections.foldl (load_plugins_section env ini) s, true)

/-- `std::string::find(pat, pos)` on the characters from `pos` on: the position of the
first occurrence of `pat`, `none` for `npos`. -/
def string_find_from : List Char → List Char → Nat → Option Nat
  | [], pat, pos => if pat = [] then some pos else none
  | c :: s, pat, pos =>
    if pat.isPrefixOf (c :: s) then some pos else string_find_from s pat (pos + 1)

/-- `s.find(pat)` of `std::string`. -/
def string_find (s pat : String) : Option Nat :=
  string_find_from s.data pat.data 0

/-- The loop of lines 987-997 from index `i` on, with `acc` for
`still_unknown_commandline`: it ends when `i` equals the size of the vector and reads
`still_unregistered_options[i]` otherwise; `none` when that read is outside the vector
(or the fuel is used up). -/
def still_unknown_loop (env : load_env) (still_unregistered_options : List String) :
    Nat → Nat → String → Option String
  | 0, _, _ => none
  | fuel + 1, i, acc =>
    if i = still_unregistered_options.length then some acc
    else
      match still_unregistered_options.get? i with
      | none => none
      | some o =>
        still_unknown_loop env still_unregistered_options fuel (i + 1)
          ((if i ≠ 1 then acc ++ " " else acc) ++ env.enquote o)

/-- The string `still_unknown_commandline` after the loop, which starts at index 1. -/
def still_unknown_commandline (env : load_env) (still_unregistered_options : List String) :
    Option String :=
  still_unknown_loop env still_unregistered_options (still_unregistered_options.length + 1) 1 ""

/-- How the `try` block of `load_components` ends: a `std::exception` reached the
handler, `return 1` was executed, the block was left at its end, or the loop over
`still_unregistered_options` read outside the vector. -/
inductive processing where
  | raised
  | exit_requested
  | completed
  | out_of_range
  deriving DecidableEq, Repr

/-- The first part of the `try` block (lines 970-1005): the options that are still
unknown after the modules registered theirs.  The section `hpx` is taken to exist. -/
def process_unknown_cmd_line (env : load_env) (ini : configuration) (s : load_state) :
    load_state × processing :=
  if ini.get_entry "hpx.unknown_cmd_line" "" = "" then (s, processing.completed)
  else
    match env.parse_commandline s.options (ini.get_entry "hpx.unknown_cmd_line" "")
        (if ini.get_entry "hpx.commandline.allow_unknown" "0" ≠ "0" then
          commandline_error_mode.allow_unregistered
        else commandline_error_mode.rethrow_on_error)
        (ini.get_entry "hpx.runtime_mode" "") with
    | none => (s, processing.raised)
    | some p =>
      match still_unknown_commandline env p.still_unregistered_options with
      | none => (s, processing.out_of_range)
      | some still_unknown =>
        if still_unknown ≠ "" then
          (s.log (load_event.add_unknown_cmd_line_option still_unknown), processing.completed)
        else (s, processing.completed)

/-- The second part of the `try` block (lines 1007-1020): the help text, printed after
`decode_string`. -/
def process_cmd_line_help (ini : configuration) (s : load_state) : load_state × processing :=
  if ini.get_entry "hpx.cmd_line_help" "" = "" then (s, processing.completed)
  else if string_find "full" (ini.get_entry "hpx.cmd_line_help_option" "") = some 0 then
    (s.log (load_event.cout_help (ini.get_entry "hpx.cmd_line_help" "") s.options),
      processing.exit_requested)
  else (s, processing.raised)

/-- The steps after `parse_commandline` in the third part (lines 1033-1043). -/
def process_vm (env : load_env) (ini : configuration) (p : parsed) (s : load_state) :
    load_state × processing :=
  match (if "hpx:print-bind" ∈ p.vm then
      match env.lexical_cast (ini.get_entry "hpx.os_threads" "1") with
      | none => (s, processing.raised)
      | some num_threads =>
        if env.handle_print_bind_throws p.vm num_threads then
          (s.log (load_event.handle_print_bind num_threads), processing.raised)
        else (s.log (load_event.handle_print_bind num_threads), processing.completed)
    else (s, processing.completed)) with
  | (s1, processing.completed) =>
    (match (if "hpx:list-parcel-ports" ∈ p.vm then
        if env.handle_list_parcelports_throws then
          (s1.log load_event.handle_list_parcelports, processing.raised)
        else (s1.log load_event.handle_list_parcelports, processing.completed)
      else (s1, processing.completed)) with
    | (s2, processing.completed) =>
      if "hpx:exit" ∈ p.vm then (s2, processing.exit_requested) else (s2, processing.completed)
    | r => r)
  | r => r

/-- The third part of the `try` block (lines 1022-1044): the command line itself. -/
def process_cmd_line (env : load_env) (ini : configuration) (s : load_state) :
    load_state × processing :=
  if ini.get_entry "hpx.cmd_line" "" = "" then (s, processing.completed)
  else
    match env.parse_commandline s.options (ini.get_entry "hpx.cmd_line" "")
        commandline_error_mode.allow_unregistered_report_missing_config_file
        (ini.get_entry "hpx.runtime_mode" "") with
    | none => (s, processing.raised)
    | some p => process_vm env ini p s

/-- The `try` block of `load_components` (lines 969-1045). -/
def command_line_processing (env : load_env) (ini : configuration) (s : load_state) :
    load_state × processing :=
  match process_unknown_cmd_line env ini s with
  | (s1, processing.completed) =>
    (match process_cmd_line_help ini s1 with
    | (s2, processing.completed) => process_cmd_line env ini s2
    | r => r)
  | r => r

/-- The state of the loader after the two loading passes of `load_components` (lines
944-966), with whether `load_plugins` returned `true`; `startup_handled` and `options`
are new locals of every call.  The configuration is the one left by
`ini.load_components_static`. -/
def load_modules (env : load_env) (ini : configuration) (s : load_state) : load_state × Bool :=
  load_plugins env ini
    (load_components_ini env ini { s with startup_handled := [], options := [] }).1

/-- `runtime_support::load_components()` (lines 942-1053): the state and the return
code, `none` when the loop over `still_unregistered_options` read outside the vector. -/
def load_components (env : load_env) (ini : configuration) (s : load_state) :
    load_state × Option Int :=
  match command_line_processing env ini (load_modules env ini s).1 with
  | (s1, processing.raised) => (s1.log load_event.cerr_command_line_processing, some (-1))
  | (s1, processing.exit_requested) => (s1, some 1)
  | (s1, processing.completed) =>
    (s1, some (if (load_modules env ini s).2 = false then -2
      else (load_components_ini env ini { s with startup_handled := [], options := [] }).2))
  | (s1, processing.out_of_range) => (s1, none)

/-- Modules that load and give a plugin factory, no options and no functions; every
command line parses to the program name alone. -/
def plain_env : load_env :=
  { HPX_HAVE_STATIC_LINKING := false,
    HPX_MANGLE_STRING := fun n => "hpx_" ++ n,
    HPX_DEFAULT_COMPONENT_PATH := "lib",
    tokens := fun p => [p],
    dll_exists := fun _ _ => true,
    load_library := fun _ _ => true,
    component_factory := fun _ => none,
    plugin_factory := fun _ _ _ => created.ok (),
    commandline_options := fun _ => created.ok (answer.value []),
    startup_shutdown_object := fun _ => created.ok ⟨answer.value none, answer.value none⟩,
    get_static_factory := fun _ => false,
    get_static_commandline := fun _ => none,
    get_static_startup_shutdown := fun _ => none,
    parse_commandline := fun _ _ _ _ => some ⟨[], ["a.out"]⟩,
    enquote := fun o => o,
    lexical_cast := fun _ => some 1,
    handle_print_bind_throws := fun _ _ => false,
    handle_list_parcelports_throws := false }

/-- The loader before anything was loaded. -/
def load_state.empty : load_state :=
  { plugins_ := [], modules_ := [], hooks := ⟨[], [], [], []⟩, startup_handled := [],
    options := [], events := [] }

/-- A configuration with the plugin section `p` only. -/
def ini_p : configuration :=
  { entries := [], components := section_lookup.absent,
    plugins := section_lookup.found [⟨"p", []⟩] }

/-- A configuration with the plugin sections `p` and `q`. -/
def ini_p_q : configuration :=
  { entries := [], components := section_lookup.absent,
    plugins := section_lookup.found [⟨"p", []⟩, ⟨"q", []⟩] }

/-- The members of `runtime_support` after `load_components` ran on `ini_p`: the plugin
`p` is registered and its module is in `modules_`. -/
def loaded_p : load_state :=
  { (load_components plain_env ini_p load_state.empty).1 with
    startup_handled := [], options := [], events := [] }

/-- The unknown command line that was parsed: `none` when there is none or when
`parse_commandline` threw. -/
def unknown_cmd_line_parsed (env : load_env) (ini : configuration) (options : List String) :
    Option parsed :=
  env.parse_commandline options (ini.get_entry "hpx.unknown_cmd_line" "")
    (if ini.get_entry "hpx.commandline.allow_unknown" "0" ≠ "0" then
      commandline_error_mode.allow_unregistered
    else commandline_error_mode.rethrow_on_error)
    (ini.get_entry "hpx.runtime_mode" "")

/-- Parsing the unknown command line raises. -/
def unknown_cmd_line_raises (env : load_env) (ini : configuration) (options : List String) :
    Prop :=
  ini.get_entry "hpx.unknown_cmd_line" "" ≠ "" ∧ unknown_cmd_line_parsed env ini options = none

/-- The unknown command line is parsed and leaves `still_unregistered_options` empty, so
that the loop, which starts at index 1, reads outside the vector. -/
def unknown_options_empty (env : load_env) (ini : configuration) (options : List String) :
    Prop :=
  ini.get_entry "hpx.unknown_cmd_line" "" ≠ "" ∧
    ∃ p, unknown_cmd_line_parsed env ini options = some p ∧ p.still_unregistered_options = []

/-- A help text is configured. -/
def help_configured (ini : configuration) : Prop :=
  ini.get_entry "hpx.cmd_line_help" "" ≠ ""

/-- The help option is accepted: `std::string("full").find(help_option)` is 0. -/
def help_option_accepted (ini : configuration) : Prop :=
  string_find "full" (ini.get_entry "hpx.cmd_line_help_option" "") = some 0

/-- The command line that was parsed in the third part. -/
def cmd_line_parsed (env : load_env) (ini : configuration) (options : List String) :
    Option parsed :=
  env.parse_commandline options (ini.get_entry "hpx.cmd_line" "")
    commandline_error_mode.allow_unregistered_report_missing_config_file
    (ini.get_entry "hpx.runtime_mode" "")

/-- Handling the options `hpx:print-bind` and `hpx:list-parcel-ports` of a parsed
command line raises. -/
def vm_raises (env : load_env) (ini : configuration) (p : parsed) : Prop :=
  ("hpx:print-bind" ∈ p.vm ∧
      (env.lexical_cast (ini.get_entry "hpx.os_threads" "1") = none ∨
        ∃ n, env.lexical_cast (ini.get_entry "hpx.os_threads" "1") = some n ∧
          env.handle_print_bind_throws p.vm n = true)) ∨
    ("hpx:list-parcel-ports" ∈ p.vm ∧ env.handle_list_parcelports_throws = true)

/-- Processing the command line itself raises. -/
def cmd_line_raises (env : load_env) (ini : configuration) (options : List String) : Prop :=
  ini.get_entry "hpx.cmd_line" "" ≠ "" ∧
    (cmd_line_parsed env ini options = none ∨
      ∃ p, cmd_line_parsed env ini options = some p ∧ vm_raises env ini p)

/-- The option `hpx:exit` is present on the command line. -/
def exit_on_cmd_line (env : load_env) (ini : configuration) (options : List String) : Prop :=
  ini.get_entry "hpx.cmd_line" "" ≠ "" ∧
    ∃ p, cmd_line_parsed env ini options = some p ∧ "hpx:exit" ∈ p.vm

/-- The secondary command line processing raises an exception: in the unknown command
line, by a help option that is not accepted, or, without a help text, in the command
line itself. -/
def processing_raises (env : load_env) (ini : configuration) (options : List String) : Prop :=
  unknown_cmd_line_raises env ini options ∨ (help_configured ini ∧ ¬ help_option_accepted ini) ∨
    (¬ help_configured ini ∧ cmd_line_raises env ini options)

/-- An early exit is requested: a help text is configured with an accepted help option,
or `hpx:exit` is present on the command line. -/
def exit_requested (env : load_env) (ini : configuration) (options : List String) : Prop :=
  (help_configured ini ∧ help_option_accepted ini) ∨ exit_on_cmd_line env ini options

/-- A configuration whose command line asks for `hpx:exit`. -/
def ini_exit : configuration :=
  { entries := [("hpx.cmd_line", "a.out --hpx:exit")], components := section_lookup.absent,
    plugins := section_lookup.absent }

/-- The environment `plain_env` with a parser that finds `hpx:exit`. -/
def exit_env : load_env :=
  { plain_env with parse_commandline := fun _ _ _ _ => some ⟨["hpx:exit"], ["a.out"]⟩ }

/-- A step of a quiescent network: no locality is made black and every poll finds its
locality passive. -/
def action.quiet : action → Bool
  | action.dijkstra_make_black _ => false
  | action.deliver => true
  | action.poll tc bg => !still_active tc bg
  | action.wake => true

/-- What holds of the shape of the ring at every point of the loop of
`dijkstra_termination_detection` called on locality 0 with `n` localities. -/
def ring_wf (n : Nat) (r : ring) : Prop :=
  r.initiating_locality_id = 0 ∧ r.num_localities = n ∧ r.target_id = n ∧
  match r.pc, r.token with
  | phase.sending, token_place.absent => True
  | phase.waiting, token_place.in_flight p =>
    p.initiating_locality_id = 0 ∧ p.num_localities = n ∧ p.target_locality_id < n
  | phase.waiting, token_place.held p =>
    p.initiating_locality_id = 0 ∧ p.num_localities = n ∧ p.target_locality_id < n ∧
      0 < p.target_locality_id
  | phase.notified, token_place.absent => True
  | phase.finished, token_place.absent => True
  | _, _ => False

/-- The quiet schedule that brings the token back to the initiator from where it is and
wakes the initiator up. -/
def finish_revolution (r : ring) : List action :=
  match r.pc, r.token with
  | phase.waiting, token_place.in_flight p =>
    (List.replicate p.target_locality_id [action.deliver, action.poll 1 0]).flatten ++
      [action.deliver, action.wake]
  | phase.waiting, token_place.held p =>
    action.poll 1 0 ::
      ((List.replicate (p.target_locality_id - 1) [action.deliver, action.poll 1 0]).flatten ++
        [action.deliver, action.wake])
  | phase.notified, _ => [action.wake]
  | _, _ => []

/-- Three localities, all white; locality 2 is made black after it passed the token
on, and the token comes back white. -/
def blackened_behind_token : List action :=
  [action.poll 1 0, action.deliver, action.poll 1 0, action.dijkstra_make_black 2,
    action.deliver, action.poll 1 0, action.deliver, action.wake]

/-- The quiet schedule that makes the detection return from the state `r`: the rest of
the revolution under way and two undisturbed probes. -/
def quiet_continuation (n : Nat) (r : ring) : List action :=
  finish_revolution r ++ (quiet_probe n ++ quiet_probe n)

/-! ## The sequential executor (sequential_executor.hpp, lines 31-64) -/

/-- The exceptions `sequential_executor::execute` tells apart: `std::bad_alloc`, an
`exception_list` with its elements, and every other exception, known by an id. -/
inductive exception where
  | bad_alloc
  | exception_list (es : List exception)
  | other (id : Nat)

/-- How a call ends: it returns a value or throws. -/
inductive completion (α : Type) where
  | value (v : α)
  | throws (e : exception)

/-- A nullary callable `f`: called in the state `s` of the calling thread it ends in a
completion and leaves a state behind. -/
def callable (σ α : Type) : Type := σ → completion α × σ

/-- `sequential_executor::execute` (lines 47-64): `f()` inside `try`, `std::bad_alloc`
thrown again, every other exception wrapped into an `exception_list`. -/
def sequential_executor.execute {σ α : Type} (f : callable σ α) (s : σ) : completion α × σ :=
  match f s with
  | (completion.value v, s1) => (completion.value v, s1)
  | (completion.throws exception.bad_alloc, s1) => (completion.throws exception.bad_alloc, s1)
  | (completion.throws e, s1) => (completion.throws (exception.exception_list [e]), s1)

/-- `sequential_executor::apply_execute` (lines 41-45): `execute` with the value
dropped. -/
def sequential_executor.apply_execute {σ α : Type} (f : callable σ α) (s : σ) :
    completion Unit × σ :=
  match sequential_executor.execute f s with
  | (completion.value _, s1) => (completion.value (), s1)
  | (completion.throws e, s1) => (completion.throws e, s1)

/-- A callable that counts its calls and ends the way `c` says. -/
def counting_callable {α : Type} (c : completion α) : callable Nat α :=
  fun calls => (c, calls + 1)

/-- A black token was sent. -/
def black_sent (E : List ring_effect) : Prop :=
  ∃ k q, ring_effect.apply_dijkstra_termination k q ∈ E ∧ q.dijkstra_token = true

/-- What holds during one probe of the initiator `init` with probe counter `c0`, of the
state and the calls made since the probe started: once a black token was sent, the
token stays black, and it blackens the initiator when it arrives there. -/
def black_inv (init c0 : Nat) (r : ring) (E : List ring_effect) : Prop :=
  c0 ≤ r.count ∧ (r.count = c0 →
    r.initiating_locality_id = init ∧
    match r.pc, r.token with
    | phase.sending, token_place.absent => ¬ black_sent E
    | phase.waiting, token_place.in_flight p =>
      p.initiating_locality_id = init ∧ (black_sent E → p.dijkstra_token = true)
    | phase.waiting, token_place.held p =>
      p.initiating_locality_id = init ∧ (black_sent E → p.dijkstra_token = true)
    | phase.notified, token_place.absent => black_sent E → r.color init = true
    | _, _ => False)

/-- Two localities, both white; locality 1 is made black while it holds the token. -/
def blackened_holder : List action :=
  [action.poll 1 0, action.deliver, action.dijkstra_make_black 1, action.poll 1 0,
    action.deliver]

/-- The action is a call of `dijkstra_make_black`. -/
def action.is_make_black : action → Bool
  | action.dijkstra_make_black _ => true
  | _ => false

/-- Some locality other than the initiator 0 is black in the colouring `color0`. -/
def black_besides_initiator (n : Nat) (color0 : Nat → Bool) : Prop :=
  ∃ k, 1 ≤ k ∧ k < n ∧ color0 k = true

/-- What holds of the ring of `n` localities with initiator 0 that started in the
colouring `color0`, as long as `dijkstra_make_black` is not called: during the first
probe the localities the token has passed are white, the others have their first
colour, and the token is black exactly when it has passed a black locality; after the
first probe every locality is white, and the detection has returned unless some
locality besides the initiator was black at the start, in which case a second probe
runs with a white token and ends the detection. -/
def calm_inv (n : Nat) (color0 : Nat → Bool) (r : ring) : Prop :=
  r.initiating_locality_id = 0 ∧ r.num_localities = n ∧ r.target_id = n ∧
  match r.count with
  | 0 =>
    match r.pc, r.token with
    | phase.sending, token_place.absent =>
      r.color 0 = false ∧ ∀ k, 1 ≤ k → k < n → r.color k = color0 k
    | phase.waiting, token_place.in_flight p =>
      p.initiating_locality_id = 0 ∧ p.num_localities = n ∧ p.target_locality_id < n ∧
        r.color 0 = false ∧
        (∀ k, p.target_locality_id < k → k < n → r.color k = false) ∧
        (∀ k, 1 ≤ k → k ≤ p.target_locality_id → r.color k = color0 k) ∧
        (p.dijkstra_token = true ↔
          ∃ k, p.target_locality_id < k ∧ k < n ∧ color0 k = true)
    | phase.waiting, token_place.held p =>
      p.initiating_locality_id = 0 ∧ p.num_localities = n ∧ p.target_locality_id < n ∧
        0 < p.target_locality_id ∧ r.color 0 = false ∧
        (∀ k, p.target_locality_id < k → k < n → r.color k = false) ∧
        (∀ k, 1 ≤ k → k ≤ p.target_locality_id → r.color k = color0 k) ∧
        (p.dijkstra_token = true ↔
          ∃ k, p.target_locality_id < k ∧ k < n ∧ color0 k = true)
    | phase.notified, token_place.absent =>
      (∀ k, 1 ≤ k → k < n → r.color k = false) ∧
        (r.color 0 = true ↔ black_besides_initiator n color0)
    | _, _ => False
  | 1 =>
    (∀ k, k < n → r.color k = false) ∧
    match r.pc, r.token with
    | phase.finished, token_place.absent => ¬ black_besides_initiator n color0
    | phase.sending, token_place.absent => black_besides_initiator n color0
    | phase.waiting, token_place.in_flight p =>
      black_besides_initiator n color0 ∧ p.initiating_locality_id = 0 ∧
        p.num_localities = n ∧ p.target_locality_id < n ∧ p.dijkstra_token = false
    | phase.waiting, token_place.held p =>
      black_besides_initiator n color0 ∧ p.initiating_locality_id = 0 ∧
        p.num_localities = n ∧ p.target_locality_id < n ∧ 0 < p.target_locality_id ∧
        p.dijkstra_token = false
    | phase.notified, token_place.absent => black_besides_initiator n color0
    | _, _ => False
  | 2 =>
    (∀ k, k < n → r.color k = false) ∧ r.pc = phase.finished ∧
      r.token = token_place.absent ∧ black_besides_initiator n color0
  | _ => False

/-- The string `s` starts with `h`: the characters of `h` are the first ones of `s`,
compared as they are. -/
def starts_with (s h : String) : Bool :=
  h.data.isPrefixOf s.data

/-- A configuration with a help text and the help option `h`. -/
def ini_help (h : String) : configuration :=
  { entries := [("hpx.cmd_line_help", "usage"), ("hpx.cmd_line_help_option", h)],
    components := section_lookup.absent, plugins := section_lookup.absent }

/-- A configuration with an unknown command line, and an environment whose parser
leaves no unregistered option. -/
def ini_unknown : configuration :=
  { entries := [("hpx.unknown_cmd_line", "--foo")], components := section_lookup.absent,
    plugins := section_lookup.absent }

/-- The environment `plain_env` with a parser that recognises every option. -/
def all_known_env : load_env :=
  { plain_env with parse_commandline := fun _ _ _ _ => some ⟨[], []⟩ }

/-- The event is a call of `load_library`. -/
def load_event.is_load_library : load_event → Bool
  | load_event.load_library _ => true
  | _ => false

/-- The state with the events `E` put in front of its own. -/
def load_state.prepend (E : List load_event) (s : load_state) : load_state :=
  { s with events := E ++ s.events }

/-- The result with the events `E` put in front of its own. -/
def load_result.prepend (E : List load_event) (r : load_result) : load_result :=
  ⟨r.state.prepend E, r.outcome⟩

/-- The module handle that `load_plugin_dynamic` and `load_component_dynamic` work with
for the module `name`: the one stored in `modules_`, or a new one for the directory
`lib`. -/
def module_handle (env : load_env) (s : load_state) (name lib : String) : dll :=
  match s.modules_.lookup (env.HPX_MANGLE_STRING name) with
  | some d => d
  | none => ⟨lib, env.HPX_MANGLE_STRING name⟩

/-- The library of a module that is not in `modules_` cannot be loaded: both attempts
fail. -/
def library_fails (env : load_env) (s : load_state) (name lib : String) : Prop :=
  s.modules_.lookup (env.HPX_MANGLE_STRING name) = none ∧
    env.load_library (module_handle env s name lib) 0 = false ∧
    env.load_library (module_handle env s name lib) 1 = false

/-- The plugin section fails to load in the state `s`: it is marked static, or the
library of its module cannot be loaded, or the module is there and the factory, which
is asked for, throws. -/
def plugin_load_fails (env : load_env) (ini : configuration) (s : load_state)
    (sect : ini_section) : Prop :=
  sect.get_entry "static" "0" = "1" ∨
    (sect.get_entry "static" "0" ≠ "1" ∧ env.HPX_HAVE_STATIC_LINKING = false ∧
      (library_fails env s sect.component (sect.lib env) ∨
        (¬ library_fails env s sect.component (sect.lib env) ∧
          wants_factory ini.plugins sect.name = true ∧
          ∃ t, env.plugin_factory (module_handle env s sect.component (sect.lib env))
            sect.name sect.isenabled = created.raised t)))

/-- The event is a log entry of a failed load. -/
def load_event.is_failure_log (instance_name : String) (e : load_event) : Prop :=
  e = load_event.warning_loading_failed instance_name ∨
    e = load_event.warning_caught_exception instance_name

/-- The environment `plain_env` with a factory that throws `std::logic_error` for the
instance `p`. -/
def faulty_env : load_env :=
  { plain_env with
    plugin_factory := fun _ instance_name _ =>
      if instance_name = "p" then created.raised thrown.logic_error else created.ok () }

/-- A loader whose table `modules_` already holds the module `hpx_q`. -/
def loaded_q : load_state :=
  { load_state.empty with modules_ := [("hpx_q", ⟨"lib", "hpx_q"⟩)] }

/-- The events a load function adds hold no `load_library`. -/
def adds_no_load (s t : load_state) : Prop :=
  ∃ X : List load_event, t.events = s.events ++ X ∧ ∀ e ∈ X, e.is_load_library = false

/-- The two states have the same `startup_handled`, `options` and lists of functions. -/
def same_registrations (s t : load_state) : Prop :=
  t.startup_handled = s.startup_handled ∧ t.options = s.options ∧ t.hooks = s.hooks

/-- The environment `plain_env` with modules that give an option, a pre-startup
function and a shutdown function. -/
def hooked_env : load_env :=
  { plain_env with
    commandline_options := fun d => created.ok (answer.value ["--" ++ d.name]),
    startup_shutdown_object := fun _ =>
      created.ok ⟨answer.value (some (⟨1, none⟩, true)), answer.value (some (⟨2, none⟩, false))⟩ }

/-- The state without the enabled flags stored in `plugins_`. -/
def load_state.without_flags (s : load_state) : load_state :=
  { s with plugins_ := s.plugins_.map (fun p => (p.1, { p.2 with isenabled := true })) }

/-- The state with `plugins_` replaced. -/
def load_state.set_plugins (P : List (String × plugin_factory_type)) (s : load_state) :
    load_state :=
  { s with plugins_ := P }

/-- A component section `c` and a plugin section `p`, both disabled. -/
def ini_disabled : configuration :=
  { entries := [],
    components := section_lookup.found [⟨"c", [("enabled", "FALSE")]⟩],
    plugins := section_lookup.found [⟨"p", [("enabled", "no")]⟩] }

/-- The targets of `c` complete rounds of the token on `n` localities: `c` times the
list `n - 1, n - 2, ..., 0`. -/
def revolutions (n c : Nat) : List Nat := (List.replicate c (List.range n).reverse).flatten

/-- What holds at every point of `dijkstra_termination_detection` called on locality 0
with `n` localities, whatever the number `count` of probes completed: the parcels of
the completed probes went round the ring, those of the probe under way went to
`n - 1, n - 2, ...` down to where the token is, and every parcel went from its sender
`k` to `ring_target k n`. -/
def revolution_inv (n : Nat) (r : ring) (E : List ring_effect) : Prop :=
  r.initiating_locality_id = 0 ∧ r.num_localities = n ∧ r.target_id = n ∧
    (∀ kp ∈ sent_parcels E, kp.1 < n ∧ kp.2.target_locality_id = ring_target kp.1 n ∧
      kp.2.initiating_locality_id = 0 ∧ kp.2.num_localities = n) ∧
    match r.pc, r.token with
    | phase.sending, token_place.absent =>
      sent_targets E = revolutions n r.count ∧ received_by E = revolutions n r.count
    | phase.waiting, token_place.in_flight p =>
      p.initiating_locality_id = 0 ∧ p.num_localities = n ∧ p.target_locality_id < n ∧
        sent_targets E = revolutions n r.count ++ descending n p.target_locality_id ∧
        received_by E = revolutions n r.count ++ descending n (p.target_locality_id + 1)
    | phase.waiting, token_place.held p =>
      p.initiating_locality_id = 0 ∧ p.num_localities = n ∧ p.target_locality_id < n ∧
        0 < p.target_locality_id ∧
        sent_targets E = revolutions n r.count ++ descending n p.target_locality_id ∧
        received_by E = revolutions n r.count ++ descending n p.target_locality_id
    | phase.notified, token_place.absent =>
      sent_targets E = revolutions n r.count ++ descending n 0 ∧
        received_by E = revolutions n r.count ++ descending n 0
    | phase.finished, token_place.absent =>
      sent_targets E = revolutions n r.count ∧ received_by E = revolutions n r.count
    | _, _ => False

/-- A module as the registration block sees it: the handle of a library, or the name of
a component of the static tables. -/
inductive module_ref where
  | dynamic (d : dll)
  | static (component : String)

/-- The name under which the block records the module in `startup_handled`. -/
def module_ref.key : module_ref → String
  | module_ref.dynamic d => d.name
  | module_ref.static component => component

theorem stop_state_cases (env : stop_env) (timeout : Int) (respond_to : Option id_type)
    (remove : Bool) (s : runtime_support) :
    (stop env timeout respond_to remove s).state = s ∨
    (stop env timeout respond_to remove s).state = { s with stop_called_ := true } ∨
    (stop env timeout respond_to remove s).state =
      { s with stop_called_ := true, stop_done_ := true } := by
  unfold stop
  dsimp only
  generalize stop_drain timeout env.start_time env.drain = d
  generalize (if d.2.1 = true then stop_abort timeout env.abort_start_time env.abort
    else ([], (), true)) = a
  cases respond_to <;> dsimp only <;> split_ifs <;>
    first
    | exact Or.inl rfl
    | exact Or.inr (Or.inl rfl)
    | exact Or.inr (Or.inr rfl)

theorem shutdown_all_state_cases (env : shutdown_env) (timeout : Int) (s : runtime_support) :
    (shutdown_all env timeout s).state = s ∨
    (shutdown_all env timeout s).state = { s with shutdown_all_invoked_ := true } ∨
    (shutdown_all env timeout s).state =
      (stop env.stop timeout none false { s with shutdown_all_invoked_ := true }).state := by
  unfold shutdown_all
  split
  · exact Or.inl rfl
  · split
    · exact Or.inl rfl
    · split
      · exact Or.inr (Or.inl rfl)
      · split
        · exact Or.inr (Or.inl rfl)
        · exact Or.inr (Or.inr rfl)

theorem flags_kept_refl (s : runtime_support) : flags_kept s s :=
  ⟨id, id, id⟩

theorem flags_kept_trans {s t u : runtime_support} (h1 : flags_kept s t)
    (h2 : flags_kept t u) : flags_kept s u :=
  ⟨fun h => h2.1 (h1.1 h), fun h => h2.2.1 (h1.2.1 h), fun h => h2.2.2 (h1.2.2 h)⟩

theorem stop_flags_kept (env : stop_env) (timeout : Int) (respond_to : Option id_type)
    (remove : Bool) (s : runtime_support) :
    flags_kept s (stop env timeout respond_to remove s).state := by
  rcases stop_state_cases env timeout respond_to remove s with h | h | h <;>
    rw [h] <;> simp [flags_kept]

theorem shutdown_all_flags_kept (env : shutdown_env) (timeout : Int) (s : runtime_support) :
    flags_kept s (shutdown_all env timeout s).state := by
  rcases shutdown_all_state_cases env timeout s with h | h | h
  · rw [h]; exact flags_kept_refl s
  · rw [h]; simp [flags_kept]
  · rw [h]
    exact flags_kept_trans (by simp [flags_kept]) (stop_flags_kept _ _ _ _ _)

theorem notify_waiting_main_flags_kept (s : runtime_support) :
    flags_kept s (notify_waiting_main s).state := by
  unfold notify_waiting_main
  split <;> simp [flags_kept]

theorem stopped_flags_kept (s : runtime_support) : flags_kept s (stopped s).state := by
  unfold stopped
  split <;> simp [flags_kept]

theorem wait_flags_kept (s : runtime_support) : flags_kept s (wait s).state := by
  unfold wait
  split <;> exact flags_kept_refl s

theorem call_flags_kept (op : operation) (s : runtime_support) (h : op.is_run = false) :
    flags_kept s (op.call s).state := by
  cases op with
  | run => simp [operation.is_run] at h
  | wait => exact wait_flags_kept s
  | stop env timeout respond_to remove => exact stop_flags_kept env timeout respond_to remove s
  | notify_waiting_main => exact notify_waiting_main_flags_kept s
  | stopped => exact stopped_flags_kept s
  | shutdown_all env timeout => exact shutdown_all_flags_kept env timeout s

theorem execute_flags_kept (ops : List operation) :
    ∀ s : runtime_support, (∀ op ∈ ops, op.is_run = false) → flags_kept s (execute s ops) := by
  induction ops with
  | nil => intro s _; exact flags_kept_refl s
  | cons op ops ih =>
    intro s h
    have h1 := call_flags_kept op s (h op (List.mem_cons_self _ _))
    have h2 := ih (op.call s).state (fun o ho => h o (List.mem_cons_of_mem _ ho))
    exact flags_kept_trans h1 h2

/-- `stop_done ⇒ stop_called` survives every operation. -/
theorem call_done_called (op : operation) (s : runtime_support)
    (h : s.stop_done_ = true → s.stop_called_ = true) :
    (op.call s).state.stop_done_ = true → (op.call s).state.stop_called_ = true := by
  cases op with
  | run => simp [operation.call, run]
  | wait => simp only [operation.call, wait]; split <;> exact h
  | stop env timeout respond_to remove =>
    simp only [operation.call]
    rcases stop_state_cases env timeout respond_to remove s with e | e | e <;> rw [e]
    · exact h
    · simp
    · simp
  | notify_waiting_main =>
    simp only [operation.call, notify_waiting_main]; split
    · simp
    · exact h
  | stopped =>
    simp only [operation.call, stopped]; split
    · exact h
    · exact h
  | shutdown_all env timeout =>
    simp only [operation.call]
    rcases shutdown_all_state_cases env timeout s with e | e | e <;> rw [e]
    · exact h
    · exact h
    · rcases stop_state_cases env.stop timeout none false
        { s with shutdown_all_invoked_ := true } with e2 | e2 | e2 <;> rw [e2]
      · exact h
      · simp
      · simp

theorem execute_done_called (ops : List operation) :
    ∀ s : runtime_support, (s.stop_done_ = true → s.stop_called_ = true) →
      (execute s ops).stop_done_ = true → (execute s ops).stop_called_ = true := by
  induction ops with
  | nil => intro s h; exact h
  | cons op ops ih => intro s h; exact ih _ (call_done_called op s h)

/-- `terminated ⇒ stop_done` survives every operation but a `stopped` that comes
before `stop_done_` is set. -/
theorem call_terminated_done (op : operation) (s : runtime_support)
    (hop : op = operation.stopped → s.stop_done_ = true)
    (h : s.terminated_ = true → s.stop_done_ = true) :
    (op.call s).state.terminated_ = true → (op.call s).state.stop_done_ = true := by
  cases op with
  | run => simp [operation.call, run]
  | wait => simp only [operation.call, wait]; split <;> exact h
  | stop env timeout respond_to remove =>
    have k := (stop_flags_kept env timeout respond_to remove s).2.1
    simp only [operation.call]
    rcases stop_state_cases env timeout respond_to remove s with e | e | e <;> rw [e]
    · exact h
    · exact h
    · simp
  | notify_waiting_main =>
    simp only [operation.call, notify_waiting_main]; split
    · simp
    · exact h
  | stopped =>
    have := hop rfl
    simp only [operation.call, stopped]; split
    · intro _; exact this
    · exact h
  | shutdown_all env timeout =>
    simp only [operation.call]
    rcases shutdown_all_state_cases env timeout s with e | e | e <;> rw [e]
    · exact h
    · exact h
    · rcases stop_state_cases env.stop timeout none false
        { s with shutdown_all_invoked_ := true } with e2 | e2 | e2 <;> rw [e2]
      · exact h
      · exact h
      · simp

theorem stopped_follows_cons (op : operation) (ops : List operation) (s : runtime_support)
    (h : stopped_follows_stop_done s (op :: ops) = true) :
    (op = operation.stopped → s.stop_done_ = true) ∧
      stopped_follows_stop_done (op.call s).state ops = true := by
  cases op <;> simp_all [stopped_follows_stop_done, operation.call]

theorem execute_ordered (ops : List operation) :
    ∀ s : runtime_support, stop_flags_ordered s → stopped_follows_stop_done s ops = true →
      stop_flags_ordered (execute s ops) := by
  induction ops with
  | nil => intro s h _; exact h
  | cons op ops ih =>
    intro s h hf
    have hc := stopped_follows_cons op ops s hf
    exact ih _ ⟨call_terminated_done op s hc.1 h.1, call_done_called op s h.2⟩ hc.2

theorem yield_while_effects {ρ σ : Type} (Q : effect → Prop)
    (predicate : σ → ρ → List effect × σ × Bool)
    (h : ∀ c r, ∀ e ∈ (predicate c r).1, Q e) (rs : List ρ) :
    ∀ c, ∀ e ∈ (yield_while predicate c rs).1, Q e := by
  induction rs with
  | nil => intro c e he; simp [yield_while] at he
  | cons r rs ih =>
    intro c e he
    unfold yield_while at he
    split at he
    · rcases List.mem_append.mp he with k | k
      · exact h c r e k
      · exact ih _ e k
    · exact h c r e he

theorem stop_drain_effects (timeout start_time : Int) (rs : List reading) :
    ∀ e ∈ (stop_drain timeout start_time rs).1, e = effect.cleanup_terminated := by
  unfold stop_drain
  apply yield_while_effects
  intro c r e he
  split at he <;> simpa using he

theorem stop_abort_effects (timeout start_time : Int) (rs : List reading) :
    ∀ e ∈ (stop_abort timeout start_time rs).1,
      e = effect.abort_all_suspended_threads ∨ e = effect.cleanup_terminated := by
  unfold stop_abort
  apply yield_while_effects
  intro c r e he
  split at he <;> simpa using he

theorem stop_unregister_effects (remove : Bool) :
    ∀ e ∈ stop_unregister remove, e.of_stop = true := by
  cases remove <;> simp [stop_unregister, effect.of_stop]

theorem stop_effects_of_stop (env : stop_env) (timeout : Int) (respond_to : Option id_type)
    (remove : Bool) (s : runtime_support) :
    ∀ e ∈ (stop env timeout respond_to remove s).effects, e.of_stop = true := by
  have hd : ∀ e ∈ (stop_drain timeout env.start_time env.drain).1, e.of_stop = true := by
    intro e he
    rw [stop_drain_effects _ _ _ e he]; rfl
  have ha : ∀ e ∈ (stop_abort timeout env.abort_start_time env.abort).1,
      e.of_stop = true := by
    intro e he
    rcases stop_abort_effects _ _ _ e he with h | h <;> rw [h] <;> rfl
  have hu := stop_unregister_effects remove
  have hb : ∀ e ∈ (if (stop_drain timeout env.start_time env.drain).2.1 = true then
      stop_abort timeout env.abort_start_time env.abort else ([], (), true)).1,
      e.of_stop = true := by
    split
    · exact ha
    · simp
  unfold stop
  dsimp only
  generalize stop_drain timeout env.start_time env.drain = d at hd hb
  generalize (if d.2.1 = true then stop_abort timeout env.abort_start_time env.abort
    else ([], (), true)) = a at hb
  have h12 : ∀ e ∈ effect.cleanup_logging :: (d.1 ++ a.1), e.of_stop = true := by
    intro e he
    rcases List.mem_cons.mp he with h | h
    · rw [h]; rfl
    · rcases List.mem_append.mp h with h | h
      · exact hd e h
      · exact hb e h
  have h3 : ∀ e ∈ effect.cleanup_logging :: (d.1 ++ a.1 ++ stop_unregister remove),
      e.of_stop = true := by
    intro e he
    rcases List.mem_cons.mp he with h | h
    · rw [h]; rfl
    · rcases List.mem_append.mp h with h | h
      · exact h12 e (List.mem_cons_of_mem _ h)
      · exact hu e h
  have hfin : ∀ l : List effect, (∀ e ∈ l, e.of_stop = true) →
      ∀ e ∈ l ++ [effect.wait_condition_notify_all, effect.stop_condition_wait],
        e.of_stop = true := by
    intro l hl e he
    rcases List.mem_append.mp he with h | h
    · exact hl e h
    · simp at h
      rcases h with h | h <;> rw [h] <;> rfl
  have h0 : ∀ e ∈ effect.cleanup_logging :: d.1, e.of_stop = true := by
    intro e he
    rcases List.mem_cons.mp he with h | h
    · rw [h]; rfl
    · exact hd e h
  have hr : ∀ id, ∀ e ∈ effect.cleanup_logging :: (d.1 ++ a.1 ++ stop_unregister remove) ++
      [effect.set_event_sync id], e.of_stop = true := by
    intro id e he
    rcases List.mem_append.mp he with h | h
    · exact h3 e h
    · simp at h
      rw [h]; rfl
  cases respond_to <;> dsimp only <;> split_ifs <;>
    first
    | exact h0
    | exact h12
    | exact h3
    | exact hfin _ h3
    | exact hfin _ (hr _)
    | simp [effect.of_stop]

theorem shutdown_remote_eq (get_locality_id_from_id : id_type → Nat) (locality_id : Nat)
    (timeout : Int) (ids : List id_type) :
    shutdown_remote get_locality_id_from_id locality_id timeout ids =
      (ids.filter (fun id => decide (get_locality_id_from_id id ≠ locality_id))).map
        (fun id => effect.shutdown_async id timeout) := by
  induction ids with
  | nil => rfl
  | cons id ids ih =>
    unfold shutdown_remote
    rw [ih]
    by_cases h : locality_id = get_locality_id_from_id id
    · have h2 : get_locality_id_from_id id = locality_id := h.symm
      simp [h2]
    · have h2 : get_locality_id_from_id id ≠ locality_id := fun k => h k.symm
      simp [h, h2]

/-- A `shutdown_all` on the root that wins the exchange, with both termination
detections returning: the whole list of calls. -/
theorem shutdown_all_complete (env : shutdown_env) (timeout : Int) (s : runtime_support)
    (h_root : env.here = env.root_locality) (h_first : s.shutdown_all_invoked_ = false)
    (c1 c2 : Nat) (h1 : env.first_detection = some c1) (h2 : env.second_detection = some c2) :
    shutdown_all env timeout s =
      ⟨(stop env.stop timeout none false { s with shutdown_all_invoked_ := true }).state,
        shutdown_phases env.all_localities ++ remote_shutdowns env timeout ++
          [effect.wait_all (remote_shutdowns env timeout).length] ++
          (stop env.stop timeout none false { s with shutdown_all_invoked_ := true }).effects,
        (stop env.stop timeout none false { s with shutdown_all_invoked_ := true }).outcome⟩ := by
  unfold shutdown_all
  simp [h_root, h_first, h1, h2, shutdown_remote_eq, shutdown_phases, remote_shutdowns]

theorem stop_keeps_invoked (env : stop_env) (timeout : Int) (respond_to : Option id_type)
    (remove : Bool) (s : runtime_support) :
    (stop env timeout respond_to remove s).state.shutdown_all_invoked_ =
      s.shutdown_all_invoked_ := by
  rcases stop_state_cases env timeout respond_to remove s with e | e | e <;> rw [e]

theorem shutdown_all_again (env : shutdown_env) (timeout : Int) (s : runtime_support)
    (h_root : env.here = env.root_locality) (hs : s.shutdown_all_invoked_ = true) :
    shutdown_all env timeout s = ⟨s, [], outcome.returned⟩ := by
  unfold shutdown_all
  simp [h_root, hs]

theorem shutdown_all_sets_invoked (env : shutdown_env) (timeout : Int) (s : runtime_support)
    (h_root : env.here = env.root_locality) :
    (shutdown_all env timeout s).state.shutdown_all_invoked_ = true := by
  cases hs : s.shutdown_all_invoked_ with
  | true => rw [shutdown_all_again env timeout s h_root hs]; exact hs
  | false =>
    unfold shutdown_all
    cases env.first_detection <;> cases env.second_detection <;>
      simp [h_root, hs, stop_keeps_invoked]

theorem shutdown_all_invoked_kept (op : operation) (s : runtime_support)
    (h : op.is_run = false) (hs : s.shutdown_all_invoked_ = true) :
    (op.call s).state.shutdown_all_invoked_ = true := by
  cases op with
  | run => simp [operation.is_run] at h
  | wait => simp only [operation.call, wait]; split <;> exact hs
  | stop env timeout respond_to remove =>
    simp only [operation.call, stop_keeps_invoked]
    exact hs
  | notify_waiting_main =>
    simp only [operation.call, notify_waiting_main]; split <;> exact hs
  | stopped =>
    simp only [operation.call, stopped]; split <;> exact hs
  | shutdown_all env timeout =>
    simp only [operation.call]
    rcases shutdown_all_state_cases env timeout s with e | e | e <;> rw [e]
    · exact hs
    · rw [stop_keeps_invoked]

theorem shutdown_all_calls_idle (later : List (shutdown_env × Int)) :
    ∀ s : runtime_support, s.shutdown_all_invoked_ = true →
      (∀ c ∈ later, c.1.here = c.1.root_locality) →
      ∀ r ∈ shutdown_all_calls s later,
        r.effects = [] ∧ r.outcome = outcome.returned ∧ r.state = s := by
  induction later with
  | nil => intro s _ _ r hr; simp [shutdown_all_calls] at hr
  | cons c cs ih =>
    intro s hs hc r hr
    have e := shutdown_all_again c.1 c.2 s (hc c (List.mem_cons_self _ _)) hs
    unfold shutdown_all_calls at hr
    rw [e] at hr
    rcases List.mem_cons.mp hr with h | h
    · rw [h]; exact ⟨rfl, rfl, rfl⟩
    · exact ih s hs (fun c' hc' => hc c' (List.mem_cons_of_mem _ hc')) r h

/-! ## Stop flags (C1, C2) -/

/-- C1 as stated fails: `stopped` is one of the four operations, and called on the
freshly constructed server it sets `terminated_` while `stop_done_` is still false,
so `terminated ⇒ stop_done` does not hold in the state reached. -/
theorem stopped_first_breaks_flag_order :
    operation.is_stop_machine operation.stopped = true ∧
      (execute runtime_support.constructed [operation.stopped]).terminated_ = true ∧
      (execute runtime_support.constructed [operation.stopped]).stop_done_ = false ∧
      ¬ stop_flags_ordered (execute runtime_support.constructed [operation.stopped]) := by
  decide

/-- C1 amended: from the constructor state, after any sequence of operations
`stop_done ⇒ stop_called` holds, and `terminated ⇒ stop_done ⇒ stop_called` holds
after every sequence in which each `stopped` is called in a state that has
`stop_done_` set. -/
theorem stop_flags_order_reachable (ops : List operation) :
    ((execute runtime_support.constructed ops).stop_done_ = true →
      (execute runtime_support.constructed ops).stop_called_ = true) ∧
    (stopped_follows_stop_done runtime_support.constructed ops = true →
      stop_flags_ordered (execute runtime_support.constructed ops)) :=
  ⟨execute_done_called ops runtime_support.constructed (by decide),
    execute_ordered ops runtime_support.constructed (by decide)⟩

theorem stop_flags_order_reachable_witness :
    stopped_follows_stop_done runtime_support.constructed
        [operation.run, operation.stop quiet_stop_env 10 none false, operation.stopped] = true ∧
      stop_flags_ordered (execute runtime_support.constructed
        [operation.run, operation.stop quiet_stop_env 10 none false, operation.stopped]) ∧
      (execute runtime_support.constructed
        [operation.run, operation.stop quiet_stop_env 10 none false,
          operation.stopped]).terminated_ = true :=
  ⟨by decide,
    (stop_flags_order_reachable
      [operation.run, operation.stop quiet_stop_env 10 none false, operation.stopped]).2
      (by decide),
    by decide⟩

/-- C2: none of `stop`, `notify_waiting_main`, `stopped`, `wait` and `shutdown_all`
clears `stop_called_`, `stop_done_` or `terminated_`: each flag that is set before the
call is set after it, for every state and all arguments; hence the same holds for
every sequence of operations without a `run`. -/
theorem flags_never_cleared_within_run (s : runtime_support) :
    (∀ (env : stop_env) (timeout : Int) (respond_to : Option id_type) (remove : Bool),
      flags_kept s (stop env timeout respond_to remove s).state) ∧
    flags_kept s (notify_waiting_main s).state ∧
    flags_kept s (stopped s).state ∧
    flags_kept s (wait s).state ∧
    (∀ (env : shutdown_env) (timeout : Int), flags_kept s (shutdown_all env timeout s).state) ∧
    (∀ ops : List operation, (∀ op ∈ ops, op.is_run = false) →
      flags_kept s (execute s ops)) :=
  ⟨fun env timeout respond_to remove => stop_flags_kept env timeout respond_to remove s,
    notify_waiting_main_flags_kept s, stopped_flags_kept s, wait_flags_kept s,
    fun env timeout => shutdown_all_flags_kept env timeout s,
    fun ops h => execute_flags_kept ops s h⟩

theorem flags_never_cleared_within_run_witness :
    (∀ op ∈ [operation.stop quiet_stop_env 10 none false, operation.stopped,
        operation.notify_waiting_main, operation.wait], op.is_run = false) ∧
      flags_kept runtime_support.constructed
        (execute runtime_support.constructed
          [operation.stop quiet_stop_env 10 none false, operation.stopped,
            operation.notify_waiting_main, operation.wait]) ∧
      (execute runtime_support.constructed
          [operation.stop quiet_stop_env 10 none false, operation.stopped,
            operation.notify_waiting_main, operation.wait]).terminated_ = true :=
  ⟨by simp [operation.is_run],
    (flags_never_cleared_within_run runtime_support.constructed).2.2.2.2.2 _
      (by simp [operation.is_run]),
    by decide⟩

/-! ## The shutdown orchestrator (C3 to C6) -/

/-- C3: on the root locality a `shutdown_all` that finds `shutdown_all_invoked_` set
returns with no call made and the server unchanged; one that finds it clear leaves it
set and starts the sequence with `start_shutdown`; so in any sequence of calls on the
root that starts with the flag clear, every call after the first makes no call at all
and changes nothing. -/
theorem shutdown_all_at_most_once (env : shutdown_env) (timeout : Int) (s : runtime_support)
    (h_root : env.here = env.root_locality) :
    (s.shutdown_all_invoked_ = true →
      shutdown_all env timeout s = ⟨s, [], outcome.returned⟩) ∧
    (s.shutdown_all_invoked_ = false →
      (shutdown_all env timeout s).state.shutdown_all_invoked_ = true ∧
      ∃ tail, (shutdown_all env timeout s).effects =
        [effect.agas_start_shutdown, effect.stop_evaluating_counters, effect.tm_resume,
          effect.find_all_localities,
          effect.dijkstra_termination_detection env.all_localities] ++ tail) ∧
    (∀ later : List (shutdown_env × Int), (∀ c ∈ later, c.1.here = c.1.root_locality) →
      ∀ r ∈ shutdown_all_calls (shutdown_all env timeout s).state later,
        r.effects = [] ∧ r.outcome = outcome.returned ∧
          r.state = (shutdown_all env timeout s).state) := by
  refine ⟨shutdown_all_again env timeout s h_root, ?_, ?_⟩
  · intro hs
    refine ⟨shutdown_all_sets_invoked env timeout s h_root, ?_⟩
    unfold shutdown_all
    cases env.first_detection <;> cases env.second_detection <;> simp [h_root, hs]
  · intro later hl
    exact shutdown_all_calls_idle later _ (shutdown_all_sets_invoked env timeout s h_root) hl

theorem shutdown_all_at_most_once_witness :
    root_env.here = root_env.root_locality ∧
      (shutdown_all root_env 10 runtime_support.constructed).effects ≠ [] ∧
      (shutdown_all_calls (shutdown_all root_env 10 runtime_support.constructed).state
        [(root_env, 10), (root_env, 5)]).map (fun r => r.effects) = [[], []] ∧
      ∀ r ∈ shutdown_all_calls (shutdown_all root_env 10 runtime_support.constructed).state
          [(root_env, 10), (root_env, 5)],
        r.effects = [] ∧ r.outcome = outcome.returned ∧
          r.state = (shutdown_all root_env 10 runtime_support.constructed).state :=
  ⟨rfl, by decide, by decide,
    (shutdown_all_at_most_once root_env 10 runtime_support.constructed rfl).2.2
      [(root_env, 10), (root_env, 5)] (by decide)⟩

/-- C4: off the root, `shutdown_all` throws `invalid_status`, makes no call and leaves
the server as it was, `shutdown_all_invoked_` included; a later `shutdown_all` on the
root, on a server whose flag is clear, then runs the whole sequence: the phases, the
remote shutdowns, the join and the local `stop`. -/
theorem shutdown_all_off_root_rejected (env : shutdown_env) (timeout : Int)
    (s : runtime_support) (h_off : env.here ≠ env.root_locality) :
    shutdown_all env timeout s = ⟨s, [], outcome.thrown_invalid_status⟩ ∧
    (shutdown_all env timeout s).state.shutdown_all_invoked_ = s.shutdown_all_invoked_ ∧
    (∀ (root : shutdown_env) (timeout2 : Int) (c1 c2 : Nat),
      root.here = root.root_locality → root.first_detection = some c1 →
      root.second_detection = some c2 → s.shutdown_all_invoked_ = false →
      (shutdown_all root timeout2 (shutdown_all env timeout s).state).effects =
        shutdown_phases root.all_localities ++ remote_shutdowns root timeout2 ++
          [effect.wait_all (remote_shutdowns root timeout2).length] ++
          (stop root.stop timeout2 none false
            { s with shutdown_all_invoked_ := true }).effects) := by
  have e : shutdown_all env timeout s = ⟨s, [], outcome.thrown_invalid_status⟩ := by
    unfold shutdown_all
    simp [h_off]
  refine ⟨e, by rw [e], ?_⟩
  intro root timeout2 c1 c2 hr h1 h2 hs
  rw [e, shutdown_all_complete root timeout2 s hr hs c1 c2 h1 h2]

theorem shutdown_all_off_root_rejected_witness :
    off_root_env.here ≠ off_root_env.root_locality ∧
      shutdown_all off_root_env 10 runtime_support.constructed =
        ⟨runtime_support.constructed, [], outcome.thrown_invalid_status⟩ ∧
      (shutdown_all root_env 10
        (shutdown_all off_root_env 10 runtime_support.constructed).state).outcome =
          outcome.suspended ∧
      (shutdown_all root_env 10
        (shutdown_all off_root_env 10 runtime_support.constructed).state).state.stop_done_
          = true :=
  ⟨by decide,
    (shutdown_all_off_root_rejected off_root_env 10 runtime_support.constructed
      (by decide)).1,
    by decide, by decide⟩

theorem remote_shutdowns_mem (env : shutdown_env) (timeout : Int) (e : effect)
    (h : e ∈ remote_shutdowns env timeout) :
    ∃ id, id ∈ env.all_localities ∧ env.get_locality_id_from_id id ≠ env.locality_id ∧
      e = effect.shutdown_async id timeout := by
  unfold remote_shutdowns at h
  rcases List.mem_map.mp h with ⟨id, hid, rfl⟩
  rw [List.mem_filter] at hid
  exact ⟨id, List.mem_reverse.mp hid.1, by simpa using hid.2, rfl⟩

/-- C5: a winning `shutdown_all` on the root calls, in this order, AGAS
`start_shutdown`, `stop_evaluating_counters`, the thread manager's `resume`,
`find_all_localities`, the first termination detection, the broadcast of
`call_shutdown_functions(true)`, the broadcast of `call_shutdown_functions(false)` and
the second termination detection; nothing it does afterwards is a termination
detection or a hook broadcast, so there are exactly two rounds with both broadcasts
between them.  A detection that does not return leaves the sequence cut off right
after it. -/
theorem shutdown_all_phase_order (env : shutdown_env) (timeout : Int) (s : runtime_support)
    (h_root : env.here = env.root_locality) (h_first : s.shutdown_all_invoked_ = false) :
    (env.first_detection = none →
      (shutdown_all env timeout s).effects =
        [effect.agas_start_shutdown, effect.stop_evaluating_counters, effect.tm_resume,
          effect.find_all_localities,
          effect.dijkstra_termination_detection env.all_localities]) ∧
    (∀ c1, env.first_detection = some c1 → env.second_detection = none →
      (shutdown_all env timeout s).effects =
        [effect.agas_start_shutdown, effect.stop_evaluating_counters, effect.tm_resume,
          effect.find_all_localities,
          effect.dijkstra_termination_detection env.all_localities,
          effect.invoke_shutdown_functions env.all_localities true,
          effect.invoke_shutdown_functions env.all_localities false,
          effect.dijkstra_termination_detection env.all_localities]) ∧
    (∀ c1 c2, env.first_detection = some c1 → env.second_detection = some c2 →
      ∃ tail, (shutdown_all env timeout s).effects =
        [effect.agas_start_shutdown, effect.stop_evaluating_counters, effect.tm_resume,
          effect.find_all_localities,
          effect.dijkstra_termination_detection env.all_localities,
          effect.invoke_shutdown_functions env.all_localities true,
          effect.invoke_shutdown_functions env.all_localities false,
          effect.dijkstra_termination_detection env.all_localities] ++ tail ∧
        ∀ e ∈ tail, (∀ ids, e ≠ effect.dijkstra_termination_detection ids) ∧
          (∀ ids pre_shutdown, e ≠ effect.invoke_shutdown_functions ids pre_shutdown)) := by
  refine ⟨?_, ?_, ?_⟩
  · intro h1
    unfold shutdown_all
    simp [h_root, h_first, h1]
  · intro c1 h1 h2
    unfold shutdown_all
    simp [h_root, h_first, h1, h2]
  · intro c1 c2 h1 h2
    refine ⟨remote_shutdowns env timeout ++
      [effect.wait_all (remote_shutdowns env timeout).length] ++
      (stop env.stop timeout none false { s with shutdown_all_invoked_ := true }).effects,
      ?_, ?_⟩
    · rw [shutdown_all_complete env timeout s h_root h_first c1 c2 h1 h2]
      simp [shutdown_phases]
    · intro e he
      rcases List.mem_append.mp he with h | h
      · rcases List.mem_append.mp h with h | h
        · rcases remote_shutdowns_mem env timeout e h with ⟨id, _, _, rfl⟩
          exact ⟨fun _ k => (by cases k), fun _ _ k => (by cases k)⟩
        · simp at h
          subst h
          exact ⟨fun _ k => (by cases k), fun _ _ k => (by cases k)⟩
      · have k := stop_effects_of_stop _ _ _ _ _ e h
        constructor
        · intro ids hk; subst hk; simp [effect.of_stop] at k
        · intro ids p hk; subst hk; simp [effect.of_stop] at k

theorem shutdown_all_phase_order_witness :
    root_env.here = root_env.root_locality ∧
      runtime_support.constructed.shutdown_all_invoked_ = false ∧
      ((shutdown_all root_env 10 runtime_support.constructed).effects.take 8 =
        [effect.agas_start_shutdown, effect.stop_evaluating_counters, effect.tm_resume,
          effect.find_all_localities, effect.dijkstra_termination_detection [0, 1, 2],
          effect.invoke_shutdown_functions [0, 1, 2] true,
          effect.invoke_shutdown_functions [0, 1, 2] false,
          effect.dijkstra_termination_detection [0, 1, 2]]) ∧
      ∃ tail, (shutdown_all root_env 10 runtime_support.constructed).effects =
        [effect.agas_start_shutdown, effect.stop_evaluating_counters, effect.tm_resume,
          effect.find_all_localities,
          effect.dijkstra_termination_detection root_env.all_localities,
          effect.invoke_shutdown_functions root_env.all_localities true,
          effect.invoke_shutdown_functions root_env.all_localities false,
          effect.dijkstra_termination_detection root_env.all_localities] ++ tail ∧
        ∀ e ∈ tail, (∀ ids, e ≠ effect.dijkstra_termination_detection ids) ∧
          (∀ ids pre_shutdown, e ≠ effect.invoke_shutdown_functions ids pre_shutdown) :=
  ⟨rfl, rfl, by decide,
    (shutdown_all_phase_order root_env 10 runtime_support.constructed rfl rfl).2.2 1 1 rfl rfl⟩

/-- C6: after the second termination round a winning `shutdown_all` sends
`shutdown_async(id, timeout)` to the ids of the reversed locality list whose locality
id differs from the local one, in that order and once per list entry, then joins them
with `wait_all`, and then does exactly what `stop(timeout, invalid_id, false)` does,
which is its last action; no `shutdown_async` goes to an id of the local locality. -/
theorem shutdown_all_remote_then_local (env : shutdown_env) (timeout : Int)
    (s : runtime_support) (h_root : env.here = env.root_locality)
    (h_first : s.shutdown_all_invoked_ = false) (c1 c2 : Nat)
    (h1 : env.first_detection = some c1) (h2 : env.second_detection = some c2) :
    (shutdown_all env timeout s).effects =
      [effect.agas_start_shutdown, effect.stop_evaluating_counters, effect.tm_resume,
        effect.find_all_localities,
        effect.dijkstra_termination_detection env.all_localities,
        effect.invoke_shutdown_functions env.all_localities true,
        effect.invoke_shutdown_functions env.all_localities false,
        effect.dijkstra_termination_detection env.all_localities]
      ++ (env.all_localities.reverse.filter
            (fun id => decide (env.get_locality_id_from_id id ≠ env.locality_id))).map
          (fun id => effect.shutdown_async id timeout)
      ++ [effect.wait_all (env.all_localities.reverse.filter
            (fun id => decide (env.get_locality_id_from_id id ≠ env.locality_id))).length]
      ++ (stop env.stop timeout none false { s with shutdown_all_invoked_ := true }).effects ∧
    (shutdown_all env timeout s).state =
      (stop env.stop timeout none false { s with shutdown_all_invoked_ := true }).state ∧
    (shutdown_all env timeout s).outcome =
      (stop env.stop timeout none false { s with shutdown_all_invoked_ := true }).outcome ∧
    (∀ id t, effect.shutdown_async id t ∈ (shutdown_all env timeout s).effects →
      env.get_locality_id_from_id id ≠ env.locality_id) := by
  have e := shutdown_all_complete env timeout s h_root h_first c1 c2 h1 h2
  refine ⟨?_, by rw [e], by rw [e], ?_⟩
  · rw [e]
    simp [shutdown_phases, remote_shutdowns]
  · intro id t hm
    rw [e] at hm
    dsimp only at hm
    rcases List.mem_append.mp hm with h | h
    · rcases List.mem_append.mp h with h | h
      · rcases List.mem_append.mp h with h | h
        · simp [shutdown_phases] at h
        · rcases remote_shutdowns_mem env timeout _ h with ⟨id2, _, hne, heq⟩
          cases heq
          exact hne
      · simp at h
    · have k := stop_effects_of_stop _ _ _ _ _ _ h
      simp [effect.of_stop] at k

theorem shutdown_all_remote_then_local_witness :
    (shutdown_all root_env 10 runtime_support.constructed).effects =
      [effect.agas_start_shutdown, effect.stop_evaluating_counters, effect.tm_resume,
        effect.find_all_localities, effect.dijkstra_termination_detection [0, 1, 2],
        effect.invoke_shutdown_functions [0, 1, 2] true,
        effect.invoke_shutdown_functions [0, 1, 2] false,
        effect.dijkstra_termination_detection [0, 1, 2],
        effect.shutdown_async 2 10, effect.shutdown_async 1 10, effect.wait_all 2,
        effect.cleanup_logging, effect.cleanup_terminated, effect.get_local_locality,
        effect.unbind_local_runtime_support, effect.unbind_local_memory,
        effect.unregister_locality, effect.wait_condition_notify_all,
        effect.stop_condition_wait] ∧
      ∀ id t, effect.shutdown_async id t ∈
          (shutdown_all root_env 10 runtime_support.constructed).effects →
        root_env.get_locality_id_from_id id ≠ root_env.locality_id :=
  ⟨by decide,
    (shutdown_all_remote_then_local root_env 10 runtime_support.constructed rfl rfl 1 1
      rfl rfl).2.2.2⟩

/-! ## Lemmas on the token ring -/

theorem step_count_le (r : ring) (a : action) : r.count ≤ (step r a).1.count := by
  cases a with
  | dijkstra_make_black k => simp [step]
  | deliver =>
    simp only [step]
    split
    · split <;> simp
    · simp
  | poll tc bg =>
    simp only [step]
    split
    · split <;> simp
    · split <;> simp
    · split
      · split <;> simp
      · simp
  | wake =>
    simp only [step]
    split
    · split <;> simp
    · simp

theorem run_schedule_nil (r : ring) : run_schedule r [] = (r, []) := rfl

theorem run_schedule_finished (r : ring) (sched : List action) (h : r.pc = phase.finished) :
    run_schedule r sched = (r, []) := by
  cases sched with
  | nil => rfl
  | cons a rest => simp [run_schedule, h]

theorem run_schedule_cons (r : ring) (a : action) (rest : List action)
    (h : r.pc ≠ phase.finished) :
    run_schedule r (a :: rest) =
      ((run_schedule (step r a).1 rest).1,
        (step r a).2 ++ (run_schedule (step r a).1 rest).2) := by
  simp [run_schedule, h]

theorem run_count_le (sched : List action) :
    ∀ r : ring, r.count ≤ (run_schedule r sched).1.count := by
  induction sched with
  | nil => intro r; exact Nat.le_refl _
  | cons a rest ih =>
    intro r
    by_cases h : r.pc = phase.finished
    · rw [run_schedule_finished r _ h]
    · rw [run_schedule_cons r a rest h]
      exact Nat.le_trans (step_count_le r a) (ih _)

theorem run_schedule_append (s1 s2 : List action) :
    ∀ r : ring, run_schedule r (s1 ++ s2) =
      ((run_schedule (run_schedule r s1).1 s2).1,
        (run_schedule r s1).2 ++ (run_schedule (run_schedule r s1).1 s2).2) := by
  induction s1 with
  | nil => intro r; simp [run_schedule_nil]
  | cons a rest ih =>
    intro r
    by_cases h : r.pc = phase.finished
    · rw [run_schedule_finished r _ h, run_schedule_finished r _ h]
      simp [run_schedule_finished r _ h]
    · rw [List.cons_append, run_schedule_cons r a _ h, run_schedule_cons r a _ h, ih]
      simp

/-- An invariant of the steps holds along every schedule: it holds of the final
state, the calls made and the part of the schedule that was consumed, which is all
of it unless the detection has returned. -/
theorem run_schedule_invariant (P : ring → List ring_effect → List action → Prop)
    (hstep : ∀ r E S a, r.pc ≠ phase.finished → P r E S →
      P (step r a).1 (E ++ (step r a).2) (S ++ [a]))
    (sched : List action) :
    ∀ r E S, P r E S →
      ∃ S1 S2, sched = S1 ++ S2 ∧
        P (run_schedule r sched).1 (E ++ (run_schedule r sched).2) (S ++ S1) ∧
        (S2 = [] ∨ (run_schedule r sched).1.pc = phase.finished) := by
  induction sched with
  | nil =>
    intro r E S h
    exact ⟨[], [], rfl, by simpa [run_schedule_nil] using h, Or.inl rfl⟩
  | cons a rest ih =>
    intro r E S h
    by_cases hf : r.pc = phase.finished
    · refine ⟨[], a :: rest, rfl, ?_, Or.inr ?_⟩
      · simpa [run_schedule_finished r _ hf] using h
      · simpa [run_schedule_finished r _ hf] using hf
    · rw [run_schedule_cons r a rest hf]
      have h1 := hstep r E S a hf h
      rcases ih (step r a).1 (E ++ (step r a).2) (S ++ [a]) h1 with ⟨S1, S2, e, hP, hfin⟩
      refine ⟨a :: S1, S2, by simp [e], ?_, hfin⟩
      simpa [List.append_assoc] using hP

/-- An invariant of the steps that does not mention the schedule holds of the final
state and the calls made. -/
theorem run_effects_invariant (P : ring → List ring_effect → Prop)
    (hstep : ∀ r E a, r.pc ≠ phase.finished → P r E → P (step r a).1 (E ++ (step r a).2))
    (sched : List action) (r : ring) (E : List ring_effect) (h : P r E) :
    P (run_schedule r sched).1 (E ++ (run_schedule r sched).2) := by
  rcases run_schedule_invariant (fun r E _ => P r E)
    (fun r E _ a hf hP => hstep r E a hf hP) sched r E [] h with ⟨_, _, _, hP, _⟩
  exact hP

/-- The only step that turns a white or absent token into a black one is a passive
poll of a black forwarder. -/
theorem step_blackens (r : ring) (a : action) (hf : r.pc ≠ phase.finished)
    (h0 : token_black r = false) (h1 : token_black (step r a).1 = true) :
    ∃ tc bg k, a = action.poll tc bg ∧ still_active tc bg = false ∧
      forwarder r = some k ∧ r.color k = true := by
  rcases r with ⟨color, N, init, tid, count, pc, token⟩
  cases a with
  | dijkstra_make_black k =>
    simp [step, token_black] at h1 h0
    rw [h0] at h1
    exact absurd h1 (by simp)
  | deliver =>
    exfalso
    cases token <;> simp [step, token_black] at h0 h1 <;>
      (try split_ifs at h1) <;> simp_all
  | poll tc bg =>
    refine ⟨tc, bg, ?_⟩
    cases pc <;> cases token <;> cases hb : still_active tc bg <;>
      simp [step, token_black, forwarder, send_dijkstra_termination_token, hb] at h0 h1 hf ⊢ <;>
      simp_all
  | wake =>
    exfalso
    cases pc <;> cases token <;> simp [step, token_black] at h0 h1 <;>
      (try split_ifs at h1) <;> simp_all

theorem black_token_traced (sched : List action) :
    ∀ r : ring, token_black r = false →
      (run_schedule r sched).1.count = r.count →
      token_black (run_schedule r sched).1 = true →
      ∃ before tc bg after k, sched = before ++ action.poll tc bg :: after ∧
        still_active tc bg = false ∧
        forwarder (run_schedule r before).1 = some k ∧
        (run_schedule r before).1.color k = true := by
  induction sched with
  | nil =>
    intro r h0 _ h1
    rw [run_schedule_nil] at h1
    rw [h0] at h1
    exact absurd h1 (by simp)
  | cons a rest ih =>
    intro r h0 hc h1
    by_cases hf : r.pc = phase.finished
    · rw [run_schedule_finished r _ hf] at h1
      rw [h0] at h1
      exact absurd h1 (by simp)
    · rw [run_schedule_cons r a rest hf] at h1 hc
      dsimp only at h1 hc
      have c1 := step_count_le r a
      have c2 := run_count_le rest (step r a).1
      cases hb : token_black (step r a).1 with
      | true =>
        rcases step_blackens r a hf h0 hb with ⟨tc, bg, k, ha, hp, hfw, hk⟩
        exact ⟨[], tc, bg, rest, k, by simp [ha], hp, by simpa [run_schedule_nil] using hfw,
          by simpa [run_schedule_nil] using hk⟩
      | false =>
        rcases ih (step r a).1 hb (by omega) h1 with ⟨before, tc, bg, after, k, e, hp, hfw, hk⟩
        refine ⟨a :: before, tc, bg, after, k, by simp [e], hp, ?_, ?_⟩
        · rw [run_schedule_cons r a before hf]; exact hfw
        · rw [run_schedule_cons r a before hf]; exact hk

theorem sent_targets_append (E F : List ring_effect) :
    sent_targets (E ++ F) = sent_targets E ++ sent_targets F := by
  induction E with
  | nil => rfl
  | cons e E ih => cases e <;> simp [sent_targets, ih]

theorem received_by_append (E F : List ring_effect) :
    received_by (E ++ F) = received_by E ++ received_by F := by
  induction E with
  | nil => rfl
  | cons e E ih => cases e <;> simp [received_by, ih]

theorem descending_self (n : Nat) : descending n n = [] := by
  simp [descending]

theorem descending_step (n t : Nat) (h : t < n) :
    descending n t = descending n (t + 1) ++ [t] := by
  unfold descending
  have e : n - t = (n - (t + 1)) + 1 := by omega
  rw [e, List.range'_succ, List.reverse_cons]

theorem descending_zero (n : Nat) : descending n 0 = (List.range n).reverse := by
  simp [descending, List.range_eq_range']

theorem uint32_pred_pos (x : Nat) (h0 : 0 < x) (h : x < 4294967296) : uint32_pred x = x - 1 := by
  unfold uint32_pred
  omega

theorem ring_target_pos (k n : Nat) (h0 : 0 < k) (h : k < 4294967296) :
    ring_target k n = k - 1 := by
  unfold ring_target
  have : ¬ (0 = k) := by omega
  simp only [this, if_false]
  exact uint32_pred_pos k h0 h

theorem ring_target_zero (n : Nat) (h0 : 0 < n) (h : n < 4294967296) :
    ring_target 0 n = n - 1 := by
  unfold ring_target
  simp only [if_true]
  exact uint32_pred_pos n h0 h

theorem route_step (n : Nat) (hn : 2 ≤ n) (h32 : n < 4294967296) (r : ring)
    (E : List ring_effect) (a : action) (h : route_inv n r E) :
    route_inv n (step r a).1 (E ++ (step r a).2) := by
  intro hc
  have hc0 : r.count = 0 := by
    have := step_count_le r a
    omega
  have h' := h hc0
  rcases r with ⟨color, N, init, tid, count, pc, token⟩
  dsimp only at h' hc0
  rcases h' with ⟨hi, hN, htid, hm⟩
  subst hi hN hc0
  have htid' := htid.symm
  subst htid'
  cases a with
  | dijkstra_make_black k =>
    refine ⟨rfl, rfl, rfl, ?_⟩
    simpa [step] using hm
  | deliver =>
    cases pc <;> cases token <;> simp only [] at hm
    · exact ⟨rfl, rfl, rfl, by simpa [step] using hm⟩
    · rename_i p
      rcases hm with ⟨hpi, hpn, hpt, hs, hr⟩
      by_cases h0 : p.target_locality_id = 0
      · have e : p.initiating_locality_id = p.target_locality_id := by rw [hpi, h0]
        have hst : step ⟨color, N, 0, N, 0, phase.waiting, token_place.in_flight p⟩
            action.deliver =
            (⟨if p.dijkstra_token then Function.update color p.target_locality_id true
                else color, N, 0, N, 0, phase.notified, token_place.absent⟩,
              [ring_effect.agas_start_shutdown p.target_locality_id,
                ring_effect.flush_parcels p.target_locality_id,
                ring_effect.notify_one p.target_locality_id]) := by
          simp [step, e]
        rw [hst]
        refine ⟨rfl, rfl, rfl, ?_⟩
        dsimp only
        simp only [sent_targets_append, received_by_append, sent_targets, received_by,
          List.append_nil, hs, hr, h0]
        exact ⟨trivial, (descending_step _ 0 (by omega)).symm⟩
      · have e : ¬ (p.initiating_locality_id = p.target_locality_id) := by
          rw [hpi]; exact fun k => h0 k.symm
        have hst : step ⟨color, N, 0, N, 0, phase.waiting, token_place.in_flight p⟩
            action.deliver =
            (⟨color, N, 0, N, 0, phase.waiting, token_place.held p⟩,
              [ring_effect.agas_start_shutdown p.target_locality_id,
                ring_effect.flush_parcels p.target_locality_id]) := by
          simp [step, e]
        rw [hst]
        refine ⟨rfl, rfl, rfl, hpi, hpn, hpt, by omega, ?_⟩
        simp only [sent_targets_append, received_by_append, sent_targets, received_by,
          List.append_nil, hs, hr]
        exact ⟨trivial, (descending_step _ _ hpt).symm⟩
    · exact ⟨rfl, rfl, rfl, by simpa [step] using hm⟩
    · exact ⟨rfl, rfl, rfl, by simpa [step] using hm⟩
  | poll tc bg =>
    cases pc <;> cases token <;> simp only [] at hm
    · -- sending
      cases hb : still_active tc bg
      · have e : uint32_pred N = N - 1 := uint32_pred_pos N (by omega) h32
        have hst : step ⟨color, N, 0, N, 0, phase.sending, token_place.absent⟩
            (action.poll tc bg) =
            (⟨Function.update color 0 false, N, 0, N, 0, phase.waiting,
                token_place.in_flight ⟨N - 1, 0, N, if color 0 then color 0 else false⟩⟩,
              [ring_effect.cleanup_terminated 0,
                ring_effect.apply_dijkstra_termination 0
                  ⟨N - 1, 0, N, if color 0 then color 0 else false⟩]) := by
          simp [step, hb, send_dijkstra_termination_token, e]
        rw [hst]
        refine ⟨rfl, rfl, rfl, rfl, rfl, ?_⟩
        simp only [sent_targets_append, received_by_append, sent_targets, received_by,
          List.append_nil, hm.1, hm.2, List.nil_append]
        refine ⟨by omega, ?_, ?_⟩
        · rw [descending_step N (N - 1) (by omega)]
          have : N - 1 + 1 = N := by omega
          rw [this, descending_self]; rfl
        · have : N - 1 + 1 = N := by omega
          rw [this, descending_self]
      · have hst : step ⟨color, N, 0, N, 0, phase.sending, token_place.absent⟩
            (action.poll tc bg) =
            (⟨color, N, 0, N, 0, phase.sending, token_place.absent⟩,
              [ring_effect.cleanup_terminated 0]) := by
          simp [step, hb]
        rw [hst]
        refine ⟨rfl, rfl, rfl, ?_⟩
        simpa [sent_targets_append, received_by_append, sent_targets, received_by] using hm
    · -- waiting, in flight
      exact ⟨rfl, rfl, rfl, by simpa [step] using hm⟩
    · -- waiting, held
      rename_i p
      rcases hm with ⟨hpi, hpn, hpt, hpos, hs, hr⟩
      cases hb : still_active tc bg
      · have e : ring_target p.target_locality_id p.num_localities = p.target_locality_id - 1 :=
          ring_target_pos _ _ hpos (by omega)
        have hst : step ⟨color, N, 0, N, 0, phase.waiting, token_place.held p⟩
            (action.poll tc bg) =
            (⟨Function.update color p.target_locality_id false, N, 0, N, 0, phase.waiting,
                token_place.in_flight ⟨p.target_locality_id - 1, p.initiating_locality_id,
                  p.num_localities,
                  if color p.target_locality_id then color p.target_locality_id
                  else p.dijkstra_token⟩⟩,
              [ring_effect.cleanup_terminated p.target_locality_id,
                ring_effect.apply_dijkstra_termination p.target_locality_id
                  ⟨p.target_locality_id - 1, p.initiating_locality_id, p.num_localities,
                    if color p.target_locality_id then color p.target_locality_id
                    else p.dijkstra_token⟩]) := by
          simp [step, hb, send_dijkstra_termination_token, e]
        rw [hst]
        refine ⟨rfl, rfl, rfl, hpi, hpn, ?_⟩
        simp only [sent_targets_append, received_by_append, sent_targets, received_by,
          List.append_nil, hs, hr]
        refine ⟨by omega, ?_, ?_⟩
        · rw [descending_step N (p.target_locality_id - 1) (by omega)]
          have : p.target_locality_id - 1 + 1 = p.target_locality_id := by omega
          rw [this]
        · have : p.target_locality_id - 1 + 1 = p.target_locality_id := by omega
          rw [this]
      · have hst : step ⟨color, N, 0, N, 0, phase.waiting, token_place.held p⟩
            (action.poll tc bg) =
            (⟨color, N, 0, N, 0, phase.waiting, token_place.held p⟩,
              [ring_effect.cleanup_terminated p.target_locality_id]) := by
          simp [step, hb]
        rw [hst]
        refine ⟨rfl, rfl, rfl, hpi, hpn, hpt, hpos, ?_⟩
        simpa [sent_targets_append, received_by_append, sent_targets, received_by] using
          And.intro hs hr
    · -- notified
      exact ⟨rfl, rfl, rfl, by simpa [step] using hm⟩
  | wake =>
    cases pc <;> cases token <;> simp only [] at hm
    · exact ⟨rfl, rfl, rfl, by simpa [step] using hm⟩
    · exact ⟨rfl, rfl, rfl, by simpa [step] using hm⟩
    · exact ⟨rfl, rfl, rfl, by simpa [step] using hm⟩
    · exfalso
      revert hc
      simp only [step]
      split <;> simp

theorem still_active_one_zero : still_active 1 0 = false := by decide

theorem relay (n : Nat) (h32 : n < 4294967296) (t : Nat) :
    ∀ (r : ring) (b : Bool), r.pc = phase.waiting →
      r.token = token_place.in_flight ⟨t, 0, n, b⟩ → t < n →
      (run_schedule r (List.replicate t [action.deliver, action.poll 1 0]).flatten).1.pc
          = phase.waiting ∧
      (run_schedule r (List.replicate t [action.deliver, action.poll 1 0]).flatten).1.count
          = r.count ∧
      (run_schedule r (List.replicate t [action.deliver, action.poll 1 0]).flatten).1.initiating_locality_id
          = r.initiating_locality_id ∧
      (run_schedule r (List.replicate t [action.deliver, action.poll 1 0]).flatten).1.num_localities
          = r.num_localities ∧
      (run_schedule r (List.replicate t [action.deliver, action.poll 1 0]).flatten).1.target_id
          = r.target_id ∧
      (∃ b2, (run_schedule r
          (List.replicate t [action.deliver, action.poll 1 0]).flatten).1.token
            = token_place.in_flight ⟨0, 0, n, b2⟩ ∧
          (b2 = true ↔ (b = true ∨ ∃ k, 1 ≤ k ∧ k ≤ t ∧ r.color k = true))) ∧
      (∀ k, 1 ≤ k → k ≤ t → (run_schedule r
          (List.replicate t [action.deliver, action.poll 1 0]).flatten).1.color k = false) ∧
      (∀ k, (k = 0 ∨ t < k) → (run_schedule r
          (List.replicate t [action.deliver, action.poll 1 0]).flatten).1.color k
            = r.color k) := by
  induction t with
  | zero =>
    intro r b hpc htok _
    rw [List.replicate_zero, List.flatten_nil, run_schedule_nil]
    refine ⟨hpc, rfl, rfl, rfl, rfl, ⟨b, htok, ?_⟩, ?_, fun _ _ => rfl⟩
    · constructor
      · exact fun h => Or.inl h
      · rintro (h | ⟨k, h1, h2, _⟩)
        · exact h
        · omega
    · intro k h1 h2; omega
  | succ t ih =>
    intro r b hpc htok ht
    rcases r with ⟨color, N, init, tid, count, pc, token⟩
    dsimp only at hpc htok
    subst hpc htok
    have e : ring_target (t + 1) n = t := by
      rw [ring_target_pos (t + 1) n (by omega) (by omega)]; rfl
    have hs : (List.replicate (t + 1) [action.deliver, action.poll 1 0]).flatten =
        action.deliver :: action.poll 1 0 ::
          (List.replicate t [action.deliver, action.poll 1 0]).flatten := by
      simp [List.replicate_succ]
    have h1 : step ⟨color, N, init, tid, count, phase.waiting,
        token_place.in_flight ⟨t + 1, 0, n, b⟩⟩ action.deliver =
        (⟨color, N, init, tid, count, phase.waiting, token_place.held ⟨t + 1, 0, n, b⟩⟩,
          [ring_effect.agas_start_shutdown (t + 1), ring_effect.flush_parcels (t + 1)]) := by
      simp [step]
    have h2 : step ⟨color, N, init, tid, count, phase.waiting,
        token_place.held ⟨t + 1, 0, n, b⟩⟩ (action.poll 1 0) =
        (⟨Function.update color (t + 1) false, N, init, tid, count, phase.waiting,
            token_place.in_flight ⟨t, 0, n, if color (t + 1) then color (t + 1) else b⟩⟩,
          [ring_effect.cleanup_terminated (t + 1),
            ring_effect.apply_dijkstra_termination (t + 1)
              ⟨t, 0, n, if color (t + 1) then color (t + 1) else b⟩]) := by
      simp [step, still_active_one_zero, send_dijkstra_termination_token, e]
    rw [hs, run_schedule_cons _ _ _ (by simp), h1]
    dsimp only
    rw [run_schedule_cons _ _ _ (by simp), h2]
    dsimp only
    have IH := ih ⟨Function.update color (t + 1) false, N, init, tid, count, phase.waiting,
      token_place.in_flight ⟨t, 0, n, if color (t + 1) then color (t + 1) else b⟩⟩
      (if color (t + 1) then color (t + 1) else b) rfl rfl (by omega)
    rcases IH with ⟨a1, a2, a3, a4, a5, ⟨b2, hb2, hb2'⟩, a7, a8⟩
    refine ⟨a1, a2, a3, a4, a5, ⟨b2, hb2, ?_⟩, ?_, ?_⟩
    · rw [hb2']
      dsimp only
      constructor
      · rintro (h | ⟨k, k1, k2, hk⟩)
        · by_cases hc : color (t + 1) = true
          · exact Or.inr ⟨t + 1, by omega, by omega, hc⟩
          · simp [hc] at h
            exact Or.inl h
        · have : k ≠ t + 1 := by omega
          rw [Function.update_noteq this] at hk
          exact Or.inr ⟨k, k1, by omega, hk⟩
      · rintro (h | ⟨k, k1, k2, hk⟩)
        · left
          by_cases hc : color (t + 1) = true
          · simp [hc]
          · simp [hc, h]
        · by_cases hkt : k = t + 1
          · subst hkt
            left
            simp [hk]
          · right
            refine ⟨k, k1, by omega, ?_⟩
            rw [Function.update_noteq hkt]
            exact hk
    · intro k k1 k2
      by_cases hkt : k = t + 1
      · subst hkt
        rw [a8 (t + 1) (Or.inr (by omega))]
        simp
      · exact a7 k k1 (by omega)
    · intro k hk
      have : k ≠ t + 1 := by omega
      rw [a8 k (by omega)]
      dsimp only
      rw [Function.update_noteq this]

theorem quiet_round_run (n : Nat) (hn : 2 ≤ n) (h32 : n < 4294967296) (r : ring)
    (hpc : r.pc = phase.sending) (htok : r.token = token_place.absent)
    (hi : r.initiating_locality_id = 0) (hN : r.num_localities = n) (ht : r.target_id = n)
    (r' : ring) (hr' : r' = (run_schedule r (quiet_round n)).1) :
    r'.pc = phase.notified ∧ r'.count = r.count ∧ r'.token = token_place.absent ∧
      r'.initiating_locality_id = 0 ∧ r'.num_localities = n ∧ r'.target_id = n ∧
      (∀ k, 1 ≤ k → k < n → r'.color k = false) ∧
      (r'.color 0 = true ↔ ∃ k, k < n ∧ r.color k = true) ∧
      (∀ k, n ≤ k → r'.color k = r.color k) := by
  rcases r with ⟨color, N, init, tid, count, pc, token⟩
  dsimp only at hpc htok hi hN ht
  subst hpc htok hi hN
  have ht' := ht.symm
  subst ht'
  have e : uint32_pred N = N - 1 := uint32_pred_pos N (by omega) h32
  have h1 : step ⟨color, N, 0, N, count, phase.sending, token_place.absent⟩
      (action.poll 1 0) =
      (⟨Function.update color 0 false, N, 0, N, count, phase.waiting,
          token_place.in_flight ⟨N - 1, 0, N, if color 0 then color 0 else false⟩⟩,
        [ring_effect.cleanup_terminated 0,
          ring_effect.apply_dijkstra_termination 0
            ⟨N - 1, 0, N, if color 0 then color 0 else false⟩]) := by
    simp [step, still_active_one_zero, send_dijkstra_termination_token, e]
  have R := relay N h32 (N - 1)
    ⟨Function.update color 0 false, N, 0, N, count, phase.waiting,
      token_place.in_flight ⟨N - 1, 0, N, if color 0 then color 0 else false⟩⟩
    (if color 0 then color 0 else false) rfl rfl (by omega)
  rcases R with ⟨a1, a2, a3, a4, a5, ⟨b2, hb2, hb2'⟩, a7, a8⟩
  dsimp only at hb2'
  unfold quiet_round at hr'
  rw [run_schedule_cons _ _ _ (by simp), h1] at hr'
  dsimp only at hr'
  rw [run_schedule_append] at hr'
  dsimp only at hr'
  generalize hx : (run_schedule
    ⟨Function.update color 0 false, N, 0, N, count, phase.waiting,
      token_place.in_flight ⟨N - 1, 0, N, if color 0 then color 0 else false⟩⟩
    (List.replicate (N - 1) [action.deliver, action.poll 1 0]).flatten).1 = x at *
  rcases x with ⟨xc, xN, xi, xt, xcount, xpc, xtok⟩
  dsimp only at a1 a2 a3 a4 a5 hb2 a7 a8
  subst a1 hb2
  have h3 : step ⟨xc, xN, xi, xt, xcount, phase.waiting,
      token_place.in_flight ⟨0, 0, N, b2⟩⟩ action.deliver =
      (⟨if b2 then Function.update xc 0 true else xc, xN, xi, xt, xcount, phase.notified,
          token_place.absent⟩,
        [ring_effect.agas_start_shutdown 0, ring_effect.flush_parcels 0,
          ring_effect.notify_one 0]) := by
    simp [step]
  rw [run_schedule_cons _ _ _ (by simp), h3, run_schedule_nil] at hr'
  dsimp only at hr'
  subst hr'
  refine ⟨rfl, a2, rfl, a3, a4, a5, ?_, ?_, ?_⟩
  · intro k k1 k2
    dsimp only
    have hk0 : k ≠ 0 := by omega
    cases b2 with
    | true => simp only [if_true]; rw [Function.update_noteq hk0]; exact a7 k k1 (by omega)
    | false => exact a7 k k1 (by omega)
  · dsimp only
    have x0 : xc 0 = false := by rw [a8 0 (Or.inl rfl)]; simp
    constructor
    · intro h
      have hb : b2 = true := by
        cases b2 with
        | true => rfl
        | false => simp [x0] at h
      rcases hb2'.mp hb with h | ⟨k, k1, k2, hk⟩
      · refine ⟨0, by omega, ?_⟩
        by_cases hc : color 0 = true
        · exact hc
        · simp [hc] at h
      · have hk0 : k ≠ 0 := by omega
        rw [Function.update_noteq hk0] at hk
        exact ⟨k, by omega, hk⟩
    · rintro ⟨k, k1, hk⟩
      have hb : b2 = true := by
        apply hb2'.mpr
        by_cases hk0 : k = 0
        · subst hk0
          left; simp [hk]
        · right
          refine ⟨k, by omega, by omega, ?_⟩
          rw [Function.update_noteq hk0]; exact hk
      subst hb
      simp
  · intro k hk
    dsimp only
    have hk0 : k ≠ 0 := by omega
    have : xc k = color k := by
      rw [a8 k (Or.inr (by omega))]
      exact Function.update_noteq hk0 _ _
    cases b2 with
    | true => simp only [if_true]; rw [Function.update_noteq hk0]; exact this
    | false => exact this

theorem probes_initiated_append (init : Nat) (E F : List ring_effect) :
    probes_initiated init (E ++ F) = probes_initiated init E + probes_initiated init F := by
  induction E with
  | nil => simp [probes_initiated]
  | cons e E ih => cases e <;> simp [probes_initiated, ih, Nat.add_assoc]

theorem unsuccessful_probes_append (E F : List ring_effect) :
    unsuccessful_probes (E ++ F) = unsuccessful_probes E + unsuccessful_probes F := by
  induction E with
  | nil => simp [unsuccessful_probes]
  | cons e E ih =>
    cases e with
    | probe_completed b =>
      cases b
      · simp [unsuccessful_probes, ih]
      · simp [unsuccessful_probes, ih]
        omega
    | _ => simp [unsuccessful_probes, ih]

theorem sent_parcels_append (E F : List ring_effect) :
    sent_parcels (E ++ F) = sent_parcels E ++ sent_parcels F := by
  induction E with
  | nil => rfl
  | cons e E ih => cases e <;> simp [sent_parcels, ih]

theorem count_step (init : Nat) (r : ring) (E : List ring_effect) (a : action)
    (hf : r.pc ≠ phase.finished) (h : count_inv init r E) :
    count_inv init (step r a).1 (E ++ (step r a).2) := by
  rcases r with ⟨color, N, i, tid, count, pc, token⟩
  rcases h with ⟨hi, hm⟩
  dsimp only at hi hm hf
  subst hi
  cases a with
  | dijkstra_make_black k =>
    refine ⟨rfl, ?_⟩
    cases pc <;> cases token <;> simp only [] at hm <;>
      first
      | exact absurd rfl hf
      | simpa [step] using hm
  | deliver =>
    cases pc <;> cases token <;> simp only [] at hm <;>
      (try exact absurd rfl hf)
    · exact ⟨rfl, by simpa [step] using hm⟩
    · rename_i p
      rcases hm with ⟨hpi, h1, h2⟩
      by_cases h0 : i = p.target_locality_id
      · refine ⟨by simp [step, hpi, h0], ?_⟩
        simp [step, hpi, ← h0, probes_initiated_append, unsuccessful_probes_append,
          probes_initiated, unsuccessful_probes, h1, h2]
      · refine ⟨by simp [step, hpi, h0], ?_⟩
        simp [step, h0, probes_initiated_append, unsuccessful_probes_append,
          probes_initiated, unsuccessful_probes, h1, h2, hpi]
        exact fun hk => h0 hk.symm
    · exact ⟨rfl, by simpa [step] using hm⟩
    · exact ⟨rfl, by simpa [step] using hm⟩
  | poll tc bg =>
    cases pc <;> cases token <;> simp only [] at hm <;>
      (try exact absurd rfl hf)
    · cases hb : still_active tc bg
      · refine ⟨by simp [step, hb], ?_⟩
        simp [step, hb, send_dijkstra_termination_token, probes_initiated_append,
          unsuccessful_probes_append, probes_initiated, unsuccessful_probes, hm.1, hm.2]
      · refine ⟨by simp [step, hb], ?_⟩
        simp [step, hb, probes_initiated_append,
          unsuccessful_probes_append, probes_initiated, unsuccessful_probes, hm.1, hm.2]
    · exact ⟨rfl, by simpa [step] using hm⟩
    · rename_i p
      rcases hm with ⟨hpi, hpt, h1, h2⟩
      cases hb : still_active tc bg
      · refine ⟨by simp [step, hb], ?_⟩
        simp [step, hb, send_dijkstra_termination_token, probes_initiated_append,
          unsuccessful_probes_append, probes_initiated, unsuccessful_probes, h1, h2, hpi, hpt]
      · refine ⟨by simp [step, hb], ?_⟩
        simp [step, hb, probes_initiated_append,
          unsuccessful_probes_append, probes_initiated, unsuccessful_probes, h1, h2, hpi, hpt]
    · exact ⟨rfl, by simpa [step] using hm⟩
  | wake =>
    cases pc <;> cases token <;> simp only [] at hm <;>
      (try exact absurd rfl hf)
    · exact ⟨rfl, by simpa [step] using hm⟩
    · exact ⟨rfl, by simpa [step] using hm⟩
    · exact ⟨rfl, by simpa [step] using hm⟩
    · cases hc : color i
      · refine ⟨by simp [step, hc], ?_⟩
        simp [step, hc, probes_initiated_append,
          unsuccessful_probes_append, probes_initiated, unsuccessful_probes, hm.1, hm.2]
      · refine ⟨by simp [step, hc], ?_⟩
        simp [step, hc, probes_initiated_append,
          unsuccessful_probes_append, probes_initiated, unsuccessful_probes, hm.1, hm.2]

theorem black_returned_append (init : Nat) (E F : List ring_effect) :
    black_returned init (E ++ F) ↔ (black_returned init E ∨ black_returned init F) := by
  unfold black_returned
  constructor
  · rintro ⟨k, p, hm, h1, h2⟩
    rcases List.mem_append.mp hm with h | h
    · exact Or.inl ⟨k, p, h, h1, h2⟩
    · exact Or.inr ⟨k, p, h, h1, h2⟩
  · rintro (⟨k, p, hm, h1, h2⟩ | ⟨k, p, hm, h1, h2⟩)
    · exact ⟨k, p, List.mem_append_left _ hm, h1, h2⟩
    · exact ⟨k, p, List.mem_append_right _ hm, h1, h2⟩

theorem mem_snoc_make_black (i k : Nat) (S : List action) :
    action.dijkstra_make_black i ∈ S ++ [action.dijkstra_make_black k] ↔
      (action.dijkstra_make_black i ∈ S ∨ i = k) := by
  simp

theorem probe_step (init c0 : Nat) (r : ring) (E : List ring_effect) (S : List action)
    (a : action) (h : probe_inv init c0 r E S) :
    probe_inv init c0 (step r a).1 (E ++ (step r a).2) (S ++ [a]) := by
  have hle := step_count_le r a
  refine ⟨Nat.le_trans h.1 hle, ?_⟩
  intro hc
  have hc0 : r.count = c0 := by have := h.1; omega
  have h' := h.2 hc0
  rcases r with ⟨color, N, i, tid, count, pc, token⟩
  dsimp only at h' hc0
  rcases h' with ⟨hi, hm⟩
  subst hi
  cases a with
  | dijkstra_make_black k =>
    refine ⟨rfl, ?_⟩
    cases pc <;> cases token <;> simp only [] at hm ⊢
    · -- sending
      simp only [step, List.append_nil, mem_snoc_make_black]
      refine ⟨hm.1, ?_⟩
      by_cases hk : i = k
      · subst hk; simp
      · rw [Function.update_noteq hk]
        simp [hm.2, hk]
    · -- waiting, in flight
      rcases hm with ⟨hpi, huniq, hex, hcm, hmc⟩
      simp only [step, List.append_nil, mem_snoc_make_black]
      refine ⟨hpi, huniq, hex, ?_, ?_⟩
      · by_cases hk : i = k
        · intro _; exact Or.inr hk
        · rw [Function.update_noteq hk]; exact fun hcol => Or.inl (hcm hcol)
      · by_cases hk : i = k
        · subst hk; intro _; left; simp
        · rw [Function.update_noteq hk]
          rintro (hmb | hmb)
          · exact hmc hmb
          · exact absurd hmb hk
    · -- waiting, held
      rcases hm with ⟨hpi, hpt, hnone, hcm, hmc⟩
      simp only [step, List.append_nil, mem_snoc_make_black]
      refine ⟨hpi, hpt, hnone, ?_, ?_⟩
      · by_cases hk : i = k
        · intro _; exact Or.inr hk
        · rw [Function.update_noteq hk]; exact fun hcol => Or.inl (hcm hcol)
      · by_cases hk : i = k
        · subst hk; intro _; left; simp
        · rw [Function.update_noteq hk]
          rintro (hmb | hmb)
          · exact hmc hmb
          · exact absurd hmb hk
    · -- notified
      simp only [step, List.append_nil, mem_snoc_make_black]
      by_cases hk : i = k
      · subst hk; simp
      · rw [Function.update_noteq hk, hm]
        simp [hk]
  | deliver =>
    have hS : action.dijkstra_make_black i ∈ S ++ [action.deliver] ↔
        action.dijkstra_make_black i ∈ S := by simp
    cases pc <;> cases token <;> simp only [] at hm
    · exact ⟨rfl, by simpa [step] using hm⟩
    · rename_i p
      rcases hm with ⟨hpi, huniq, ⟨k0, hex⟩, hcm, hmc⟩
      by_cases h0 : i = p.target_locality_id
      · have hst : step ⟨color, N, i, tid, count, phase.waiting, token_place.in_flight p⟩
            action.deliver =
            (⟨if p.dijkstra_token then Function.update color p.target_locality_id true
                else color, N, i, tid, count, phase.notified, token_place.absent⟩,
              [ring_effect.agas_start_shutdown p.target_locality_id,
                ring_effect.flush_parcels p.target_locality_id,
                ring_effect.notify_one p.target_locality_id]) := by
          simp [step, hpi, h0]
        rw [hst]
        refine ⟨rfl, ?_⟩
        dsimp only
        rw [hS, black_returned_append]
        have hbr : black_returned i E ↔ p.dijkstra_token = true := by
          constructor
          · rintro ⟨k, q, hq, hq1, hq2⟩
            rw [← huniq k q hq hq1]; exact hq2
          · intro ht
            exact ⟨k0, p, hex, h0.symm, ht⟩
        have hno : ¬ black_returned i
            [ring_effect.agas_start_shutdown p.target_locality_id,
              ring_effect.flush_parcels p.target_locality_id,
              ring_effect.notify_one p.target_locality_id] := by
          rintro ⟨k, q, hq, _, _⟩
          simp at hq
        cases ht : p.dijkstra_token with
        | true =>
          simp only [if_true]
          rw [← h0]
          simp [hbr, ht]
        | false =>
          simp only [Bool.false_eq_true, if_false]
          constructor
          · exact fun hcol => Or.inr (hcm hcol)
          · rintro ((hb | hb) | hmb)
            · rw [hbr, ht] at hb; exact absurd hb (by simp)
            · exact absurd hb hno
            · rcases hmc hmb with hcol | hcol
              · exact hcol
              · rw [ht] at hcol; exact absurd hcol (by simp)
      · have hst : step ⟨color, N, i, tid, count, phase.waiting, token_place.in_flight p⟩
            action.deliver =
            (⟨color, N, i, tid, count, phase.waiting, token_place.held p⟩,
              [ring_effect.agas_start_shutdown p.target_locality_id,
                ring_effect.flush_parcels p.target_locality_id]) := by
          simp [step, hpi, h0]
        rw [hst]
        refine ⟨rfl, hpi, fun e => h0 e.symm, ?_, ?_, ?_⟩
        · intro k q hq hq1
          dsimp only at hq
          rcases List.mem_append.mp hq with hq | hq
          · have := huniq k q hq hq1
            subst this
            exact h0 hq1.symm
          · simp at hq
        · dsimp only; rw [hS]; exact hcm
        · dsimp only; rw [hS]; exact hmc
    · exact ⟨rfl, by simpa [step] using hm⟩
    · exact ⟨rfl, by simpa [step] using hm⟩
  | poll tc bg =>
    have hS : action.dijkstra_make_black i ∈ S ++ [action.poll tc bg] ↔
        action.dijkstra_make_black i ∈ S := by simp
    cases pc <;> cases token <;> simp only [] at hm
    · -- sending
      cases hb : still_active tc bg
      · have hst : step ⟨color, N, i, tid, count, phase.sending, token_place.absent⟩
            (action.poll tc bg) =
            (⟨Function.update color i false, N, i, tid, count, phase.waiting,
                token_place.in_flight
                  ⟨uint32_pred tid, i, N, if color i then color i else false⟩⟩,
              [ring_effect.cleanup_terminated i,
                ring_effect.apply_dijkstra_termination i
                  ⟨uint32_pred tid, i, N, if color i then color i else false⟩]) := by
          simp [step, hb, send_dijkstra_termination_token]
        rw [hst]
        refine ⟨rfl, rfl, ?_, ⟨i, by simp⟩, ?_, ?_⟩
        · intro k q hq _
          dsimp only at hq
          rcases List.mem_append.mp hq with hq | hq
          · exact absurd hq (hm.1 k q)
          · rcases List.mem_cons.mp hq with hq | hq
            · cases hq
            · rcases List.mem_cons.mp hq with hq | hq
              · cases hq; rfl
              · cases hq
        · dsimp only; simp
        · dsimp only
          rw [hS, ← hm.2]
          intro hcol
          right
          simp [hcol]
      · have hst : step ⟨color, N, i, tid, count, phase.sending, token_place.absent⟩
            (action.poll tc bg) =
            (⟨color, N, i, tid, count, phase.sending, token_place.absent⟩,
              [ring_effect.cleanup_terminated i]) := by
          simp [step, hb]
        rw [hst]
        refine ⟨rfl, ?_, ?_⟩
        · intro k q hq
          dsimp only at hq
          rcases List.mem_append.mp hq with hq | hq
          · exact absurd hq (hm.1 k q)
          · simp at hq
        · dsimp only; rw [hS]; exact hm.2
    · -- waiting, in flight
      refine ⟨rfl, ?_⟩
      simp only [step, List.append_nil, hS]
      exact hm
    · -- waiting, held
      rename_i p
      rcases hm with ⟨hpi, hpt, hnone, hcm, hmc⟩
      cases hb : still_active tc bg
      · have hst : step ⟨color, N, i, tid, count, phase.waiting, token_place.held p⟩
            (action.poll tc bg) =
            (⟨Function.update color p.target_locality_id false, N, i, tid, count,
                phase.waiting,
                token_place.in_flight
                  ⟨ring_target p.target_locality_id p.num_localities,
                    p.initiating_locality_id, p.num_localities,
                    if color p.target_locality_id then color p.target_locality_id
                    else p.dijkstra_token⟩⟩,
              [ring_effect.cleanup_terminated p.target_locality_id,
                ring_effect.apply_dijkstra_termination p.target_locality_id
                  ⟨ring_target p.target_locality_id p.num_localities,
                    p.initiating_locality_id, p.num_localities,
                    if color p.target_locality_id then color p.target_locality_id
                    else p.dijkstra_token⟩]) := by
          simp [step, hb, send_dijkstra_termination_token]
        rw [hst]
        refine ⟨rfl, hpi, ?_, ⟨p.target_locality_id, by simp⟩, ?_, ?_⟩
        · intro k q hq hq1
          dsimp only at hq
          rcases List.mem_append.mp hq with hq | hq
          · exact absurd hq1 (hnone k q hq)
          · rcases List.mem_cons.mp hq with hq | hq
            · cases hq
            · rcases List.mem_cons.mp hq with hq | hq
              · cases hq; rfl
              · cases hq
        · dsimp only
          rw [hS, Function.update_noteq (Ne.symm hpt)]
          exact hcm
        · dsimp only
          rw [hS, Function.update_noteq (Ne.symm hpt)]
          intro hmb
          rcases hmc hmb with hcol | hcol
          · exact Or.inl hcol
          · right
            cases color p.target_locality_id <;> simp [hcol]
      · have hst : step ⟨color, N, i, tid, count, phase.waiting, token_place.held p⟩
            (action.poll tc bg) =
            (⟨color, N, i, tid, count, phase.waiting, token_place.held p⟩,
              [ring_effect.cleanup_terminated p.target_locality_id]) := by
          simp [step, hb]
        rw [hst]
        refine ⟨rfl, hpi, hpt, ?_, ?_, ?_⟩
        · intro k q hq
          dsimp only at hq
          rcases List.mem_append.mp hq with hq | hq
          · exact hnone k q hq
          · simp at hq
        · dsimp only; rw [hS]; exact hcm
        · dsimp only; rw [hS]; exact hmc
    · -- notified
      refine ⟨rfl, ?_⟩
      simp only [step, List.append_nil, hS]
      exact hm
  | wake =>
    have hS : action.dijkstra_make_black i ∈ S ++ [action.wake] ↔
        action.dijkstra_make_black i ∈ S := by simp
    cases pc <;> cases token <;> simp only [] at hm
    · refine ⟨rfl, ?_⟩
      simp only [step, List.append_nil, hS]
      exact hm
    · refine ⟨rfl, ?_⟩
      simp only [step, List.append_nil, hS]
      exact hm
    · refine ⟨rfl, ?_⟩
      simp only [step, List.append_nil, hS]
      exact hm
    · exfalso
      revert hc
      simp only [step]
      split <;> (dsimp only; omega)

theorem drain_step (color0 : Nat → Bool) (r : ring) (E : List ring_effect) (S : List action)
    (a : action) (hf : r.pc ≠ phase.finished) (h : drain_inv color0 r E S) :
    drain_inv color0 (step r a).1 (E ++ (step r a).2) (S ++ [a]) := by
  rcases r with ⟨color, N, i, tid, count, pc, token⟩
  rcases h with ⟨hpc, htok, hcount, hsent, hc1, hc2, hfin⟩
  dsimp only at hpc htok hcount hc1 hc2 hfin hf
  have hpc' : pc = phase.draining := by
    rcases hpc with h | h
    · exact h
    · exact absurd h hf
  subst hpc' htok hcount
  have hnone : ¬ ∃ tc bg, action.poll tc bg ∈ S ∧ still_active tc bg = false := by
    intro hx
    have := hfin.mpr hx
    cases this
  cases a with
  | dijkstra_make_black k =>
    refine ⟨Or.inl rfl, rfl, rfl, by simpa [step] using hsent, ?_, ?_, ?_⟩
    · intro j hj
      simp only [step] at hj
      by_cases hjk : j = k
      · subst hjk; right; simp
      · rw [Function.update_noteq hjk] at hj
        rcases hc1 j hj with h | h
        · exact Or.inl h
        · exact Or.inr (List.mem_append_left _ h)
    · intro j hj
      simp only [step]
      by_cases hjk : j = k
      · subst hjk; simp
      · rw [Function.update_noteq hjk]; exact hc2 j hj
    · simp only [step]
      constructor
      · intro h; cases h
      · rintro ⟨tc, bg, hm, hb⟩
        simp at hm
        exact absurd ⟨tc, bg, hm, hb⟩ hnone
  | deliver =>
    refine ⟨Or.inl rfl, rfl, rfl, by simpa [step] using hsent, ?_, hc2, ?_⟩
    · intro j hj
      rcases hc1 j hj with h | h
      · exact Or.inl h
      · exact Or.inr (List.mem_append_left _ h)
    · simp only [step]
      constructor
      · intro h; cases h
      · rintro ⟨tc, bg, hm, hb⟩
        simp at hm
        exact absurd ⟨tc, bg, hm, hb⟩ hnone
  | wake =>
    refine ⟨Or.inl rfl, rfl, rfl, by simpa [step] using hsent, ?_, hc2, ?_⟩
    · intro j hj
      rcases hc1 j hj with h | h
      · exact Or.inl h
      · exact Or.inr (List.mem_append_left _ h)
    · simp only [step]
      constructor
      · intro h; cases h
      · rintro ⟨tc, bg, hm, hb⟩
        simp at hm
        exact absurd ⟨tc, bg, hm, hb⟩ hnone
  | poll tc bg =>
    cases hb : still_active tc bg
    · have hst : step ⟨color, N, i, tid, 0, phase.draining, token_place.absent⟩
          (action.poll tc bg) =
          (⟨color, N, i, tid, 0, phase.finished, token_place.absent⟩,
            [ring_effect.cleanup_terminated i]) := by
        simp [step, hb]
      rw [hst]
      refine ⟨Or.inr rfl, rfl, rfl, ?_, ?_, hc2, ?_⟩
      · simp [sent_parcels_append, hsent, sent_parcels]
      · intro j hj
        rcases hc1 j hj with h | h
        · exact Or.inl h
        · exact Or.inr (List.mem_append_left _ h)
      · constructor
        · intro _
          exact ⟨tc, bg, by simp, hb⟩
        · intro _; rfl
    · have hst : step ⟨color, N, i, tid, 0, phase.draining, token_place.absent⟩
          (action.poll tc bg) =
          (⟨color, N, i, tid, 0, phase.draining, token_place.absent⟩,
            [ring_effect.cleanup_terminated i]) := by
        simp [step, hb]
      rw [hst]
      refine ⟨Or.inl rfl, rfl, rfl, ?_, ?_, hc2, ?_⟩
      · simp [sent_parcels_append, hsent, sent_parcels]
      · intro j hj
        rcases hc1 j hj with h | h
        · exact Or.inl h
        · exact Or.inr (List.mem_append_left _ h)
      · constructor
        · intro h; cases h
        · rintro ⟨tc2, bg2, hm, hb2⟩
          rcases List.mem_append.mp hm with hm | hm
          · exact absurd ⟨tc2, bg2, hm, hb2⟩ hnone
          · simp at hm
            rcases hm with ⟨rfl, rfl⟩
            rw [hb] at hb2
            cases hb2

theorem detection_begin_single (color : Nat → Bool) (here : Nat) (locality_ids : List id_type)
    (h : locality_ids.length = 1) :
    detection_begin color here locality_ids =
      ⟨color, 1, here, here, 0, phase.draining, token_place.absent⟩ := by
  simp [detection_begin, to_uint32, h]

theorem detection_begin_ring (color : Nat → Bool) (here : Nat) (locality_ids : List id_type)
    (h2 : 2 ≤ locality_ids.length) (h32 : locality_ids.length < 4294967296) :
    detection_begin color here locality_ids =
      ⟨Function.update color here false, locality_ids.length, here,
        if 0 = here then locality_ids.length else here, 0, phase.sending,
        token_place.absent⟩ := by
  have e : to_uint32 locality_ids.length = locality_ids.length := by
    unfold to_uint32; omega
  have ne : locality_ids.length ≠ 1 := by omega
  simp [detection_begin, e, ne]

theorem quiet_probe_run (n : Nat) (hn : 2 ≤ n) (h32 : n < 4294967296) (r : ring)
    (hpc : r.pc = phase.sending) (htok : r.token = token_place.absent)
    (hi : r.initiating_locality_id = 0) (hN : r.num_localities = n) (ht : r.target_id = n)
    (r' : ring) (hr' : r' = (run_schedule r (quiet_probe n)).1) :
    r'.count = r.count + 1 ∧ r'.token = token_place.absent ∧
      r'.initiating_locality_id = 0 ∧ r'.num_localities = n ∧ r'.target_id = n ∧
      (∀ k, k < n → r'.color k = false) ∧
      ((∃ k, k < n ∧ r.color k = true) → r'.pc = phase.sending) ∧
      ((¬ ∃ k, k < n ∧ r.color k = true) → r'.pc = phase.finished) := by
  unfold quiet_probe at hr'
  rw [run_schedule_append] at hr'
  dsimp only at hr'
  have Q := quiet_round_run n hn h32 r hpc htok hi hN ht _ rfl
  generalize (run_schedule r (quiet_round n)).1 = x at Q hr'
  rcases x with ⟨xc, xN, xi, xt, xcount, xpc, xtok⟩
  rcases Q with ⟨q1, q2, q3, q4, q5, q6, q7, q8, q9⟩
  dsimp only at q1 q2 q3 q4 q5 q6 q7 q8 q9
  subst q1 q3 q4
  rw [run_schedule_cons _ _ _ (by simp), run_schedule_nil] at hr'
  dsimp only at hr'
  cases hc : xc 0 with
  | true =>
    have hst : step ⟨xc, xN, 0, xt, xcount, phase.notified, token_place.absent⟩ action.wake =
        (⟨Function.update xc 0 false, xN, 0, xt, xcount + 1, phase.sending,
            token_place.absent⟩, [ring_effect.probe_completed true]) := by
      simp [step, hc]
    rw [hst] at hr'
    subst hr'
    refine ⟨by simp [q2], rfl, rfl, q5, q6, ?_, fun _ => rfl, ?_⟩
    · intro k hk
      dsimp only
      by_cases hk0 : k = 0
      · subst hk0; simp
      · rw [Function.update_noteq hk0]; exact q7 k (by omega) hk
    · intro hno
      exact absurd (q8.mp hc) hno
  | false =>
    have hst : step ⟨xc, xN, 0, xt, xcount, phase.notified, token_place.absent⟩ action.wake =
        (⟨xc, xN, 0, xt, xcount + 1, phase.finished, token_place.absent⟩,
          [ring_effect.probe_completed false]) := by
      simp [step, hc]
    rw [hst] at hr'
    subst hr'
    refine ⟨by simp [q2], rfl, rfl, q5, q6, ?_, ?_, fun _ => rfl⟩
    · intro k hk
      dsimp only
      by_cases hk0 : k = 0
      · subst hk0; exact hc
      · exact q7 k (by omega) hk
    · intro hex
      have := q8.mpr hex
      rw [hc] at this
      cases this

theorem descending_split (n : Nat) (t : Nat) (ht : t ≤ n) :
    (List.range n).reverse = descending n t ++ (List.range t).reverse := by
  induction t with
  | zero => simp [descending_zero]
  | succ t ih =>
    rw [ih (by omega), descending_step n t (by omega), List.range_succ, List.reverse_append]
    simp

theorem two_quiet_probes_return (color : Nat → Bool) (locality_ids : List id_type)
    (h2 : 2 ≤ locality_ids.length) (h32 : locality_ids.length < 4294967296) :
    ∃ c, (dijkstra_termination_detection color 0 locality_ids
        (quiet_probe locality_ids.length ++ quiet_probe locality_ids.length)).returned = some c ∧
      1 ≤ c ∧ c ≤ 2 := by
  unfold dijkstra_termination_detection
  dsimp only
  rw [detection_begin_ring color 0 locality_ids h2 h32, run_schedule_append]
  dsimp only
  have Q := quiet_probe_run locality_ids.length h2 h32
    ⟨Function.update color 0 false, locality_ids.length, 0,
      if 0 = 0 then locality_ids.length else 0, 0, phase.sending, token_place.absent⟩
    rfl rfl rfl rfl (by simp) _ rfl
  generalize (run_schedule
    ⟨Function.update color 0 false, locality_ids.length, 0,
      if 0 = 0 then locality_ids.length else 0, 0, phase.sending, token_place.absent⟩
    (quiet_probe locality_ids.length)).1 = x at Q
  rcases Q with ⟨q1, q2, q3, q4, q5, q6, q7, q8⟩
  dsimp only at q1
  by_cases hb : ∃ k, k < locality_ids.length ∧
      (Function.update color 0 false) k = true
  · have hpc := q7 hb
    have Q2 := quiet_probe_run locality_ids.length h2 h32 x hpc q2 q3 q4 q5 _ rfl
    rcases Q2 with ⟨p1, _, _, _, _, _, _, p8⟩
    have hfin := p8 (by
      rintro ⟨k, hk, hc⟩
      rw [q6 k hk] at hc
      cases hc)
    refine ⟨2, ?_, by omega, by omega⟩
    rw [if_pos hfin, p1, q1]
  · have hfin := q8 hb
    refine ⟨1, ?_, by omega, by omega⟩
    rw [run_schedule_finished x _ hfin]
    dsimp only
    rw [if_pos hfin, q1]

/-! ## The token ring (C7 to C10) -/

/-- C7, safety of rule R2: take a state in which no token is under way, as at the start
of a probe, where the initiator is about to send the white token, and any interleaving
of `dijkstra_make_black` calls with the steps of the ring.  If, before the initiator
counts the probe, the token is black (in particular when it is on its way back to the
initiator), then at some earlier point of the schedule a passive locality forwarded
the token while its colour was black. -/
theorem black_token_has_black_forwarder (r0 : ring) (sched : List action)
    (h_absent : r0.token = token_place.absent)
    (h_probe : (run_schedule r0 sched).1.count = r0.count)
    (h_black : token_black (run_schedule r0 sched).1 = true) :
    ∃ before tc bg after k, sched = before ++ action.poll tc bg :: after ∧
      still_active tc bg = false ∧
      forwarder (run_schedule r0 before).1 = some k ∧
      (run_schedule r0 before).1.color k = true :=
  black_token_traced sched r0 (by simp [token_black, h_absent]) h_probe h_black

theorem black_token_has_black_forwarder_witness :
    (run_schedule (detection_begin (fun _ => false) 0 [0, 1, 2]) blackened_probe).1.token =
        token_place.in_flight ⟨0, 0, 3, true⟩ ∧
      ∃ before tc bg after k, blackened_probe = before ++ action.poll tc bg :: after ∧
        still_active tc bg = false ∧
        forwarder (run_schedule (detection_begin (fun _ => false) 0 [0, 1, 2]) before).1
          = some k ∧
        (run_schedule (detection_begin (fun _ => false) 0 [0, 1, 2]) before).1.color k
          = true :=
  ⟨by decide,
    black_token_has_black_forwarder (detection_begin (fun _ => false) 0 [0, 1, 2])
      blackened_probe (by decide) (by decide) (by decide)⟩

theorem ring_target_mod (n k : Nat) (hn : 2 ≤ n) (h32 : n < 4294967296) (hk : k < n) :
    (ring_target k n : Int) = ((k : Int) - 1) % (n : Int) ∧ ring_target k n < n ∧
      ring_target k n + 1 = (if k = 0 then n else k) := by
  by_cases h0 : k = 0
  · subst h0
    rw [ring_target_zero n (by omega) h32]
    refine ⟨?_, by omega, by simp; omega⟩
    have e : ((0 : Nat) : Int) - 1 = ((n - 1 : Nat) : Int) + (-1) * (n : Int) := by
      push_cast [Nat.cast_sub (by omega : 1 ≤ n)]
      ring
    rw [e, Int.add_mul_emod_self]
    rw [Int.emod_eq_of_lt (by omega) (by omega)]
  · rw [ring_target_pos k n (by omega) (by omega)]
    refine ⟨?_, by omega, by simp [h0]; omega⟩
    have e : (k : Int) - 1 = ((k - 1 : Nat) : Int) := by
      push_cast [Nat.cast_sub (by omega : 1 ≤ k)]
      ring
    rw [e, Int.emod_eq_of_lt (by omega) (by omega)]

theorem route_of_first_probe (color : Nat → Bool) (locality_ids : List id_type)
    (sched : List action) (h2 : 2 ≤ locality_ids.length)
    (h32 : locality_ids.length < 4294967296) :
    route_inv locality_ids.length
      (dijkstra_termination_detection color 0 locality_ids sched).final
      (dijkstra_termination_detection color 0 locality_ids sched).effects := by
  unfold dijkstra_termination_detection
  dsimp only
  have h := run_effects_invariant (route_inv locality_ids.length)
    (fun r E a _ hP => route_step locality_ids.length h2 h32 r E a hP) sched
    (detection_begin color 0 locality_ids) [] (by
      rw [detection_begin_ring color 0 locality_ids h2 h32]
      intro _
      exact ⟨rfl, rfl, by simp, rfl, rfl⟩)
  simpa using h

theorem count_inv_of_detection (color : Nat → Bool) (here : Nat) (locality_ids : List id_type)
    (sched : List action) (h2 : 2 ≤ locality_ids.length)
    (h32 : locality_ids.length < 4294967296) :
    count_inv here (dijkstra_termination_detection color here locality_ids sched).final
      (dijkstra_termination_detection color here locality_ids sched).effects := by
  unfold dijkstra_termination_detection
  dsimp only
  have h := run_effects_invariant (count_inv here)
    (fun r E a hf hP => count_step here r E a hf hP) sched
    (detection_begin color here locality_ids) [] (by
      rw [detection_begin_ring color here locality_ids h2 h32]
      exact ⟨rfl, rfl, rfl⟩)
  simpa using h

theorem returned_iff (color : Nat → Bool) (here : Nat) (locality_ids : List id_type)
    (sched : List action) (c : Nat) :
    (dijkstra_termination_detection color here locality_ids sched).returned = some c ↔
      (dijkstra_termination_detection color here locality_ids sched).final.pc = phase.finished ∧
      (dijkstra_termination_detection color here locality_ids sched).final.count = c := by
  unfold dijkstra_termination_detection
  dsimp only
  split <;> simp_all

/-! ## Lemmas on the rounds of the token -/

theorem revolutions_zero (n : Nat) : revolutions n 0 = [] := rfl

theorem revolutions_succ (n c : Nat) :
    revolutions n (c + 1) = revolutions n c ++ descending n 0 := by
  unfold revolutions
  rw [descending_zero, List.replicate_succ', List.flatten_append]
  simp

theorem revolutions_length (n c : Nat) : (revolutions n c).length = c * n := by
  induction c with
  | zero => simp [revolutions]
  | succ c ih =>
    rw [revolutions_succ, List.length_append, ih, descending_zero]
    simp
    ring

theorem sent_parcels_step_mem (E F : List ring_effect) (P : Nat × token_parcel → Prop)
    (hE : ∀ kp ∈ sent_parcels E, P kp) (hF : ∀ kp ∈ sent_parcels F, P kp) :
    ∀ kp ∈ sent_parcels (E ++ F), P kp := by
  intro kp h
  rw [sent_parcels_append, List.mem_append] at h
  rcases h with h | h
  · exact hE kp h
  · exact hF kp h

theorem revolution_step (n : Nat) (hn : 2 ≤ n) (h32 : n < 4294967296) (r : ring)
    (E : List ring_effect) (a : action) (hf : r.pc ≠ phase.finished)
    (h : revolution_inv n r E) : revolution_inv n (step r a).1 (E ++ (step r a).2) := by
  rcases r with ⟨color, N, init, tid, count, pc, token⟩
  dsimp only at hf
  rcases h with ⟨hi, hN, htid, hsp, hm⟩
  dsimp only at hi hN htid hm
  subst hi hN
  have htid' := htid.symm
  subst htid'
  have nosend : ∀ F : List ring_effect, sent_parcels F = [] →
      ∀ kp ∈ sent_parcels (E ++ F), kp.1 < N ∧ kp.2.target_locality_id = ring_target kp.1 N ∧
        kp.2.initiating_locality_id = 0 ∧ kp.2.num_localities = N := by
    intro F hF
    exact sent_parcels_step_mem E F _ hsp (by rw [hF]; intro kp h; cases h)
  cases a with
  | dijkstra_make_black k =>
    have hst : step ⟨color, N, 0, N, count, pc, token⟩ (action.dijkstra_make_black k) =
        (⟨Function.update color k true, N, 0, N, count, pc, token⟩, []) := rfl
    rw [hst]
    refine ⟨rfl, rfl, rfl, nosend [] rfl, ?_⟩
    simpa using hm
  | deliver =>
    cases pc <;> cases token <;> simp only [] at hm
    · exact ⟨rfl, rfl, rfl, nosend [] rfl, by simpa [step] using hm⟩
    · rename_i p
      rcases hm with ⟨hpi, hpn, hpt, hs, hr⟩
      by_cases h0 : p.target_locality_id = 0
      · have e : p.initiating_locality_id = p.target_locality_id := by rw [hpi, h0]
        have hst : step ⟨color, N, 0, N, count, phase.waiting, token_place.in_flight p⟩
            action.deliver =
            (⟨if p.dijkstra_token then Function.update color p.target_locality_id true
                else color, N, 0, N, count, phase.notified, token_place.absent⟩,
              [ring_effect.agas_start_shutdown p.target_locality_id,
                ring_effect.flush_parcels p.target_locality_id,
                ring_effect.notify_one p.target_locality_id]) := by
          simp [step, e]
        rw [hst]
        refine ⟨rfl, rfl, rfl, nosend _ rfl, ?_⟩
        dsimp only
        rw [sent_targets_append, received_by_append, hs, hr, h0]
        refine ⟨by simp [sent_targets], ?_⟩
        rw [descending_step N 0 (by omega), ← List.append_assoc]
        rfl
      · have e : ¬ (p.initiating_locality_id = p.target_locality_id) := by
          rw [hpi]; exact fun k => h0 k.symm
        have hst : step ⟨color, N, 0, N, count, phase.waiting, token_place.in_flight p⟩
            action.deliver =
            (⟨color, N, 0, N, count, phase.waiting, token_place.held p⟩,
              [ring_effect.agas_start_shutdown p.target_locality_id,
                ring_effect.flush_parcels p.target_locality_id]) := by
          simp [step, e]
        rw [hst]
        refine ⟨rfl, rfl, rfl, nosend _ rfl, hpi, hpn, hpt, by omega, ?_⟩
        dsimp only
        rw [sent_targets_append, received_by_append, hs, hr]
        refine ⟨by simp [sent_targets], ?_⟩
        rw [descending_step N _ hpt, ← List.append_assoc]
        rfl
    · exact ⟨rfl, rfl, rfl, nosend [] rfl, by simpa [step] using hm⟩
    · exact ⟨rfl, rfl, rfl, nosend [] rfl, by simpa [step] using hm⟩
    · exact absurd rfl hf
  | poll tc bg =>
    cases pc <;> cases token <;> simp only [] at hm
    · -- sending
      cases hb : still_active tc bg
      · have e : uint32_pred N = N - 1 := uint32_pred_pos N (by omega) h32
        have hst : step ⟨color, N, 0, N, count, phase.sending, token_place.absent⟩
            (action.poll tc bg) =
            (⟨Function.update color 0 false, N, 0, N, count, phase.waiting,
                token_place.in_flight ⟨N - 1, 0, N, if color 0 then color 0 else false⟩⟩,
              [ring_effect.cleanup_terminated 0,
                ring_effect.apply_dijkstra_termination 0
                  ⟨N - 1, 0, N, if color 0 then color 0 else false⟩]) := by
          simp [step, hb, send_dijkstra_termination_token, e]
        rw [hst]
        refine ⟨rfl, rfl, rfl, ?_, rfl, rfl, ?_⟩
        · refine sent_parcels_step_mem E _ _ hsp ?_
          intro kp hkp
          simp only [sent_parcels, List.mem_singleton] at hkp
          subst hkp
          exact ⟨by omega, (ring_target_zero N (by omega) h32).symm, rfl, rfl⟩
        · dsimp only
          rw [sent_targets_append, received_by_append, hm.1, hm.2]
          have e1 : N - 1 + 1 = N := by omega
          refine ⟨by omega, ?_, ?_⟩
          · rw [descending_step N (N - 1) (by omega), e1, descending_self]; rfl
          · rw [e1, descending_self]; rfl
      · have hst : step ⟨color, N, 0, N, count, phase.sending, token_place.absent⟩
            (action.poll tc bg) =
            (⟨color, N, 0, N, count, phase.sending, token_place.absent⟩,
              [ring_effect.cleanup_terminated 0]) := by
          simp [step, hb]
        rw [hst]
        refine ⟨rfl, rfl, rfl, nosend _ rfl, ?_⟩
        simpa [sent_targets_append, received_by_append, sent_targets, received_by] using hm
    · -- waiting, in flight
      exact ⟨rfl, rfl, rfl, nosend [] rfl, by simpa [step] using hm⟩
    · -- waiting, held
      rename_i p
      rcases hm with ⟨hpi, hpn, hpt, hpos, hs, hr⟩
      cases hb : still_active tc bg
      · have e : ring_target p.target_locality_id p.num_localities = p.target_locality_id - 1 :=
          ring_target_pos _ _ hpos (by omega)
        have hst : step ⟨color, N, 0, N, count, phase.waiting, token_place.held p⟩
            (action.poll tc bg) =
            (⟨Function.update color p.target_locality_id false, N, 0, N, count, phase.waiting,
                token_place.in_flight ⟨p.target_locality_id - 1, p.initiating_locality_id,
                  p.num_localities,
                  if color p.target_locality_id then color p.target_locality_id
                  else p.dijkstra_token⟩⟩,
              [ring_effect.cleanup_terminated p.target_locality_id,
                ring_effect.apply_dijkstra_termination p.target_locality_id
                  ⟨p.target_locality_id - 1, p.initiating_locality_id, p.num_localities,
                    if color p.target_locality_id then color p.target_locality_id
                    else p.dijkstra_token⟩]) := by
          simp [step, hb, send_dijkstra_termination_token, e]
        rw [hst]
        refine ⟨rfl, rfl, rfl, ?_, hpi, hpn, ?_⟩
        · refine sent_parcels_step_mem E _ _ hsp ?_
          intro kp hkp
          simp only [sent_parcels, List.mem_singleton] at hkp
          subst hkp
          exact ⟨hpt, (ring_target_pos _ _ hpos (by omega)).symm, hpi, hpn⟩
        · dsimp only
          rw [sent_targets_append, received_by_append, hs, hr]
          have e1 : p.target_locality_id - 1 + 1 = p.target_locality_id := by omega
          refine ⟨by omega, ?_, ?_⟩
          · rw [descending_step N (p.target_locality_id - 1) (by omega), e1,
              ← List.append_assoc]
            rfl
          · rw [e1]; simp [received_by]
      · have hst : step ⟨color, N, 0, N, count, phase.waiting, token_place.held p⟩
            (action.poll tc bg) =
            (⟨color, N, 0, N, count, phase.waiting, token_place.held p⟩,
              [ring_effect.cleanup_terminated p.target_locality_id]) := by
          simp [step, hb]
        rw [hst]
        refine ⟨rfl, rfl, rfl, nosend _ rfl, hpi, hpn, hpt, hpos, ?_⟩
        simpa [sent_targets_append, received_by_append, sent_targets, received_by] using
          And.intro hs hr
    · -- notified
      exact ⟨rfl, rfl, rfl, nosend [] rfl, by simpa [step] using hm⟩
    · exact absurd rfl hf
  | wake =>
    cases pc <;> cases token <;> simp only [] at hm
    · exact ⟨rfl, rfl, rfl, nosend [] rfl, by simpa [step] using hm⟩
    · exact ⟨rfl, rfl, rfl, nosend [] rfl, by simpa [step] using hm⟩
    · exact ⟨rfl, rfl, rfl, nosend [] rfl, by simpa [step] using hm⟩
    · cases hc : color 0 with
      | true =>
        have hst : step ⟨color, N, 0, N, count, phase.notified, token_place.absent⟩
            action.wake =
            (⟨Function.update color 0 false, N, 0, N, count + 1, phase.sending,
                token_place.absent⟩, [ring_effect.probe_completed true]) := by
          simp [step, hc]
        rw [hst]
        refine ⟨rfl, rfl, rfl, nosend _ rfl, ?_⟩
        dsimp only
        rw [sent_targets_append, received_by_append, hm.1, hm.2, revolutions_succ]
        exact ⟨by simp [sent_targets], by simp [received_by]⟩
      | false =>
        have hst : step ⟨color, N, 0, N, count, phase.notified, token_place.absent⟩
            action.wake =
            (⟨color, N, 0, N, count + 1, phase.finished, token_place.absent⟩,
              [ring_effect.probe_completed false]) := by
          simp [step, hc]
        rw [hst]
        refine ⟨rfl, rfl, rfl, nosend _ rfl, ?_⟩
        dsimp only
        rw [sent_targets_append, received_by_append, hm.1, hm.2, revolutions_succ]
        exact ⟨by simp [sent_targets], by simp [received_by]⟩
    · exact absurd rfl hf

theorem revolution_inv_of_detection (color : Nat → Bool) (locality_ids : List id_type)
    (sched : List action) (h2 : 2 ≤ locality_ids.length)
    (h32 : locality_ids.length < 4294967296) :
    revolution_inv locality_ids.length
      (dijkstra_termination_detection color 0 locality_ids sched).final
      (dijkstra_termination_detection color 0 locality_ids sched).effects := by
  unfold dijkstra_termination_detection
  dsimp only
  have h := run_effects_invariant (revolution_inv locality_ids.length)
    (fun r E a hf hP => revolution_step locality_ids.length h2 h32 r E a hf hP) sched
    (detection_begin color 0 locality_ids) [] (by
      rw [detection_begin_ring color 0 locality_ids h2 h32]
      refine ⟨rfl, rfl, ?_, ?_, rfl, rfl⟩
      · simp
      · intro kp h
        cases h)
  simpa using h

/-! ## The route of the token (C8) -/

/-- C8: for `n ≥ 2` localities (a 32-bit count) the locality `k < n` forwards the token
to `(k - 1) mod n`, which is below `n` and is computed without wrapping around.  In
every probe of initiator 0, the first one and every later one of the loop, the
parcels go to `n - 1, n - 2, ..., 1, 0`: under any schedule, with `count` probes
completed, the targets of all parcels sent so far are `count` full rounds followed by
an initial piece of the round under way, every parcel went from its sender `k` to
`ring_target k n`, and `dijkstra_termination` has run on the same localities in the same
order, the target of the parcel in flight excepted.  When the token is back at the
initiator exactly `n` parcels have been sent in this probe, `dijkstra_termination` has
run on `n - 1, ..., 1, 0` in that order, once each, and no token is left to forward;
no parcel is sent before the initiator wakes up and starts the next probe.  When the
detection returns `c`, exactly `c` rounds were made.  The same is stated for the first
probe alone, and the undisturbed round of `2n` steps reaches the state in which the
token is back. -/
theorem token_travels_ring (n : Nat) (hn : 2 ≤ n) (h32 : n < 4294967296) :
    (∀ k, k < n →
      (ring_target k n : Int) = ((k : Int) - 1) % (n : Int) ∧ ring_target k n < n ∧
        ring_target k n + 1 = (if k = 0 then n else k)) ∧
    (∀ (color : Nat → Bool) (locality_ids : List id_type) (sched : List action),
      locality_ids.length = n →
      (∀ kp ∈ sent_parcels (dijkstra_termination_detection color 0 locality_ids sched).effects,
        kp.1 < n ∧ kp.2.target_locality_id = ring_target kp.1 n ∧
          kp.2.initiating_locality_id = 0 ∧ kp.2.num_localities = n) ∧
      (∃ cur rest, (List.range n).reverse = cur ++ rest ∧
        sent_targets (dijkstra_termination_detection color 0 locality_ids sched).effects =
          revolutions n (dijkstra_termination_detection color 0 locality_ids sched).final.count
            ++ cur ∧
        (received_by (dijkstra_termination_detection color 0 locality_ids sched).effects =
            revolutions n
              (dijkstra_termination_detection color 0 locality_ids sched).final.count ++ cur ∨
          ∃ p, (dijkstra_termination_detection color 0 locality_ids sched).final.token =
              token_place.in_flight p ∧
            received_by (dijkstra_termination_detection color 0 locality_ids sched).effects
                ++ [p.target_locality_id] =
              revolutions n
                (dijkstra_termination_detection color 0 locality_ids sched).final.count
                  ++ cur)) ∧
      ((dijkstra_termination_detection color 0 locality_ids sched).final.pc = phase.notified →
        sent_targets (dijkstra_termination_detection color 0 locality_ids sched).effects =
          revolutions n (dijkstra_termination_detection color 0 locality_ids sched).final.count
            ++ (List.range n).reverse ∧
        (sent_targets (dijkstra_termination_detection color 0 locality_ids sched).effects).length
          = ((dijkstra_termination_detection color 0 locality_ids sched).final.count + 1) * n ∧
        received_by (dijkstra_termination_detection color 0 locality_ids sched).effects =
          revolutions n (dijkstra_termination_detection color 0 locality_ids sched).final.count
            ++ (List.range n).reverse ∧
        (dijkstra_termination_detection color 0 locality_ids sched).final.token
          = token_place.absent) ∧
      ((dijkstra_termination_detection color 0 locality_ids sched).final.pc = phase.sending →
        sent_targets (dijkstra_termination_detection color 0 locality_ids sched).effects =
          revolutions n
            (dijkstra_termination_detection color 0 locality_ids sched).final.count ∧
        received_by (dijkstra_termination_detection color 0 locality_ids sched).effects =
          revolutions n
            (dijkstra_termination_detection color 0 locality_ids sched).final.count ∧
        (dijkstra_termination_detection color 0 locality_ids sched).final.token
          = token_place.absent) ∧
      (∀ c, (dijkstra_termination_detection color 0 locality_ids sched).returned = some c →
        sent_targets (dijkstra_termination_detection color 0 locality_ids sched).effects =
          revolutions n c ∧
        (sent_targets (dijkstra_termination_detection color 0 locality_ids sched).effects).length
          = c * n ∧
        received_by (dijkstra_termination_detection color 0 locality_ids sched).effects =
          revolutions n c ∧
        (dijkstra_termination_detection color 0 locality_ids sched).final.token
          = token_place.absent)) ∧
    (∀ (color : Nat → Bool) (locality_ids : List id_type) (sched : List action),
      locality_ids.length = n →
      (dijkstra_termination_detection color 0 locality_ids sched).final.count = 0 →
      (∃ rest, (List.range n).reverse =
        sent_targets (dijkstra_termination_detection color 0 locality_ids sched).effects
          ++ rest) ∧
      ((dijkstra_termination_detection color 0 locality_ids sched).final.pc = phase.notified →
        sent_targets (dijkstra_termination_detection color 0 locality_ids sched).effects
          = (List.range n).reverse ∧
        (sent_targets (dijkstra_termination_detection color 0 locality_ids sched).effects).length
          = n ∧
        received_by (dijkstra_termination_detection color 0 locality_ids sched).effects
          = (List.range n).reverse ∧
        (dijkstra_termination_detection color 0 locality_ids sched).final.token
          = token_place.absent)) ∧
    (∀ (color : Nat → Bool) (locality_ids : List id_type), locality_ids.length = n →
      (dijkstra_termination_detection color 0 locality_ids (quiet_round n)).final.pc
          = phase.notified ∧
        (dijkstra_termination_detection color 0 locality_ids (quiet_round n)).final.count
          = 0 ∧
        (quiet_round n).length = 2 * n) := by
  refine ⟨fun k hk => ring_target_mod n k hn h32 hk, ?_, ?_, ?_⟩
  · intro color locality_ids sched hL
    subst hL
    have R := revolution_inv_of_detection color locality_ids sched hn h32
    have hret := returned_iff color 0 locality_ids sched
    generalize (dijkstra_termination_detection color 0 locality_ids sched).returned = ret
      at hret
    generalize (dijkstra_termination_detection color 0 locality_ids sched).final = x at R hret
    generalize (dijkstra_termination_detection color 0 locality_ids sched).effects = E at R
    rcases x with ⟨xc, xN, xi, xt, xcount, xpc, xtok⟩
    rcases R with ⟨hxi, hxN, hxt, hsp, hm⟩
    dsimp only at hm hret ⊢
    refine ⟨hsp, ?_⟩
    cases xpc <;> rcases xtok with _ | p | p <;> simp only [] at hm
    · -- sending
      refine ⟨⟨[], (List.range locality_ids.length).reverse, by simp, by simp [hm.1],
        Or.inl (by simp [hm.2])⟩, fun h => (by cases h), fun _ => ⟨hm.1, hm.2, rfl⟩, ?_⟩
      intro c hc
      exact absurd ((hret c).mp hc).1 (by simp)
    · -- waiting, in flight
      rcases hm with ⟨_, _, hpt, hs, hr⟩
      refine ⟨⟨descending locality_ids.length p.target_locality_id,
        (List.range p.target_locality_id).reverse, descending_split _ _ (by omega), hs,
        Or.inr ⟨p, rfl, ?_⟩⟩, fun h => (by cases h), fun h => (by cases h), ?_⟩
      · rw [hr, descending_step _ _ hpt, List.append_assoc]
      · intro c hc
        exact absurd ((hret c).mp hc).1 (by simp)
    · -- waiting, held
      rcases hm with ⟨_, _, hpt, _, hs, hr⟩
      refine ⟨⟨descending locality_ids.length p.target_locality_id,
        (List.range p.target_locality_id).reverse, descending_split _ _ (by omega), hs,
        Or.inl hr⟩, fun h => (by cases h), fun h => (by cases h), ?_⟩
      intro c hc
      exact absurd ((hret c).mp hc).1 (by simp)
    · -- notified
      rw [descending_zero] at hm
      refine ⟨⟨(List.range locality_ids.length).reverse, [], by simp, hm.1, Or.inl hm.2⟩,
        fun _ => ⟨hm.1, ?_, hm.2, rfl⟩, fun h => (by cases h), ?_⟩
      · rw [hm.1, List.length_append, revolutions_length]
        simp
        ring
      · intro c hc
        exact absurd ((hret c).mp hc).1 (by simp)
    · -- finished
      refine ⟨⟨[], (List.range locality_ids.length).reverse, by simp, by simp [hm.1],
        Or.inl (by simp [hm.2])⟩, fun h => (by cases h), fun h => (by cases h), ?_⟩
      intro c hc
      have hcc := ((hret c).mp hc).2
      subst hcc
      exact ⟨hm.1, by rw [hm.1, revolutions_length], hm.2, rfl⟩
  · intro color locality_ids sched hL hc
    subst hL
    have R := route_of_first_probe color locality_ids sched hn h32 hc
    generalize (dijkstra_termination_detection color 0 locality_ids sched).final = x at R hc
    generalize (dijkstra_termination_detection color 0 locality_ids sched).effects = E at R
    rcases x with ⟨xc, xN, xi, xt, xcount, xpc, xtok⟩
    rcases R with ⟨hxi, hxN, hxt, hm⟩
    cases xpc <;> rcases xtok with _ | p | p <;> simp only [] at hm
    · -- sending
      refine ⟨⟨(List.range locality_ids.length).reverse, by simp [hm.1]⟩, ?_⟩
      intro h; cases h
    · -- waiting, in flight
      rcases hm with ⟨_, _, hpt, hs, _⟩
      refine ⟨⟨(List.range p.target_locality_id).reverse, ?_⟩, ?_⟩
      · rw [hs]; exact descending_split _ _ (by omega)
      · intro h; cases h
    · -- waiting, held
      rcases hm with ⟨_, _, hpt, _, hs, _⟩
      refine ⟨⟨(List.range p.target_locality_id).reverse, ?_⟩, ?_⟩
      · rw [hs]; exact descending_split _ _ (by omega)
      · intro h; cases h
    · -- notified
      rw [descending_zero] at hm
      refine ⟨⟨[], by simp [hm.1]⟩, ?_⟩
      intro _
      exact ⟨hm.1, by simp [hm.1], hm.2, rfl⟩
  · intro color locality_ids hL
    subst hL
    unfold dijkstra_termination_detection
    dsimp only
    rw [detection_begin_ring color 0 locality_ids hn h32]
    have Q := quiet_round_run locality_ids.length hn h32
      ⟨Function.update color 0 false, locality_ids.length, 0,
        if 0 = 0 then locality_ids.length else 0, 0, phase.sending, token_place.absent⟩
      rfl rfl rfl rfl (by simp) _ rfl
    refine ⟨Q.1, Q.2.1, ?_⟩
    simp [quiet_round]
    omega

/-- Three localities, locality 1 black: the first probe goes round and fails, and the
token of the second probe goes round the same way. -/
theorem token_travels_ring_witness :
    (2 ≤ 3 ∧ 3 < 4294967296) ∧
      ring_target 0 3 = 2 ∧ ring_target 2 3 = 1 ∧ ring_target 1 3 = 0 ∧
      (dijkstra_termination_detection (fun k => decide (k = 1)) 0 [0, 1, 2]
        (quiet_probe 3 ++ quiet_round 3)).final.count = 1 ∧
      sent_targets (dijkstra_termination_detection (fun k => decide (k = 1)) 0 [0, 1, 2]
        (quiet_probe 3 ++ quiet_round 3)).effects = [2, 1, 0, 2, 1, 0] ∧
      received_by (dijkstra_termination_detection (fun k => decide (k = 1)) 0 [0, 1, 2]
        (quiet_probe 3 ++ quiet_round 3)).effects = [2, 1, 0, 2, 1, 0] ∧
      (dijkstra_termination_detection (fun k => decide (k = 1)) 0 [0, 1, 2]
        (quiet_probe 3 ++ quiet_round 3)).final.token = token_place.absent :=
  have h := ((token_travels_ring 3 (by decide) (by decide)).2.1 (fun k => decide (k = 1))
    [0, 1, 2] (quiet_probe 3 ++ quiet_round 3) rfl).2.2.1 (by decide)
  ⟨by decide, by decide, by decide, by decide, by decide, h.1.trans (by decide),
    h.2.2.1.trans (by decide), h.2.2.2⟩

/-! ## The probe counter (C9, C10) -/

/-- C9: called with a single locality, `dijkstra_termination_detection` sends no token,
writes no colour (a locality is black afterwards only if it was black before or was
made black by `dijkstra_make_black` meanwhile) and returns 0, which it does exactly
when a poll finds the locality passive.  Called with `n` localities, `2 ≤ n < 2^32`,
whenever it returns, the value is at least 1, is the number of tokens the caller sent
off itself, and is one more than the number of probes after which it read its colour
black; and it does return under the schedule of two undisturbed probes. -/
theorem detection_returns_probe_count (color : Nat → Bool) (here : Nat)
    (locality_ids : List id_type) (sched : List action) :
    (locality_ids.length = 1 →
      sent_parcels (dijkstra_termination_detection color here locality_ids sched).effects = [] ∧
      (∀ c, (dijkstra_termination_detection color here locality_ids sched).returned = some c →
        c = 0) ∧
      ((dijkstra_termination_detection color here locality_ids sched).returned = some 0 ↔
        ∃ tc bg, action.poll tc bg ∈ sched ∧ still_active tc bg = false) ∧
      (∀ k, (dijkstra_termination_detection color here locality_ids sched).final.color k = true →
        color k = true ∨ action.dijkstra_make_black k ∈ sched) ∧
      (∀ k, color k = true →
        (dijkstra_termination_detection color here locality_ids sched).final.color k = true)) ∧
    (2 ≤ locality_ids.length → locality_ids.length < 4294967296 →
      (∀ c, (dijkstra_termination_detection color here locality_ids sched).returned = some c →
        1 ≤ c ∧
        c = probes_initiated here
          (dijkstra_termination_detection color here locality_ids sched).effects ∧
        c = 1 + unsuccessful_probes
          (dijkstra_termination_detection color here locality_ids sched).effects) ∧
      ∃ c, (dijkstra_termination_detection color 0 locality_ids
          (quiet_probe locality_ids.length ++ quiet_probe locality_ids.length)).returned
            = some c ∧ 1 ≤ c ∧ c ≤ 2) := by
  constructor
  · intro h1
    have hret := returned_iff color here locality_ids sched
    have H := run_schedule_invariant (drain_inv color)
      (fun r E S a hf hP => drain_step color r E S a hf hP) sched
      (detection_begin color here locality_ids) [] [] (by
        rw [detection_begin_single color here locality_ids h1]
        refine ⟨Or.inl rfl, rfl, rfl, rfl, fun k hk => Or.inl hk, fun k hk => hk, ?_⟩
        constructor
        · intro h; cases h
        · rintro ⟨_, _, hm, _⟩; cases hm)
    rcases H with ⟨S1, S2, hS, hP, hfin⟩
    simp only [List.nil_append] at hP
    have hfe : (dijkstra_termination_detection color here locality_ids sched).final =
        (run_schedule (detection_begin color here locality_ids) sched).1 := rfl
    have hee : (dijkstra_termination_detection color here locality_ids sched).effects =
        (run_schedule (detection_begin color here locality_ids) sched).2 := rfl
    rw [hfe] at hret
    rw [hfe, hee]
    rcases hP with ⟨_, _, hcount, hsent, hc1, hc2, hiff⟩
    have hsub : ∀ x, x ∈ S1 → x ∈ sched := by
      intro x hx; rw [hS]; exact List.mem_append_left _ hx
    refine ⟨hsent, ?_, ?_, ?_, hc2⟩
    · intro c hc
      have := (hret c).mp hc
      omega
    · rw [hret 0]
      constructor
      · rintro ⟨hf, _⟩
        rcases hiff.mp hf with ⟨tc, bg, hm, hb⟩
        exact ⟨tc, bg, hsub _ hm, hb⟩
      · rintro ⟨tc, bg, hm, hb⟩
        refine ⟨?_, hcount⟩
        rcases hfin with hfin | hfin
        · subst hfin
          rw [List.append_nil] at hS
          subst hS
          exact hiff.mpr ⟨tc, bg, hm, hb⟩
        · exact hfin
    · intro k hk
      rcases hc1 k hk with h | h
      · exact Or.inl h
      · exact Or.inr (hsub _ h)
  · intro h2 h32
    refine ⟨?_, two_quiet_probes_return color locality_ids h2 h32⟩
    intro c hc
    have hret := (returned_iff color here locality_ids sched c).mp hc
    have C := count_inv_of_detection color here locality_ids sched h2 h32
    generalize (dijkstra_termination_detection color here locality_ids sched).final = x
      at C hret
    generalize (dijkstra_termination_detection color here locality_ids sched).effects = E at C
    rcases x with ⟨xc, xN, xi, xt, xcount, xpc, xtok⟩
    rcases hret with ⟨hpc, hcnt⟩
    dsimp only at hpc hcnt
    subst hpc hcnt
    rcases C with ⟨_, hm⟩
    rcases xtok with _ | p | p <;> simp only [] at hm
    rcases hm with ⟨m1, m2, _⟩
    omega

theorem detection_returns_probe_count_witness :
    (2 ≤ [0, 1].length ∧ [0, 1].length < 4294967296) ∧
      (dijkstra_termination_detection (fun k => decide (k = 1)) 0 [0, 1]
        (quiet_probe 2 ++ quiet_probe 2)).returned = some 2 ∧
      (dijkstra_termination_detection (fun _ => false) 0 [0]
        [action.poll 5 0, action.poll 1 0]).returned = some 0 ∧
      (1 ≤ 2 ∧
        2 = probes_initiated 0 (dijkstra_termination_detection (fun k => decide (k = 1)) 0
          [0, 1] (quiet_probe 2 ++ quiet_probe 2)).effects ∧
        2 = 1 + unsuccessful_probes (dijkstra_termination_detection
          (fun k => decide (k = 1)) 0 [0, 1] (quiet_probe 2 ++ quiet_probe 2)).effects) :=
  ⟨by decide, by decide, by decide,
    ((detection_returns_probe_count (fun k => decide (k = 1)) 0 [0, 1]
      (quiet_probe 2 ++ quiet_probe 2)).2 (by decide) (by decide)).1 2 (by decide)⟩

/-- C10: for `2 ≤ n < 2^32` localities the initiator is white when a probe starts, at
the first probe and at every later one.  When the token has come back, the initiator
counts the probe and starts another one if and only if its colour is then black, and
returns if and only if it is white.  Its colour at that moment is black if and only if
a black token was sent back to it or `dijkstra_make_black` was called on it since the
probe started.  So the detection returns after the first probe that ends with the
initiator white, and the initiator is white when it returns. -/
theorem probe_loop_exit_condition :
    (∀ (color : Nat → Bool) (here : Nat) (locality_ids : List id_type),
      2 ≤ locality_ids.length → locality_ids.length < 4294967296 →
      (detection_begin color here locality_ids).pc = phase.sending ∧
        (detection_begin color here locality_ids).color here = false ∧
        (detection_begin color here locality_ids).initiating_locality_id = here) ∧
    (∀ r : ring, r.pc = phase.notified →
      ((step r action.wake).1.pc = phase.sending ↔ r.color r.initiating_locality_id = true) ∧
      ((step r action.wake).1.pc = phase.finished ↔
        r.color r.initiating_locality_id = false) ∧
      (step r action.wake).1.count = r.count + 1 ∧
      (step r action.wake).1.color r.initiating_locality_id = false ∧
      (step r action.wake).1.initiating_locality_id = r.initiating_locality_id) ∧
    (∀ (r0 : ring) (sched : List action),
      r0.pc = phase.sending → r0.token = token_place.absent →
      r0.color r0.initiating_locality_id = false →
      (run_schedule r0 sched).1.pc = phase.notified →
      (run_schedule r0 sched).1.count = r0.count →
      ((run_schedule r0 sched).1.color r0.initiating_locality_id = true ↔
        ((∃ k p, ring_effect.apply_dijkstra_termination k p ∈ (run_schedule r0 sched).2 ∧
            p.target_locality_id = r0.initiating_locality_id ∧ p.dijkstra_token = true) ∨
          action.dijkstra_make_black r0.initiating_locality_id ∈ sched))) ∧
    (∀ (color : Nat → Bool) (here : Nat) (locality_ids : List id_type) (sched : List action)
      (c : Nat), 2 ≤ locality_ids.length → locality_ids.length < 4294967296 →
      (dijkstra_termination_detection color here locality_ids sched).returned = some c →
      (dijkstra_termination_detection color here locality_ids sched).final.color here
        = false) := by
  refine ⟨?_, ?_, ?_, ?_⟩
  · intro color here locality_ids h2 h32
    rw [detection_begin_ring color here locality_ids h2 h32]
    exact ⟨rfl, by simp, rfl⟩
  · intro r hpc
    rcases r with ⟨color, N, i, tid, count, pc, token⟩
    dsimp only at hpc
    subst hpc
    cases hc : color i <;> simp [step, hc]
  · intro r0 sched hpc htok hcol hfin hcount
    have H := run_schedule_invariant (probe_inv r0.initiating_locality_id r0.count)
      (fun r E S a _ hP => probe_step _ _ r E S a hP) sched r0 [] [] (by
        refine ⟨Nat.le_refl _, fun _ => ⟨rfl, ?_⟩⟩
        rw [hpc, htok]
        refine ⟨fun k q hq => (by cases hq), ?_⟩
        rw [hcol]
        simp)
    rcases H with ⟨S1, S2, hS, hP, hend⟩
    have hS2 : S2 = [] := by
      rcases hend with h | h
      · exact h
      · rw [hfin] at h; cases h
    subst hS2
    rw [List.append_nil] at hS
    subst hS
    simp only [List.nil_append] at hP
    have hm := (hP.2 hcount).2
    generalize (run_schedule r0 sched).1 = x at hm hfin
    generalize (run_schedule r0 sched).2 = E at hm
    rcases x with ⟨xc, xN, xi, xt, xcount, xpc, xtok⟩
    dsimp only at hfin
    subst hfin
    rcases xtok with _ | p | p <;> simp only [] at hm
    exact hm
  · intro color here locality_ids sched c h2 h32 hc
    have hret := (returned_iff color here locality_ids sched c).mp hc
    have C := count_inv_of_detection color here locality_ids sched h2 h32
    generalize (dijkstra_termination_detection color here locality_ids sched).final = x
      at C hret
    generalize (dijkstra_termination_detection color here locality_ids sched).effects = E at C
    rcases x with ⟨xc, xN, xi, xt, xcount, xpc, xtok⟩
    rcases hret with ⟨hpc, hcnt⟩
    dsimp only at hpc hcnt
    subst hpc
    rcases C with ⟨_, hm⟩
    rcases xtok with _ | p | p <;> simp only [] at hm
    exact hm.2.2

theorem probe_loop_exit_condition_witness :
    (run_schedule (detection_begin (fun _ => false) 0 [0, 1]) late_blackening).1.pc
        = phase.notified ∧
      (run_schedule (detection_begin (fun _ => false) 0 [0, 1]) late_blackening).1.color 0
        = true ∧
      ((run_schedule (detection_begin (fun _ => false) 0 [0, 1]) late_blackening).1.color
          (detection_begin (fun _ => false) 0 [0, 1]).initiating_locality_id = true ↔
        ((∃ k p, ring_effect.apply_dijkstra_termination k p ∈
              (run_schedule (detection_begin (fun _ => false) 0 [0, 1]) late_blackening).2 ∧
            p.target_locality_id =
              (detection_begin (fun _ => false) 0 [0, 1]).initiating_locality_id ∧
            p.dijkstra_token = true) ∨
          action.dijkstra_make_black
            (detection_begin (fun _ => false) 0 [0, 1]).initiating_locality_id
              ∈ late_blackening)) ∧
      (step (run_schedule (detection_begin (fun _ => false) 0 [0, 1]) late_blackening).1
        action.wake).1.pc = phase.sending :=
  ⟨by decide, by decide,
    probe_loop_exit_condition.2.2.1 (detection_begin (fun _ => false) 0 [0, 1])
      late_blackening (by decide) (by decide) (by decide) (by decide) (by decide),
    by decide⟩

/-! ## Lemmas on the wait loops of `stop` -/

theorem stop_drain_nil (timeout start_time : Int) :
    stop_drain timeout start_time [] = ([], false, false) := rfl

theorem stop_drain_cons (timeout start_time : Int) (r : reading) (rs : List reading) :
    stop_drain timeout start_time (r :: rs) =
      if budget_spent timeout start_time r then ([effect.cleanup_terminated], true, true)
      else if threads_left r then
        (effect.cleanup_terminated :: (stop_drain timeout start_time rs).1,
          (stop_drain timeout start_time rs).2)
      else ([effect.cleanup_terminated], false, true) := by
  unfold stop_drain budget_spent threads_left
  by_cases h1 : 0 ≤ timeout ∧ timeout < r.elapsed - start_time
  · simp [yield_while, h1]
  · by_cases h2 : r.thread_count > 1 + r.background_thread_count
    · simp [yield_while, h1, h2]
    · simp [yield_while, h1, h2]

theorem stop_abort_nil (timeout start_time : Int) :
    stop_abort timeout start_time [] = ([], (), false) := rfl

theorem stop_abort_cons (timeout start_time : Int) (r : reading) (rs : List reading) :
    stop_abort timeout start_time (r :: rs) =
      if budget_spent timeout start_time r then
        ([effect.abort_all_suspended_threads, effect.cleanup_terminated], (), true)
      else if threads_left r then
        (effect.abort_all_suspended_threads :: effect.cleanup_terminated ::
          (stop_abort timeout start_time rs).1, (stop_abort timeout start_time rs).2)
      else ([effect.abort_all_suspended_threads, effect.cleanup_terminated], (), true) := by
  unfold stop_abort budget_spent threads_left
  by_cases h1 : 0 ≤ timeout ∧ timeout < r.elapsed - start_time
  · simp [yield_while, h1]
  · by_cases h2 : r.thread_count > 1 + r.background_thread_count
    · simp [yield_while, h1, h2]
    · simp [yield_while, h1, h2]

/-- The first loop: the number of evaluations `k`, the readings before the last one
all let the loop go on, and the last one ends it when the loop has ended. -/
theorem stop_drain_run (timeout start_time : Int) (rs : List reading) :
    (stop_drain timeout start_time rs).1 =
        List.replicate (stop_drain timeout start_time rs).1.length effect.cleanup_terminated ∧
      (stop_drain timeout start_time rs).1.length ≤ rs.length ∧
      ((stop_drain timeout start_time rs).2.2 = false →
        (stop_drain timeout start_time rs).2.1 = false ∧
        (stop_drain timeout start_time rs).1.length = rs.length ∧
        ∀ x ∈ rs, ¬ budget_spent timeout start_time x ∧ threads_left x) ∧
      ((stop_drain timeout start_time rs).2.2 = true →
        ∃ pre r post, rs = pre ++ r :: post ∧
          (stop_drain timeout start_time rs).1.length = pre.length + 1 ∧
          (∀ x ∈ pre, ¬ budget_spent timeout start_time x ∧ threads_left x) ∧
          ((stop_drain timeout start_time rs).2.1 = true ↔ budget_spent timeout start_time r) ∧
          ((stop_drain timeout start_time rs).2.1 = false →
            ¬ threads_left r)) := by
  induction rs with
  | nil => simp [stop_drain_nil]
  | cons r rs ih =>
    rw [stop_drain_cons]
    by_cases h1 : budget_spent timeout start_time r
    · simp only [h1, if_true]
      refine ⟨rfl, by simp, by simp, fun _ => ⟨[], r, rs, rfl, rfl, by simp, by simp [h1], by simp⟩⟩
    · by_cases h2 : threads_left r
      · simp only [h1, h2, if_true, if_false]
        rcases ih with ⟨i1, i2, i3, i4⟩
        refine ⟨?_, by simp; omega, ?_, ?_⟩
        · simp only [List.length_cons, List.replicate_succ]
          rw [← i1]
        · intro hf
          rcases i3 hf with ⟨a, b, c⟩
          refine ⟨a, by simp [b], ?_⟩
          intro x hx
          rcases List.mem_cons.mp hx with rfl | hx
          · exact ⟨h1, h2⟩
          · exact c x hx
        · intro ht
          rcases i4 ht with ⟨pre, r', post, e, len, hpre, hto, hq⟩
          refine ⟨r :: pre, r', post, by simp [e], by simp [len], ?_, hto, hq⟩
          intro x hx
          rcases List.mem_cons.mp hx with rfl | hx
          · exact ⟨h1, h2⟩
          · exact hpre x hx
      · simp only [h1, h2, if_false]
        refine ⟨rfl, by simp, by simp, fun _ => ⟨[], r, rs, rfl, rfl, by simp, by simp [h1], fun _ => h2⟩⟩

/-- The second loop: `k` evaluations, each calling `abort_all_suspended_threads` once;
the loop ends at the first reading at which the budget counted from its own start is
spent or no thread is left. -/
theorem stop_abort_run (timeout start_time : Int) (rs : List reading) :
    (∃ k, (stop_abort timeout start_time rs).1 =
        (List.replicate k
          [effect.abort_all_suspended_threads, effect.cleanup_terminated]).flatten ∧
      k ≤ rs.length ∧
      ((stop_abort timeout start_time rs).2.2 = false →
        k = rs.length ∧ ∀ x ∈ rs, ¬ budget_spent timeout start_time x ∧ threads_left x) ∧
      ((stop_abort timeout start_time rs).2.2 = true →
        ∃ pre r post, rs = pre ++ r :: post ∧ k = pre.length + 1 ∧
          (∀ x ∈ pre, ¬ budget_spent timeout start_time x ∧ threads_left x) ∧
          (budget_spent timeout start_time r ∨ ¬ threads_left r))) := by
  induction rs with
  | nil => exact ⟨0, by simp [stop_abort_nil]⟩
  | cons r rs ih =>
    rw [stop_abort_cons]
    by_cases h1 : budget_spent timeout start_time r
    · simp only [h1, if_true]
      exact ⟨1, by simp, by simp, by simp, fun _ => ⟨[], r, rs, rfl, rfl, by simp, Or.inl h1⟩⟩
    · by_cases h2 : threads_left r
      · simp only [h1, h2, if_true, if_false]
        rcases ih with ⟨k, i1, i2, i3, i4⟩
        refine ⟨k + 1, ?_, by simp; omega, ?_, ?_⟩
        · simp [List.replicate_succ, i1]
        · intro hf
          rcases i3 hf with ⟨b, c⟩
          refine ⟨by simp [b], ?_⟩
          intro x hx
          rcases List.mem_cons.mp hx with rfl | hx
          · exact ⟨h1, h2⟩
          · exact c x hx
        · intro ht
          rcases i4 ht with ⟨pre, r', post, e, len, hpre, hend⟩
          refine ⟨r :: pre, r', post, by simp [e], by simp [len], ?_, hend⟩
          intro x hx
          rcases List.mem_cons.mp hx with rfl | hx
          · exact ⟨h1, h2⟩
          · exact hpre x hx
      · simp only [h1, h2, if_false]
        exact ⟨1, by simp, by simp, by simp, fun _ => ⟨[], r, rs, rfl, rfl, by simp, Or.inr h2⟩⟩

/-- Enough readings: a reading without threads left ends the first loop. -/
theorem stop_drain_ends (timeout start_time : Int) (rs : List reading)
    (h : ∃ x ∈ rs, ¬ threads_left x) : (stop_drain timeout start_time rs).2.2 = true := by
  cases hb : (stop_drain timeout start_time rs).2.2 with
  | true => rfl
  | false =>
    rcases h with ⟨x, hx, hq⟩
    exact absurd (((stop_drain_run timeout start_time rs).2.2.1 hb).2.2 x hx).2 hq

/-- Enough readings: a reading without threads left ends the second loop. -/
theorem stop_abort_ends (timeout start_time : Int) (rs : List reading)
    (h : ∃ x ∈ rs, ¬ threads_left x) : (stop_abort timeout start_time rs).2.2 = true := by
  cases hb : (stop_abort timeout start_time rs).2.2 with
  | true => rfl
  | false =>
    rcases h with ⟨x, hx, hq⟩
    rcases stop_abort_run timeout start_time rs with ⟨k, _, _, i3, _⟩
    exact absurd ((i3 hb).2 x hx).2 hq

/-- `stop` after the `stop_called_` check when one of its loops has not ended. -/
theorem stop_not_ended (env : stop_env) (timeout : Int) (respond_to : Option id_type)
    (remove : Bool) (s : runtime_support) (h1 : s.stop_called_ = false)
    (h2 : (env.assertions_enabled && s.terminated_) = false)
    (h3 : stop_loops_ended env timeout = false) :
    stop env timeout respond_to remove s =
      ⟨{ s with stop_called_ := true },
        effect.cleanup_logging :: stop_loop_effects env timeout, outcome.yielding⟩ := by
  unfold stop_loops_ended at h3
  unfold stop stop_loop_effects
  simp only [h1, h2]
  cases hd : (stop_drain timeout env.start_time env.drain).2.2 with
  | false =>
    have hto := ((stop_drain_run timeout env.start_time env.drain).2.2.1 hd).1
    simp [hto]
  | true =>
    rw [hd] at h3
    cases hto : (stop_drain timeout env.start_time env.drain).2.1 with
    | false => simp [hto] at h3
    | true =>
      simp only [hto, if_true, Bool.true_and] at h3
      simp [h3]

/-- `stop` after the `stop_called_` check when both loops have ended. -/
theorem stop_ended (env : stop_env) (timeout : Int) (respond_to : Option id_type)
    (remove : Bool) (s : runtime_support) (h1 : s.stop_called_ = false)
    (h2 : (env.assertions_enabled && s.terminated_) = false)
    (h3 : stop_loops_ended env timeout = true) :
    stop env timeout respond_to remove s =
      match respond_to with
      | none =>
        ⟨{ s with stop_called_ := true, stop_done_ := true },
          effect.cleanup_logging :: (stop_loop_effects env timeout ++ stop_unregister remove)
            ++ [effect.wait_condition_notify_all, effect.stop_condition_wait],
          outcome.suspended⟩
      | some id =>
        if env.is_local_address_cached then
          if env.assertions_enabled then
            ⟨{ s with stop_called_ := true },
              effect.cleanup_logging ::
                (stop_loop_effects env timeout ++ stop_unregister remove),
              outcome.assertion_failed⟩
          else
            ⟨{ s with stop_called_ := true, stop_done_ := true },
              effect.cleanup_logging ::
                  (stop_loop_effects env timeout ++ stop_unregister remove)
                ++ [effect.wait_condition_notify_all, effect.stop_condition_wait],
              outcome.suspended⟩
        else
          ⟨{ s with stop_called_ := true, stop_done_ := true },
            effect.cleanup_logging :: (stop_loop_effects env timeout ++ stop_unregister remove)
              ++ [effect.set_event_sync id]
              ++ [effect.wait_condition_notify_all, effect.stop_condition_wait],
            outcome.suspended⟩ := by
  unfold stop_loops_ended at h3
  unfold stop stop_loop_effects
  simp only [h1, h2]
  have hd : (stop_drain timeout env.start_time env.drain).2.2 = true := by
    cases hd : (stop_drain timeout env.start_time env.drain).2.2 with
    | true => rfl
    | false => rw [hd] at h3; simp at h3
  rw [hd] at h3
  cases hto : (stop_drain timeout env.start_time env.drain).2.1 with
  | false =>
    cases respond_to <;> simp [hd, hto]
  | true =>
    simp only [hto, if_true, Bool.true_and] at h3
    cases respond_to <;> simp [hd, hto, h3]

theorem stop_loop_effects_mem (env : stop_env) (timeout : Int) :
    ∀ e ∈ stop_loop_effects env timeout,
      e = effect.cleanup_terminated ∨ e = effect.abort_all_suspended_threads := by
  intro e he
  unfold stop_loop_effects at he
  rcases List.mem_append.mp he with h | h
  · exact Or.inl (stop_drain_effects _ _ _ e h)
  · split at h
    · exact (stop_abort_effects _ _ _ e h).symm
    · cases h

theorem stop_unregister_no_event (remove : Bool) :
    ∀ e ∈ stop_unregister remove, e.is_set_event = false := by
  cases remove <;> simp [stop_unregister, effect.is_set_event]

theorem stop_body_no_event (env : stop_env) (timeout : Int) (remove : Bool) :
    ∀ e ∈ effect.cleanup_logging :: (stop_loop_effects env timeout ++ stop_unregister remove),
      e.is_set_event = false := by
  intro e he
  rcases List.mem_cons.mp he with h | h
  · rw [h]; rfl
  · rcases List.mem_append.mp h with h | h
    · rcases stop_loop_effects_mem env timeout e h with h | h <;> rw [h] <;> rfl
    · exact stop_unregister_no_event remove e h

theorem filter_eq_nil_of_all_false {α : Type} (p : α → Bool) (l : List α)
    (h : ∀ e ∈ l, p e = false) : l.filter p = [] := by
  rw [List.filter_eq_nil_iff]
  intro a ha
  simp [h a ha]

/-- The three ways `stop` goes on after finding `stop_called_` clear. -/
theorem stop_passed_cases (env : stop_env) (timeout : Int) (respond_to : Option id_type)
    (remove : Bool) (s : runtime_support) (h1 : s.stop_called_ = false) :
    ((env.assertions_enabled && s.terminated_) = true ∧
      stop env timeout respond_to remove s =
        ⟨s, [effect.cleanup_logging], outcome.assertion_failed⟩) ∨
    ((env.assertions_enabled && s.terminated_) = false ∧
      stop_loops_ended env timeout = false ∧
      stop env timeout respond_to remove s =
        ⟨{ s with stop_called_ := true },
          effect.cleanup_logging :: stop_loop_effects env timeout, outcome.yielding⟩) ∨
    ((env.assertions_enabled && s.terminated_) = false ∧
      stop_loops_ended env timeout = true) := by
  cases h2 : (env.assertions_enabled && s.terminated_) with
  | true =>
    left
    refine ⟨rfl, ?_⟩
    unfold stop
    simp [h1, h2]
  | false =>
    cases h3 : stop_loops_ended env timeout with
    | false => exact Or.inr (Or.inl ⟨rfl, rfl, stop_not_ended env timeout respond_to remove s h1 h2 h3⟩)
    | true => exact Or.inr (Or.inr ⟨rfl, rfl⟩)

theorem stop_called_after (env : stop_env) (timeout : Int) (respond_to : Option id_type)
    (remove : Bool) (s : runtime_support)
    (h : (stop env timeout respond_to remove s).outcome ≠ outcome.assertion_failed ∨
      (env.assertions_enabled && s.terminated_) = false) :
    (stop env timeout respond_to remove s).state.stop_called_ = true := by
  cases h1 : s.stop_called_ with
  | true =>
    have : stop env timeout respond_to remove s = ⟨s, [], outcome.returned⟩ := by
      unfold stop; simp [h1]
    rw [this]; exact h1
  | false =>
    rcases stop_passed_cases env timeout respond_to remove s h1 with ⟨h2, e⟩ | ⟨_, _, e⟩ | ⟨h2, h3⟩
    · rcases h with h | h
      · rw [e] at h; exact absurd rfl h
      · rw [h2] at h; cases h
    · rw [e]
    · rw [stop_ended env timeout respond_to remove s h1 h2 h3]
      cases respond_to with
      | none => rfl
      | some id =>
        dsimp only
        split
        · split <;> rfl
        · rfl

/-! ## The local stop machine (C12 to C16) -/

/-- C12: in a state that has `stop_called_` set, `stop` with any arguments returns at
once, leaves the whole server state as it is and makes no call at all; so a second
`stop`, after a first one that was not cut short by a failed assertion, ends in the
state the first one left. -/
theorem stop_idempotent (env1 env2 : stop_env) (timeout1 timeout2 : Int)
    (respond1 respond2 : Option id_type) (remove1 remove2 : Bool) (s : runtime_support) :
    (s.stop_called_ = true →
      stop env2 timeout2 respond2 remove2 s = ⟨s, [], outcome.returned⟩) ∧
    ((stop env1 timeout1 respond1 remove1 s).outcome ≠ outcome.assertion_failed →
      stop env2 timeout2 respond2 remove2 (stop env1 timeout1 respond1 remove1 s).state =
        ⟨(stop env1 timeout1 respond1 remove1 s).state, [], outcome.returned⟩) := by
  have key : ∀ t : runtime_support, t.stop_called_ = true →
      stop env2 timeout2 respond2 remove2 t = ⟨t, [], outcome.returned⟩ := by
    intro t ht
    unfold stop
    simp [ht]
  exact ⟨key s, fun h => key _ (stop_called_after env1 timeout1 respond1 remove1 s (Or.inl h))⟩

theorem stop_idempotent_witness :
    (stop coerced_stop_env 5 (some 7) true runtime_support.constructed).outcome
        ≠ outcome.assertion_failed ∧
      stop quiet_stop_env 10 (some 3) false
          (stop coerced_stop_env 5 (some 7) true runtime_support.constructed).state =
        ⟨(stop coerced_stop_env 5 (some 7) true runtime_support.constructed).state, [],
          outcome.returned⟩ :=
  ⟨by decide,
    (stop_idempotent coerced_stop_env quiet_stop_env 5 10 (some 7) (some 3) true false
      runtime_support.constructed).2 (by decide)⟩

/-- C13 as stated fails: a `stop` (and so a `shutdown`) with `respond_to` set that
finds `stop_called_` already set returns without sending anything, and a `stop` in a
build without assertions whose `respond_to` is cached as a local address sets
`stop_done_` without having sent a `set_event`. -/
theorem stop_may_not_respond :
    (stop quiet_stop_env 10 (some 5) false
        { runtime_support.constructed with stop_called_ := true }).effects = [] ∧
      (shutdown quiet_stop_env 10 (some 5)
        { runtime_support.constructed with stop_called_ := true }).effects = [] ∧
      ((stop { quiet_stop_env with assertions_enabled := false,
                                   is_local_address_cached := true }
          10 (some 5) false runtime_support.constructed).effects.filter
            effect.is_set_event = []) ∧
      (stop { quiet_stop_env with assertions_enabled := false,
                                  is_local_address_cached := true }
          10 (some 5) false runtime_support.constructed).state.stop_done_ = true := by
  decide

/-- C13 amended: `shutdown(timeout, respond_to)` is `stop(timeout, respond_to, false)`.
A `stop` that finds `stop_called_` clear, gets through its wait loops and has a
`respond_to` that is set and not cached as a local address sends exactly one
`set_event` to `respond_to`; it is the last call before `wait_condition_.notify_all()`,
which follows the write of `stop_done_`.  No `set_event` is sent when `respond_to` is
not set, when `stop_called_` was already set, or while a wait loop has not ended (and
then `stop_done_` is as it was). -/
theorem stop_response_policy (env : stop_env) (timeout : Int) (respond_to : Option id_type)
    (remove : Bool) (s : runtime_support) :
    shutdown env timeout respond_to s = stop env timeout respond_to false s ∧
    (respond_to = none →
      (stop env timeout respond_to remove s).effects.filter effect.is_set_event = []) ∧
    (s.stop_called_ = true → (stop env timeout respond_to remove s).effects = []) ∧
    ((stop env timeout respond_to remove s).outcome = outcome.yielding →
      (stop env timeout respond_to remove s).effects.filter effect.is_set_event = [] ∧
      (stop env timeout respond_to remove s).state.stop_done_ = s.stop_done_) ∧
    (∀ id, respond_to = some id → s.stop_called_ = false →
      env.is_local_address_cached = false →
      (stop env timeout respond_to remove s).outcome = outcome.suspended →
      (stop env timeout respond_to remove s).effects.filter effect.is_set_event =
        [effect.set_event_sync id] ∧
      (∃ before, (stop env timeout respond_to remove s).effects =
        before ++ [effect.set_event_sync id, effect.wait_condition_notify_all,
          effect.stop_condition_wait]) ∧
      (stop env timeout respond_to remove s).state.stop_done_ = true) := by
  have hbody := stop_body_no_event env timeout remove
  have hloops : ∀ e ∈ effect.cleanup_logging :: stop_loop_effects env timeout,
      e.is_set_event = false := by
    intro e he
    apply hbody
    rcases List.mem_cons.mp he with h | h
    · rw [h]; exact List.mem_cons_self _ _
    · exact List.mem_cons_of_mem _ (List.mem_append_left _ h)
  have hcalled : s.stop_called_ = true →
      stop env timeout respond_to remove s = ⟨s, [], outcome.returned⟩ := by
    intro h; unfold stop; simp [h]
  refine ⟨rfl, ?_, ?_, ?_, ?_⟩
  · intro hr
    subst hr
    cases h1 : s.stop_called_ with
    | true => rw [hcalled h1]; rfl
    | false =>
      rcases stop_passed_cases env timeout none remove s h1 with ⟨_, e⟩ | ⟨_, _, e⟩ | ⟨h2, h3⟩
      · rw [e]; rfl
      · rw [e]; exact filter_eq_nil_of_all_false _ _ hloops
      · rw [stop_ended env timeout none remove s h1 h2 h3]
        apply filter_eq_nil_of_all_false
        intro e he
        rcases List.mem_append.mp he with h | h
        · exact hbody e h
        · simp at h
          rcases h with h | h <;> rw [h] <;> rfl
  · intro h1
    rw [hcalled h1]
  · intro ho
    cases h1 : s.stop_called_ with
    | true => rw [hcalled h1] at ho; cases ho
    | false =>
      rcases stop_passed_cases env timeout respond_to remove s h1 with
        ⟨_, e⟩ | ⟨_, _, e⟩ | ⟨h2, h3⟩
      · rw [e] at ho; cases ho
      · rw [e]; exact ⟨filter_eq_nil_of_all_false _ _ hloops, rfl⟩
      · rw [stop_ended env timeout respond_to remove s h1 h2 h3] at ho
        cases respond_to with
        | none => cases ho
        | some id =>
          dsimp only at ho
          split at ho
          · split at ho <;> cases ho
          · cases ho
  · intro id hr h1 hc ho
    subst hr
    rcases stop_passed_cases env timeout (some id) remove s h1 with
      ⟨_, e⟩ | ⟨_, _, e⟩ | ⟨h2, h3⟩
    · rw [e] at ho; cases ho
    · rw [e] at ho; cases ho
    · have e := stop_ended env timeout (some id) remove s h1 h2 h3
      simp only [hc, Bool.false_eq_true, if_false] at e
      rw [e]
      refine ⟨?_, ⟨effect.cleanup_logging ::
        (stop_loop_effects env timeout ++ stop_unregister remove), by simp⟩, rfl⟩
      rw [List.filter_append, List.filter_append,
        filter_eq_nil_of_all_false _ _ hbody]
      rfl

theorem stop_response_policy_witness :
    (stop coerced_stop_env 5 (some 7) true runtime_support.constructed).outcome
        = outcome.suspended ∧
      (stop coerced_stop_env 5 (some 7) true runtime_support.constructed).effects.filter
        effect.is_set_event = [effect.set_event_sync 7] ∧
      (∃ before, (stop coerced_stop_env 5 (some 7) true runtime_support.constructed).effects =
        before ++ [effect.set_event_sync 7, effect.wait_condition_notify_all,
          effect.stop_condition_wait]) ∧
      (stop coerced_stop_env 5 (some 7) true runtime_support.constructed).state.stop_done_
        = true :=
  ⟨by decide,
    (stop_response_policy coerced_stop_env 5 (some 7) true runtime_support.constructed).2.2.2.2
      7 rfl (by decide) (by decide) (by decide)⟩

/-- The calls of `stop` either hold no `set_event`, or they are the body of `stop`
followed by the one `set_event` and the wake-up of the waiter. -/
theorem stop_effects_shape (env : stop_env) (timeout : Int) (respond_to : Option id_type)
    (remove : Bool) (s : runtime_support) :
    (stop env timeout respond_to remove s).effects.filter effect.is_set_event = [] ∨
    ∃ id, (stop env timeout respond_to remove s).effects =
      effect.cleanup_logging :: (stop_loop_effects env timeout ++ stop_unregister remove)
        ++ [effect.set_event_sync id]
        ++ [effect.wait_condition_notify_all, effect.stop_condition_wait] := by
  have hbody := stop_body_no_event env timeout remove
  have hloops : ∀ e ∈ effect.cleanup_logging :: stop_loop_effects env timeout,
      e.is_set_event = false := by
    intro e he
    apply hbody
    rcases List.mem_cons.mp he with h | h
    · rw [h]; exact List.mem_cons_self _ _
    · exact List.mem_cons_of_mem _ (List.mem_append_left _ h)
  have hfin : (effect.cleanup_logging ::
      (stop_loop_effects env timeout ++ stop_unregister remove)
      ++ [effect.wait_condition_notify_all, effect.stop_condition_wait]).filter
        effect.is_set_event = [] := by
    apply filter_eq_nil_of_all_false
    intro e he
    rcases List.mem_append.mp he with h | h
    · exact hbody e h
    · simp at h
      rcases h with h | h <;> rw [h] <;> rfl
  cases h1 : s.stop_called_ with
  | true =>
    left
    have : stop env timeout respond_to remove s = ⟨s, [], outcome.returned⟩ := by
      unfold stop; simp [h1]
    rw [this]; rfl
  | false =>
    rcases stop_passed_cases env timeout respond_to remove s h1 with
      ⟨_, e⟩ | ⟨_, _, e⟩ | ⟨h2, h3⟩
    · left; rw [e]; rfl
    · left; rw [e]; exact filter_eq_nil_of_all_false _ _ hloops
    · rw [stop_ended env timeout respond_to remove s h1 h2 h3]
      cases respond_to with
      | none => left; exact hfin
      | some id =>
        dsimp only
        split
        · split
          · left; exact filter_eq_nil_of_all_false _ _ hbody
          · left; exact hfin
        · right; exact ⟨id, rfl⟩

theorem mem_of_split_at_first {α : Type} (p : α → Bool) (A B before after : List α) (x y : α)
    (hA : ∀ e ∈ A, p e = false) (hy : p y = true)
    (h : A ++ x :: B = before ++ y :: after) : ∀ e ∈ A, e ∈ before := by
  induction A generalizing before with
  | nil => intro e he; cases he
  | cons a A ih =>
    intro e he
    cases before with
    | nil =>
      simp only [List.nil_append, List.cons_append, List.cons.injEq] at h
      have := hA a (List.mem_cons_self _ _)
      rw [h.1, hy] at this
      cases this
    | cons b before =>
      simp only [List.cons_append, List.cons.injEq] at h
      rcases List.mem_cons.mp he with rfl | he
      · rw [h.1]; exact List.mem_cons_self _ _
      · exact List.mem_cons_of_mem _
          (ih before (fun e he => hA e (List.mem_cons_of_mem _ he)) h.2 e he)

/-- C14: every `stop` that finds `stop_called_` clear and whose wait loops end makes,
right after the loops, the calls `get_local_locality`, `unbind_local` of the
runtime-support address and `unbind_local` of the memory address, with or without
`respond_to` and whether or not the first loop timed out; and in every execution, a
`set_event` response is preceded by both unbinds and by `unregister_locality`.  The
loops do end when each has a reading that finds no thread left. -/
theorem stop_unbinds_before_response (env : stop_env) (timeout : Int)
    (respond_to : Option id_type) (remove : Bool) (s : runtime_support) :
    (∀ id before after,
      (stop env timeout respond_to remove s).effects =
        before ++ effect.set_event_sync id :: after →
      effect.unbind_local_runtime_support ∈ before ∧ effect.unbind_local_memory ∈ before ∧
        effect.unregister_locality ∈ before) ∧
    (s.stop_called_ = false → (env.assertions_enabled && s.terminated_) = false →
      stop_loops_ended env timeout = true →
      ∃ rest, (stop env timeout respond_to remove s).effects =
        effect.cleanup_logging :: (stop_loop_effects env timeout ++
          ([effect.get_local_locality, effect.unbind_local_runtime_support,
            effect.unbind_local_memory] ++ rest)) ∧
        effect.unregister_locality ∈ rest) ∧
    ((∃ x ∈ env.drain, ¬ threads_left x) → (∃ x ∈ env.abort, ¬ threads_left x) →
      stop_loops_ended env timeout = true) := by
  refine ⟨?_, ?_, ?_⟩
  · intro id before after h
    rcases stop_effects_shape env timeout respond_to remove s with hs | ⟨id2, hs⟩
    · exfalso
      rw [h, List.filter_append] at hs
      simp [effect.is_set_event] at hs
    · rw [hs] at h
      have hsub := mem_of_split_at_first effect.is_set_event
        (effect.cleanup_logging :: (stop_loop_effects env timeout ++ stop_unregister remove))
        [effect.wait_condition_notify_all, effect.stop_condition_wait] before after
        (effect.set_event_sync id2) (effect.set_event_sync id)
        (stop_body_no_event env timeout remove) rfl (by simpa using h)
      have hu : ∀ e ∈ stop_unregister remove, e ∈ before := by
        intro e he
        exact hsub e (List.mem_cons_of_mem _ (List.mem_append_right _ he))
      refine ⟨hu _ ?_, hu _ ?_, hu _ ?_⟩ <;> cases remove <;> simp [stop_unregister]
  · intro h1 h2 h3
    rw [stop_ended env timeout respond_to remove s h1 h2 h3]
    cases respond_to with
    | none =>
      cases remove
      · exact ⟨_, by simp [stop_unregister]; rfl, by simp⟩
      · exact ⟨_, by simp [stop_unregister]; rfl, by simp⟩
    | some id =>
      dsimp only
      split
      · split
        · cases remove
          · exact ⟨_, by simp [stop_unregister]; rfl, by simp⟩
          · exact ⟨_, by simp [stop_unregister]; rfl, by simp⟩
        · cases remove
          · exact ⟨_, by simp [stop_unregister]; rfl, by simp⟩
          · exact ⟨_, by simp [stop_unregister]; rfl, by simp⟩
      · cases remove
        · exact ⟨_, by simp [stop_unregister]; rfl, by simp⟩
        · exact ⟨_, by simp [stop_unregister]; rfl, by simp⟩
  · intro hd ha
    unfold stop_loops_ended
    rw [stop_drain_ends _ _ _ hd, stop_abort_ends _ _ _ ha]
    simp

theorem stop_unbinds_before_response_witness :
    (stop coerced_stop_env 5 (some 7) true runtime_support.constructed).effects =
        coerced_stop_calls ++ effect.set_event_sync 7 ::
          [effect.wait_condition_notify_all, effect.stop_condition_wait] ∧
      (effect.unbind_local_runtime_support ∈ coerced_stop_calls ∧
        effect.unbind_local_memory ∈ coerced_stop_calls ∧
        effect.unregister_locality ∈ coerced_stop_calls) ∧
      stop_loops_ended coerced_stop_env 5 = true :=
  ⟨by decide,
    (stop_unbinds_before_response coerced_stop_env 5 (some 7) true
      runtime_support.constructed).1 7 coerced_stop_calls
      [effect.wait_condition_notify_all, effect.stop_condition_wait] (by decide),
    by decide⟩

/-- C15: with a negative timeout the first loop of `stop` never sets `timed_out`,
whatever the timer reads; `stop` never calls `abort_all_suspended_threads`; and the
loop ends exactly at the first reading with `thread_count ≤ 1 + background_thread_count`:
every reading before it has more threads, and while no such reading has come the loop
goes on. -/
theorem negative_timeout_waits_forever (env : stop_env) (timeout : Int)
    (respond_to : Option id_type) (remove : Bool) (s : runtime_support)
    (h_neg : timeout < 0) :
    (stop_drain timeout env.start_time env.drain).2.1 = false ∧
    effect.abort_all_suspended_threads ∉ (stop env timeout respond_to remove s).effects ∧
    ((stop_drain timeout env.start_time env.drain).2.2 = true →
      ∃ pre r post, env.drain = pre ++ r :: post ∧
        (stop_drain timeout env.start_time env.drain).1.length = pre.length + 1 ∧
        (∀ x ∈ pre, x.thread_count > 1 + x.background_thread_count) ∧
        r.thread_count ≤ 1 + r.background_thread_count) ∧
    ((stop_drain timeout env.start_time env.drain).2.2 = false →
      (∀ x ∈ env.drain, x.thread_count > 1 + x.background_thread_count) ∧
      (s.stop_called_ = false → (env.assertions_enabled && s.terminated_) = false →
        (stop env timeout respond_to remove s).outcome = outcome.yielding)) := by
  have hnot : ∀ r : reading, ¬ budget_spent timeout env.start_time r := by
    intro r hr
    unfold budget_spent at hr
    omega
  have R := stop_drain_run timeout env.start_time env.drain
  have hto : (stop_drain timeout env.start_time env.drain).2.1 = false := by
    cases he : (stop_drain timeout env.start_time env.drain).2.2 with
    | false => exact (R.2.2.1 he).1
    | true =>
      rcases R.2.2.2 he with ⟨pre, r, post, _, _, _, hiff, _⟩
      cases hb : (stop_drain timeout env.start_time env.drain).2.1 with
      | false => rfl
      | true => exact absurd (hiff.mp hb) (hnot r)
  refine ⟨hto, ?_, ?_, ?_⟩
  · intro hmem
    have hle : ∀ e ∈ stop_loop_effects env timeout, e = effect.cleanup_terminated := by
      intro e he
      unfold stop_loop_effects at he
      rw [hto] at he
      simp only [Bool.false_eq_true, if_false, List.append_nil] at he
      exact stop_drain_effects _ _ _ e he
    have hbody : ∀ e ∈ effect.cleanup_logging ::
        (stop_loop_effects env timeout ++ stop_unregister remove),
        e ≠ effect.abort_all_suspended_threads := by
      intro e he
      rcases List.mem_cons.mp he with h | h
      · rw [h]; exact fun k => by cases k
      · rcases List.mem_append.mp h with h | h
        · rw [hle e h]; exact fun k => by cases k
        · intro k
          subst k
          cases remove <;> simp [stop_unregister] at h
    have hloops : ∀ e ∈ effect.cleanup_logging :: stop_loop_effects env timeout,
        e ≠ effect.abort_all_suspended_threads := by
      intro e he
      apply hbody
      rcases List.mem_cons.mp he with h | h
      · rw [h]; exact List.mem_cons_self _ _
      · exact List.mem_cons_of_mem _ (List.mem_append_left _ h)
    cases h1 : s.stop_called_ with
    | true =>
      have : stop env timeout respond_to remove s = ⟨s, [], outcome.returned⟩ := by
        unfold stop; simp [h1]
      rw [this] at hmem; cases hmem
    | false =>
      rcases stop_passed_cases env timeout respond_to remove s h1 with
        ⟨_, e⟩ | ⟨_, _, e⟩ | ⟨h2, h3⟩
      · rw [e] at hmem; simp at hmem
      · rw [e] at hmem; exact hloops _ hmem rfl
      · rw [stop_ended env timeout respond_to remove s h1 h2 h3] at hmem
        cases respond_to with
        | none =>
          rcases List.mem_append.mp hmem with h | h
          · exact hbody _ h rfl
          · simp at h
        | some id =>
          dsimp only at hmem
          split at hmem
          · split at hmem
            · exact hbody _ hmem rfl
            · rcases List.mem_append.mp hmem with h | h
              · exact hbody _ h rfl
              · simp at h
          · rcases List.mem_append.mp hmem with h | h
            · rcases List.mem_append.mp h with h | h
              · exact hbody _ h rfl
              · simp at h
            · simp at h
  · intro he
    rcases R.2.2.2 he with ⟨pre, r, post, e, len, hpre, _, hq⟩
    refine ⟨pre, r, post, e, len, fun x hx => (hpre x hx).2, ?_⟩
    have := hq hto
    unfold threads_left at this
    omega
  · intro he
    refine ⟨fun x hx => ((R.2.2.1 he).2.2 x hx).2, ?_⟩
    intro h1 h2
    have h3 : stop_loops_ended env timeout = false := by
      unfold stop_loops_ended; rw [he]; rfl
    rw [stop_not_ended env timeout respond_to remove s h1 h2 h3]

theorem negative_timeout_waits_forever_witness :
    ((-1 : Int) < 0) ∧
      (stop_drain (-1) coerced_stop_env.start_time coerced_stop_env.drain).2.1 = false ∧
      (stop coerced_stop_env (-1) none false runtime_support.constructed).outcome
        = outcome.yielding ∧
      effect.abort_all_suspended_threads ∉
        (stop coerced_stop_env (-1) none false runtime_support.constructed).effects :=
  ⟨by decide, by decide, by decide,
    (negative_timeout_waits_forever coerced_stop_env (-1) none false
      runtime_support.constructed (by decide)).2.1⟩

/-- Enough readings: with a budget that is not negative, each loop of `stop` ends at a
reading whose elapsed time is above the budget or which finds no thread left. -/
theorem stop_loops_end_on_budget (env : stop_env) (timeout : Int) (h_pos : 0 ≤ timeout)
    (hd : ∃ x ∈ env.drain, timeout < x.elapsed - env.start_time ∨
      x.thread_count ≤ 1 + x.background_thread_count)
    (ha : ∃ x ∈ env.abort, timeout < x.elapsed - env.abort_start_time ∨
      x.thread_count ≤ 1 + x.background_thread_count) :
    stop_loops_ended env timeout = true := by
  have e1 : (stop_drain timeout env.start_time env.drain).2.2 = true := by
    cases hb : (stop_drain timeout env.start_time env.drain).2.2 with
    | true => rfl
    | false =>
      rcases hd with ⟨x, hx, hq⟩
      have := ((stop_drain_run timeout env.start_time env.drain).2.2.1 hb).2.2 x hx
      unfold budget_spent threads_left at this
      rcases hq with hq | hq
      · exact absurd ⟨h_pos, hq⟩ this.1
      · omega
  have e2 : (stop_abort timeout env.abort_start_time env.abort).2.2 = true := by
    cases hb : (stop_abort timeout env.abort_start_time env.abort).2.2 with
    | true => rfl
    | false =>
      rcases ha with ⟨x, hx, hq⟩
      rcases stop_abort_run timeout env.abort_start_time env.abort with ⟨k, _, _, i3, _⟩
      have := (i3 hb).2 x hx
      unfold budget_spent threads_left at this
      rcases hq with hq | hq
      · exact absurd ⟨h_pos, hq⟩ this.1
      · omega
  unfold stop_loops_ended
  rw [e1, e2]
  simp

/-- C16: for a timeout that is not negative, the first loop of `stop` sets `timed_out`
(and so the abort pass is entered) if and only if one of the readings it consumed had
an elapsed time, counted from `start_time`, above the timeout.  The abort pass calls
`abort_all_suspended_threads` once in each of its `k` evaluations, first thing, so at
least once; it ends at the first reading whose elapsed time, counted from the start of
the pass, is above the timeout or which finds `thread_count ≤ 1 + background`.  Once the
loops have ended `stop` goes on to set `stop_done_` (the one exception is the failed
assertion on a `respond_to` that is cached as a local address); and they do end when
each has a reading above the budget or without threads left. -/
theorem timeout_coercion (env : stop_env) (timeout : Int) (respond_to : Option id_type)
    (remove : Bool) (s : runtime_support) (h_pos : 0 ≤ timeout) :
    ((stop_drain timeout env.start_time env.drain).2.1 = true ↔
      ∃ r ∈ env.drain.take (stop_drain timeout env.start_time env.drain).1.length,
        timeout < r.elapsed - env.start_time) ∧
    (∃ k, (stop_abort timeout env.abort_start_time env.abort).1 =
        (List.replicate k
          [effect.abort_all_suspended_threads, effect.cleanup_terminated]).flatten ∧
      (env.abort ≠ [] → 1 ≤ k) ∧
      ((stop_abort timeout env.abort_start_time env.abort).2.2 = true →
        ∃ pre r post, env.abort = pre ++ r :: post ∧ k = pre.length + 1 ∧
          (∀ x ∈ pre, ¬ (timeout < x.elapsed - env.abort_start_time) ∧
            x.thread_count > 1 + x.background_thread_count) ∧
          (timeout < r.elapsed - env.abort_start_time ∨
            r.thread_count ≤ 1 + r.background_thread_count))) ∧
    (s.stop_called_ = false → (env.assertions_enabled && s.terminated_) = false →
      ((stop_drain timeout env.start_time env.drain).2.2 = true →
        (stop_drain timeout env.start_time env.drain).2.1 = true →
        ∃ rest, (stop env timeout respond_to remove s).effects =
          effect.cleanup_logging :: ((stop_drain timeout env.start_time env.drain).1 ++
            ((stop_abort timeout env.abort_start_time env.abort).1 ++ rest))) ∧
      (effect.abort_all_suspended_threads ∈ (stop env timeout respond_to remove s).effects →
        (stop_drain timeout env.start_time env.drain).2.1 = true) ∧
      (stop_loops_ended env timeout = true →
        (respond_to = none ∨ env.is_local_address_cached = false ∨
          env.assertions_enabled = false) →
        (stop env timeout respond_to remove s).state.stop_done_ = true ∧
        (stop env timeout respond_to remove s).outcome = outcome.suspended)) ∧
    ((∃ x ∈ env.drain, timeout < x.elapsed - env.start_time ∨
        x.thread_count ≤ 1 + x.background_thread_count) →
      (∃ x ∈ env.abort, timeout < x.elapsed - env.abort_start_time ∨
        x.thread_count ≤ 1 + x.background_thread_count) →
      stop_loops_ended env timeout = true) := by
  have hspent : ∀ st (r : reading), budget_spent timeout st r ↔ timeout < r.elapsed - st := by
    intro st r
    unfold budget_spent
    constructor
    · exact fun h => h.2
    · exact fun h => ⟨h_pos, h⟩
  have R := stop_drain_run timeout env.start_time env.drain
  refine ⟨?_, ?_, ?_, stop_loops_end_on_budget env timeout h_pos⟩
  · cases he : (stop_drain timeout env.start_time env.drain).2.2 with
    | false =>
      rcases R.2.2.1 he with ⟨hto, hlen, hall⟩
      rw [hto, hlen, List.take_length]
      constructor
      · intro h; cases h
      · rintro ⟨r, hr, hs⟩
        exact absurd ((hspent _ r).mpr hs) (hall r hr).1
    | true =>
      rcases R.2.2.2 he with ⟨pre, r, post, e, len, hpre, hiff, _⟩
      have htake : env.drain.take (stop_drain timeout env.start_time env.drain).1.length
          = pre ++ [r] := by
        rw [len, e]
        have : pre ++ r :: post = (pre ++ [r]) ++ post := by simp
        rw [this]
        have hl : pre.length + 1 = (pre ++ [r]).length := by simp
        rw [hl, List.take_left]
      rw [htake, hiff]
      constructor
      · intro h
        exact ⟨r, by simp, (hspent _ r).mp h⟩
      · rintro ⟨x, hx, hs⟩
        rcases List.mem_append.mp hx with hx | hx
        · exact absurd ((hspent _ x).mpr hs) (hpre x hx).1
        · simp at hx
          subst hx
          exact (hspent _ x).mpr hs
  · rcases stop_abort_run timeout env.abort_start_time env.abort with ⟨k, i1, i2, i3, i4⟩
    refine ⟨k, i1, ?_, ?_⟩
    · intro hne
      cases he : (stop_abort timeout env.abort_start_time env.abort).2.2 with
      | false =>
        have := (i3 he).1
        have hl : 0 < env.abort.length := List.length_pos.mpr hne
        omega
      | true =>
        rcases i4 he with ⟨pre, r, post, _, hk, _, _⟩
        omega
    · intro he
      rcases i4 he with ⟨pre, r, post, e, hk, hpre, hend⟩
      refine ⟨pre, r, post, e, hk, ?_, ?_⟩
      · intro x hx
        have := hpre x hx
        exact ⟨fun hs => this.1 ((hspent _ x).mpr hs), this.2⟩
      · rcases hend with h | h
        · exact Or.inl ((hspent _ r).mp h)
        · right
          unfold threads_left at h
          omega
  · intro h1 h2
    have hloops : stop_loop_effects env timeout =
        (stop_drain timeout env.start_time env.drain).1 ++
          (if (stop_drain timeout env.start_time env.drain).2.1 then
            (stop_abort timeout env.abort_start_time env.abort).1 else []) := rfl
    refine ⟨?_, ?_, ?_⟩
    · intro he hto
      cases h3 : stop_loops_ended env timeout with
      | false =>
        rw [stop_not_ended env timeout respond_to remove s h1 h2 h3, hloops, hto]
        exact ⟨[], by simp⟩
      | true =>
        rw [stop_ended env timeout respond_to remove s h1 h2 h3, hloops, hto]
        cases respond_to with
        | none => exact ⟨_, by simp; rfl⟩
        | some id =>
          dsimp only
          split
          · split
            · exact ⟨_, by simp; rfl⟩
            · exact ⟨_, by simp; rfl⟩
          · exact ⟨_, by simp; rfl⟩
    · intro hmem
      cases hto : (stop_drain timeout env.start_time env.drain).2.1 with
      | true => rfl
      | false =>
        exfalso
        have hle : ∀ e ∈ stop_loop_effects env timeout, e = effect.cleanup_terminated := by
          intro e he
          rw [hloops, hto] at he
          simp only [Bool.false_eq_true, if_false, List.append_nil] at he
          exact stop_drain_effects _ _ _ e he
        have hbody : ∀ e ∈ effect.cleanup_logging ::
            (stop_loop_effects env timeout ++ stop_unregister remove),
            e ≠ effect.abort_all_suspended_threads := by
          intro e he
          rcases List.mem_cons.mp he with h | h
          · rw [h]; exact fun k => by cases k
          · rcases List.mem_append.mp h with h | h
            · rw [hle e h]; exact fun k => by cases k
            · intro k
              subst k
              cases remove <;> simp [stop_unregister] at h
        have hl : ∀ e ∈ effect.cleanup_logging :: stop_loop_effects env timeout,
            e ≠ effect.abort_all_suspended_threads := by
          intro e he
          apply hbody
          rcases List.mem_cons.mp he with h | h
          · rw [h]; exact List.mem_cons_self _ _
          · exact List.mem_cons_of_mem _ (List.mem_append_left _ h)
        cases h3 : stop_loops_ended env timeout with
        | false =>
          rw [stop_not_ended env timeout respond_to remove s h1 h2 h3] at hmem
          exact hl _ hmem rfl
        | true =>
          rw [stop_ended env timeout respond_to remove s h1 h2 h3] at hmem
          cases respond_to with
          | none =>
            rcases List.mem_append.mp hmem with h | h
            · exact hbody _ h rfl
            · simp at h
          | some id =>
            dsimp only at hmem
            split at hmem
            · split at hmem
              · exact hbody _ hmem rfl
              · rcases List.mem_append.mp hmem with h | h
                · exact hbody _ h rfl
                · simp at h
            · rcases List.mem_append.mp hmem with h | h
              · rcases List.mem_append.mp h with h | h
                · exact hbody _ h rfl
                · simp at h
              · simp at h
    · intro h3 hok
      rw [stop_ended env timeout respond_to remove s h1 h2 h3]
      cases respond_to with
      | none => exact ⟨rfl, rfl⟩
      | some id =>
        dsimp only
        rcases hok with h | h | h
        · cases h
        · simp [h]
        · cases hc : env.is_local_address_cached <;> simp [h]

theorem timeout_coercion_witness :
    ((0 : Int) ≤ 5) ∧
      (stop_drain 5 coerced_stop_env.start_time coerced_stop_env.drain).2.1 = true ∧
      (stop coerced_stop_env 5 (some 7) true runtime_support.constructed).effects =
        coerced_stop_calls ++ [effect.set_event_sync 7, effect.wait_condition_notify_all,
          effect.stop_condition_wait] ∧
      ((stop coerced_stop_env 5 (some 7) true runtime_support.constructed).state.stop_done_
          = true ∧
        (stop coerced_stop_env 5 (some 7) true runtime_support.constructed).outcome
          = outcome.suspended) :=
  ⟨by decide, by decide, by decide,
    (timeout_coercion coerced_stop_env 5 (some 7) true runtime_support.constructed
      (by decide)).2.2.1 (by decide) (by decide) |>.2.2 (by decide) (Or.inr (Or.inl rfl))⟩

/-! ## Lemmas on the hook phases -/

theorem called_hooks_append (E F : List hook_effect) :
    called_hooks (E ++ F) = called_hooks E ++ called_hooks F := by
  induction E with
  | nil => rfl
  | cons e E ih => cases e <;> simp [called_hooks, ih]

theorem reported_errors_append (E F : List hook_effect) :
    reported_errors (E ++ F) = reported_errors E ++ reported_errors F := by
  induction E with
  | nil => rfl
  | cons e E ih => cases e <;> simp [reported_errors, ih]

theorem shutdown_loop_calls (fs : List hook) :
    called_hooks (shutdown_loop fs) = fs ∧
      reported_errors (shutdown_loop fs) = fs.filterMap (fun f => f.throws) ∧
      shutdown_loop fs = (fs.map hook.shutdown_calls).flatten := by
  induction fs with
  | nil => exact ⟨rfl, rfl, rfl⟩
  | cons f fs ih =>
    rcases ih with ⟨i1, i2, i3⟩
    unfold shutdown_loop
    cases hf : f.throws with
    | none =>
      refine ⟨?_, ?_, ?_⟩
      · simp [called_hooks, i1]
      · simp [reported_errors, i2, List.filterMap_cons, hf]
      · simp only [List.map_cons, List.flatten_cons, hook.shutdown_calls, hf]
        rw [← i3]; rfl
    | some e =>
      refine ⟨?_, ?_, ?_⟩
      · simp [called_hooks, i1]
      · simp [reported_errors, i2, List.filterMap_cons, hf]
      · simp only [List.map_cons, List.flatten_cons, hook.shutdown_calls, hf]
        rw [← i3]; rfl

theorem startup_loop_all (fs : List hook) (h : ∀ f ∈ fs, f.throws = none) :
    startup_loop fs = ⟨fs.map hook_effect.call, none⟩ := by
  induction fs with
  | nil => rfl
  | cons f fs ih =>
    unfold startup_loop
    rw [h f (List.mem_cons_self _ _), ih (fun g hg => h g (List.mem_cons_of_mem _ hg))]
    rfl

theorem startup_loop_throws (before : List hook) (f : hook) (e : Nat) (after : List hook)
    (h : ∀ g ∈ before, g.throws = none) (hf : f.throws = some e) :
    startup_loop (before ++ f :: after) =
      ⟨(before ++ [f]).map hook_effect.call, some e⟩ := by
  induction before with
  | nil =>
    simp only [List.nil_append]
    unfold startup_loop
    rw [hf]
    rfl
  | cons g before ih =>
    simp only [List.cons_append]
    unfold startup_loop
    rw [h g (List.mem_cons_self _ _), ih (fun x hx => h x (List.mem_cons_of_mem _ hx))]
    rfl

theorem called_hooks_map_call (fs : List hook) :
    called_hooks (fs.map hook_effect.call) = fs := by
  induction fs with
  | nil => rfl
  | cons f fs ih => simp [called_hooks, ih]

/-! ## Startup and shutdown functions (C17, C18) -/

/-- C17: `call_shutdown_functions(pre)` first sets the runtime state to the selected
phase (`state_pre_shutdown` when `pre` is true, `state_shutdown` otherwise) and then
calls every function of the selected list once per registration, in registration
order; an exception of a function is handed to `report_error` right after that call
and the loop goes on with the next function, so the reported exceptions are exactly
the raised ones, in order; no exception leaves `call_shutdown_functions`; the functions
called are those of the selected list only (the shutdown phase ends by detaching the
global barrier). -/
theorem shutdown_hooks_all_run (pre : Bool) (l : hook_lists) :
    (call_shutdown_functions pre l).thrown = none ∧
      (call_shutdown_functions pre l).effects =
        hook_effect.set_state
            (if pre then runtime_state.state_pre_shutdown else runtime_state.state_shutdown) ::
          (((if pre then l.pre_shutdown_functions_ else l.shutdown_functions_).map
              hook.shutdown_calls).flatten ++
            (if pre then [] else [hook_effect.barrier_detach])) ∧
      called_hooks (call_shutdown_functions pre l).effects =
        (if pre then l.pre_shutdown_functions_ else l.shutdown_functions_) ∧
      reported_errors (call_shutdown_functions pre l).effects =
        (if pre then l.pre_shutdown_functions_ else l.shutdown_functions_).filterMap
          (fun f => f.throws) := by
  cases pre
  · have h := shutdown_loop_calls l.shutdown_functions_
    refine ⟨rfl, ?_, ?_, ?_⟩
    · simp only [call_shutdown_functions, Bool.false_eq_true, if_false]
      rw [← h.2.2]
    · simp only [call_shutdown_functions, Bool.false_eq_true, if_false, called_hooks]
      rw [called_hooks_append, h.1]
      simp [called_hooks]
    · simp only [call_shutdown_functions, Bool.false_eq_true, if_false, reported_errors]
      rw [reported_errors_append, h.2.1]
      simp [reported_errors]
  · have h := shutdown_loop_calls l.pre_shutdown_functions_
    refine ⟨rfl, ?_, ?_, ?_⟩
    · simp only [call_shutdown_functions, if_true]
      rw [← h.2.2, List.append_nil]
    · simp only [call_shutdown_functions, if_true, called_hooks]
      exact h.1
    · simp only [call_shutdown_functions, if_true, reported_errors]
      exact h.2.1

/-- C18: `call_startup_functions(pre)` first sets the runtime state to
`state_pre_startup` (`pre` true) or `state_startup` (`pre` false) and then calls the
functions of that list only, in registration order. When no function throws, all of
them are called and nothing is thrown; when the function `f` is the first one that
throws, its exception leaves `call_startup_functions`, the functions up to and
including `f` have been called and none of the later ones is. -/
theorem startup_hooks_stop_at_first_throw (pre : Bool) (l : hook_lists) :
    ((∀ f ∈ (if pre then l.pre_startup_functions_ else l.startup_functions_),
        f.throws = none) →
      (call_startup_functions pre l).thrown = none ∧
        (call_startup_functions pre l).effects =
          hook_effect.set_state
              (if pre then runtime_state.state_pre_startup else runtime_state.state_startup) ::
            (if pre then l.pre_startup_functions_ else l.startup_functions_).map
              hook_effect.call ∧
        called_hooks (call_startup_functions pre l).effects =
          (if pre then l.pre_startup_functions_ else l.startup_functions_)) ∧
      (∀ (before : List hook) (f : hook) (e : Nat) (after : List hook),
        (if pre then l.pre_startup_functions_ else l.startup_functions_) =
            before ++ f :: after →
          (∀ g ∈ before, g.throws = none) → f.throws = some e →
          (call_startup_functions pre l).thrown = some e ∧
            (call_startup_functions pre l).effects =
              hook_effect.set_state
                  (if pre then runtime_state.state_pre_startup
                    else runtime_state.state_startup) ::
                (before ++ [f]).map hook_effect.call ∧
            called_hooks (call_startup_functions pre l).effects = before ++ [f]) := by
  cases pre
  · simp only [Bool.false_eq_true, if_false, call_startup_functions]
    refine ⟨fun h => ?_, fun before f e after hl hb hf => ?_⟩
    · rw [startup_loop_all _ h]
      exact ⟨rfl, rfl, by simp only [called_hooks]; exact called_hooks_map_call _⟩
    · rw [hl, startup_loop_throws before f e after hb hf]
      exact ⟨rfl, rfl, by simp only [called_hooks]; exact called_hooks_map_call _⟩
  · simp only [if_true, call_startup_functions]
    refine ⟨fun h => ?_, fun before f e after hl hb hf => ?_⟩
    · rw [startup_loop_all _ h]
      exact ⟨rfl, rfl, by simp only [called_hooks]; exact called_hooks_map_call _⟩
    · rw [hl, startup_loop_throws before f e after hb hf]
      exact ⟨rfl, rfl, by simp only [called_hooks]; exact called_hooks_map_call _⟩

/-- The startup phase of `sample_hooks`: the second startup function throws 30, the
third one is not called. -/
theorem startup_hooks_stop_at_first_throw_witness :
    (call_startup_functions false sample_hooks).thrown = some 30 ∧
      (call_startup_functions false sample_hooks).effects =
        hook_effect.set_state runtime_state.state_startup ::
          (([⟨2, none⟩] ++ [⟨3, some 30⟩] : List hook)).map hook_effect.call ∧
      called_hooks (call_startup_functions false sample_hooks).effects =
        ([⟨2, none⟩] ++ [⟨3, some 30⟩] : List hook) :=
  (startup_hooks_stop_at_first_throw false sample_hooks).2
    [⟨2, none⟩] ⟨3, some 30⟩ 30 [⟨4, none⟩] (by decide) (by decide) rfl

/-! ## Lemmas on the loader -/

theorem load_state_log_options (s : load_state) (e : load_event) :
    (s.log e).options = s.options := rfl

theorem still_unknown_loop_some (env : load_env) (opts : List String) :
    ∀ (fuel i : Nat) (acc : String), i ≤ opts.length → opts.length - i < fuel →
      ∃ str, still_unknown_loop env opts fuel i acc = some str := by
  intro fuel
  induction fuel with
  | zero => intro i acc _ h; omega
  | succ fuel ih =>
    intro i acc hi hf
    unfold still_unknown_loop
    by_cases he : i = opts.length
    · exact ⟨acc, by simp [he]⟩
    · have hlt : i < opts.length := by omega
      simp only [he, if_false]
      rw [List.get?_eq_get hlt]
      exact ih (i + 1) _ (by omega) (by omega)

theorem still_unknown_commandline_some (env : load_env) (opts : List String) (h : opts ≠ []) :
    ∃ str, still_unknown_commandline env opts = some str := by
  have hl : 1 ≤ opts.length := by
    cases opts with
    | nil => exact absurd rfl h
    | cons o os => simp
  exact still_unknown_loop_some env opts _ 1 "" hl (by omega)

theorem still_unknown_commandline_nil (env : load_env) :
    still_unknown_commandline env [] = none := rfl

theorem process_unknown_cmd_line_spec (env : load_env) (ini : configuration) (s : load_state) :
    (process_unknown_cmd_line env ini s).1.options = s.options ∧
      ((process_unknown_cmd_line env ini s).2 = processing.raised ↔
        unknown_cmd_line_raises env ini s.options) ∧
      ((process_unknown_cmd_line env ini s).2 = processing.out_of_range ↔
        unknown_options_empty env ini s.options) ∧
      (process_unknown_cmd_line env ini s).2 ≠ processing.exit_requested := by
  unfold process_unknown_cmd_line unknown_cmd_line_raises unknown_options_empty
  by_cases h0 : ini.get_entry "hpx.unknown_cmd_line" "" = ""
  · simp [h0]
  · simp only [h0, if_false, ne_eq, not_false_eq_true, true_and]
    have hp : env.parse_commandline s.options (ini.get_entry "hpx.unknown_cmd_line" "")
        (if ini.get_entry "hpx.commandline.allow_unknown" "0" ≠ "0" then
          commandline_error_mode.allow_unregistered
        else commandline_error_mode.rethrow_on_error)
        (ini.get_entry "hpx.runtime_mode" "") = unknown_cmd_line_parsed env ini s.options := rfl
    simp only [ne_eq] at hp
    rw [hp]
    cases hq : unknown_cmd_line_parsed env ini s.options with
    | none => simp
    | some p =>
      by_cases he : p.still_unregistered_options = []
      · simp [he, still_unknown_commandline_nil]
      · obtain ⟨str, hstr⟩ := still_unknown_commandline_some env _ he
        simp only [hstr]
        by_cases hs : str = ""
        · simp [hs, he]
        · simp [hs, he, load_state_log_options]

theorem process_cmd_line_help_spec (ini : configuration) (s : load_state) :
    (process_cmd_line_help ini s).1.options = s.options ∧
      ((process_cmd_line_help ini s).2 = processing.raised ↔
        help_configured ini ∧ ¬ help_option_accepted ini) ∧
      ((process_cmd_line_help ini s).2 = processing.exit_requested ↔
        help_configured ini ∧ help_option_accepted ini) ∧
      ((process_cmd_line_help ini s).2 = processing.completed ↔ ¬ help_configured ini) ∧
      (process_cmd_line_help ini s).2 ≠ processing.out_of_range := by
  unfold process_cmd_line_help help_configured help_option_accepted
  by_cases h0 : ini.get_entry "hpx.cmd_line_help" "" = ""
  · simp [h0]
  · by_cases h1 : string_find "full" (ini.get_entry "hpx.cmd_line_help_option" "") = some 0
    · simp [h0, h1, load_state_log_options]
    · simp [h0, h1]

theorem process_vm_spec (env : load_env) (ini : configuration) (p : parsed) (s : load_state) :
    ((process_vm env ini p s).2 = processing.raised ↔ vm_raises env ini p) ∧
      ((process_vm env ini p s).2 = processing.exit_requested ↔
        ¬ vm_raises env ini p ∧ "hpx:exit" ∈ p.vm) ∧
      ((process_vm env ini p s).2 = processing.completed ↔
        ¬ vm_raises env ini p ∧ "hpx:exit" ∉ p.vm) ∧
      (process_vm env ini p s).2 ≠ processing.out_of_range := by
  unfold process_vm vm_raises
  by_cases hb : "hpx:print-bind" ∈ p.vm
  · cases hc : env.lexical_cast (ini.get_entry "hpx.os_threads" "1") with
    | none => simp [hb, hc]
    | some n =>
      cases ht : env.handle_print_bind_throws p.vm n
      · by_cases hl : "hpx:list-parcel-ports" ∈ p.vm
        · cases hlt : env.handle_list_parcelports_throws
          · by_cases hx : "hpx:exit" ∈ p.vm <;> simp [hb, hc, ht, hl, hlt, hx]
          · simp [hb, hc, ht, hl, hlt]
        · by_cases hx : "hpx:exit" ∈ p.vm <;> simp [hb, hc, ht, hl, hx]
      · simp [hb, hc, ht]
  · by_cases hl : "hpx:list-parcel-ports" ∈ p.vm
    · cases hlt : env.handle_list_parcelports_throws
      · by_cases hx : "hpx:exit" ∈ p.vm <;> simp [hb, hl, hlt, hx]
      · simp [hb, hl, hlt]
    · by_cases hx : "hpx:exit" ∈ p.vm <;> simp [hb, hl, hx]

theorem process_cmd_line_spec (env : load_env) (ini : configuration) (s : load_state) :
    ((process_cmd_line env ini s).2 = processing.raised ↔ cmd_line_raises env ini s.options) ∧
      ((process_cmd_line env ini s).2 = processing.exit_requested ↔
        ¬ cmd_line_raises env ini s.options ∧ exit_on_cmd_line env ini s.options) ∧
      ((process_cmd_line env ini s).2 = processing.completed ↔
        ¬ cmd_line_raises env ini s.options ∧ ¬ exit_on_cmd_line env ini s.options) ∧
      (process_cmd_line env ini s).2 ≠ processing.out_of_range := by
  unfold process_cmd_line cmd_line_raises exit_on_cmd_line
  by_cases h0 : ini.get_entry "hpx.cmd_line" "" = ""
  · simp [h0]
  · simp only [h0, if_false, ne_eq, not_false_eq_true, true_and]
    have hp : env.parse_commandline s.options (ini.get_entry "hpx.cmd_line" "")
        commandline_error_mode.allow_unregistered_report_missing_config_file
        (ini.get_entry "hpx.runtime_mode" "") = cmd_line_parsed env ini s.options := rfl
    rw [hp]
    cases hq : cmd_line_parsed env ini s.options with
    | none => simp
    | some p =>
      have h := process_vm_spec env ini p s
      simp only [Option.some.injEq, exists_eq_left', false_or, reduceCtorEq]
      exact h

theorem load_components_ini_code (env : load_env) (ini : configuration) (s : load_state) :
    (load_components_ini env ini s).2 = 0 := by
  unfold load_components_ini
  cases ini.components <;> rfl

theorem load_plugins_false_iff (env : load_env) (ini : configuration) (s : load_state) :
    (load_plugins env ini s).2 = false ↔ ini.plugins = section_lookup.null := by
  unfold load_plugins
  cases ini.plugins <;> simp

theorem command_line_processing_spec (env : load_env) (ini : configuration) (s : load_state) :
    ((command_line_processing env ini s).2 = processing.out_of_range ↔
        unknown_options_empty env ini s.options) ∧
      (¬ unknown_options_empty env ini s.options →
        ((command_line_processing env ini s).2 = processing.raised ↔
            processing_raises env ini s.options) ∧
          ((command_line_processing env ini s).2 = processing.exit_requested ↔
            ¬ processing_raises env ini s.options ∧ exit_requested env ini s.options) ∧
          ((command_line_processing env ini s).2 = processing.completed ↔
            ¬ processing_raises env ini s.options ∧ ¬ exit_requested env ini s.options)) := by
  obtain ⟨ho, hr, hoor, hne⟩ := process_unknown_cmd_line_spec env ini s
  unfold command_line_processing processing_raises exit_requested
  cases h1 : process_unknown_cmd_line env ini s with
  | mk s1 p1 =>
    rw [h1] at ho hr hoor hne
    simp only at ho hr hoor hne
    cases p1 with
    | raised =>
      have hu : unknown_cmd_line_raises env ini s.options := hr.1 rfl
      have hn : ¬ unknown_options_empty env ini s.options := fun h => by
        have := hoor.2 h
        cases this
      simp [hu, hn]
    | exit_requested => exact absurd rfl hne
    | out_of_range =>
      have hu : unknown_options_empty env ini s.options := hoor.1 rfl
      simp [hu]
    | completed =>
      have hu : ¬ unknown_cmd_line_raises env ini s.options := fun h => by
        have := hr.2 h
        cases this
      have hn : ¬ unknown_options_empty env ini s.options := fun h => by
        have := hoor.2 h
        cases this
      obtain ⟨go, gr, ge, gc, gn⟩ := process_cmd_line_help_spec ini s1
      simp only
      cases h2 : process_cmd_line_help ini s1 with
      | mk s2 p2 =>
        rw [h2] at go gr ge gc gn
        simp only at go gr ge gc gn
        cases p2 with
        | raised =>
          have := gr.1 rfl
          simp [hu, hn, this.1, this.2]
        | exit_requested =>
          have := ge.1 rfl
          simp [hu, hn, this.1, this.2]
        | out_of_range => exact absurd rfl gn
        | completed =>
          have hh : ¬ help_configured ini := gc.1 rfl
          obtain ⟨cr, ce, cc, cn⟩ := process_cmd_line_spec env ini s2
          rw [go, ho] at cr ce cc
          simp only [hu, hn, hh, false_and, not_false_eq_true, true_and, false_or, true_implies,
            iff_false]
          exact ⟨cn, cr, ce, cc⟩

/-! ## The loader (C19, C20) -/

/-- C19 (the code at the failing input): the plugin `p` is registered already and the
configuration has the plugin sections `p` and `q`.  `load_plugin` finds the instance
name `p` in `plugins_`, logs "duplicate plugin type" at level fatal and returns
`false`; `load_plugins` does not read that result: it goes on with the section `q`,
loads its library, registers `q` and returns `true`, and `load_components` returns 0,
not -2.  On every input `load_plugins` returns `false` only when `get_section` gives
`nullptr` for `hpx.plugins`. -/
theorem duplicate_plugin_not_fatal :
    (load_plugin plain_env ini_p_q ⟨"lib", "hpx_p"⟩ "p" true loaded_p).outcome =
        load_outcome.returned false ∧
      (load_plugin plain_env ini_p_q ⟨"lib", "hpx_p"⟩ "p" true loaded_p).state.events =
        [load_event.fatal_duplicate_plugin "p"] ∧
      loaded_p.plugins_.map Prod.fst = ["p"] ∧
      (load_plugins plain_env ini_p_q loaded_p).2 = true ∧
      (load_plugins plain_env ini_p_q loaded_p).1.events =
        [load_event.fatal_duplicate_plugin "p", load_event.load_library ⟨"lib", "hpx_q"⟩] ∧
      (load_plugins plain_env ini_p_q loaded_p).1.plugins_.map Prod.fst = ["p", "q"] ∧
      (load_components plain_env ini_p_q loaded_p).2 = some 0 ∧
      ∀ (env : load_env) (ini : configuration) (s : load_state),
        (load_plugins env ini s).2 = false ↔ ini.plugins = section_lookup.null :=
  ⟨by decide, by decide, by decide, by decide, by decide, by decide, by decide,
    load_plugins_false_iff⟩

/-- C20: the return code of `load_components()`, with `options` the options description
after the two loading passes.  When the unknown command line is parsed into an empty
vector the loop over it reads outside the vector and there is no return code.
Otherwise the code is one of 0, 1, -1, -2; it is -1 exactly when the secondary command
line processing raises; 1 exactly when it does not raise and an early exit is requested
(a help text with an accepted help option, or `hpx:exit` on the command line); -2
exactly when neither holds and `load_plugins` returned `false`; 0 exactly when neither
holds and `load_plugins` returned `true`. -/
theorem load_components_return_code (env : load_env) (ini : configuration) (s : load_state) :
    (unknown_options_empty env ini (load_modules env ini s).1.options →
        (load_components env ini s).2 = none) ∧
      (¬ unknown_options_empty env ini (load_modules env ini s).1.options →
        ∃ c : Int, (load_components env ini s).2 = some c ∧
          (c = 0 ∨ c = 1 ∨ c = -1 ∨ c = -2) ∧
          (c = -1 ↔ processing_raises env ini (load_modules env ini s).1.options) ∧
          (c = 1 ↔ ¬ processing_raises env ini (load_modules env ini s).1.options ∧
            exit_requested env ini (load_modules env ini s).1.options) ∧
          (c = -2 ↔ ¬ processing_raises env ini (load_modules env ini s).1.options ∧
            ¬ exit_requested env ini (load_modules env ini s).1.options ∧
            (load_modules env ini s).2 = false) ∧
          (c = 0 ↔ ¬ processing_raises env ini (load_modules env ini s).1.options ∧
            ¬ exit_requested env ini (load_modules env ini s).1.options ∧
            (load_modules env ini s).2 = true)) := by
  obtain ⟨hoor, hrest⟩ := command_line_processing_spec env ini (load_modules env ini s).1
  refine ⟨fun h => ?_, fun h => ?_⟩
  · have := hoor.2 h
    unfold load_components
    cases hc : command_line_processing env ini (load_modules env ini s).1 with
    | mk s1 p1 =>
      rw [hc] at this
      simp only at this
      subst this
      rfl
  · obtain ⟨hr, he, hc⟩ := hrest h
    unfold load_components
    rw [load_components_ini_code]
    cases hp : command_line_processing env ini (load_modules env ini s).1 with
    | mk s1 p1 =>
      rw [hp] at hr he hc hoor
      simp only at hr he hc hoor
      cases p1 with
      | raised =>
        have h1 := hr.1 rfl
        exact ⟨-1, rfl, by decide, by simp [h1], by simp [h1], by simp [h1], by simp [h1]⟩
      | exit_requested =>
        have h1 := he.1 rfl
        exact ⟨1, rfl, by decide, by simp [h1.1], by simp [h1.1, h1.2], by simp [h1.2],
          by simp [h1.2]⟩
      | out_of_range => exact absurd (hoor.1 rfl) h
      | completed =>
        have h1 := hc.1 rfl
        cases hl : (load_modules env ini s).2
        · exact ⟨-2, by simp, by decide, by simp [h1.1], by simp [h1.2], by simp [h1.1, h1.2],
            by simp⟩
        · exact ⟨0, by simp, by decide, by simp [h1.1], by simp [h1.2], by simp,
            by simp [h1.1, h1.2]⟩

/-- The command line `a.out --hpx:exit` with a parser that finds `hpx:exit`: the unknown
command line is empty and the code is 1. -/
theorem load_components_return_code_witness :
    ∃ c : Int, (load_components exit_env ini_exit load_state.empty).2 = some c ∧
      (c = 0 ∨ c = 1 ∨ c = -1 ∨ c = -2) ∧
      (c = -1 ↔ processing_raises exit_env ini_exit
        (load_modules exit_env ini_exit load_state.empty).1.options) ∧
      (c = 1 ↔ ¬ processing_raises exit_env ini_exit
          (load_modules exit_env ini_exit load_state.empty).1.options ∧
        exit_requested exit_env ini_exit
          (load_modules exit_env ini_exit load_state.empty).1.options) ∧
      (c = -2 ↔ ¬ processing_raises exit_env ini_exit
          (load_modules exit_env ini_exit load_state.empty).1.options ∧
        ¬ exit_requested exit_env ini_exit
          (load_modules exit_env ini_exit load_state.empty).1.options ∧
        (load_modules exit_env ini_exit load_state.empty).2 = false) ∧
      (c = 0 ↔ ¬ processing_raises exit_env ini_exit
          (load_modules exit_env ini_exit load_state.empty).1.options ∧
        ¬ exit_requested exit_env ini_exit
          (load_modules exit_env ini_exit load_state.empty).1.options ∧
        (load_modules exit_env ini_exit load_state.empty).2 = true) :=
  (load_components_return_code exit_env ini_exit load_state.empty).2
    (fun h => h.1 (by decide))

/-! ## Lemmas on quiescence in the ring -/

theorem ring_wf_step (n : Nat) (hn : 2 ≤ n) (h32 : n < 4294967296) (r : ring) (a : action)
    (h : ring_wf n r) : ring_wf n (step r a).1 := by
  rcases r with ⟨color, N, init, tid, count, pc, token⟩
  rcases h with ⟨hi, hN, htid, hm⟩
  dsimp only at hi hN htid hm
  subst hi hN
  have htid' := htid.symm
  subst htid'
  cases a with
  | dijkstra_make_black k =>
    refine ⟨rfl, rfl, rfl, ?_⟩
    simpa [step] using hm
  | deliver =>
    cases pc <;> cases token <;> simp only [] at hm
    · exact ⟨rfl, rfl, rfl, by simp [step]⟩
    · rename_i p
      rcases hm with ⟨hpi, hpn, hpt⟩
      by_cases h0 : p.target_locality_id = 0
      · have e : p.initiating_locality_id = p.target_locality_id := by rw [hpi, h0]
        refine ⟨by simp [step, e], by simp [step, e], by simp [step, e], ?_⟩
        simp [step, e]
      · have e : ¬ p.initiating_locality_id = p.target_locality_id := by
          rw [hpi]; exact fun h => h0 h.symm
        refine ⟨by simp [step, e], by simp [step, e], by simp [step, e], ?_⟩
        simp only [step, e, if_false]
        exact ⟨hpi, hpn, hpt, by omega⟩
    · rename_i p
      exact ⟨rfl, rfl, rfl, by simpa [step] using hm⟩
    · exact ⟨rfl, rfl, rfl, by simp [step]⟩
    · exact ⟨rfl, rfl, rfl, by simp [step]⟩
  | poll tc bg =>
    cases hact : still_active tc bg
    · cases pc <;> cases token <;> simp only [] at hm
      · refine ⟨by simp [step, hact], by simp [step, hact], by simp [step, hact], ?_⟩
        simp only [step, hact, send_dijkstra_termination_token]
        refine ⟨rfl, rfl, ?_⟩
        dsimp only
        rw [uint32_pred_pos N (by omega) h32]
        omega
      · rename_i p
        exact ⟨by simp [step, hact], by simp [step, hact], by simp [step, hact],
          by simpa [step, hact] using hm⟩
      · rename_i p
        rcases hm with ⟨hpi, hpn, hpt, hp0⟩
        refine ⟨by simp [step, hact], by simp [step, hact], by simp [step, hact], ?_⟩
        simp only [step, hact, send_dijkstra_termination_token]
        refine ⟨hpi, hpn, ?_⟩
        dsimp only
        rw [ring_target_pos p.target_locality_id p.num_localities hp0 (by omega)]
        omega
      · exact ⟨by simp [step, hact], by simp [step, hact], by simp [step, hact],
          by simp [step, hact]⟩
      · exact ⟨by simp [step, hact], by simp [step, hact], by simp [step, hact],
          by simp [step, hact]⟩
    · cases pc <;> cases token <;> simp only [] at hm
      · exact ⟨by simp [step, hact], by simp [step, hact], by simp [step, hact],
          by simp [step, hact]⟩
      · rename_i p
        exact ⟨by simp [step, hact], by simp [step, hact], by simp [step, hact],
          by simpa [step, hact] using hm⟩
      · rename_i p
        exact ⟨by simp [step, hact], by simp [step, hact], by simp [step, hact],
          by simpa [step, hact] using hm⟩
      · exact ⟨by simp [step, hact], by simp [step, hact], by simp [step, hact],
          by simp [step, hact]⟩
      · exact ⟨by simp [step, hact], by simp [step, hact], by simp [step, hact],
          by simp [step, hact]⟩
  | wake =>
    cases pc <;> cases token <;> simp only [] at hm
    · exact ⟨rfl, rfl, rfl, by simp [step]⟩
    · rename_i p
      exact ⟨rfl, rfl, rfl, by simpa [step] using hm⟩
    · rename_i p
      exact ⟨rfl, rfl, rfl, by simpa [step] using hm⟩
    · cases hc : color 0
      · exact ⟨by simp [step, hc], by simp [step, hc], by simp [step, hc], by simp [step, hc]⟩
      · exact ⟨by simp [step, hc], by simp [step, hc], by simp [step, hc], by simp [step, hc]⟩
    · exact ⟨rfl, rfl, rfl, by simp [step]⟩

theorem ring_wf_run (n : Nat) (hn : 2 ≤ n) (h32 : n < 4294967296) (sched : List action)
    (r : ring) (h : ring_wf n r) : ring_wf n (run_schedule r sched).1 :=
  run_effects_invariant (fun r _ => ring_wf n r)
    (fun r _ a _ hP => ring_wf_step n hn h32 r a hP) sched r [] h

theorem ring_wf_begin (color : Nat → Bool) (locality_ids : List id_type)
    (h2 : 2 ≤ locality_ids.length) (h32 : locality_ids.length < 4294967296) :
    ring_wf locality_ids.length (detection_begin color 0 locality_ids) := by
  rw [detection_begin_ring color 0 locality_ids h2 h32]
  exact ⟨rfl, rfl, by simp, trivial⟩

theorem relay_schedule_length (t : Nat) :
    (List.replicate t [action.deliver, action.poll 1 0]).flatten.length = 2 * t := by
  induction t with
  | zero => rfl
  | succ t ih => simp [List.replicate_succ, ih]; omega

theorem relay_schedule_quiet (t : Nat) (a : action)
    (h : a ∈ (List.replicate t [action.deliver, action.poll 1 0]).flatten) :
    a.quiet = true := by
  induction t with
  | zero => simp at h
  | succ t ih =>
    simp only [List.replicate_succ, List.flatten_cons, List.mem_append, List.mem_cons,
      List.mem_singleton, List.not_mem_nil, or_false] at h
    rcases h with (h | h) | h
    · subst h; rfl
    · subst h; decide
    · exact ih h

theorem quiet_probe_quiet (n : Nat) (a : action) (h : a ∈ quiet_probe n) : a.quiet = true := by
  unfold quiet_probe quiet_round at h
  simp only [List.mem_append, List.mem_cons, List.mem_singleton, List.not_mem_nil,
    or_false] at h
  rcases h with (h | h | h) | h
  · subst h; decide
  · exact relay_schedule_quiet _ a h
  · subst h; rfl
  · subst h; rfl

theorem quiet_probe_length (n : Nat) (hn : 1 ≤ n) : (quiet_probe n).length = 2 * n + 1 := by
  unfold quiet_probe quiet_round
  simp [relay_schedule_length]
  omega

theorem finish_revolution_quiet (r : ring) (a : action) (h : a ∈ finish_revolution r) :
    a.quiet = true := by
  unfold finish_revolution at h
  split at h
  · simp only [List.mem_append, List.mem_cons, List.mem_singleton, List.not_mem_nil,
      or_false] at h
    rcases h with h | h | h
    · exact relay_schedule_quiet _ a h
    · subst h; rfl
    · subst h; rfl
  · simp only [List.mem_append, List.mem_cons, List.mem_singleton, List.not_mem_nil,
      or_false] at h
    rcases h with h | h | h | h
    · subst h; decide
    · exact relay_schedule_quiet _ a h
    · subst h; rfl
    · subst h; rfl
  · simp only [List.mem_singleton] at h
    subst h; rfl
  · simp at h

theorem finish_revolution_length (n : Nat) (hn : 2 ≤ n) (r : ring) (h : ring_wf n r) :
    (finish_revolution r).length ≤ 2 * n := by
  rcases r with ⟨color, N, init, tid, count, pc, token⟩
  rcases h with ⟨_, _, _, hm⟩
  dsimp only at hm
  cases pc <;> cases token <;> simp only [] at hm
  · simp [finish_revolution]
  · rename_i p
    simp only [finish_revolution, List.length_nil, List.length_cons, List.length_append,
      relay_schedule_length]
    omega
  · rename_i p
    simp only [finish_revolution, List.length_nil, List.length_cons, List.length_append,
      relay_schedule_length]
    omega
  · simp only [finish_revolution, List.length_nil, List.length_cons]
    omega
  · simp [finish_revolution]

/-- The token that reaches the initiator is delivered and the initiator wakes up: the
probe is counted and the detection returns or starts the next probe. -/
theorem deliver_and_wake (x : ring) (n : Nat) (b : Bool) (hpc : x.pc = phase.waiting)
    (htok : x.token = token_place.in_flight ⟨0, 0, n, b⟩) :
    (run_schedule x [action.deliver, action.wake]).1.pc = phase.sending ∨
      (run_schedule x [action.deliver, action.wake]).1.pc = phase.finished := by
  rcases x with ⟨color, N, init, tid, count, pc, token⟩
  dsimp only at hpc htok
  subst hpc htok
  rw [run_schedule_cons _ _ _ (by simp)]
  dsimp only
  have h1 : step ⟨color, N, init, tid, count, phase.waiting,
      token_place.in_flight ⟨0, 0, n, b⟩⟩ action.deliver =
      (⟨if b then Function.update color 0 true else color, N, init, tid, count,
          phase.notified, token_place.absent⟩,
        [ring_effect.agas_start_shutdown 0, ring_effect.flush_parcels 0,
          ring_effect.notify_one 0]) := by
    simp [step]
  rw [h1]
  dsimp only
  rw [run_schedule_cons _ _ _ (by simp), run_schedule_nil]
  dsimp only
  cases hc : (if b then Function.update color 0 true else color) init <;>
    simp [step, hc]

theorem finish_revolution_run (n : Nat) (hn : 2 ≤ n) (h32 : n < 4294967296) (r : ring)
    (h : ring_wf n r) :
    (run_schedule r (finish_revolution r)).1.pc = phase.sending ∨
      (run_schedule r (finish_revolution r)).1.pc = phase.finished := by
  rcases r with ⟨color, N, init, tid, count, pc, token⟩
  have h' := h
  rcases h' with ⟨hi, hN, htid, hm⟩
  dsimp only at hi hN htid hm
  cases pc <;> cases token <;> simp only [] at hm
  · exact Or.inl rfl
  · rename_i p
    rcases p with ⟨t, pi, pn, b⟩
    rcases hm with ⟨hpi, hpn, hpt⟩
    dsimp only at hpi hpn hpt
    subst hpi hpn
    simp only [finish_revolution]
    rw [run_schedule_append]
    dsimp only
    have R := relay pn h32 t ⟨color, N, init, tid, count, phase.waiting,
      token_place.in_flight ⟨t, 0, pn, b⟩⟩ b rfl rfl hpt
    rcases R with ⟨r1, _, _, _, _, ⟨b2, hb2, _⟩, _, _⟩
    exact deliver_and_wake _ pn b2 r1 hb2
  · rename_i p
    rcases p with ⟨t, pi, pn, b⟩
    rcases hm with ⟨hpi, hpn, hpt, hp0⟩
    dsimp only at hpi hpn hpt hp0
    subst hpi hpn
    simp only [finish_revolution]
    rw [run_schedule_cons _ _ _ (by simp)]
    dsimp only
    have e : ring_target t pn = t - 1 := ring_target_pos t pn hp0 (by omega)
    have h2 : step ⟨color, N, init, tid, count, phase.waiting,
        token_place.held ⟨t, 0, pn, b⟩⟩ (action.poll 1 0) =
        (⟨Function.update color t false, N, init, tid, count, phase.waiting,
            token_place.in_flight ⟨t - 1, 0, pn, if color t then color t else b⟩⟩,
          [ring_effect.cleanup_terminated t,
            ring_effect.apply_dijkstra_termination t
              ⟨t - 1, 0, pn, if color t then color t else b⟩]) := by
      simp [step, still_active_one_zero, send_dijkstra_termination_token, e]
    rw [h2]
    dsimp only
    rw [run_schedule_append]
    dsimp only
    have R := relay pn h32 (t - 1) ⟨Function.update color t false, N, init, tid, count,
      phase.waiting, token_place.in_flight ⟨t - 1, 0, pn, if color t then color t else b⟩⟩
      (if color t then color t else b) rfl rfl (by omega)
    rcases R with ⟨r1, _, _, _, _, ⟨b2, hb2, _⟩, _, _⟩
    exact deliver_and_wake _ pn b2 r1 hb2
  · simp only [finish_revolution]
    rw [run_schedule_cons _ _ _ (by simp), run_schedule_nil]
    dsimp only
    cases hc : color init <;> simp [step, hc]
  · exact Or.inr rfl

theorem quiet_continuation_returns (n : Nat) (hn : 2 ≤ n) (h32 : n < 4294967296) (r : ring)
    (h : ring_wf n r) :
    (run_schedule r (quiet_continuation n r)).1.pc = phase.finished := by
  unfold quiet_continuation
  rw [run_schedule_append]
  dsimp only
  have hw := ring_wf_run n hn h32 (finish_revolution r) r h
  have hf := finish_revolution_run n hn h32 r h
  generalize (run_schedule r (finish_revolution r)).1 = x at hw hf
  rcases hf with hf | hf
  · have htok : x.token = token_place.absent := by
      rcases x with ⟨xc, xN, xi, xt, xcount, xpc, xtok⟩
      rcases hw with ⟨_, _, _, hm⟩
      dsimp only at hf hm ⊢
      subst hf
      cases xtok <;> simp only [] at hm
      rfl
    rw [run_schedule_append]
    dsimp only
    have Q := quiet_probe_run n hn h32 x hf htok hw.1 hw.2.1 hw.2.2.1 _ rfl
    generalize (run_schedule x (quiet_probe n)).1 = y at Q
    rcases Q with ⟨_, q2, q3, q4, q5, q6, q7, q8⟩
    by_cases hb : ∃ k, k < n ∧ x.color k = true
    · have hpc := q7 hb
      have Q2 := quiet_probe_run n hn h32 y hpc q2 q3 q4 q5 _ rfl
      exact Q2.2.2.2.2.2.2.2 (by
        rintro ⟨k, hk, hc⟩
        rw [q6 k hk] at hc
        cases hc)
    · have hfin := q8 hb
      rw [run_schedule_finished y _ hfin]
      exact hfin
  · rw [run_schedule_finished x _ hf]
    exact hf

theorem quiet_continuation_quiet (n : Nat) (r : ring) (a : action)
    (h : a ∈ quiet_continuation n r) : a.quiet = true := by
  unfold quiet_continuation at h
  simp only [List.mem_append] at h
  rcases h with h | h | h
  · exact finish_revolution_quiet r a h
  · exact quiet_probe_quiet n a h
  · exact quiet_probe_quiet n a h

theorem quiet_continuation_length (n : Nat) (hn : 2 ≤ n) (r : ring) (h : ring_wf n r) :
    (quiet_continuation n r).length ≤ 6 * n + 2 := by
  unfold quiet_continuation
  have := finish_revolution_length n hn r h
  simp only [List.length_append, quiet_probe_length n (by omega)]
  omega

theorem step_not_draining (r : ring) (a : action) (h : r.pc ≠ phase.draining) :
    (step r a).1.pc ≠ phase.draining := by
  rcases r with ⟨color, N, init, tid, count, pc, token⟩
  dsimp only at h
  cases a with
  | dijkstra_make_black k => simpa [step] using h
  | deliver =>
    cases token with
    | absent => simpa [step] using h
    | held p => simpa [step] using h
    | in_flight p =>
      by_cases e : p.initiating_locality_id = p.target_locality_id
      · cases pc <;> simp [step, e] at h ⊢
      · simpa [step, e] using h
  | poll tc bg =>
    cases hact : still_active tc bg <;> cases pc <;> cases token <;>
      simp [step, hact] at h ⊢
  | wake =>
    cases pc <;> simp [step] at h ⊢
    cases hc : color init <;> simp [hc]

theorem step_finishes (r : ring) (a : action) (hf : r.pc ≠ phase.finished)
    (hd : r.pc ≠ phase.draining) (h : (step r a).1.pc = phase.finished) :
    a = action.wake ∧ r.pc = phase.notified ∧ r.color r.initiating_locality_id = false := by
  rcases r with ⟨color, N, init, tid, count, pc, token⟩
  dsimp only at hf hd ⊢
  cases a with
  | dijkstra_make_black k => simp [step] at h; exact absurd h hf
  | deliver =>
    cases token with
    | absent => simp [step] at h; exact absurd h hf
    | held p => simp [step] at h; exact absurd h hf
    | in_flight p =>
      by_cases e : p.initiating_locality_id = p.target_locality_id
      · cases pc <;> simp [step, e] at h hf hd
      · simp [step, e] at h; exact absurd h hf
  | poll tc bg =>
    cases hact : still_active tc bg <;> cases pc <;> cases token <;>
      simp [step, hact] at h hf hd
  | wake =>
    cases pc <;> simp [step] at h hf hd
    cases hc : color init
    · exact ⟨rfl, rfl, rfl⟩
    · simp [hc] at h

theorem wake_finishes (r : ring) (hpc : r.pc = phase.notified)
    (hc : r.color r.initiating_locality_id = false) :
    (step r action.wake).1.pc = phase.finished := by
  rcases r with ⟨color, N, init, tid, count, pc, token⟩
  dsimp only at hpc hc
  subst hpc
  simp [step, hc]

/-- The detection on several localities returns exactly at a wake-up that finds the
initiator white after the token came back. -/
theorem returns_iff_white_wake (sched : List action) :
    ∀ r : ring, r.pc ≠ phase.finished → r.pc ≠ phase.draining →
      ((run_schedule r sched).1.pc = phase.finished ↔
        ∃ S1 S3, sched = S1 ++ action.wake :: S3 ∧
          (run_schedule r S1).1.pc = phase.notified ∧
          (run_schedule r S1).1.color (run_schedule r S1).1.initiating_locality_id = false) := by
  induction sched with
  | nil =>
    intro r hf _
    rw [run_schedule_nil]
    constructor
    · intro h; exact absurd h hf
    · rintro ⟨S1, S3, e, _⟩
      cases S1 <;> cases e
  | cons a rest ih =>
    intro r hf hd
    rw [run_schedule_cons r a rest hf]
    dsimp only
    by_cases h1 : (step r a).1.pc = phase.finished
    · rw [run_schedule_finished _ _ h1]
      obtain ⟨ha, hn, hc⟩ := step_finishes r a hf hd h1
      subst ha
      exact ⟨fun _ => ⟨[], rest, rfl, by simpa [run_schedule_nil] using hn,
        by simpa [run_schedule_nil] using hc⟩, fun _ => h1⟩
    · rw [ih (step r a).1 h1 (step_not_draining r a hd)]
      constructor
      · rintro ⟨S1, S3, e, hn, hc⟩
        refine ⟨a :: S1, S3, by simp [e], ?_, ?_⟩
        · rw [run_schedule_cons r a S1 hf]; exact hn
        · rw [run_schedule_cons r a S1 hf]; exact hc
      · rintro ⟨S1, S3, e, hn, hc⟩
        cases S1 with
        | nil =>
          simp only [List.nil_append, List.cons.injEq] at e
          rw [run_schedule_nil] at hn hc
          obtain ⟨ea, _⟩ := e
          subst ea
          exact absurd (wake_finishes r hn hc) h1
        | cons b S1 =>
          simp only [List.cons_append, List.cons.injEq] at e
          obtain ⟨ea, er⟩ := e
          subst ea
          rw [run_schedule_cons r a S1 hf] at hn hc
          exact ⟨S1, S3, er, hn, hc⟩

/-- A single locality: the detection returns, with 0, exactly when a poll found the
locality passive. -/
theorem single_locality_returns (color : Nat → Bool) (here : Nat) (locality_ids : List id_type)
    (sched : List action) (h1 : locality_ids.length = 1) :
    ((dijkstra_termination_detection color here locality_ids sched).returned ≠ none ↔
        ∃ tc bg, action.poll tc bg ∈ sched ∧ still_active tc bg = false) ∧
      ∀ c, (dijkstra_termination_detection color here locality_ids sched).returned = some c →
        c = 0 := by
  have H := run_schedule_invariant (drain_inv color)
    (fun r E S a hf hP => drain_step color r E S a hf hP) sched
    (detection_begin color here locality_ids) [] [] (by
      rw [detection_begin_single color here locality_ids h1]
      refine ⟨Or.inl rfl, rfl, rfl, rfl, fun k hk => Or.inl hk, fun k hk => hk, ?_⟩
      constructor
      · intro h; cases h
      · rintro ⟨_, _, hm, _⟩; cases hm)
  rcases H with ⟨S1, S2, hS, hP, hfin⟩
  simp only [List.nil_append] at hP
  rcases hP with ⟨_, _, hcount, _, _, _, hiff⟩
  have hsub : ∀ x, x ∈ S1 → x ∈ sched := by
    intro x hx; rw [hS]; exact List.mem_append_left _ hx
  unfold dijkstra_termination_detection
  dsimp only
  constructor
  · constructor
    · intro h
      have hf : (run_schedule (detection_begin color here locality_ids) sched).1.pc =
          phase.finished := by
        by_contra hne
        simp [hne] at h
      rcases hiff.mp hf with ⟨tc, bg, hm, hb⟩
      exact ⟨tc, bg, hsub _ hm, hb⟩
    · rintro ⟨tc, bg, hm, hb⟩
      have hf : (run_schedule (detection_begin color here locality_ids) sched).1.pc =
          phase.finished := by
        rcases hfin with hfin | hfin
        · subst hfin
          rw [List.append_nil] at hS
          subst hS
          exact hiff.mpr ⟨tc, bg, hm, hb⟩
        · exact hfin
      simp [hf]
  · intro c hc
    split at hc
    · simp only [Option.some.injEq] at hc
      omega
    · cases hc

/-! ## Termination of the detection (C11) -/

/-- C11 as stated fails in both directions.  Two localities, locality 1 black from
before: every step of `quiet_probe 2` is quiet and the token makes a full revolution
(to locality 1 and back to 0), yet the detection has not returned; it starts a second
probe.  Three localities, all white: locality 2 is made black after it passed the token
on, so the only revolution of the schedule is not quiet, yet the detection returns 1
while locality 2 is black. -/
theorem one_quiet_revolution_not_enough :
    ((quiet_probe 2).all action.quiet = true ∧
      sent_targets (dijkstra_termination_detection (fun k => decide (k = 1)) 0 [0, 1]
        (quiet_probe 2)).effects = [1, 0] ∧
      (dijkstra_termination_detection (fun k => decide (k = 1)) 0 [0, 1]
        (quiet_probe 2)).returned = none ∧
      (dijkstra_termination_detection (fun k => decide (k = 1)) 0 [0, 1]
        (quiet_probe 2)).final.pc = phase.sending) ∧
    (action.dijkstra_make_black 2 ∈ blackened_behind_token ∧
      sent_targets (dijkstra_termination_detection (fun _ => false) 0 [0, 1, 2]
        blackened_behind_token).effects = [2, 1, 0] ∧
      (dijkstra_termination_detection (fun _ => false) 0 [0, 1, 2]
        blackened_behind_token).returned = some 1 ∧
      (dijkstra_termination_detection (fun _ => false) 0 [0, 1, 2]
        blackened_behind_token).final.color 2 = true) := by
  decide

/-- C11, amended.  A single locality: the detection returns exactly when a poll finds
the locality passive, and it returns 0.  With `n` localities, `2 ≤ n < 2^32`, called on
the root locality 0: whatever happened before (`pre`), there is a continuation of at
most `6 n + 2` quiet steps, the rest of the revolution under way and two undisturbed
probes, after which the detection has returned a count, so a quiescent state that
persists long enough always ends the detection; and the detection returns exactly at
a wake-up of the initiator, after the token came back, that finds the initiator
white. -/
theorem detection_returns_when_quiescent (color : Nat → Bool) (locality_ids : List id_type) :
    (locality_ids.length = 1 → ∀ (here : Nat) (sched : List action),
      ((dijkstra_termination_detection color here locality_ids sched).returned ≠ none ↔
          ∃ tc bg, action.poll tc bg ∈ sched ∧ still_active tc bg = false) ∧
        ∀ c, (dijkstra_termination_detection color here locality_ids sched).returned = some c →
          c = 0) ∧
    (2 ≤ locality_ids.length → locality_ids.length < 4294967296 →
      (∀ pre : List action, ∃ post : List action,
        (∀ a ∈ post, a.quiet = true) ∧ post.length ≤ 6 * locality_ids.length + 2 ∧
          ∃ c, (dijkstra_termination_detection color 0 locality_ids (pre ++ post)).returned
            = some c) ∧
      (∀ sched : List action,
        (dijkstra_termination_detection color 0 locality_ids sched).returned ≠ none ↔
          ∃ S1 S3, sched = S1 ++ action.wake :: S3 ∧
            (run_schedule (detection_begin color 0 locality_ids) S1).1.pc = phase.notified ∧
            (run_schedule (detection_begin color 0 locality_ids) S1).1.color 0 = false)) := by
  refine ⟨fun h1 here sched => single_locality_returns color here locality_ids sched h1,
    fun h2 h32 => ⟨fun pre => ?_, fun sched => ?_⟩⟩
  · have hw := ring_wf_run locality_ids.length h2 h32 pre _
      (ring_wf_begin color locality_ids h2 h32)
    refine ⟨quiet_continuation locality_ids.length
        (run_schedule (detection_begin color 0 locality_ids) pre).1,
      quiet_continuation_quiet _ _, quiet_continuation_length _ h2 _ hw, ?_⟩
    have hf := quiet_continuation_returns locality_ids.length h2 h32 _ hw
    unfold dijkstra_termination_detection
    dsimp only
    rw [run_schedule_append]
    dsimp only
    exact ⟨_, by rw [if_pos hf]⟩
  · have hb := detection_begin_ring color 0 locality_ids h2 h32
    have hiff := returns_iff_white_wake sched (detection_begin color 0 locality_ids)
      (by rw [hb]; simp) (by rw [hb]; simp)
    have hinit : ∀ S1, (run_schedule (detection_begin color 0 locality_ids) S1).1.initiating_locality_id
        = 0 := fun S1 =>
      (ring_wf_run locality_ids.length h2 h32 S1 _ (ring_wf_begin color locality_ids h2 h32)).1
    have hret : (dijkstra_termination_detection color 0 locality_ids sched).returned ≠ none ↔
        (run_schedule (detection_begin color 0 locality_ids) sched).1.pc = phase.finished := by
      unfold dijkstra_termination_detection
      dsimp only
      split <;> simp_all
    rw [hret, hiff]
    constructor
    · rintro ⟨S1, S3, e, hn, hc⟩
      exact ⟨S1, S3, e, hn, by rw [hinit S1] at hc; exact hc⟩
    · rintro ⟨S1, S3, e, hn, hc⟩
      exact ⟨S1, S3, e, hn, by rw [hinit S1]; exact hc⟩

/-- Two localities, locality 1 black: after the first undisturbed probe, which did not
end the detection, a quiet continuation does. -/
theorem detection_returns_when_quiescent_witness :
    ∃ post : List action,
      (∀ a ∈ post, a.quiet = true) ∧ post.length ≤ 6 * [0, 1].length + 2 ∧
        ∃ c, (dijkstra_termination_detection (fun k => decide (k = 1)) 0 [0, 1]
          (quiet_probe 2 ++ post)).returned = some c :=
  ((detection_returns_when_quiescent (fun k => decide (k = 1)) [0, 1]).2
    (by decide) (by decide)).1 (quiet_probe 2)

/-! ## The sequential executor (C23) -/

/-- C23: `execute(f)` calls `f` once, in the state of the caller, and leaves the state
`f` left.  When `f` returns `v`, `execute` returns `v`; when `f` throws `bad_alloc`,
`execute` throws `bad_alloc`; when `f` throws any other exception `e` (an
`exception_list` included), `execute` throws an `exception_list` whose only element is
`e`.  `apply_execute(f)` does the same and returns nothing. -/
theorem execute_exception_policy {σ α : Type} (f : callable σ α) (s : σ) :
    (sequential_executor.execute f s).2 = (f s).2 ∧
      (sequential_executor.apply_execute f s).2 = (f s).2 ∧
      (∀ v, (f s).1 = completion.value v →
        (sequential_executor.execute f s).1 = completion.value v ∧
        (sequential_executor.apply_execute f s).1 = completion.value ()) ∧
      ((f s).1 = completion.throws exception.bad_alloc →
        (sequential_executor.execute f s).1 = completion.throws exception.bad_alloc ∧
        (sequential_executor.apply_execute f s).1 = completion.throws exception.bad_alloc) ∧
      (∀ e, (f s).1 = completion.throws e → e ≠ exception.bad_alloc →
        (sequential_executor.execute f s).1 =
          completion.throws (exception.exception_list [e]) ∧
        (sequential_executor.apply_execute f s).1 =
          completion.throws (exception.exception_list [e])) := by
  unfold sequential_executor.apply_execute sequential_executor.execute
  rcases hf : f s with ⟨c, s1⟩
  cases c with
  | value v =>
    refine ⟨rfl, rfl, ?_, ?_, ?_⟩
    · intro w hw
      cases hw
      exact ⟨rfl, rfl⟩
    · intro h; cases h
    · intro e h; cases h
  | throws e =>
    cases e with
    | bad_alloc =>
      refine ⟨rfl, rfl, ?_, ?_, ?_⟩
      · intro w hw; cases hw
      · intro _; exact ⟨rfl, rfl⟩
      · intro e h hne
        cases h
        exact absurd rfl hne
    | exception_list es =>
      refine ⟨rfl, rfl, ?_, ?_, ?_⟩
      · intro w hw; cases hw
      · intro h; cases h
      · intro e h _
        cases h
        exact ⟨rfl, rfl⟩
    | other id =>
      refine ⟨rfl, rfl, ?_, ?_, ?_⟩
      · intro w hw; cases hw
      · intro h; cases h
      · intro e h _
        cases h
        exact ⟨rfl, rfl⟩

/-- A callable that throws the exception 7 on its first call: `execute` throws the list
with 7 alone, and the callable was called once. -/
theorem execute_exception_policy_witness :
    ((sequential_executor.execute
          (counting_callable (completion.throws (exception.other 7) : completion Nat)) 0).1 =
        completion.throws (exception.exception_list [exception.other 7]) ∧
      (sequential_executor.apply_execute
          (counting_callable (completion.throws (exception.other 7) : completion Nat)) 0).1 =
        completion.throws (exception.exception_list [exception.other 7])) ∧
    (sequential_executor.execute
        (counting_callable (completion.throws (exception.other 7) : completion Nat)) 0).2 = 1 :=
  ⟨(execute_exception_policy
      (counting_callable (completion.throws (exception.other 7) : completion Nat)) 0).2.2.2.2
      (exception.other 7) rfl (fun h => by cases h),
    (execute_exception_policy
      (counting_callable (completion.throws (exception.other 7) : completion Nat)) 0).1⟩

/-! ## The forwarding step (C24) -/

/-- C24: `send_dijkstra_termination_token` run by a locality of colour `c` with the
incoming token colour `t` sends a token of colour `t or c` (black when the forwarder is
black, `t` otherwise) and leaves the forwarder white; the target, the initiator id and
the number of localities go into the parcel as they were passed.  In the ring: the
passive holder `k` of a parcel sends it on to `ring_target k` with the colour
`token or colour of k` and is white afterwards, and the initiator sends its first
token, white unless it is black itself, and is white afterwards. -/
theorem token_forwarding_step :
    (∀ (c t : Bool) (target init n : Nat),
      (send_dijkstra_termination_token c target init n t).2.dijkstra_token = (t || c) ∧
        (send_dijkstra_termination_token c target init n t).2.dijkstra_token =
          (if c then true else t) ∧
        (send_dijkstra_termination_token c target init n t).1 = false ∧
        (send_dijkstra_termination_token c target init n t).2.initiating_locality_id = init ∧
        (send_dijkstra_termination_token c target init n t).2.num_localities = n ∧
        (send_dijkstra_termination_token c target init n t).2.target_locality_id = target) ∧
    (∀ (r : ring) (p : token_parcel) (tc bg : Int),
      r.pc = phase.waiting → r.token = token_place.held p → still_active tc bg = false →
      (step r (action.poll tc bg)).1.token =
          token_place.in_flight ⟨ring_target p.target_locality_id p.num_localities,
            p.initiating_locality_id, p.num_localities,
            p.dijkstra_token || r.color p.target_locality_id⟩ ∧
        (step r (action.poll tc bg)).1.color p.target_locality_id = false ∧
        (∀ k, k ≠ p.target_locality_id → (step r (action.poll tc bg)).1.color k = r.color k)) ∧
    (∀ (r : ring) (tc bg : Int),
      r.pc = phase.sending → still_active tc bg = false →
      (step r (action.poll tc bg)).1.token =
          token_place.in_flight ⟨uint32_pred r.target_id, r.initiating_locality_id,
            r.num_localities, false || r.color r.initiating_locality_id⟩ ∧
        (step r (action.poll tc bg)).1.color r.initiating_locality_id = false) := by
  refine ⟨?_, ?_, ?_⟩
  · intro c t target init n
    cases c <;> cases t <;> simp [send_dijkstra_termination_token]
  · intro r p tc bg hpc htok hact
    rcases r with ⟨color, N, init, tid, count, pc, token⟩
    dsimp only at hpc htok
    subst hpc htok
    refine ⟨?_, ?_, ?_⟩
    · cases hc : color p.target_locality_id <;> cases ht : p.dijkstra_token <;>
        simp [step, hact, send_dijkstra_termination_token, hc, ht]
    · simp [step, hact, send_dijkstra_termination_token]
    · intro k hk
      simp [step, hact, send_dijkstra_termination_token, Function.update_noteq hk]
  · intro r tc bg hpc hact
    rcases r with ⟨color, N, init, tid, count, pc, token⟩
    dsimp only at hpc
    subst hpc
    refine ⟨?_, ?_⟩
    · cases hc : color init <;> simp [step, hact, send_dijkstra_termination_token, hc]
    · simp [step, hact, send_dijkstra_termination_token]

/-- Locality 2 of three, black, holds a white token: it sends a black token to locality
1 and is white afterwards. -/
theorem token_forwarding_step_witness :
    (step ⟨fun k => decide (k = 2), 3, 0, 3, 0, phase.waiting,
          token_place.held ⟨2, 0, 3, false⟩⟩ (action.poll 1 0)).1.token =
        token_place.in_flight ⟨ring_target 2 3, 0, 3, false || decide (2 = 2)⟩ ∧
      (step ⟨fun k => decide (k = 2), 3, 0, 3, 0, phase.waiting,
          token_place.held ⟨2, 0, 3, false⟩⟩ (action.poll 1 0)).1.color 2 = false ∧
      (∀ k, k ≠ 2 →
        (step ⟨fun k => decide (k = 2), 3, 0, 3, 0, phase.waiting,
          token_place.held ⟨2, 0, 3, false⟩⟩ (action.poll 1 0)).1.color k =
          decide (k = 2)) :=
  token_forwarding_step.2.1
    ⟨fun k => decide (k = 2), 3, 0, 3, 0, phase.waiting, token_place.held ⟨2, 0, 3, false⟩⟩
    ⟨2, 0, 3, false⟩ 1 0 rfl rfl (by decide)

/-! ## Lemmas on black tokens -/

theorem black_sent_append (E F : List ring_effect) :
    black_sent (E ++ F) ↔ black_sent E ∨ black_sent F := by
  unfold black_sent
  constructor
  · rintro ⟨k, q, hm, hq⟩
    rcases List.mem_append.mp hm with h | h
    · exact Or.inl ⟨k, q, h, hq⟩
    · exact Or.inr ⟨k, q, h, hq⟩
  · rintro (⟨k, q, hm, hq⟩ | ⟨k, q, hm, hq⟩)
    · exact ⟨k, q, List.mem_append_left _ hm, hq⟩
    · exact ⟨k, q, List.mem_append_right _ hm, hq⟩

theorem black_step (init c0 : Nat) (r : ring) (E : List ring_effect) (a : action)
    (h : black_inv init c0 r E) : black_inv init c0 (step r a).1 (E ++ (step r a).2) := by
  have hle := step_count_le r a
  refine ⟨Nat.le_trans h.1 hle, ?_⟩
  intro hc
  have hc0 : r.count = c0 := by have := h.1; omega
  have h' := h.2 hc0
  rcases r with ⟨color, N, i, tid, count, pc, token⟩
  dsimp only at h' hc0 hc
  rcases h' with ⟨hi, hm⟩
  subst hi
  cases a with
  | dijkstra_make_black k =>
    refine ⟨rfl, ?_⟩
    cases pc <;> cases token <;> simp only [] at hm <;>
      simp only [step, List.append_nil]
    · exact hm
    · exact hm
    · exact hm
    · intro hb
      have := hm hb
      by_cases hk : i = k
      · subst hk; simp
      · rw [Function.update_noteq hk]; exact this
  | deliver =>
    cases pc <;> cases token <;> simp only [] at hm
    · exact ⟨rfl, by simpa [step] using hm⟩
    · rename_i p
      rcases hm with ⟨hpi, hb⟩
      by_cases e : p.initiating_locality_id = p.target_locality_id
      · refine ⟨by simp [step, e], ?_⟩
        simp only [step, e, if_true]
        intro hbs
        have hbs' : black_sent E := by
          rcases (black_sent_append _ _).mp hbs with h1 | ⟨k, q, hm, _⟩
          · exact h1
          · simp at hm
        have ht := hb hbs'
        rw [ht, ← e, hpi]
        simp
      · refine ⟨by simp [step, e], ?_⟩
        simp only [step, e, if_false]
        refine ⟨hpi, fun hbs => hb ?_⟩
        rcases (black_sent_append _ _).mp hbs with h1 | ⟨k, q, hm, _⟩
        · exact h1
        · simp at hm
    · rename_i p
      exact ⟨rfl, by simpa [step] using hm⟩
    · exact ⟨rfl, by simpa [step] using hm⟩
  | poll tc bg =>
    cases hact : still_active tc bg
    · cases pc <;> cases token <;> simp only [] at hm
      · have hst : step ⟨color, N, i, tid, count, phase.sending, token_place.absent⟩
            (action.poll tc bg) =
            (⟨Function.update color i false, N, i, tid, count, phase.waiting,
                token_place.in_flight ⟨uint32_pred tid, i, N, color i⟩⟩,
              [ring_effect.cleanup_terminated i,
                ring_effect.apply_dijkstra_termination i ⟨uint32_pred tid, i, N, color i⟩]) := by
          simp [step, hact, send_dijkstra_termination_token]
        rw [hst]
        refine ⟨rfl, rfl, fun hbs => ?_⟩
        rcases (black_sent_append _ _).mp hbs with h1 | ⟨k, q, hmem, hq⟩
        · exact absurd h1 hm
        · simp only [List.mem_cons, List.mem_singleton, reduceCtorEq, false_or,
            ring_effect.apply_dijkstra_termination.injEq, List.not_mem_nil, or_false] at hmem
          rw [hmem.2] at hq
          exact hq
      · rename_i p
        refine ⟨by simp [step, hact], ?_⟩
        simp only [step, hact]
        refine ⟨hm.1, fun hbs => hm.2 ?_⟩
        simpa using hbs
      · rename_i p
        rcases hm with ⟨hpi, hb⟩
        have hst : step ⟨color, N, i, tid, count, phase.waiting, token_place.held p⟩
            (action.poll tc bg) =
            (⟨Function.update color p.target_locality_id false, N, i, tid, count,
                phase.waiting,
                token_place.in_flight ⟨ring_target p.target_locality_id p.num_localities,
                  p.initiating_locality_id, p.num_localities,
                  if color p.target_locality_id then color p.target_locality_id
                    else p.dijkstra_token⟩⟩,
              [ring_effect.cleanup_terminated p.target_locality_id,
                ring_effect.apply_dijkstra_termination p.target_locality_id
                  ⟨ring_target p.target_locality_id p.num_localities,
                    p.initiating_locality_id, p.num_localities,
                    if color p.target_locality_id then color p.target_locality_id
                      else p.dijkstra_token⟩]) := by
          simp [step, hact, send_dijkstra_termination_token]
        rw [hst]
        refine ⟨rfl, hpi, fun hbs => ?_⟩
        rcases (black_sent_append _ _).mp hbs with h1 | ⟨k, q, hmem, hq⟩
        · have := hb h1
          dsimp only
          simp [this]
        · simp only [List.mem_cons, List.mem_singleton, reduceCtorEq, false_or,
            ring_effect.apply_dijkstra_termination.injEq, List.not_mem_nil, or_false] at hmem
          rw [hmem.2] at hq
          exact hq
      · refine ⟨by simp [step, hact], ?_⟩
        simp only [step, hact]
        intro hbs
        exact hm (by simpa using hbs)
    · cases pc <;> cases token <;> simp only [] at hm
      · refine ⟨by simp [step, hact], ?_⟩
        simp only [step, hact]
        intro hbs
        rcases (black_sent_append _ _).mp hbs with h1 | ⟨k, q, hmem, _⟩
        · exact hm h1
        · simp at hmem
      · rename_i p
        refine ⟨by simp [step, hact], ?_⟩
        simp only [step, hact]
        refine ⟨hm.1, fun hbs => hm.2 ?_⟩
        simpa using hbs
      · rename_i p
        refine ⟨by simp [step, hact], ?_⟩
        simp only [step, hact]
        refine ⟨hm.1, fun hbs => hm.2 ?_⟩
        rcases (black_sent_append _ _).mp hbs with h1 | ⟨k, q, hmem, _⟩
        · exact h1
        · simp at hmem
      · refine ⟨by simp [step, hact], ?_⟩
        simp only [step, hact]
        intro hbs
        exact hm (by simpa using hbs)
  | wake =>
    cases pc <;> cases token <;> simp only [] at hm
    · exact ⟨rfl, by simpa [step] using hm⟩
    · rename_i p
      exact ⟨rfl, by simpa [step] using hm⟩
    · rename_i p
      exact ⟨rfl, by simpa [step] using hm⟩
    · exfalso
      cases hcol : color i <;> simp [step, hcol] at hc <;> omega

/-- A passive forwarder that is black sends a black token. -/
theorem black_forwarder_sends_black (r : ring) (tc bg : Int) (k : Nat)
    (hf : forwarder r = some k) (hc : r.color k = true)
    (hact : still_active tc bg = false) :
    black_sent (step r (action.poll tc bg)).2 := by
  rcases r with ⟨color, N, i, tid, count, pc, token⟩
  dsimp only at hc
  cases pc <;> cases token <;> simp [forwarder] at hf
  all_goals
    subst hf
    simp only [step, hact, send_dijkstra_termination_token, black_sent, hc]
    exact ⟨_, _, List.mem_cons_of_mem _ (List.mem_singleton.mpr rfl), by simp⟩

theorem forwarder_not_finished (r : ring) (k : Nat) (hf : forwarder r = some k) :
    r.pc ≠ phase.finished := by
  intro h
  rcases r with ⟨color, N, i, tid, count, pc, token⟩
  dsimp only at h
  subst h
  simp [forwarder] at hf

theorem run_schedule_not_finished_prefix (s1 s2 : List action) (r : ring)
    (h : (run_schedule r (s1 ++ s2)).1.pc ≠ phase.finished) :
    (run_schedule r s1).1.pc ≠ phase.finished := by
  intro hf
  rw [run_schedule_append] at h
  dsimp only at h
  rw [run_schedule_finished _ _ hf] at h
  exact h hf

/-- At the end of a probe the initiator is black exactly when a black token came back
to it or it was made black since the probe started. -/
theorem probe_end_color (r0 : ring) (sched : List action)
    (hpc : r0.pc = phase.sending) (htok : r0.token = token_place.absent)
    (hcol : r0.color r0.initiating_locality_id = false)
    (hfin : (run_schedule r0 sched).1.pc = phase.notified)
    (hcount : (run_schedule r0 sched).1.count = r0.count) :
    (run_schedule r0 sched).1.color r0.initiating_locality_id = true ↔
      (black_returned r0.initiating_locality_id (run_schedule r0 sched).2 ∨
        action.dijkstra_make_black r0.initiating_locality_id ∈ sched) := by
  have H := run_schedule_invariant (probe_inv r0.initiating_locality_id r0.count)
    (fun r E S a _ hP => probe_step _ _ r E S a hP) sched r0 [] [] (by
      refine ⟨Nat.le_refl _, fun _ => ⟨rfl, ?_⟩⟩
      rw [hpc, htok]
      refine ⟨fun k q hq => (by cases hq), ?_⟩
      rw [hcol]
      simp)
  rcases H with ⟨S1, S2, hS, hP, hend⟩
  have hS2 : S2 = [] := by
    rcases hend with h | h
    · exact h
    · rw [hfin] at h; cases h
  subst hS2
  rw [List.append_nil] at hS
  subst hS
  simp only [List.nil_append] at hP
  have hm := (hP.2 hcount).2
  generalize (run_schedule r0 sched).1 = x at hm hfin
  generalize (run_schedule r0 sched).2 = E at hm
  rcases x with ⟨xc, xN, xi, xt, xcount, xpc, xtok⟩
  dsimp only at hfin
  subst hfin
  rcases xtok with _ | p | p <;> simp only [] at hm
  exact hm

/-- At the end of a probe in which a black token was sent the initiator is black. -/
theorem probe_end_black_sent (r0 : ring) (sched : List action)
    (hpc : r0.pc = phase.sending) (htok : r0.token = token_place.absent)
    (hfin : (run_schedule r0 sched).1.pc = phase.notified)
    (hcount : (run_schedule r0 sched).1.count = r0.count)
    (hb : black_sent (run_schedule r0 sched).2) :
    (run_schedule r0 sched).1.color r0.initiating_locality_id = true := by
  have H := run_effects_invariant (black_inv r0.initiating_locality_id r0.count)
    (fun r E a _ hP => black_step _ _ r E a hP) sched r0 [] (by
      refine ⟨Nat.le_refl _, fun _ => ⟨rfl, ?_⟩⟩
      rw [hpc, htok]
      rintro ⟨k, q, hm, _⟩
      cases hm)
  simp only [List.nil_append] at H
  have hm := (H.2 hcount).2
  generalize (run_schedule r0 sched).1 = x at hm hfin
  generalize (run_schedule r0 sched).2 = E at hm hb
  rcases x with ⟨xc, xN, xi, xt, xcount, xpc, xtok⟩
  dsimp only at hfin
  subst hfin
  rcases xtok with _ | p | p <;> simp only [] at hm
  exact hm hb

/-- A passive poll of a black forwarder somewhere in the schedule leaves a black token
among the parcels sent. -/
theorem black_forward_in_schedule (r0 : ring) (sched before after : List action)
    (tc bg : Int) (k : Nat) (hs : sched = before ++ action.poll tc bg :: after)
    (hact : still_active tc bg = false)
    (hf : forwarder (run_schedule r0 before).1 = some k)
    (hc : (run_schedule r0 before).1.color k = true) :
    black_sent (run_schedule r0 sched).2 := by
  subst hs
  rw [run_schedule_append]
  dsimp only
  rw [run_schedule_cons _ _ _ (forwarder_not_finished _ k hf)]
  dsimp only
  refine (black_sent_append _ _).mpr (Or.inr ((black_sent_append _ _).mpr (Or.inl ?_)))
  exact black_forwarder_sends_black _ tc bg k hf hc hact

/-! ## No false termination (C28) -/

/-- C28: take a probe from its start (the initiator, white, is about to send the token)
to the moment the token is back and the initiator notified, under any interleaving of
`dijkstra_make_black` with the steps of the ring.  If some locality, the initiator
included, was black at the passive poll at which it forwarded the token, or the
initiator was made black since the probe started, then the initiator is black when the
probe completes: the wake-up counts the probe and starts another one, and the
detection has not returned.  For `2 ≤ n < 2^32` the state in which
`dijkstra_termination_detection` begins is such a start. -/
theorem no_false_termination (r0 : ring) (sched : List action)
    (h_pc : r0.pc = phase.sending) (h_tok : r0.token = token_place.absent)
    (h_white : r0.color r0.initiating_locality_id = false)
    (h_back : (run_schedule r0 sched).1.pc = phase.notified)
    (h_probe : (run_schedule r0 sched).1.count = r0.count)
    (h_black : (∃ before tc bg after k, sched = before ++ action.poll tc bg :: after ∧
        still_active tc bg = false ∧ forwarder (run_schedule r0 before).1 = some k ∧
        (run_schedule r0 before).1.color k = true) ∨
      action.dijkstra_make_black r0.initiating_locality_id ∈ sched) :
    (run_schedule r0 sched).1.color r0.initiating_locality_id = true ∧
      (run_schedule r0 (sched ++ [action.wake])).1.pc = phase.sending ∧
      (run_schedule r0 (sched ++ [action.wake])).1.count = r0.count + 1 ∧
      (run_schedule r0 (sched ++ [action.wake])).1.token = token_place.absent ∧
      (∀ (color : Nat → Bool) (here : Nat) (locality_ids : List id_type),
        2 ≤ locality_ids.length → locality_ids.length < 4294967296 →
        r0 = detection_begin color here locality_ids →
        (dijkstra_termination_detection color here locality_ids
          (sched ++ [action.wake])).returned = none) := by
  have hblack : (run_schedule r0 sched).1.color r0.initiating_locality_id = true := by
    rcases h_black with ⟨before, tc, bg, after, k, hs, hact, hf, hc⟩ | hmb
    · exact probe_end_black_sent r0 sched h_pc h_tok h_back h_probe
        (black_forward_in_schedule r0 sched before after tc bg k hs hact hf hc)
    · exact (probe_end_color r0 sched h_pc h_tok h_white h_back h_probe).mpr (Or.inr hmb)
  have hinit : (run_schedule r0 sched).1.initiating_locality_id = r0.initiating_locality_id := by
    have H := run_effects_invariant (black_inv r0.initiating_locality_id r0.count)
      (fun r E a _ hP => black_step _ _ r E a hP) sched r0 [] (by
        refine ⟨Nat.le_refl _, fun _ => ⟨rfl, ?_⟩⟩
        rw [h_pc, h_tok]
        rintro ⟨k, q, hm, _⟩
        cases hm)
    exact (H.2 h_probe).1
  have htok : (run_schedule r0 sched).1.token = token_place.absent := by
    have H := run_effects_invariant (black_inv r0.initiating_locality_id r0.count)
      (fun r E a _ hP => black_step _ _ r E a hP) sched r0 [] (by
        refine ⟨Nat.le_refl _, fun _ => ⟨rfl, ?_⟩⟩
        rw [h_pc, h_tok]
        rintro ⟨k, q, hm, _⟩
        cases hm)
    have hm := (H.2 h_probe).2
    generalize (run_schedule r0 sched).1 = x at hm h_back
    rcases x with ⟨xc, xN, xi, xt, xcount, xpc, xtok⟩
    dsimp only at h_back
    subst h_back
    rcases xtok with _ | p | p <;> simp only [] at hm
    rfl
  have hw : (run_schedule r0 (sched ++ [action.wake])).1 =
      (step (run_schedule r0 sched).1 action.wake).1 := by
    rw [run_schedule_append]
    dsimp only
    rw [run_schedule_cons _ _ _ (by rw [h_back]; simp), run_schedule_nil]
  have hstep : (step (run_schedule r0 sched).1 action.wake).1.pc = phase.sending ∧
      (step (run_schedule r0 sched).1 action.wake).1.count = r0.count + 1 ∧
      (step (run_schedule r0 sched).1 action.wake).1.token = token_place.absent := by
    rw [← hinit] at hblack
    generalize (run_schedule r0 sched).1 = x at hblack h_back h_probe htok
    rcases x with ⟨xc, xN, xi, xt, xcount, xpc, xtok⟩
    dsimp only at hblack h_back h_probe htok
    subst h_back htok h_probe
    simp [step, hblack]
  refine ⟨hblack, ?_, ?_, ?_, ?_⟩
  · rw [hw]; exact hstep.1
  · rw [hw]; exact hstep.2.1
  · rw [hw]; exact hstep.2.2
  · intro color here locality_ids _ _ hr
    unfold dijkstra_termination_detection
    dsimp only
    rw [← hr, hw, hstep.1]
    simp

/-- Two localities, both white, locality 1 made black while it holds the token: the
token comes back black and a second probe starts. -/
theorem no_false_termination_witness :
    (run_schedule (detection_begin (fun _ => false) 0 [0, 1]) blackened_holder).1.color
        (detection_begin (fun _ => false) 0 [0, 1]).initiating_locality_id = true ∧
      (run_schedule (detection_begin (fun _ => false) 0 [0, 1])
        (blackened_holder ++ [action.wake])).1.pc = phase.sending ∧
      (run_schedule (detection_begin (fun _ => false) 0 [0, 1])
        (blackened_holder ++ [action.wake])).1.count =
          (detection_begin (fun _ => false) 0 [0, 1]).count + 1 ∧
      (run_schedule (detection_begin (fun _ => false) 0 [0, 1])
        (blackened_holder ++ [action.wake])).1.token = token_place.absent ∧
      (∀ (color : Nat → Bool) (here : Nat) (locality_ids : List id_type),
        2 ≤ locality_ids.length → locality_ids.length < 4294967296 →
        detection_begin (fun _ => false) 0 [0, 1] = detection_begin color here locality_ids →
        (dijkstra_termination_detection color here locality_ids
          (blackened_holder ++ [action.wake])).returned = none) :=
  no_false_termination (detection_begin (fun _ => false) 0 [0, 1]) blackened_holder
    (by decide) (by decide) (by decide) (by decide) (by decide)
    (Or.inl ⟨[action.poll 1 0, action.deliver, action.dijkstra_make_black 1], 1, 0,
      [action.deliver], 1, by decide, by decide, by decide, by decide⟩)

/-! ## Lemmas on the ring without new blackening -/

set_option maxHeartbeats 1000000 in
theorem calm_step (n : Nat) (hn : 2 ≤ n) (h32 : n < 4294967296) (color0 : Nat → Bool)
    (r : ring) (a : action) (ha : a.is_make_black = false) (hf : r.pc ≠ phase.finished)
    (h : calm_inv n color0 r) : calm_inv n color0 (step r a).1 := by
  rcases r with ⟨color, N, init, tid, count, pc, token⟩
  rcases h with ⟨hi, hN, htid, hm⟩
  dsimp only at hi hN htid hm hf
  subst hi hN
  have htid' := htid.symm
  subst htid'
  cases a with
  | dijkstra_make_black k => simp [action.is_make_black] at ha
  | deliver =>
    rcases count with _ | _ | _ | c
    · -- first probe
      cases pc <;> cases token <;> simp only [] at hm
      · exact ⟨rfl, rfl, rfl, by simpa [step] using hm⟩
      · rename_i p
        rcases p with ⟨t, pi, pn, b⟩
        rcases hm with ⟨hpi, hpn, hpt, hc0, hw, hinit, hb⟩
        dsimp only at hpi hpn hpt hc0 hw hinit hb
        subst hpi hpn
        by_cases h0 : t = 0
        · subst h0
          have hst : step ⟨color, pn, 0, pn, 0, phase.waiting,
              token_place.in_flight ⟨0, 0, pn, b⟩⟩ action.deliver =
              (⟨if b then Function.update color 0 true else color, pn, 0, pn, 0,
                  phase.notified, token_place.absent⟩,
                [ring_effect.agas_start_shutdown 0, ring_effect.flush_parcels 0,
                  ring_effect.notify_one 0]) := by
            simp [step]
          rw [hst]
          refine ⟨rfl, rfl, rfl, ?_⟩
          simp only []
          constructor
          · intro k k1 k2
            cases b
            · simpa using hw k (by omega) k2
            · have hk : k ≠ 0 := by omega
              simp only [if_true, Function.update_noteq hk]
              exact hw k (by omega) k2
          · unfold black_besides_initiator
            cases b
            · simp only [Bool.false_eq_true, if_false, hc0, false_iff]
              rintro ⟨k, k1, k2, hk⟩
              exact absurd (hb.mpr ⟨k, by omega, k2, hk⟩) (by simp)
            · simp only [if_true, Function.update_same, true_iff]
              obtain ⟨k, k1, k2, hk⟩ := hb.mp rfl
              exact ⟨k, by omega, k2, hk⟩
        · have hst : step ⟨color, pn, 0, pn, 0, phase.waiting,
              token_place.in_flight ⟨t, 0, pn, b⟩⟩ action.deliver =
              (⟨color, pn, 0, pn, 0, phase.waiting, token_place.held ⟨t, 0, pn, b⟩⟩,
                [ring_effect.agas_start_shutdown t, ring_effect.flush_parcels t]) := by
            have : ¬ 0 = t := fun h => h0 h.symm
            simp [step, this]
          rw [hst]
          exact ⟨rfl, rfl, rfl, rfl, rfl, hpt, Nat.pos_of_ne_zero h0, hc0, hw, hinit, hb⟩
      · rename_i p
        exact ⟨rfl, rfl, rfl, by simpa [step] using hm⟩
      · exact ⟨rfl, rfl, rfl, by simpa [step] using hm⟩
    · -- second probe
      rcases hm with ⟨hall, hm⟩
      cases pc <;> cases token <;> simp only [] at hm
      · exact ⟨rfl, rfl, rfl, by simpa [step] using ⟨hall, hm⟩⟩
      · rename_i p
        rcases p with ⟨t, pi, pn, b⟩
        rcases hm with ⟨hbl, hpi, hpn, hpt, hb⟩
        dsimp only at hpi hpn hpt hb
        subst hpi hpn hb
        by_cases h0 : t = 0
        · subst h0
          have hst : step ⟨color, pn, 0, pn, 1, phase.waiting,
              token_place.in_flight ⟨0, 0, pn, false⟩⟩ action.deliver =
              (⟨color, pn, 0, pn, 1, phase.notified, token_place.absent⟩,
                [ring_effect.agas_start_shutdown 0, ring_effect.flush_parcels 0,
                  ring_effect.notify_one 0]) := by
            simp [step]
          rw [hst]
          exact ⟨rfl, rfl, rfl, hall, hbl⟩
        · have hst : step ⟨color, pn, 0, pn, 1, phase.waiting,
              token_place.in_flight ⟨t, 0, pn, false⟩⟩ action.deliver =
              (⟨color, pn, 0, pn, 1, phase.waiting, token_place.held ⟨t, 0, pn, false⟩⟩,
                [ring_effect.agas_start_shutdown t, ring_effect.flush_parcels t]) := by
            have : ¬ 0 = t := fun h => h0 h.symm
            simp [step, this]
          rw [hst]
          exact ⟨rfl, rfl, rfl, hall, hbl, rfl, rfl, hpt, Nat.pos_of_ne_zero h0, rfl⟩
      · rename_i p
        exact ⟨rfl, rfl, rfl, by simpa [step] using ⟨hall, hm⟩⟩
      · exact ⟨rfl, rfl, rfl, by simpa [step] using ⟨hall, hm⟩⟩
      · exact absurd rfl hf
    · exact absurd hm.2.1 hf
    · exact absurd hm (by simp)
  | poll tc bg =>
    cases hact : still_active tc bg
    · rcases count with _ | _ | _ | c
      · cases pc <;> cases token <;> simp only [] at hm
        · rcases hm with ⟨hc0, hinit⟩
          have e : uint32_pred N = N - 1 := uint32_pred_pos N (by omega) h32
          have hst : step ⟨color, N, 0, N, 0, phase.sending, token_place.absent⟩
              (action.poll tc bg) =
              (⟨Function.update color 0 false, N, 0, N, 0, phase.waiting,
                  token_place.in_flight ⟨N - 1, 0, N, false⟩⟩,
                [ring_effect.cleanup_terminated 0,
                  ring_effect.apply_dijkstra_termination 0 ⟨N - 1, 0, N, false⟩]) := by
            simp [step, hact, send_dijkstra_termination_token, e, hc0]
          rw [hst]
          refine ⟨rfl, rfl, rfl, rfl, rfl, by dsimp only; omega, by simp, ?_, ?_, ?_⟩
          · intro k k1 k2
            dsimp only at k1
            omega
          · intro k k1 k2
            have hk : k ≠ 0 := by omega
            dsimp only at k2 ⊢
            rw [Function.update_noteq hk]
            exact hinit k k1 (by omega)
          · dsimp only
            constructor
            · intro h; cases h
            · rintro ⟨k, k1, k2, _⟩
              omega
        · rename_i p
          exact ⟨rfl, rfl, rfl, by simpa [step] using hm⟩
        · rename_i p
          rcases p with ⟨t, pi, pn, b⟩
          rcases hm with ⟨hpi, hpn, hpt, hp0, hc0, hw, hinit, hb⟩
          dsimp only at hpi hpn hpt hp0 hc0 hw hinit hb
          subst hpi hpn
          have e : ring_target t pn = t - 1 := ring_target_pos t pn hp0 (by omega)
          have hst : step ⟨color, pn, 0, pn, 0, phase.waiting,
              token_place.held ⟨t, 0, pn, b⟩⟩ (action.poll tc bg) =
              (⟨Function.update color t false, pn, 0, pn, 0, phase.waiting,
                  token_place.in_flight ⟨t - 1, 0, pn, if color t then color t else b⟩⟩,
                [ring_effect.cleanup_terminated t,
                  ring_effect.apply_dijkstra_termination t
                    ⟨t - 1, 0, pn, if color t then color t else b⟩]) := by
            simp [step, hact, send_dijkstra_termination_token, e]
          rw [hst]
          refine ⟨rfl, rfl, rfl, rfl, rfl, by dsimp only; omega, ?_, ?_, ?_, ?_⟩
          · have : (0 : Nat) ≠ t := by omega
            dsimp only
            rw [Function.update_noteq this]
            exact hc0
          · intro k k1 k2
            dsimp only at k1 ⊢
            by_cases hk : k = t
            · subst hk; simp
            · rw [Function.update_noteq hk]
              exact hw k (by omega) k2
          · intro k k1 k2
            dsimp only at k2 ⊢
            have hk : k ≠ t := by omega
            rw [Function.update_noteq hk]
            exact hinit k k1 (by omega)
          · dsimp only
            have hct := hinit t hp0 (Nat.le_refl _)
            constructor
            · intro h
              by_cases hc : color t = true
              · exact ⟨t, by omega, hpt, by rw [← hct]; exact hc⟩
              · simp [hc] at h
                obtain ⟨k, k1, k2, hk⟩ := hb.mp h
                exact ⟨k, by omega, k2, hk⟩
            · rintro ⟨k, k1, k2, hk⟩
              by_cases hc : color t = true
              · simp [hc]
              · simp only [hc, Bool.false_eq_true, if_false]
                have hkt : k ≠ t := by
                  intro hkt
                  subst hkt
                  rw [hct] at hc
                  exact hc hk
                exact hb.mpr ⟨k, by omega, k2, hk⟩
        · exact ⟨rfl, rfl, rfl, by simpa [step] using hm⟩
      · rcases hm with ⟨hall, hm⟩
        cases pc <;> cases token <;> simp only [] at hm
        · have e : uint32_pred N = N - 1 := uint32_pred_pos N (by omega) h32
          have hc0 : color 0 = false := hall 0 (by omega)
          have hst : step ⟨color, N, 0, N, 1, phase.sending, token_place.absent⟩
              (action.poll tc bg) =
              (⟨Function.update color 0 false, N, 0, N, 1, phase.waiting,
                  token_place.in_flight ⟨N - 1, 0, N, false⟩⟩,
                [ring_effect.cleanup_terminated 0,
                  ring_effect.apply_dijkstra_termination 0 ⟨N - 1, 0, N, false⟩]) := by
            simp [step, hact, send_dijkstra_termination_token, e, hc0]
          rw [hst]
          refine ⟨rfl, rfl, rfl, ?_, hm, rfl, rfl, by dsimp only; omega, rfl⟩
          intro k hk
          dsimp only
          by_cases hk0 : k = 0
          · subst hk0; simp
          · rw [Function.update_noteq hk0]; exact hall k hk
        · rename_i p
          exact ⟨rfl, rfl, rfl, by simpa [step] using ⟨hall, hm⟩⟩
        · rename_i p
          rcases p with ⟨t, pi, pn, b⟩
          rcases hm with ⟨hbl, hpi, hpn, hpt, hp0, hb⟩
          dsimp only at hpi hpn hpt hp0 hb
          subst hpi hpn hb
          have e : ring_target t pn = t - 1 := ring_target_pos t pn hp0 (by omega)
          have hct : color t = false := hall t hpt
          have hst : step ⟨color, pn, 0, pn, 1, phase.waiting,
              token_place.held ⟨t, 0, pn, false⟩⟩ (action.poll tc bg) =
              (⟨Function.update color t false, pn, 0, pn, 1, phase.waiting,
                  token_place.in_flight ⟨t - 1, 0, pn, false⟩⟩,
                [ring_effect.cleanup_terminated t,
                  ring_effect.apply_dijkstra_termination t ⟨t - 1, 0, pn, false⟩]) := by
            simp [step, hact, send_dijkstra_termination_token, e, hct]
          rw [hst]
          refine ⟨rfl, rfl, rfl, ?_, hbl, rfl, rfl, by dsimp only; omega, rfl⟩
          intro k hk
          dsimp only
          by_cases hkt : k = t
          · subst hkt; simp
          · rw [Function.update_noteq hkt]; exact hall k hk
        · exact ⟨rfl, rfl, rfl, by simpa [step] using ⟨hall, hm⟩⟩
        · exact absurd rfl hf
      · exact absurd hm.2.1 hf
      · exact absurd hm (by simp)
    · -- an active poll changes nothing
      have hst : (step ⟨color, N, 0, N, count, pc, token⟩ (action.poll tc bg)).1 =
          ⟨color, N, 0, N, count, pc, token⟩ := by
        cases pc <;> cases token <;> simp [step, hact]
      rw [hst]
      exact ⟨rfl, rfl, rfl, hm⟩
  | wake =>
    rcases count with _ | _ | _ | c
    · cases pc <;> cases token <;> simp only [] at hm
      · exact ⟨rfl, rfl, rfl, by simpa [step] using hm⟩
      · rename_i p
        exact ⟨rfl, rfl, rfl, by simpa [step] using hm⟩
      · rename_i p
        exact ⟨rfl, rfl, rfl, by simpa [step] using hm⟩
      · rcases hm with ⟨hw, hb⟩
        cases hc : color 0
        · have hst : step ⟨color, N, 0, N, 0, phase.notified, token_place.absent⟩
              action.wake =
              (⟨color, N, 0, N, 1, phase.finished, token_place.absent⟩,
                [ring_effect.probe_completed false]) := by
            simp [step, hc]
          rw [hst]
          refine ⟨rfl, rfl, rfl, ?_, ?_⟩
          · intro k hk
            by_cases hk0 : k = 0
            · subst hk0; exact hc
            · exact hw k (by omega) hk
          · intro hbl
            rw [hb.mpr hbl] at hc
            cases hc
        · have hst : step ⟨color, N, 0, N, 0, phase.notified, token_place.absent⟩
              action.wake =
              (⟨Function.update color 0 false, N, 0, N, 1, phase.sending,
                  token_place.absent⟩, [ring_effect.probe_completed true]) := by
            simp [step, hc]
          rw [hst]
          refine ⟨rfl, rfl, rfl, ?_, hb.mp hc⟩
          intro k hk
          dsimp only
          by_cases hk0 : k = 0
          · subst hk0; simp
          · rw [Function.update_noteq hk0]; exact hw k (by omega) hk
    · rcases hm with ⟨hall, hm⟩
      cases pc <;> cases token <;> simp only [] at hm
      · exact ⟨rfl, rfl, rfl, by simpa [step] using ⟨hall, hm⟩⟩
      · rename_i p
        exact ⟨rfl, rfl, rfl, by simpa [step] using ⟨hall, hm⟩⟩
      · rename_i p
        exact ⟨rfl, rfl, rfl, by simpa [step] using ⟨hall, hm⟩⟩
      · have hc : color 0 = false := hall 0 (by omega)
        have hst : step ⟨color, N, 0, N, 1, phase.notified, token_place.absent⟩
            action.wake =
            (⟨color, N, 0, N, 2, phase.finished, token_place.absent⟩,
              [ring_effect.probe_completed false]) := by
          simp [step, hc]
        rw [hst]
        exact ⟨rfl, rfl, rfl, hall, rfl, rfl, hm⟩
      · exact absurd rfl hf
    · exact absurd hm.2.1 hf
    · exact absurd hm (by simp)

theorem calm_run (n : Nat) (hn : 2 ≤ n) (h32 : n < 4294967296) (color0 : Nat → Bool)
    (sched : List action) :
    ∀ r : ring, (∀ a ∈ sched, a.is_make_black = false) → calm_inv n color0 r →
      calm_inv n color0 (run_schedule r sched).1 := by
  induction sched with
  | nil => intro r _ h; exact h
  | cons a rest ih =>
    intro r hs h
    by_cases hf : r.pc = phase.finished
    · rw [run_schedule_finished r _ hf]; exact h
    · rw [run_schedule_cons r a rest hf]
      exact ih _ (fun b hb => hs b (List.mem_cons_of_mem _ hb))
        (calm_step n hn h32 color0 r a (hs a (List.mem_cons_self _ _)) hf h)

theorem calm_begin (color : Nat → Bool) (locality_ids : List id_type)
    (h2 : 2 ≤ locality_ids.length) (h32 : locality_ids.length < 4294967296) :
    calm_inv locality_ids.length color (detection_begin color 0 locality_ids) := by
  rw [detection_begin_ring color 0 locality_ids h2 h32]
  refine ⟨rfl, rfl, by simp, ?_⟩
  simp only []
  refine ⟨by simp, fun k k1 _ => ?_⟩
  have hk : k ≠ 0 := by omega
  rw [Function.update_noteq hk]

theorem quiet_not_make_black (a : action) (h : a.quiet = true) : a.is_make_black = false := by
  cases a <;> simp [action.quiet, action.is_make_black] at h ⊢

/-- What `calm_inv` says about the counter and the colours. -/
theorem calm_inv_count (n : Nat) (color0 : Nat → Bool) (r : ring) (h : calm_inv n color0 r) :
    r.count ≤ 2 ∧ (1 ≤ r.count → ∀ k, k < n → r.color k = false) ∧
      (r.pc = phase.finished →
        1 ≤ r.count ∧ (r.count = 1 ↔ ¬ black_besides_initiator n color0)) := by
  rcases r with ⟨color, N, init, tid, count, pc, token⟩
  rcases h with ⟨_, _, _, hm⟩
  dsimp only at hm ⊢
  rcases count with _ | _ | _ | c
  · refine ⟨by omega, fun h => by omega, fun hf => ?_⟩
    subst hf
    cases token <;> simp only [] at hm
  · rcases hm with ⟨hall, hm⟩
    refine ⟨by omega, fun _ => hall, fun hf => ?_⟩
    subst hf
    cases token <;> simp only [] at hm
    exact ⟨by omega, by simpa using hm⟩
  · rcases hm with ⟨hall, _, _, hbl⟩
    refine ⟨by omega, fun _ => hall, fun _ => ⟨by omega, ?_⟩⟩
    constructor
    · intro h; omega
    · intro h; exact absurd hbl h
  · exact absurd hm (by simp)

/-! ## Bounded probing (C29) -/

/-- C29: `n` localities, `2 ≤ n < 2^32`, detection called on the root locality 0 in any
colouring, and a schedule in which `dijkstra_make_black` is not called.  The probe
counter never exceeds 2; once the first probe is counted every locality is white;
whenever the detection returns, the count is 1 or 2, and it is 1 exactly when all
localities besides the initiator were white at the start.  And it does return: when
the localities are passive from now on, the quiet steps of `quiet_continuation`, at
most `6 n + 2` of them, end the detection with such a count. -/
theorem bounded_probing (color : Nat → Bool) (locality_ids : List id_type)
    (sched : List action) (h2 : 2 ≤ locality_ids.length)
    (h32 : locality_ids.length < 4294967296)
    (h_calm : ∀ a ∈ sched, a.is_make_black = false) :
    (dijkstra_termination_detection color 0 locality_ids sched).final.count ≤ 2 ∧
      (1 ≤ (dijkstra_termination_detection color 0 locality_ids sched).final.count →
        ∀ k, k < locality_ids.length →
          (dijkstra_termination_detection color 0 locality_ids sched).final.color k = false) ∧
      (∀ c, (dijkstra_termination_detection color 0 locality_ids sched).returned = some c →
        1 ≤ c ∧ c ≤ 2 ∧
          (c = 1 ↔ ∀ k, 1 ≤ k → k < locality_ids.length → color k = false)) ∧
      (∀ a ∈ quiet_continuation locality_ids.length
          (dijkstra_termination_detection color 0 locality_ids sched).final,
        a.quiet = true) ∧
      (quiet_continuation locality_ids.length
        (dijkstra_termination_detection color 0 locality_ids sched).final).length ≤
          6 * locality_ids.length + 2 ∧
      (∃ c, (dijkstra_termination_detection color 0 locality_ids
          (sched ++ quiet_continuation locality_ids.length
            (dijkstra_termination_detection color 0 locality_ids sched).final)).returned
              = some c ∧
        1 ≤ c ∧ c ≤ 2 ∧ (c = 1 ↔ ∀ k, 1 ≤ k → k < locality_ids.length → color k = false)) := by
  have hb : ¬ black_besides_initiator locality_ids.length color ↔
      ∀ k, 1 ≤ k → k < locality_ids.length → color k = false := by
    unfold black_besides_initiator
    constructor
    · intro h k k1 k2
      by_contra hc
      exact h ⟨k, k1, k2, by simpa using hc⟩
    · rintro h ⟨k, k1, k2, hk⟩
      rw [h k k1 k2] at hk
      cases hk
  have key : ∀ S : List action, (∀ a ∈ S, a.is_make_black = false) →
      (dijkstra_termination_detection color 0 locality_ids S).final.count ≤ 2 ∧
      (1 ≤ (dijkstra_termination_detection color 0 locality_ids S).final.count →
        ∀ k, k < locality_ids.length →
          (dijkstra_termination_detection color 0 locality_ids S).final.color k = false) ∧
      (∀ c, (dijkstra_termination_detection color 0 locality_ids S).returned = some c →
        1 ≤ c ∧ c ≤ 2 ∧
          (c = 1 ↔ ∀ k, 1 ≤ k → k < locality_ids.length → color k = false)) := by
    intro S hS
    have hinv := calm_run locality_ids.length h2 h32 color S _ hS
      (calm_begin color locality_ids h2 h32)
    have hc := calm_inv_count _ _ _ hinv
    have hfe : (dijkstra_termination_detection color 0 locality_ids S).final =
        (run_schedule (detection_begin color 0 locality_ids) S).1 := rfl
    rw [hfe]
    refine ⟨hc.1, hc.2.1, fun c hret => ?_⟩
    have hr := (returned_iff color 0 locality_ids S c).mp hret
    rw [hfe] at hr
    have := hc.2.2 hr.1
    rw [hr.2] at this hc
    exact ⟨this.1, hc.1, by rw [this.2, hb]⟩
  have hw := ring_wf_run locality_ids.length h2 h32 sched _
    (ring_wf_begin color locality_ids h2 h32)
  have hfe : (dijkstra_termination_detection color 0 locality_ids sched).final =
      (run_schedule (detection_begin color 0 locality_ids) sched).1 := rfl
  obtain ⟨k1, k2, k3⟩ := key sched h_calm
  refine ⟨k1, k2, k3, quiet_continuation_quiet _ _, ?_, ?_⟩
  · rw [hfe]; exact quiet_continuation_length _ h2 _ hw
  · have hcalm2 : ∀ a ∈ sched ++ quiet_continuation locality_ids.length
        (dijkstra_termination_detection color 0 locality_ids sched).final,
        a.is_make_black = false := by
      intro a ha
      rcases List.mem_append.mp ha with h | h
      · exact h_calm a h
      · exact quiet_not_make_black a (quiet_continuation_quiet _ _ a h)
    have hf := quiet_continuation_returns locality_ids.length h2 h32 _ hw
    have hret : ∃ c, (dijkstra_termination_detection color 0 locality_ids
        (sched ++ quiet_continuation locality_ids.length
          (dijkstra_termination_detection color 0 locality_ids sched).final)).returned
            = some c := by
      rw [hfe]
      unfold dijkstra_termination_detection
      dsimp only
      rw [run_schedule_append]
      dsimp only
      exact ⟨_, by rw [if_pos hf]⟩
    obtain ⟨c, hc⟩ := hret
    exact ⟨c, hc, (key _ hcalm2).2.2 c hc⟩

/-- Three localities, locality 2 black, everything passive: two probes, count 2. -/
theorem bounded_probing_witness :
    (dijkstra_termination_detection (fun k => decide (k = 2)) 0 [0, 1, 2]
        (quiet_probe 3 ++ quiet_probe 3)).returned = some 2 ∧
      (1 ≤ 2 ∧ 2 ≤ 2 ∧
        (2 = 1 ↔ ∀ k, 1 ≤ k → k < [0, 1, 2].length → (fun k => decide (k = 2)) k = false)) :=
  ⟨by decide,
    (bounded_probing (fun k => decide (k = 2)) [0, 1, 2] (quiet_probe 3 ++ quiet_probe 3)
      (by decide) (by decide) (by decide)).2.2.1 2 (by decide)⟩

/-! ## Lemmas on the command line strings -/

theorem string_find_from_ge (s pat : List Char) :
    ∀ pos q, string_find_from s pat pos = some q → pos ≤ q := by
  induction s with
  | nil =>
    intro pos q h
    unfold string_find_from at h
    split at h
    · simp only [Option.some.injEq] at h; omega
    · cases h
  | cons c s ih =>
    intro pos q h
    unfold string_find_from at h
    split at h
    · simp only [Option.some.injEq] at h; omega
    · have := ih _ _ h
      omega

theorem string_find_from_zero (s pat : List Char) (pos : Nat) :
    string_find_from s pat pos = some pos ↔ pat.isPrefixOf s = true := by
  cases s with
  | nil =>
    unfold string_find_from
    cases pat with
    | nil => simp
    | cons p ps => simp [List.isPrefixOf]
  | cons c s =>
    unfold string_find_from
    by_cases hp : pat.isPrefixOf (c :: s) = true
    · simp [hp]
    · simp only [hp, Bool.false_eq_true, if_false, iff_false]
      intro h
      have := string_find_from_ge s pat _ _ h
      omega

theorem string_find_accepts (s h : String) :
    string_find s h = some 0 ↔ starts_with s h = true := by
  unfold string_find starts_with
  exact string_find_from_zero _ _ 0

theorem still_unknown_loop_run (env : load_env) (rest : List String) :
    ∀ (pre : List String) (acc : String) (fuel : Nat), 2 ≤ pre.length → rest.length < fuel →
      still_unknown_loop env (pre ++ rest) fuel pre.length acc =
        some (String.intercalate.go acc " " (rest.map env.enquote)) := by
  induction rest with
  | nil =>
    intro pre acc fuel _ hf
    cases fuel with
    | zero => simp at hf
    | succ fuel =>
      unfold still_unknown_loop
      simp [String.intercalate.go]
  | cons o rest ih =>
    intro pre acc fuel hp hf
    cases fuel with
    | zero => simp at hf
    | succ fuel =>
      unfold still_unknown_loop
      have hne : ¬ pre.length = (pre ++ o :: rest).length := by simp
      have hget : (pre ++ o :: rest).get? pre.length = some o := by
        rw [List.get?_eq_getElem?, List.getElem?_append_right (Nat.le_refl _)]
        simp
      have h1 : pre.length ≠ 1 := by omega
      simp only [hne, if_false, hget, ne_eq, h1, not_false_eq_true, if_true]
      have := ih (pre ++ [o]) (acc ++ " " ++ env.enquote o) fuel (by simp; omega)
        (by simp at hf; omega)
      simp only [List.append_assoc, List.singleton_append, List.length_append,
        List.length_singleton] at this
      rw [this]
      simp [String.intercalate.go]

theorem still_unknown_commandline_eq (env : load_env) (o : String) (rest : List String) :
    still_unknown_commandline env (o :: rest) =
      some (" ".intercalate (rest.map env.enquote)) := by
  unfold still_unknown_commandline
  cases rest with
  | nil =>
    unfold still_unknown_loop
    simp [String.intercalate]
  | cons o1 rest =>
    unfold still_unknown_loop
    have hne : ¬ 1 = (o :: o1 :: rest).length := by simp
    simp only [hne, if_false, List.get?_cons_succ, List.get?_cons_zero, ne_eq,
      not_true_eq_false, List.length_cons]
    have := still_unknown_loop_run env rest [o, o1] ("" ++ env.enquote o1) (rest.length + 1 + 1)
      (by simp) (by omega)
    simp only [List.cons_append, List.nil_append, List.length_cons, List.length_nil] at this
    rw [this]
    simp [String.intercalate]

theorem starts_with_full (h : String) :
    starts_with "full" h = true ↔
      (h = "" ∨ h = "f" ∨ h = "fu" ∨ h = "ful" ∨ h = "full") := by
  rcases h with ⟨data⟩
  have e : ∀ l : List Char, (String.mk data = String.mk l) ↔ data = l := fun l => by
    constructor
    · intro h; injection h
    · intro h; rw [h]
  have e0 : ("" : String) = String.mk [] := rfl
  have e1 : ("f" : String) = String.mk ['f'] := rfl
  have e2 : ("fu" : String) = String.mk ['f', 'u'] := rfl
  have e3 : ("ful" : String) = String.mk ['f', 'u', 'l'] := rfl
  have e4 : ("full" : String) = String.mk ['f', 'u', 'l', 'l'] := rfl
  rw [e0, e1, e2, e3, e4, e, e, e, e, e]
  unfold starts_with
  simp only [List.isPrefixOf_iff_prefix]
  constructor
  · rintro ⟨t, ht⟩
    rcases data with _ | ⟨a, _ | ⟨b, _ | ⟨c, _ | ⟨d, _ | ⟨x, data⟩⟩⟩⟩⟩ <;> simp_all
  · rintro (h | h | h | h | h) <;> subst h
    · exact ⟨['f', 'u', 'l', 'l'], rfl⟩
    · exact ⟨['u', 'l', 'l'], rfl⟩
    · exact ⟨['l', 'l'], rfl⟩
    · exact ⟨['l'], rfl⟩
    · exact ⟨[], rfl⟩

/-! ## The secondary command line processing (C21, C30) -/

/-- C21 as stated fails: with a help text configured, the help options `FULL` and `Fu`
are not accepted (`load_components` returns -1), while the empty help option is
accepted like `full` and `fu` (it returns 1). -/
theorem help_option_case_sensitive :
    (load_components plain_env (ini_help "FULL") load_state.empty).2 = some (-1) ∧
      (load_components plain_env (ini_help "Fu") load_state.empty).2 = some (-1) ∧
      (load_components plain_env (ini_help "") load_state.empty).2 = some 1 ∧
      (load_components plain_env (ini_help "fu") load_state.empty).2 = some 1 ∧
      (load_components plain_env (ini_help "full") load_state.empty).2 = some 1 := by
  decide

/-- C21 amended: when `hpx.cmd_line_help` is not empty and the processing of the unknown
command line before it has completed, `load_components` accepts the value `h` of
`hpx.cmd_line_help_option` (it prints the help text and the options and returns 1,
nothing else is done) if and only if `full` starts with `h`, characters compared as
they are, that is for `h` one of the empty string, `f`, `fu`, `ful` and `full`; for
every other value it throws an error, which is reported on `std::cerr`, and returns
-1. -/
theorem help_option_validation (env : load_env) (ini : configuration) (s : load_state)
    (h_help : help_configured ini)
    (h_first : (process_unknown_cmd_line env ini (load_modules env ini s).1).2 =
      processing.completed) :
    (starts_with "full" (ini.get_entry "hpx.cmd_line_help_option" "") = true →
      load_components env ini s =
        ((process_unknown_cmd_line env ini (load_modules env ini s).1).1.log
          (load_event.cout_help (ini.get_entry "hpx.cmd_line_help" "")
            (process_unknown_cmd_line env ini (load_modules env ini s).1).1.options),
          some 1)) ∧
    (starts_with "full" (ini.get_entry "hpx.cmd_line_help_option" "") = false →
      load_components env ini s =
        ((process_unknown_cmd_line env ini (load_modules env ini s).1).1.log
          load_event.cerr_command_line_processing, some (-1))) ∧
    (starts_with "full" (ini.get_entry "hpx.cmd_line_help_option" "") = true ↔
      (ini.get_entry "hpx.cmd_line_help_option" "" = "" ∨
        ini.get_entry "hpx.cmd_line_help_option" "" = "f" ∨
        ini.get_entry "hpx.cmd_line_help_option" "" = "fu" ∨
        ini.get_entry "hpx.cmd_line_help_option" "" = "ful" ∨
        ini.get_entry "hpx.cmd_line_help_option" "" = "full")) := by
  unfold help_configured at h_help
  refine ⟨fun hacc => ?_, fun hrej => ?_, starts_with_full _⟩
  · have hf := (string_find_accepts "full" _).mpr hacc
    unfold load_components command_line_processing
    rcases hp : process_unknown_cmd_line env ini (load_modules env ini s).1 with ⟨s1, p1⟩
    rw [hp] at h_first
    dsimp only at h_first
    subst h_first
    simp [process_cmd_line_help, h_help, hf]
  · have hf : ¬ string_find "full" (ini.get_entry "hpx.cmd_line_help_option" "") = some 0 := by
      intro h
      rw [(string_find_accepts "full" _).mp h] at hrej
      cases hrej
    unfold load_components command_line_processing
    rcases hp : process_unknown_cmd_line env ini (load_modules env ini s).1 with ⟨s1, p1⟩
    rw [hp] at h_first
    dsimp only at h_first
    subst h_first
    simp [process_cmd_line_help, h_help, hf]

/-- The help option `FULL`: the error is reported and the code is -1. -/
theorem help_option_validation_witness :
    load_components plain_env (ini_help "FULL") load_state.empty =
      ((process_unknown_cmd_line plain_env (ini_help "FULL")
          (load_modules plain_env (ini_help "FULL") load_state.empty).1).1.log
        load_event.cerr_command_line_processing, some (-1)) :=
  (help_option_validation plain_env (ini_help "FULL") load_state.empty
    (by unfold help_configured; decide) (by decide)).2.1 (by decide)

/-- C30 (the code on the empty vector and on the others): with an empty
`still_unregistered_options` the exit test `i != size()` holds at `i = 1`, index 1 is
outside the vector and the loop reads it, whatever the fuel; `load_components` then has
no defined result.  On a vector with at least one element the loop ends and the string
is made of the enquoted elements from index 1 on, joined by single spaces; the entry
`unknown_cmd_line_option` is added exactly when that string is not empty. -/
theorem unknown_options_loop_out_of_range :
    (∀ (env : load_env) (fuel : Nat),
      still_unknown_loop env [] (fuel + 1) 1 "" = none ∧
        (1 ≠ ([] : List String).length ∧ ([] : List String).get? 1 = none)) ∧
    (∀ env : load_env, still_unknown_commandline env [] = none) ∧
    (load_components all_known_env ini_unknown load_state.empty).2 = none ∧
    (∀ (env : load_env) (o : String) (rest : List String),
      still_unknown_commandline env (o :: rest) =
        some (" ".intercalate (rest.map env.enquote))) ∧
    (∀ (o : String) (rest : List String),
      process_unknown_cmd_line
          { plain_env with parse_commandline := fun _ _ _ _ => some ⟨[], o :: rest⟩ }
          ini_unknown load_state.empty =
        (if " ".intercalate rest ≠ "" then
            load_state.empty.log
              (load_event.add_unknown_cmd_line_option (" ".intercalate rest))
          else load_state.empty, processing.completed)) := by
  refine ⟨fun env fuel => ⟨rfl, by decide, rfl⟩, fun env => rfl, by decide,
    still_unknown_commandline_eq, fun o rest => ?_⟩
  have h0 : ini_unknown.get_entry "hpx.unknown_cmd_line" "" ≠ "" := by decide
  unfold process_unknown_cmd_line
  simp only [h0, if_false]
  rw [still_unknown_commandline_eq]
  have hm : rest.map (fun o => o) = rest := List.map_id _
  by_cases hs : " ".intercalate rest = ""
  · simp [plain_env, hs, hm]
  · simp [plain_env, hs, hm]

/-! ## Lemmas on the events of the loader -/

theorem log_prepend (E : List load_event) (s : load_state) (e : load_event) :
    (s.prepend E).log e = (s.log e).prepend E := by
  simp [load_state.prepend, load_state.log]

theorem caught_prepend (E : List load_event) (t : thrown) (w : Option load_event)
    (s : load_state) : caught t w (s.prepend E) = (caught t w s).prepend E := by
  unfold caught
  cases t <;> cases w <;> simp [load_result.prepend, log_prepend]

theorem add_commandline_options_prepend (E : List load_event)
    (obj : created (answer (List String))) (s : load_state) :
    add_commandline_options obj (s.prepend E) = (add_commandline_options obj s).prepend E := by
  unfold add_commandline_options
  rcases obj with a | _ | t
  · cases a
    · simp [load_result.prepend, load_state.prepend]
    · simp [caught_prepend]
  · simp [load_result.prepend]
  · simp [caught_prepend]

theorem push_startup_prepend (E : List load_event) (st : Option (hook × Bool))
    (s : load_state) : push_startup st (s.prepend E) = (push_startup st s).prepend E := by
  unfold push_startup
  rcases st with _ | ⟨f, b⟩
  · rfl
  · cases b <;> rfl

theorem push_shutdown_prepend (E : List load_event) (sh : Option (hook × Bool))
    (s : load_state) : push_shutdown sh (s.prepend E) = (push_shutdown sh s).prepend E := by
  unfold push_shutdown
  rcases sh with _ | ⟨f, b⟩
  · rfl
  · cases b <;> rfl

theorem add_startup_shutdown_functions_prepend (E : List load_event)
    (obj : created startup_shutdown) (s : load_state) :
    add_startup_shutdown_functions obj (s.prepend E) =
      (add_startup_shutdown_functions obj s).prepend E := by
  unfold add_startup_shutdown_functions
  rcases obj with o | _ | t
  · rcases o with ⟨gs, gh⟩
    cases gs with
    | raised t => simp [caught_prepend]
    | value st =>
      cases gh with
      | raised t => simp [caught_prepend, push_startup_prepend]
      | value sh =>
        simp [push_startup_prepend, push_shutdown_prepend, load_result.prepend]
  · simp [load_result.prepend]
  · simp [caught_prepend]

theorem register_module_prepend (E : List load_event) (env : load_env) (d : dll)
    (s : load_state) :
    register_module env d (s.prepend E) =
      ((register_module env d s).1.prepend E, (register_module env d s).2) := by
  unfold register_module load_commandline_options load_startup_shutdown_functions
  by_cases h : d.name ∈ s.startup_handled
  · have h' : d.name ∈ (s.prepend E).startup_handled := h
    simp [h, h']
  · have h' : d.name ∉ (s.prepend E).startup_handled := h
    simp only [h, h', if_false]
    have e1 : { s.prepend E with startup_handled := (s.prepend E).startup_handled ++ [d.name] } =
        ({ s with startup_handled := s.startup_handled ++ [d.name] } : load_state).prepend E :=
      rfl
    rw [e1, add_commandline_options_prepend]
    rcases add_commandline_options (env.commandline_options d)
      { s with startup_handled := s.startup_handled ++ [d.name] } with ⟨s1, o1⟩
    cases o1 with
    | rethrown e => rfl
    | returned b =>
      simp only [load_result.prepend]
      rw [add_startup_shutdown_functions_prepend]
      rcases add_startup_shutdown_functions (env.startup_shutdown_object d) s1 with ⟨s2, o2⟩
      cases o2 <;> rfl

theorem register_module_static_prepend (E : List load_event) (env : load_env)
    (component : String) (s : load_state) :
    register_module_static env component (s.prepend E) =
      ((register_module_static env component s).1.prepend E,
        (register_module_static env component s).2) := by
  unfold register_module_static load_commandline_options_static
    load_startup_shutdown_functions_static
  by_cases h : component ∈ s.startup_handled
  · have h' : component ∈ (s.prepend E).startup_handled := h
    simp [h, h']
  · have h' : component ∉ (s.prepend E).startup_handled := h
    simp only [h, h', if_false]
    have e1 : { s.prepend E with
          startup_handled := (s.prepend E).startup_handled ++ [component] } =
        ({ s with startup_handled := s.startup_handled ++ [component] } : load_state).prepend E :=
      rfl
    rw [e1]
    cases env.get_static_commandline component with
    | none =>
      simp only []
      cases env.get_static_startup_shutdown component with
      | none => rfl
      | some obj2 =>
        simp only []
        rw [add_startup_shutdown_functions_prepend]
        rcases add_startup_shutdown_functions obj2
          { s with startup_handled := s.startup_handled ++ [component] } with ⟨s2, o2⟩
        cases o2 <;> rfl
    | some obj =>
      simp only []
      rw [add_commandline_options_prepend]
      rcases add_commandline_options obj
        { s with startup_handled := s.startup_handled ++ [component] } with ⟨s1, o1⟩
      cases o1 with
      | rethrown e => rfl
      | returned b =>
        simp only [load_result.prepend]
        cases env.get_static_startup_shutdown component with
        | none => rfl
        | some obj2 =>
          simp only []
          rw [add_startup_shutdown_functions_prepend]
          rcases add_startup_shutdown_functions obj2 s1 with ⟨s2, o2⟩
          cases o2 <;> rfl

theorem load_component_prepend (E : List load_event) (env : load_env) (ini : configuration)
    (d : dll) (instance_name : String) (s : load_state) :
    load_component env ini d instance_name (s.prepend E) =
      (load_component env ini d instance_name s).prepend E := by
  unfold load_component
  cases (if wants_factory ini.components instance_name then env.component_factory d
      else none) with
  | some t => simp [caught_prepend]
  | none =>
    simp only []
    rw [register_module_prepend]
    rcases register_module env d s with ⟨s1, _ | e⟩ <;> rfl

theorem load_component_static_prepend (E : List load_event) (env : load_env)
    (ini : configuration) (instance_name component : String) (s : load_state) :
    load_component_static env ini instance_name component (s.prepend E) =
      (load_component_static env ini instance_name component s).prepend E := by
  unfold load_component_static
  by_cases h : wants_factory ini.components instance_name = true ∧
      ¬ env.get_static_factory instance_name = true
  · simp only [h, and_self, not_false_eq_true, if_true]
    simp [load_result.prepend, log_prepend]
  · simp only [h, if_false]
    rw [register_module_static_prepend]
    rcases register_module_static env component s with ⟨s1, _ | e⟩ <;> rfl

theorem load_plugin_prepend (E : List load_event) (env : load_env) (ini : configuration)
    (d : dll) (instance_name : String) (isenabled : Bool) (s : load_state) :
    load_plugin env ini d instance_name isenabled (s.prepend E) =
      (load_plugin env ini d instance_name isenabled s).prepend E := by
  unfold load_plugin
  by_cases hw : wants_factory ini.plugins instance_name = true
  · simp only [hw, if_true]
    cases env.plugin_factory d instance_name isenabled with
    | raised t => simp [caught_prepend]
    | ok u =>
      simp only []
      have hp : (s.prepend E).plugins_ = s.plugins_ := rfl
      rw [hp]
      by_cases hdup : (s.plugins_.lookup instance_name).isSome = true
      · simp only [hdup, if_true]
        simp [load_result.prepend, log_prepend]
      · simp only [hdup, if_false]
        have e1 : ({ s.prepend E with
            plugins_ := s.plugins_ ++ [(instance_name, ⟨instance_name, d, isenabled⟩)] } :
              load_state) =
            ({ s with plugins_ :=
                s.plugins_ ++ [(instance_name, ⟨instance_name, d, isenabled⟩)] } :
              load_state).prepend E := rfl
        rw [e1, register_module_prepend]
        rcases register_module env d { s with plugins_ :=
          s.plugins_ ++ [(instance_name, ⟨instance_name, d, isenabled⟩)] } with ⟨s1, _ | e⟩ <;>
          rfl
    | failed =>
      simp only []
      rw [log_prepend, register_module_prepend]
      rcases register_module env d
        (s.log (load_event.warning_factory_failed instance_name)) with ⟨s1, _ | e⟩ <;> rfl
  · simp only [hw, if_false]
    rw [register_module_prepend]
    rcases register_module env d s with ⟨s1, _ | e⟩ <;> rfl

theorem load_new_module_prepend (E : List load_event) (env : load_env) (d : dll)
    (instance_name : String) (load : dll → load_state → load_result)
    (hload : ∀ d s, load d (s.prepend E) = (load d s).prepend E) (s : load_state) :
    load_new_module env d instance_name load (s.prepend E) =
      (load_new_module env d instance_name load s).prepend E := by
  unfold load_new_module
  by_cases h : env.load_library d 0 = false ∧ env.load_library d 1 = false
  · simp only [h, and_self, if_true]
    simp [load_result.prepend, log_prepend]
  · simp only [h, if_false]
    have e1 : (if env.load_library d 0 = true then (s.prepend E).log (load_event.load_library d)
        else ((s.prepend E).log (load_event.load_library d)).log (load_event.load_library d)) =
        (if env.load_library d 0 = true then s.log (load_event.load_library d)
          else (s.log (load_event.load_library d)).log (load_event.load_library d)).prepend E := by
      split <;> simp [log_prepend]
    rw [e1, hload]
    rcases load d (if env.load_library d 0 = true then s.log (load_event.load_library d)
      else (s.log (load_event.load_library d)).log (load_event.load_library d)) with ⟨s1, o1⟩
    rcases o1 with b | e
    · cases b <;> rfl
    · rfl

theorem load_plugin_dynamic_prepend (E : List load_event) (env : load_env)
    (ini : configuration) (instance_name plugin lib : String) (isenabled : Bool)
    (s : load_state) :
    load_plugin_dynamic env ini instance_name plugin lib isenabled (s.prepend E) =
      (load_plugin_dynamic env ini instance_name plugin lib isenabled s).prepend E := by
  unfold load_plugin_dynamic
  have hm : (s.prepend E).modules_ = s.modules_ := rfl
  rw [hm]
  cases s.modules_.lookup (env.HPX_MANGLE_STRING plugin) with
  | some d => exact load_plugin_prepend E env ini d instance_name isenabled s
  | none =>
    exact load_new_module_prepend E env _ instance_name _
      (fun d s1 => load_plugin_prepend E env ini d instance_name isenabled s1) s

theorem load_component_dynamic_prepend (E : List load_event) (env : load_env)
    (ini : configuration) (instance_name component lib : String) (s : load_state) :
    load_component_dynamic env ini instance_name component lib (s.prepend E) =
      (load_component_dynamic env ini instance_name component lib s).prepend E := by
  unfold load_component_dynamic
  have hm : (s.prepend E).modules_ = s.modules_ := rfl
  rw [hm]
  cases s.modules_.lookup (env.HPX_MANGLE_STRING component) with
  | some d => exact load_component_prepend E env ini d instance_name s
  | none =>
    exact load_new_module_prepend E env _ instance_name _
      (fun d s1 => load_component_prepend E env ini d instance_name s1) s

theorem caught_while_loading_prepend (E : List load_event) (instance_name : String)
    (e : error) (s : load_state) :
    caught_while_loading instance_name e (s.prepend E) =
      (caught_while_loading instance_name e s).prepend E := by
  unfold caught_while_loading
  split <;> simp [log_prepend]

theorem load_plugins_section_prepend (E : List load_event) (env : load_env)
    (ini : configuration) (s : load_state) (sect : ini_section) :
    load_plugins_section env ini (s.prepend E) sect =
      (load_plugins_section env ini s sect).prepend E := by
  unfold load_plugins_section
  by_cases hs : sect.get_entry "static" "0" = "1"
  · simp only [hs, if_true]
    exact caught_while_loading_prepend E _ _ s
  · simp only [hs, if_false]
    cases hl : env.HPX_HAVE_STATIC_LINKING
    · simp only [Bool.false_eq_true, if_false]
      rw [load_plugin_dynamic_prepend]
      rcases load_plugin_dynamic env ini sect.name sect.component (sect.lib env)
        sect.isenabled s with ⟨s1, o1⟩
      cases o1 with
      | returned b => rfl
      | rethrown e => exact caught_while_loading_prepend E _ _ s1
    · simp only [if_true]
      exact caught_while_loading_prepend E _ _ s

theorem load_components_section_prepend (E : List load_event) (env : load_env)
    (ini : configuration) (s : load_state) (sect : ini_section) :
    load_components_section env ini (s.prepend E) sect =
      (load_components_section env ini s sect).prepend E := by
  unfold load_components_section
  by_cases hs : sect.get_entry "static" "0" = "1"
  · simp only [hs, if_true]
    rw [load_component_static_prepend]
    rcases load_component_static env ini sect.name sect.component s with ⟨s1, o1⟩
    cases o1 with
    | returned b => rfl
    | rethrown e => exact caught_while_loading_prepend E _ _ s1
  · simp only [hs, if_false]
    cases hl : env.HPX_HAVE_STATIC_LINKING
    · simp only [Bool.false_eq_true, if_false]
      rw [load_component_dynamic_prepend]
      rcases load_component_dynamic env ini sect.name sect.component (sect.lib env) s
        with ⟨s1, o1⟩
      cases o1 with
      | returned b => rfl
      | rethrown e => exact caught_while_loading_prepend E _ _ s1
    · simp only [if_true]
      exact caught_while_loading_prepend E _ _ s

theorem load_plugins_fold_prepend (E : List load_event) (env : load_env)
    (ini : configuration) (sections : List ini_section) :
    ∀ s : load_state, sections.foldl (load_plugins_section env ini) (s.prepend E) =
      (sections.foldl (load_plugins_section env ini) s).prepend E := by
  induction sections with
  | nil => intro s; rfl
  | cons sect rest ih =>
    intro s
    simp only [List.foldl_cons]
    rw [load_plugins_section_prepend, ih]

/-! ## Lemmas on failed plugin sections -/

theorem set_events_eq_prepend (s : load_state) (E : List load_event) :
    ({ s with events := E } : load_state) =
      ({ s with events := [] } : load_state).prepend E := by
  simp [load_state.prepend]

theorem failed_plugin_section (env : load_env) (ini : configuration) (s : load_state)
    (sect : ini_section) (h : plugin_load_fails env ini s sect) :
    ∃ X : List load_event,
      (∃ e ∈ X, load_event.is_failure_log sect.name e) ∧
      load_plugins_section env ini s sect = { s with events := s.events ++ X } := by
  unfold load_plugins_section
  rcases h with hs | ⟨hs, hl, h⟩
  · refine ⟨[load_event.warning_caught_exception sect.name],
      ⟨_, List.mem_singleton.mpr rfl, Or.inr rfl⟩, ?_⟩
    simp [hs, caught_while_loading, load_state.log]
  · simp only [hs, if_false, hl, Bool.false_eq_true]
    unfold load_plugin_dynamic
    rcases h with ⟨hm, h0, h1⟩ | ⟨hnl, hw, t, ht⟩
    · unfold module_handle at h0 h1
      rw [hm] at h0 h1
      dsimp only at h0 h1
      refine ⟨[load_event.load_library ⟨sect.lib env, env.HPX_MANGLE_STRING sect.component⟩,
          load_event.load_library ⟨sect.lib env, env.HPX_MANGLE_STRING sect.component⟩,
          load_event.warning_loading_failed sect.name],
        ⟨_, by simp, Or.inl rfl⟩, ?_⟩
      simp [hm, load_new_module, h0, h1, load_state.log]
    · unfold library_fails at hnl
      unfold module_handle at ht hnl
      cases hm : s.modules_.lookup (env.HPX_MANGLE_STRING sect.component) with
      | some d =>
        rw [hm] at ht
        dsimp only at ht
        simp only []
        unfold load_plugin
        simp only [hw, if_true, ht]
        cases t with
        | hpx_exception e =>
          by_cases he : e = error.commandline_option_error
          · refine ⟨[load_event.warning_caught_exception sect.name,
                load_event.cerr_invalid_options sect.name],
              ⟨_, by simp, Or.inr rfl⟩, ?_⟩
            simp [caught, caught_while_loading, he, load_state.log]
          · refine ⟨[load_event.warning_caught_exception sect.name],
              ⟨_, by simp, Or.inr rfl⟩, ?_⟩
            simp [caught, caught_while_loading, he, load_state.log]
        | logic_error =>
          refine ⟨[load_event.warning_loading_failed sect.name],
            ⟨_, by simp, Or.inl rfl⟩, ?_⟩
          simp [caught, load_state.log]
        | std_exception =>
          refine ⟨[load_event.warning_loading_failed sect.name],
            ⟨_, by simp, Or.inl rfl⟩, ?_⟩
          simp [caught, load_state.log]
      | none =>
        rw [hm] at ht hnl
        dsimp only at ht hnl
        simp only []
        have hnl' : ¬ (env.load_library ⟨sect.lib env, env.HPX_MANGLE_STRING sect.component⟩ 0
            = false ∧
            env.load_library ⟨sect.lib env, env.HPX_MANGLE_STRING sect.component⟩ 1 = false) :=
          fun h => hnl ⟨rfl, h.1, h.2⟩
        unfold load_new_module load_plugin
        simp only [hnl', if_false, hw, if_true, ht]
        cases h0 : env.load_library ⟨sect.lib env, env.HPX_MANGLE_STRING sect.component⟩ 0
        · cases t with
          | hpx_exception e =>
            by_cases he : e = error.commandline_option_error
            · refine ⟨[load_event.load_library
                  ⟨sect.lib env, env.HPX_MANGLE_STRING sect.component⟩, load_event.load_library
                  ⟨sect.lib env, env.HPX_MANGLE_STRING sect.component⟩,
                  load_event.warning_caught_exception sect.name,
                  load_event.cerr_invalid_options sect.name],
                ⟨_, by simp, Or.inr rfl⟩, ?_⟩
              simp [caught, caught_while_loading, he, load_state.log]
            · refine ⟨[load_event.load_library
                  ⟨sect.lib env, env.HPX_MANGLE_STRING sect.component⟩, load_event.load_library
                  ⟨sect.lib env, env.HPX_MANGLE_STRING sect.component⟩,
                  load_event.warning_caught_exception sect.name],
                ⟨_, by simp, Or.inr rfl⟩, ?_⟩
              simp [caught, caught_while_loading, he, load_state.log]
          | logic_error =>
            refine ⟨[load_event.load_library
                  ⟨sect.lib env, env.HPX_MANGLE_STRING sect.component⟩, load_event.load_library
                  ⟨sect.lib env, env.HPX_MANGLE_STRING sect.component⟩,
                load_event.warning_loading_failed sect.name],
              ⟨_, by simp, Or.inl rfl⟩, ?_⟩
            simp [caught, load_state.log]
          | std_exception =>
            refine ⟨[load_event.load_library
                  ⟨sect.lib env, env.HPX_MANGLE_STRING sect.component⟩, load_event.load_library
                  ⟨sect.lib env, env.HPX_MANGLE_STRING sect.component⟩,
                load_event.warning_loading_failed sect.name],
              ⟨_, by simp, Or.inl rfl⟩, ?_⟩
            simp [caught, load_state.log]
        · cases t with
          | hpx_exception e =>
            by_cases he : e = error.commandline_option_error
            · refine ⟨[load_event.load_library
                  ⟨sect.lib env, env.HPX_MANGLE_STRING sect.component⟩,
                  load_event.warning_caught_exception sect.name,
                  load_event.cerr_invalid_options sect.name],
                ⟨_, by simp, Or.inr rfl⟩, ?_⟩
              simp [caught, caught_while_loading, he, load_state.log]
            · refine ⟨[load_event.load_library
                  ⟨sect.lib env, env.HPX_MANGLE_STRING sect.component⟩,
                  load_event.warning_caught_exception sect.name],
                ⟨_, by simp, Or.inr rfl⟩, ?_⟩
              simp [caught, caught_while_loading, he, load_state.log]
          | logic_error =>
            refine ⟨[load_event.load_library
                  ⟨sect.lib env, env.HPX_MANGLE_STRING sect.component⟩,
                load_event.warning_loading_failed sect.name],
              ⟨_, by simp, Or.inl rfl⟩, ?_⟩
            simp [caught, load_state.log]
          | std_exception =>
            refine ⟨[load_event.load_library
                  ⟨sect.lib env, env.HPX_MANGLE_STRING sect.component⟩,
                load_event.warning_loading_failed sect.name],
              ⟨_, by simp, Or.inl rfl⟩, ?_⟩
            simp [caught, load_state.log]

theorem load_components_completed (env : load_env) (ini : configuration) (s : load_state)
    (sections : List ini_section) (h_ini : ini.plugins = section_lookup.found sections)
    (h : (command_line_processing env ini (load_modules env ini s).1).2 =
      processing.completed) :
    (load_components env ini s).2 = some 0 := by
  have hp : (load_modules env ini s).2 = true := by
    unfold load_modules load_plugins
    rw [h_ini]
  unfold load_components
  rcases hc : command_line_processing env ini (load_modules env ini s).1 with ⟨s1, p1⟩
  rw [hc] at h
  dsimp only at h
  subst h
  simp [hp, load_components_ini_code]

/-! ## Failed plugin sections (C22) -/

/-- C22: the plugin sections are `before`, then `sect`, then `after`, and `sect` fails
to load in the state the loop has reached: it is marked static, its library cannot be
loaded, or its factory throws (`std::logic_error`, another `std::exception` or an
`hpx::exception`).  Then the pass of the loop for `sect` changes nothing but the log,
to which it adds entries `X` with a warning for the instance; `load_plugins` goes on
with the sections in `after` and returns `true`, and the state it ends in is the one
the loop reaches on `before ++ after`, but for the entries `X` in the log: the later
sections add the same entries `Y` and make the same changes.  `load_components` returns
0 when the command line processing that follows neither raises nor asks for an exit. -/
theorem plugin_failure_not_fatal (env : load_env) (ini : configuration) (s0 : load_state)
    (before : List ini_section) (sect : ini_section) (after : List ini_section)
    (h_ini : ini.plugins = section_lookup.found (before ++ sect :: after))
    (h_fail : plugin_load_fails env ini (before.foldl (load_plugins_section env ini) s0) sect) :
    ∃ X Y : List load_event,
      (∃ e ∈ X, load_event.is_failure_log sect.name e) ∧
      load_plugins_section env ini (before.foldl (load_plugins_section env ini) s0) sect =
        { before.foldl (load_plugins_section env ini) s0 with
          events := (before.foldl (load_plugins_section env ini) s0).events ++ X } ∧
      (load_plugins env ini s0).2 = true ∧
      ((before ++ after).foldl (load_plugins_section env ini) s0).events =
        (before.foldl (load_plugins_section env ini) s0).events ++ Y ∧
      (load_plugins env ini s0).1 =
        { (before ++ after).foldl (load_plugins_section env ini) s0 with
          events := (before.foldl (load_plugins_section env ini) s0).events ++ X ++ Y } ∧
      (∀ s, (command_line_processing env ini (load_modules env ini s).1).2 =
          processing.completed →
        (load_components env ini s).2 = some 0) := by
  obtain ⟨X, hX, hstep⟩ := failed_plugin_section env ini _ sect h_fail
  generalize hs1 : before.foldl (load_plugins_section env ini) s0 = s1 at hstep ⊢
  refine ⟨X, (after.foldl (load_plugins_section env ini)
    ({ s1 with events := [] } : load_state)).events, hX, hstep, ?_, ?_, ?_, ?_⟩
  · unfold load_plugins
    rw [h_ini]
  · rw [List.foldl_append, hs1]
    have e : s1 = ({ s1 with events := [] } : load_state).prepend s1.events := by
      simp [load_state.prepend]
    conv_lhs => rw [e]
    rw [load_plugins_fold_prepend]
    rfl
  · unfold load_plugins
    rw [h_ini]
    dsimp only
    rw [List.foldl_append, hs1, List.foldl_cons, hstep, List.foldl_append, hs1]
    rw [set_events_eq_prepend s1 (s1.events ++ X), load_plugins_fold_prepend]
    have e : s1 = ({ s1 with events := [] } : load_state).prepend s1.events := by
      simp [load_state.prepend]
    conv_rhs => rw [e]
    rw [load_plugins_fold_prepend]
    simp [load_state.prepend]
  · intro s h
    exact load_components_completed env ini s _ h_ini h

/-- The factory of `p` throws `std::logic_error`: a warning is logged, `q` is loaded
as if `p` were not there, and `load_plugins` returns `true`. -/
theorem plugin_failure_not_fatal_witness :
    ∃ X Y : List load_event,
      (∃ e ∈ X, load_event.is_failure_log (⟨"p", []⟩ : ini_section).name e) ∧
      load_plugins_section faulty_env ini_p_q
          (([] : List ini_section).foldl (load_plugins_section faulty_env ini_p_q)
            load_state.empty) ⟨"p", []⟩ =
        { ([] : List ini_section).foldl (load_plugins_section faulty_env ini_p_q)
            load_state.empty with
          events := (([] : List ini_section).foldl (load_plugins_section faulty_env ini_p_q)
            load_state.empty).events ++ X } ∧
      (load_plugins faulty_env ini_p_q load_state.empty).2 = true ∧
      (([] ++ [⟨"q", []⟩] : List ini_section).foldl (load_plugins_section faulty_env ini_p_q)
          load_state.empty).events =
        (([] : List ini_section).foldl (load_plugins_section faulty_env ini_p_q)
          load_state.empty).events ++ Y ∧
      (load_plugins faulty_env ini_p_q load_state.empty).1 =
        { ([] ++ [⟨"q", []⟩] : List ini_section).foldl (load_plugins_section faulty_env ini_p_q)
            load_state.empty with
          events := (([] : List ini_section).foldl (load_plugins_section faulty_env ini_p_q)
            load_state.empty).events ++ X ++ Y } ∧
      (∀ s, (command_line_processing faulty_env ini_p_q
            (load_modules faulty_env ini_p_q s).1).2 = processing.completed →
        (load_components faulty_env ini_p_q s).2 = some 0) :=
  plugin_failure_not_fatal faulty_env ini_p_q load_state.empty [] ⟨"p", []⟩ [⟨"q", []⟩] rfl
    (Or.inr ⟨by decide, rfl, Or.inr ⟨by unfold library_fails; decide, by decide,
      thrown.logic_error, rfl⟩⟩)

/-! ## Lemmas on the module table -/

theorem lookup_append_some {α : Type} (k : String) (d : α) (l l2 : List (String × α))
    (h : l.lookup k = some d) : (l ++ l2).lookup k = some d := by
  induction l with
  | nil => simp at h
  | cons x xs ih =>
    rcases x with ⟨k1, v1⟩
    simp only [List.cons_append, List.lookup_cons] at h ⊢
    split
    · rename_i hk
      rw [hk] at h
      exact h
    · rename_i hk
      rw [hk] at h
      exact ih h

theorem add_commandline_options_frame (obj : created (answer (List String)))
    (s : load_state) :
    (add_commandline_options obj s).state.modules_ = s.modules_ ∧
      (add_commandline_options obj s).state.plugins_ = s.plugins_ ∧
      (add_commandline_options obj s).state.events = s.events ∧
      (add_commandline_options obj s).state.startup_handled = s.startup_handled ∧
      (add_commandline_options obj s).state.hooks = s.hooks := by
  unfold add_commandline_options
  rcases obj with a | _ | t
  · cases a with
    | value o => exact ⟨rfl, rfl, rfl, rfl, rfl⟩
    | raised t => cases t <;> exact ⟨rfl, rfl, rfl, rfl, rfl⟩
  · exact ⟨rfl, rfl, rfl, rfl, rfl⟩
  · cases t <;> exact ⟨rfl, rfl, rfl, rfl, rfl⟩

theorem push_startup_frame (st : Option (hook × Bool)) (s : load_state) :
    (push_startup st s).modules_ = s.modules_ ∧ (push_startup st s).plugins_ = s.plugins_ ∧
      (push_startup st s).events = s.events ∧
      (push_startup st s).startup_handled = s.startup_handled ∧
      (push_startup st s).options = s.options := by
  unfold push_startup
  rcases st with _ | ⟨f, b⟩
  · exact ⟨rfl, rfl, rfl, rfl, rfl⟩
  · cases b <;> exact ⟨rfl, rfl, rfl, rfl, rfl⟩

theorem push_shutdown_frame (sh : Option (hook × Bool)) (s : load_state) :
    (push_shutdown sh s).modules_ = s.modules_ ∧ (push_shutdown sh s).plugins_ = s.plugins_ ∧
      (push_shutdown sh s).events = s.events ∧
      (push_shutdown sh s).startup_handled = s.startup_handled ∧
      (push_shutdown sh s).options = s.options := by
  unfold push_shutdown
  rcases sh with _ | ⟨f, b⟩
  · exact ⟨rfl, rfl, rfl, rfl, rfl⟩
  · cases b <;> exact ⟨rfl, rfl, rfl, rfl, rfl⟩

theorem add_startup_shutdown_functions_frame (obj : created startup_shutdown)
    (s : load_state) :
    (add_startup_shutdown_functions obj s).state.modules_ = s.modules_ ∧
      (add_startup_shutdown_functions obj s).state.plugins_ = s.plugins_ ∧
      (add_startup_shutdown_functions obj s).state.events = s.events ∧
      (add_startup_shutdown_functions obj s).state.startup_handled = s.startup_handled ∧
      (add_startup_shutdown_functions obj s).state.options = s.options := by
  unfold add_startup_shutdown_functions
  rcases obj with o | _ | t
  · rcases o with ⟨gs, gh⟩
    cases gs with
    | raised t => cases t <;> exact ⟨rfl, rfl, rfl, rfl, rfl⟩
    | value st =>
      have h1 := push_startup_frame st s
      cases gh with
      | raised t => cases t <;> exact h1
      | value sh =>
        have h2 := push_shutdown_frame sh (push_startup st s)
        exact ⟨h2.1.trans h1.1, h2.2.1.trans h1.2.1, h2.2.2.1.trans h1.2.2.1,
          h2.2.2.2.1.trans h1.2.2.2.1, h2.2.2.2.2.trans h1.2.2.2.2⟩
  · exact ⟨rfl, rfl, rfl, rfl, rfl⟩
  · cases t <;> exact ⟨rfl, rfl, rfl, rfl, rfl⟩

theorem register_module_frame (env : load_env) (d : dll) (s : load_state) :
    (register_module env d s).1.modules_ = s.modules_ ∧
      (register_module env d s).1.plugins_ = s.plugins_ ∧
      (register_module env d s).1.events = s.events := by
  unfold register_module load_commandline_options load_startup_shutdown_functions
  by_cases h : d.name ∈ s.startup_handled
  · simp [h]
  · simp only [h, if_false]
    have h1 := add_commandline_options_frame (env.commandline_options d)
      { s with startup_handled := s.startup_handled ++ [d.name] }
    generalize add_commandline_options (env.commandline_options d)
      { s with startup_handled := s.startup_handled ++ [d.name] } = r1 at h1 ⊢
    rcases r1 with ⟨s1, o1⟩
    dsimp only at h1
    cases o1 with
    | rethrown e => exact ⟨h1.1, h1.2.1, h1.2.2.1⟩
    | returned b =>
      dsimp only
      have h2 := add_startup_shutdown_functions_frame (env.startup_shutdown_object d) s1
      generalize add_startup_shutdown_functions (env.startup_shutdown_object d) s1 = r2
        at h2 ⊢
      rcases r2 with ⟨s2, o2⟩
      dsimp only at h2
      cases o2 <;> exact ⟨h2.1.trans h1.1, h2.2.1.trans h1.2.1, h2.2.2.1.trans h1.2.2.1⟩

theorem adds_no_load_refl (s t : load_state) (h : t.events = s.events) : adds_no_load s t :=
  ⟨[], by simp [h], fun e he => by cases he⟩

theorem adds_no_load_log (s t : load_state) (e : load_event) (he : e.is_load_library = false)
    (h : t.events = (s.log e).events) : adds_no_load s t :=
  ⟨[e], by rw [h]; rfl, fun x hx => by rw [List.mem_singleton.mp hx]; exact he⟩

theorem caught_frame (t : thrown) (e : load_event) (he : e.is_load_library = false)
    (s : load_state) :
    (caught t (some e) s).state.modules_ = s.modules_ ∧
      adds_no_load s (caught t (some e) s).state := by
  unfold caught
  cases t
  · exact ⟨rfl, adds_no_load_log _ _ e he rfl⟩
  · exact ⟨rfl, adds_no_load_log _ _ e he rfl⟩
  · exact ⟨rfl, adds_no_load_refl _ _ rfl⟩

theorem load_component_frame (env : load_env) (ini : configuration) (d : dll)
    (instance_name : String) (s : load_state) :
    (load_component env ini d instance_name s).state.modules_ = s.modules_ ∧
      adds_no_load s (load_component env ini d instance_name s).state := by
  unfold load_component
  cases (if wants_factory ini.components instance_name then env.component_factory d
      else none) with
  | some t => exact caught_frame t (load_event.warning_loading_failed instance_name) rfl s
  | none =>
    dsimp only
    have h := register_module_frame env d s
    generalize register_module env d s = r at h ⊢
    rcases r with ⟨s1, _ | e⟩ <;> exact ⟨h.1, adds_no_load_refl _ _ h.2.2⟩

theorem load_plugin_frame (env : load_env) (ini : configuration) (d : dll)
    (instance_name : String) (isenabled : Bool) (s : load_state) :
    (load_plugin env ini d instance_name isenabled s).state.modules_ = s.modules_ ∧
      adds_no_load s (load_plugin env ini d instance_name isenabled s).state := by
  unfold load_plugin
  by_cases hw : wants_factory ini.plugins instance_name = true
  · simp only [hw, if_true]
    cases env.plugin_factory d instance_name isenabled with
    | raised t => exact caught_frame t (load_event.warning_loading_failed instance_name) rfl s
    | ok u =>
      dsimp only
      by_cases hdup : (s.plugins_.lookup instance_name).isSome = true
      · simp only [hdup, if_true]
        exact ⟨rfl, adds_no_load_log _ _ (load_event.fatal_duplicate_plugin instance_name)
          rfl rfl⟩
      · simp only [hdup, if_false]
        have h := register_module_frame env d { s with plugins_ :=
          s.plugins_ ++ [(instance_name, ⟨instance_name, d, isenabled⟩)] }
        generalize register_module env d { s with plugins_ :=
          s.plugins_ ++ [(instance_name, ⟨instance_name, d, isenabled⟩)] } = r at h ⊢
        rcases r with ⟨s1, _ | e⟩ <;> exact ⟨h.1, adds_no_load_refl _ _ h.2.2⟩
    | failed =>
      dsimp only
      have h := register_module_frame env d
        (s.log (load_event.warning_factory_failed instance_name))
      generalize register_module env d
        (s.log (load_event.warning_factory_failed instance_name)) = r at h ⊢
      rcases r with ⟨s1, _ | e⟩ <;>
        exact ⟨h.1, adds_no_load_log _ _ (load_event.warning_factory_failed instance_name)
          rfl h.2.2⟩
  · simp only [hw, if_false]
    have h := register_module_frame env d s
    generalize register_module env d s = r at h ⊢
    rcases r with ⟨s1, _ | e⟩ <;> exact ⟨h.1, adds_no_load_refl _ _ h.2.2⟩

/-- A module that is not in the table: the table is as it was, or has the new module
at its end, and then the library was loaded and the factory instantiated. -/
theorem load_new_module_table (env : load_env) (d : dll) (instance_name : String)
    (load : dll → load_state → load_result)
    (hload : ∀ d s, (load d s).state.modules_ = s.modules_) (s : load_state)
    (hnew : s.modules_.lookup d.name = none) :
    (load_new_module env d instance_name load s).state.modules_ = s.modules_ ∨
      ((load_new_module env d instance_name load s).state.modules_ =
          s.modules_ ++ [(d.name, d)] ∧
        (load_new_module env d instance_name load s).outcome = load_outcome.returned true ∧
        (env.load_library d 0 = true ∨ env.load_library d 1 = true)) := by
  unfold load_new_module
  by_cases h : env.load_library d 0 = false ∧ env.load_library d 1 = false
  · simp only [h, and_self, if_true]
    exact Or.inl rfl
  · simp only [h, if_false]
    have hl := hload d (if env.load_library d 0 = true then s.log (load_event.load_library d)
      else (s.log (load_event.load_library d)).log (load_event.load_library d))
    have hs : (if env.load_library d 0 = true then s.log (load_event.load_library d)
      else (s.log (load_event.load_library d)).log (load_event.load_library d)).modules_ =
        s.modules_ := by split <;> rfl
    rw [hs] at hl
    generalize load d (if env.load_library d 0 = true then s.log (load_event.load_library d)
      else (s.log (load_event.load_library d)).log (load_event.load_library d)) = r at hl ⊢
    rcases r with ⟨s1, o1⟩
    dsimp only at hl
    rcases o1 with b | e
    · cases b
      · exact Or.inl hl
      · right
        dsimp only
        rw [hl, hnew]
        refine ⟨by simp, rfl, ?_⟩
        by_contra hc
        apply h
        constructor
        · cases h0 : env.load_library d 0
          · rfl
          · exact absurd (Or.inl h0) hc
        · cases h1 : env.load_library d 1
          · rfl
          · exact absurd (Or.inr h1) hc
    · exact Or.inl hl

theorem load_plugin_dynamic_table (env : load_env) (ini : configuration)
    (instance_name name lib : String) (isenabled : Bool) (s : load_state) :
    (load_plugin_dynamic env ini instance_name name lib isenabled s).state.modules_ =
        s.modules_ ∨
      (s.modules_.lookup (env.HPX_MANGLE_STRING name) = none ∧
        (load_plugin_dynamic env ini instance_name name lib isenabled s).state.modules_ =
          s.modules_ ++ [(env.HPX_MANGLE_STRING name, ⟨lib, env.HPX_MANGLE_STRING name⟩)] ∧
        (load_plugin_dynamic env ini instance_name name lib isenabled s).outcome =
          load_outcome.returned true ∧
        (env.load_library ⟨lib, env.HPX_MANGLE_STRING name⟩ 0 = true ∨
          env.load_library ⟨lib, env.HPX_MANGLE_STRING name⟩ 1 = true)) := by
  unfold load_plugin_dynamic
  cases hm : s.modules_.lookup (env.HPX_MANGLE_STRING name) with
  | some d => exact Or.inl (load_plugin_frame env ini d instance_name isenabled s).1
  | none =>
    dsimp only
    rcases load_new_module_table env ⟨lib, env.HPX_MANGLE_STRING name⟩ instance_name
      (fun d s1 => load_plugin env ini d instance_name isenabled s1)
      (fun d s1 => (load_plugin_frame env ini d instance_name isenabled s1).1) s hm with h | h
    · exact Or.inl h
    · exact Or.inr ⟨rfl, h⟩

theorem load_component_dynamic_table (env : load_env) (ini : configuration)
    (instance_name name lib : String) (s : load_state) :
    (load_component_dynamic env ini instance_name name lib s).state.modules_ = s.modules_ ∨
      (s.modules_.lookup (env.HPX_MANGLE_STRING name) = none ∧
        (load_component_dynamic env ini instance_name name lib s).state.modules_ =
          s.modules_ ++ [(env.HPX_MANGLE_STRING name, ⟨lib, env.HPX_MANGLE_STRING name⟩)] ∧
        (load_component_dynamic env ini instance_name name lib s).outcome =
          load_outcome.returned true ∧
        (env.load_library ⟨lib, env.HPX_MANGLE_STRING name⟩ 0 = true ∨
          env.load_library ⟨lib, env.HPX_MANGLE_STRING name⟩ 1 = true)) := by
  unfold load_component_dynamic
  cases hm : s.modules_.lookup (env.HPX_MANGLE_STRING name) with
  | some d => exact Or.inl (load_component_frame env ini d instance_name s).1
  | none =>
    dsimp only
    rcases load_new_module_table env ⟨lib, env.HPX_MANGLE_STRING name⟩ instance_name
      (fun d s1 => load_component env ini d instance_name s1)
      (fun d s1 => (load_component_frame env ini d instance_name s1).1) s hm with h | h
    · exact Or.inl h
    · exact Or.inr ⟨rfl, h⟩

/-! ## The module table (C26) -/

/-- C26: `load_plugin_dynamic` and `load_component_dynamic` for a module called `name`.
When the mangled name is a key of `modules_`, they are `load_plugin` and
`load_component` on the stored handle, the table is left as it is and no `load_library`
is among the events they add.  In every case the table afterwards is the old one, or
the old one with one entry for the mangled name and the new handle put at its end; the
latter only when the name was not a key, one of the two `load_library` attempts
succeeded and the factory step returned `true`.  So the old table is the beginning of
the new one and every lookup that found a handle finds the same handle afterwards. -/
theorem module_table_never_reloads (env : load_env) (ini : configuration)
    (instance_name name lib : String) (isenabled : Bool) (s : load_state) :
    (∀ d, s.modules_.lookup (env.HPX_MANGLE_STRING name) = some d →
      load_plugin_dynamic env ini instance_name name lib isenabled s =
          load_plugin env ini d instance_name isenabled s ∧
        load_component_dynamic env ini instance_name name lib s =
          load_component env ini d instance_name s ∧
        (load_plugin_dynamic env ini instance_name name lib isenabled s).state.modules_ =
          s.modules_ ∧
        (load_component_dynamic env ini instance_name name lib s).state.modules_ =
          s.modules_ ∧
        adds_no_load s (load_plugin_dynamic env ini instance_name name lib isenabled s).state ∧
        adds_no_load s (load_component_dynamic env ini instance_name name lib s).state) ∧
    ((load_plugin_dynamic env ini instance_name name lib isenabled s).state.modules_ =
        s.modules_ ∨
      (s.modules_.lookup (env.HPX_MANGLE_STRING name) = none ∧
        (load_plugin_dynamic env ini instance_name name lib isenabled s).state.modules_ =
          s.modules_ ++ [(env.HPX_MANGLE_STRING name, ⟨lib, env.HPX_MANGLE_STRING name⟩)] ∧
        (load_plugin_dynamic env ini instance_name name lib isenabled s).outcome =
          load_outcome.returned true ∧
        (env.load_library ⟨lib, env.HPX_MANGLE_STRING name⟩ 0 = true ∨
          env.load_library ⟨lib, env.HPX_MANGLE_STRING name⟩ 1 = true))) ∧
    ((load_component_dynamic env ini instance_name name lib s).state.modules_ = s.modules_ ∨
      (s.modules_.lookup (env.HPX_MANGLE_STRING name) = none ∧
        (load_component_dynamic env ini instance_name name lib s).state.modules_ =
          s.modules_ ++ [(env.HPX_MANGLE_STRING name, ⟨lib, env.HPX_MANGLE_STRING name⟩)] ∧
        (load_component_dynamic env ini instance_name name lib s).outcome =
          load_outcome.returned true ∧
        (env.load_library ⟨lib, env.HPX_MANGLE_STRING name⟩ 0 = true ∨
          env.load_library ⟨lib, env.HPX_MANGLE_STRING name⟩ 1 = true))) ∧
    (s.modules_ <+:
        (load_plugin_dynamic env ini instance_name name lib isenabled s).state.modules_ ∧
      s.modules_ <+: (load_component_dynamic env ini instance_name name lib s).state.modules_) ∧
    (∀ k d, s.modules_.lookup k = some d →
      (load_plugin_dynamic env ini instance_name name lib isenabled s).state.modules_.lookup k
          = some d ∧
        (load_component_dynamic env ini instance_name name lib s).state.modules_.lookup k
          = some d) := by
  have hp := load_plugin_dynamic_table env ini instance_name name lib isenabled s
  have hc := load_component_dynamic_table env ini instance_name name lib s
  refine ⟨fun d hd => ?_, hp, hc, ⟨?_, ?_⟩, fun k d hk => ⟨?_, ?_⟩⟩
  · have e1 : load_plugin_dynamic env ini instance_name name lib isenabled s =
        load_plugin env ini d instance_name isenabled s := by
      unfold load_plugin_dynamic; rw [hd]
    have e2 : load_component_dynamic env ini instance_name name lib s =
        load_component env ini d instance_name s := by
      unfold load_component_dynamic; rw [hd]
    refine ⟨e1, e2, ?_, ?_, ?_, ?_⟩
    · rw [e1]; exact (load_plugin_frame env ini d instance_name isenabled s).1
    · rw [e2]; exact (load_component_frame env ini d instance_name s).1
    · rw [e1]; exact (load_plugin_frame env ini d instance_name isenabled s).2
    · rw [e2]; exact (load_component_frame env ini d instance_name s).2
  · rcases hp with h | ⟨_, h, _⟩
    · rw [h]
    · rw [h]; exact List.prefix_append _ _
  · rcases hc with h | ⟨_, h, _⟩
    · rw [h]
    · rw [h]; exact List.prefix_append _ _
  · rcases hp with h | ⟨_, h, _⟩
    · rw [h]; exact hk
    · rw [h]; exact lookup_append_some k d _ _ hk
  · rcases hc with h | ⟨_, h, _⟩
    · rw [h]; exact hk
    · rw [h]; exact lookup_append_some k d _ _ hk

/-- The module `hpx_q` is in the table: the plugin `q` is loaded from the stored
handle, the table is unchanged and no library is loaded. -/
theorem module_table_never_reloads_witness :
    load_plugin_dynamic plain_env ini_p_q "q" "q" "lib" true loaded_q =
        load_plugin plain_env ini_p_q ⟨"lib", "hpx_q"⟩ "q" true loaded_q ∧
      load_component_dynamic plain_env ini_p_q "q" "q" "lib" loaded_q =
        load_component plain_env ini_p_q ⟨"lib", "hpx_q"⟩ "q" loaded_q ∧
      (load_plugin_dynamic plain_env ini_p_q "q" "q" "lib" true loaded_q).state.modules_ =
        loaded_q.modules_ ∧
      (load_component_dynamic plain_env ini_p_q "q" "q" "lib" loaded_q).state.modules_ =
        loaded_q.modules_ ∧
      adds_no_load loaded_q
        (load_plugin_dynamic plain_env ini_p_q "q" "q" "lib" true loaded_q).state ∧
      adds_no_load loaded_q
        (load_component_dynamic plain_env ini_p_q "q" "q" "lib" loaded_q).state :=
  (module_table_never_reloads plain_env ini_p_q "q" "q" "lib" true loaded_q).1
    ⟨"lib", "hpx_q"⟩ (by decide)

/-! ## Lemmas on registration -/

theorem same_registrations_symm {s t : load_state} (h : same_registrations s t) :
    same_registrations t s := ⟨h.1.symm, h.2.1.symm, h.2.2.symm⟩

theorem add_commandline_options_set_plugins (P : List (String × plugin_factory_type))
    (obj : created (answer (List String))) (s : load_state) :
    add_commandline_options obj (s.set_plugins P) =
      ⟨(add_commandline_options obj s).state.set_plugins P,
        (add_commandline_options obj s).outcome⟩ := by
  unfold add_commandline_options
  rcases obj with a | _ | t
  · cases a with
    | value o => rfl
    | raised t => cases t <;> rfl
  · rfl
  · cases t <;> rfl

theorem add_startup_shutdown_functions_set_plugins (P : List (String × plugin_factory_type))
    (obj : created startup_shutdown) (s : load_state) :
    add_startup_shutdown_functions obj (s.set_plugins P) =
      ⟨(add_startup_shutdown_functions obj s).state.set_plugins P,
        (add_startup_shutdown_functions obj s).outcome⟩ := by
  unfold add_startup_shutdown_functions
  rcases obj with o | _ | t
  · rcases o with ⟨gs, gh⟩
    cases gs with
    | raised t => cases t <;> rfl
    | value st =>
      cases gh with
      | raised t =>
        rcases st with _ | ⟨f, b⟩
        · cases t <;> rfl
        · cases b <;> cases t <;> rfl
      | value sh =>
        rcases st with _ | ⟨f, b⟩ <;> rcases sh with _ | ⟨g, c⟩
        · rfl
        · cases c <;> rfl
        · cases b <;> rfl
        · cases b <;> cases c <;> rfl
  · rfl
  · cases t <;> rfl

theorem register_module_set_plugins (P : List (String × plugin_factory_type)) (env : load_env)
    (d : dll) (s : load_state) :
    register_module env d (s.set_plugins P) =
      ((register_module env d s).1.set_plugins P, (register_module env d s).2) := by
  unfold register_module load_commandline_options load_startup_shutdown_functions
  by_cases h : d.name ∈ s.startup_handled
  · have h' : d.name ∈ (s.set_plugins P).startup_handled := h
    simp [h, h']
  · have h' : d.name ∉ (s.set_plugins P).startup_handled := h
    simp only [h, h', if_false]
    have e1 : { s.set_plugins P with
          startup_handled := (s.set_plugins P).startup_handled ++ [d.name] } =
        ({ s with startup_handled := s.startup_handled ++ [d.name] } : load_state).set_plugins P :=
      rfl
    rw [e1, add_commandline_options_set_plugins]
    rcases add_commandline_options (env.commandline_options d)
      { s with startup_handled := s.startup_handled ++ [d.name] } with ⟨s1, o1⟩
    cases o1 with
    | rethrown e => rfl
    | returned b =>
      dsimp only
      rw [add_startup_shutdown_functions_set_plugins]
      rcases add_startup_shutdown_functions (env.startup_shutdown_object d) s1 with ⟨s2, o2⟩
      cases o2 <;> rfl

theorem without_flags_set_plugins (s : load_state) (n : String) (d : dll) (b : Bool) :
    (s.set_plugins (s.plugins_ ++ [(n, ⟨n, d, b⟩)])).without_flags =
      (s.set_plugins (s.plugins_ ++ [(n, ⟨n, d, true⟩)])).without_flags := by
  simp [load_state.without_flags, load_state.set_plugins]

theorem set_plugins_without_flags (s : load_state) (P Q : List (String × plugin_factory_type))
    (h : P.map (fun p => (p.1, ({ p.2 with isenabled := true } : plugin_factory_type))) =
      Q.map (fun p => (p.1, ({ p.2 with isenabled := true } : plugin_factory_type)))) :
    (s.set_plugins P).without_flags = (s.set_plugins Q).without_flags := by
  simp [load_state.without_flags, load_state.set_plugins, h]

/-- The enabled flag handed to `load_plugin` shows in the flag stored in `plugins_` and
in what the factory is asked, nowhere else. -/
theorem load_plugin_flag (env : load_env) (ini : configuration) (d : dll)
    (instance_name : String) (b b2 : Bool) (s : load_state)
    (hf : env.plugin_factory d instance_name b = env.plugin_factory d instance_name b2) :
    (load_plugin env ini d instance_name b s).outcome =
        (load_plugin env ini d instance_name b2 s).outcome ∧
      (load_plugin env ini d instance_name b s).state.without_flags =
        (load_plugin env ini d instance_name b2 s).state.without_flags := by
  unfold load_plugin
  by_cases hw : wants_factory ini.plugins instance_name = true
  · simp only [hw, if_true]
    rw [hf]
    cases env.plugin_factory d instance_name b2 with
    | raised t => exact ⟨rfl, rfl⟩
    | failed => exact ⟨rfl, rfl⟩
    | ok u =>
      dsimp only
      by_cases hdup : (s.plugins_.lookup instance_name).isSome = true
      · simp [hdup]
      · simp only [hdup, if_false]
        have e1 : ∀ c : Bool, ({ s with plugins_ :=
            s.plugins_ ++ [(instance_name, ⟨instance_name, d, c⟩)] } : load_state) =
            s.set_plugins (s.plugins_ ++ [(instance_name, ⟨instance_name, d, c⟩)]) :=
          fun _ => rfl
        rw [e1 b, e1 b2, register_module_set_plugins, register_module_set_plugins]
        rcases register_module env d s with ⟨s1, _ | e⟩
        · refine ⟨rfl, ?_⟩
          dsimp only
          exact set_plugins_without_flags s1 _ _ (by simp)
        · refine ⟨rfl, ?_⟩
          dsimp only
          exact set_plugins_without_flags s1 _ _ (by simp)
  · simp only [hw, if_false]
    exact ⟨rfl, rfl⟩

theorem load_new_module_flag (env : load_env) (d : dll) (instance_name : String)
    (load load2 : dll → load_state → load_result)
    (h : ∀ s, (load d s).outcome = (load2 d s).outcome ∧
      (load d s).state.without_flags = (load2 d s).state.without_flags) (s : load_state) :
    (load_new_module env d instance_name load s).outcome =
        (load_new_module env d instance_name load2 s).outcome ∧
      (load_new_module env d instance_name load s).state.without_flags =
        (load_new_module env d instance_name load2 s).state.without_flags := by
  unfold load_new_module
  by_cases hll : env.load_library d 0 = false ∧ env.load_library d 1 = false
  · simp only [hll, and_self, if_true]
  · simp only [hll, if_false]
    have h1 := h (if env.load_library d 0 = true then s.log (load_event.load_library d)
      else (s.log (load_event.load_library d)).log (load_event.load_library d))
    generalize load d (if env.load_library d 0 = true then s.log (load_event.load_library d)
      else (s.log (load_event.load_library d)).log (load_event.load_library d)) = r1 at h1 ⊢
    generalize load2 d (if env.load_library d 0 = true then s.log (load_event.load_library d)
      else (s.log (load_event.load_library d)).log (load_event.load_library d)) = r2 at h1 ⊢
    rcases r1 with ⟨s1, o1⟩
    rcases r2 with ⟨s2, o2⟩
    rcases h1 with ⟨ho, hs⟩
    dsimp only at ho hs
    subst ho
    have hm : s1.modules_ = s2.modules_ := by
      have := congrArg load_state.modules_ hs
      simpa [load_state.without_flags] using this
    rcases o1 with c | e
    · cases c
      · exact ⟨rfl, hs⟩
      · refine ⟨rfl, ?_⟩
        dsimp only
        rw [hm]
        simp only [load_state.without_flags] at hs ⊢
        injection hs with h1 h2 h3 h4 h5 h6
        simp [h1, h3, h4, h5, h6]
    · exact ⟨rfl, hs⟩

theorem load_plugin_dynamic_flag (env : load_env) (ini : configuration)
    (instance_name name lib : String) (b b2 : Bool) (s : load_state)
    (hf : ∀ d, env.plugin_factory d instance_name b = env.plugin_factory d instance_name b2) :
    (load_plugin_dynamic env ini instance_name name lib b s).outcome =
        (load_plugin_dynamic env ini instance_name name lib b2 s).outcome ∧
      (load_plugin_dynamic env ini instance_name name lib b s).state.without_flags =
        (load_plugin_dynamic env ini instance_name name lib b2 s).state.without_flags := by
  unfold load_plugin_dynamic
  cases s.modules_.lookup (env.HPX_MANGLE_STRING name) with
  | some d => exact load_plugin_flag env ini d instance_name b b2 s (hf d)
  | none =>
    exact load_new_module_flag env _ instance_name _ _
      (fun s1 => load_plugin_flag env ini _ instance_name b b2 s1 (hf _)) s

theorem isenabled_iff (sect : ini_section) :
    sect.isenabled = false ↔
      ∃ v, sect.entries.lookup "enabled" = some v ∧
        (to_lower v = "no" ∨ to_lower v = "false" ∨ to_lower v = "0") := by
  unfold ini_section.isenabled ini_section.has_entry ini_section.get_entry
  cases h : sect.entries.lookup "enabled" with
  | none => simp
  | some v =>
    simp only [Option.isSome_some, if_true, Option.getD_some, Option.some.injEq,
      exists_eq_left']
    by_cases hv : to_lower v = "no" ∨ to_lower v = "false" ∨ to_lower v = "0"
    · simp [hv]
    · simp [hv]

theorem caught_while_loading_without_flags (instance_name : String) (e : error)
    (s : load_state) :
    (caught_while_loading instance_name e s).without_flags =
      caught_while_loading instance_name e s.without_flags := by
  unfold caught_while_loading
  split <;> rfl

theorem load_plugins_section_flag (env : load_env) (ini : configuration) (s : load_state)
    (sect sect2 : ini_section) (h_name : sect.name = sect2.name)
    (h_component : sect.component = sect2.component)
    (h_static : sect.get_entry "static" "0" = sect2.get_entry "static" "0")
    (h_lib : sect.lib env = sect2.lib env)
    (hf : ∀ d, env.plugin_factory d sect.name sect.isenabled =
      env.plugin_factory d sect.name sect2.isenabled) :
    (load_plugins_section env ini s sect).without_flags =
      (load_plugins_section env ini s sect2).without_flags := by
  unfold load_plugins_section
  rw [← h_name, ← h_component, ← h_static, ← h_lib]
  by_cases hs : sect.get_entry "static" "0" = "1"
  · simp only [hs, if_true]
  · simp only [hs, if_false]
    cases hl : env.HPX_HAVE_STATIC_LINKING
    · simp only [Bool.false_eq_true, if_false]
      have h := load_plugin_dynamic_flag env ini sect.name sect.component (sect.lib env)
        sect.isenabled sect2.isenabled s hf
      generalize load_plugin_dynamic env ini sect.name sect.component (sect.lib env)
        sect.isenabled s = r1 at h ⊢
      generalize load_plugin_dynamic env ini sect.name sect.component (sect.lib env)
        sect2.isenabled s = r2 at h ⊢
      rcases r1 with ⟨s1, o1⟩
      rcases r2 with ⟨s2, o2⟩
      rcases h with ⟨ho, hst⟩
      dsimp only at ho hst
      subst ho
      cases o1 with
      | returned b => exact hst
      | rethrown e =>
        dsimp only
        rw [caught_while_loading_without_flags, caught_while_loading_without_flags, hst]
    · simp only [if_true]

/-! ## The enabled flag (C27) -/

/-- C27 as stated fails: the component section `c` (`enabled = FALSE`) and the plugin
section `p` (`enabled = no`) are disabled, and `load_components` loads the library of
each, registers the option of each module and the startup and shutdown functions of
each, and enters the plugin in `plugins_` with the flag `false`. -/
theorem disabled_sections_are_loaded :
    (⟨"c", [("enabled", "FALSE")]⟩ : ini_section).isenabled = false ∧
      (⟨"p", [("enabled", "no")]⟩ : ini_section).isenabled = false ∧
      (load_components hooked_env ini_disabled load_state.empty).1.events =
        [load_event.load_library ⟨"lib", "hpx_c"⟩,
          load_event.load_library ⟨"lib", "hpx_p"⟩] ∧
      (load_components hooked_env ini_disabled load_state.empty).1.options =
        ["--hpx_c", "--hpx_p"] ∧
      (load_components hooked_env ini_disabled load_state.empty).1.hooks =
        ⟨[⟨1, none⟩, ⟨1, none⟩], [], [], [⟨2, none⟩, ⟨2, none⟩]⟩ ∧
      (load_components hooked_env ini_disabled load_state.empty).1.plugins_ =
        [("p", ⟨"p", ⟨"lib", "hpx_p"⟩, false⟩)] := by
  decide

/-- C27 amended: a section is disabled exactly when it has an entry `enabled` whose
lower-cased value is `no`, `false` or `0`.  The flag does not decide whether the section
is processed.  A pass of the loop over the component sections does not depend on it at
all: two sections with the same name, module, `static` entry and library directory
give the same state, whatever their `enabled` entries.  A pass of the loop over the
plugin sections hands the flag to the plugin factory and stores it in `plugins_`: when
the factory answers the same for both values, the two passes end in states that differ
in the stored flags only, so the same libraries are loaded and the same options and
functions registered. -/
theorem enabled_flag_policy (env : load_env) (ini : configuration) (s : load_state)
    (sect sect2 : ini_section) :
    (sect.isenabled = false ↔
      ∃ v, sect.entries.lookup "enabled" = some v ∧
        (to_lower v = "no" ∨ to_lower v = "false" ∨ to_lower v = "0")) ∧
    (sect.name = sect2.name → sect.component = sect2.component →
      sect.get_entry "static" "0" = sect2.get_entry "static" "0" →
      sect.lib env = sect2.lib env →
      load_components_section env ini s sect = load_components_section env ini s sect2 ∧
      ((∀ d, env.plugin_factory d sect.name sect.isenabled =
          env.plugin_factory d sect.name sect2.isenabled) →
        (load_plugins_section env ini s sect).without_flags =
          (load_plugins_section env ini s sect2).without_flags)) := by
  refine ⟨isenabled_iff sect, fun h1 h2 h3 h4 => ⟨?_, fun hf => ?_⟩⟩
  · unfold load_components_section
    rw [h1, h2, h3, h4]
  · exact load_plugins_section_flag env ini s sect sect2 h1 h2 h3 h4 hf

/-- The section `p` with `enabled = no` and the section `p` without that entry: the
same pass but for the stored flag. -/
theorem enabled_flag_policy_witness :
    load_components_section hooked_env ini_disabled load_state.empty
        ⟨"p", [("enabled", "no")]⟩ =
      load_components_section hooked_env ini_disabled load_state.empty ⟨"p", []⟩ ∧
    (load_plugins_section hooked_env ini_disabled load_state.empty
        ⟨"p", [("enabled", "no")]⟩).without_flags =
      (load_plugins_section hooked_env ini_disabled load_state.empty
        ⟨"p", []⟩).without_flags :=
  have h := (enabled_flag_policy hooked_env ini_disabled load_state.empty
    ⟨"p", [("enabled", "no")]⟩ ⟨"p", []⟩).2 (by decide) (by decide) (by decide) (by decide)
  ⟨h.1, h.2 (fun _ => rfl)⟩

end hpx
